import Mathlib

/-!
# Parallel-beam MBIR: system-matrix generation and the ICD step

A shallow embedding of `SourceCode/3D/Generate_SystemMatrix/A_comp.c` and
`SourceCode/3D/MBIR/icd3d.c`, with the properties of the specification proved about it.

Conventions of the embedding.

* C `int` values are integers (`ℤ`); `/` and `%` on them are `Int.tdiv` and `Int.tmod`
  (truncation toward zero). No dimension is assumed to overflow.
* C `float` values are real numbers: arithmetic is exact, `pow` is the real power, a
  conversion to `int` truncates toward zero. Division is real division; the theorems state
  the sign conditions under which the divisors of the source are not zero. The one quotient
  whose divisor is computed from the data, `theta1 / theta2` in `ICDStep3D`, is reported as
  `none` when the divisor is zero.
* Arrays are functions from indices to values; a store is `Function.update`. Ranges of the
  indices that the code reads or writes are proved where a property asks for them.
* A `for` loop is `forLoop`, a fold of its body over the index range; the two `while` loops
  of the profile builder are recursive functions whose termination is part of their
  definition. A call of `exit(-1)` is the result `none`.
* The structures of `MBIRModularUtils_3D.h` and `icd3d.h` carry the fields that the two
  source files use. The constants of `A_comp.h` (`LEN_PIX`, `LEN_DET`, `WIDE_BEAM`) are the
  fields of `BuildConfig`.
* Memory returned by an allocator is an argument of the function that allocates it; nothing
  is assumed about its contents.
* The constant `PI` of `MBIRModularUtils_2D.h` is the rational number written there. The
  profile builder is also given with the value of its local variable `pi` as a parameter
  (`ComputePixelProfile3DParallelAt`), the source being the case `pi = PI`; a property about
  the exact value of pi is stated for that builder at `Real.pi`.
-/

namespace MBIR

/-- C loop `for (n = lo; n < hi; n++) s = body n s`. -/
def forLoop {σ : Type} (lo hi : ℤ) (body : ℤ → σ → σ) (s : σ) : σ :=
  (List.range (hi - lo).toNat).foldl (fun s (k : ℕ) => body (lo + (k : ℤ)) s) s

/-- Store `a[i][j] = val` into a two-dimensional array. -/
def store2 {α : Type} (a : ℤ → ℤ → α) (i j : ℤ) (val : α) : ℤ → ℤ → α :=
  Function.update a i (Function.update (a i) j val)

structure SparseColumn (α : Type) where
  Nnonzero : ℤ
  RowIndex : ℤ → ℤ
  Value : ℤ → α

structure SysMatrix2D (α : Type) where
  Ncolumns : ℤ
  column : ℤ → SparseColumn α

structure ReconParamsQGGMRF3D (α : Type) where
  p : α
  q : α
  T : α
  SigmaX : α
  b_nearest : α
  b_diag : α
  b_interslice : α

structure ICDInfo (α : Type) where
  VoxelIndex : ℤ
  Nxy : ℤ
  v : α
  neighbors : ℤ → α
  theta1 : α
  theta2 : α
  Rparams : ReconParamsQGGMRF3D α

def UpdateError3D {α : Type} [Ring α] (e : ℤ → ℤ → α) (A : SysMatrix2D α) (diff : α)
    (icd_info : ICDInfo α) : ℤ → ℤ → α :=
  let Nxy := icd_info.Nxy
  let XYPixelIndex := icd_info.VoxelIndex.tmod Nxy
  let SliceIndex := icd_info.VoxelIndex.tdiv Nxy
  forLoop 0 (A.column XYPixelIndex).Nnonzero
    (fun n e =>
      let i := (A.column XYPixelIndex).RowIndex n
      store2 e SliceIndex i (e SliceIndex i - (A.column XYPixelIndex).Value n * diff))
    e

/-- Sum of `f n` over `0 ≤ n < N`. -/
def sumTo {α : Type} [AddCommMonoid α] (N : ℤ) (f : ℤ → α) : α :=
  ∑ n in Finset.range N.toNat, f (n : ℤ)

/-- Entry `k` of `A * x[z,:]`. -/
def forwardProject {α : Type} [Ring α] (A : SysMatrix2D α) (x : ℤ → ℤ → α) (z k : ℤ) : α :=
  sumTo A.Ncolumns fun j =>
    sumTo (A.column j).Nnonzero fun n =>
      if (A.column j).RowIndex n = k then (A.column j).Value n * x z j else 0

/-! ### Neighbourhood extraction (icd3d.c) -/

structure ImageParams3D (α : Type) where
  Nx : ℤ
  Ny : ℤ
  Nz : ℤ
  Deltaxy : α

structure Image3D (α : Type) where
  imgparams : ImageParams3D α
  image : ℤ → ℤ → α

/-- Array position `(slice, pixel)` that `ExtractNeighbors3D` reads for neighbour slot `s`. -/
def NeighborPosition (Nx Ny Nz VoxelIndex : ℤ) (s : ℤ) : ℤ × ℤ :=
  let jz := VoxelIndex.tdiv (Ny * Nx)
  let jy := (VoxelIndex.tdiv Nx).tmod Ny
  let jx := VoxelIndex.tmod Nx
  let plusx := jx + 1
  let plusx := if plusx < Nx then plusx else 0
  let minusx := jx - 1
  let minusx := if minusx < 0 then Nx - 1 else minusx
  let plusy := jy + 1
  let plusy := if plusy < Ny then plusy else 0
  let minusy := jy - 1
  let minusy := if minusy < 0 then Ny - 1 else minusy
  let plusz := jz + 1
  let plusz := if plusz < Nz then plusz else 0
  let minusz := jz - 1
  let minusz := if minusz < 0 then Nz - 1 else minusz
  if s = 0 then (jz, jy * Nx + plusx)
  else if s = 1 then (jz, jy * Nx + minusx)
  else if s = 2 then (jz, plusy * Nx + jx)
  else if s = 3 then (jz, minusy * Nx + jx)
  else if s = 4 then (plusz, jy * Nx + jx)
  else if s = 5 then (minusz, jy * Nx + jx)
  else if s = 6 then (jz, plusy * Nx + plusx)
  else if s = 7 then (jz, plusy * Nx + minusx)
  else if s = 8 then (jz, minusy * Nx + plusx)
  else (jz, minusy * Nx + minusx)

def ExtractNeighbors3D {α : Type} (icd_info : ICDInfo α) (Image : Image3D α) : ICDInfo α :=
  let Nx := Image.imgparams.Nx
  let Ny := Image.imgparams.Ny
  let Nz := Image.imgparams.Nz
  { icd_info with
    neighbors := fun s =>
      if 0 ≤ s ∧ s < 10 then
        Image.image (NeighborPosition Nx Ny Nz icd_info.VoxelIndex s).1
          (NeighborPosition Nx Ny Nz icd_info.VoxelIndex s).2
      else icd_info.neighbors s }

/-! ### QGGMRF prior and the ICD step (icd3d.c) -/

noncomputable def QGGMRF_Potential (delta : ℝ) (Rparams : ReconParamsQGGMRF3D ℝ) : ℝ :=
  let p := Rparams.p
  let q := Rparams.q
  let T := Rparams.T
  let SigmaX := Rparams.SigmaX
  let GGMRF_Pot := |delta| ^ p / (p * SigmaX ^ p)
  let temp := |delta / (T * SigmaX)| ^ (q - p)
  GGMRF_Pot * temp / (1 + temp)

noncomputable def QGGMRF_SurrogateCoeff (delta : ℝ) (icd_info : ICDInfo ℝ) : ℝ :=
  let p := icd_info.Rparams.p
  let q := icd_info.Rparams.q
  let T := icd_info.Rparams.T
  let SigmaX := icd_info.Rparams.SigmaX
  let qmp := q - p
  if delta = 0 then 2 / (p * SigmaX ^ q * T ^ qmp)
  else
    let temp := |delta / (T * SigmaX)| ^ qmp
    let num := q / p + temp
    let denom := SigmaX ^ p * (1 + temp) * (1 + temp)
    let num := num * |delta| ^ (p - 2) * temp
    num / denom

/-- Accumulators of the neighbour loop in `QGGMRF3D_UpdateICDParams`. -/
structure PriorSums where
  sum1_Nearest : ℝ
  sum1_Diag : ℝ
  sum1_Interslice : ℝ
  sum2_Nearest : ℝ
  sum2_Diag : ℝ
  sum2_Interslice : ℝ

noncomputable def QGGMRF3D_UpdateICDParams (icd_info : ICDInfo ℝ) : ICDInfo ℝ :=
  let b_nearest := icd_info.Rparams.b_nearest
  let b_diag := icd_info.Rparams.b_diag
  let b_interslice := icd_info.Rparams.b_interslice
  let sums := forLoop 0 10
    (fun j (s : PriorSums) =>
      let delta := icd_info.v - icd_info.neighbors j
      let SurrogateCoeff := QGGMRF_SurrogateCoeff delta icd_info
      let s := if j < 4 then
          { s with sum1_Nearest := s.sum1_Nearest + SurrogateCoeff * delta,
                   sum2_Nearest := s.sum2_Nearest + SurrogateCoeff }
        else s
      let s := if j ≥ 4 ∧ j < 6 then
          { s with sum1_Interslice := s.sum1_Interslice + SurrogateCoeff * delta,
                   sum2_Interslice := s.sum2_Interslice + SurrogateCoeff }
        else s
      let s := if j ≥ 6 then
          { s with sum1_Diag := s.sum1_Diag + SurrogateCoeff * delta,
                   sum2_Diag := s.sum2_Diag + SurrogateCoeff }
        else s
      s)
    { sum1_Nearest := 0, sum1_Diag := 0, sum1_Interslice := 0,
      sum2_Nearest := 0, sum2_Diag := 0, sum2_Interslice := 0 }
  { icd_info with
    theta1 := icd_info.theta1 +
      (b_nearest * sums.sum1_Nearest + b_diag * sums.sum1_Diag
        + b_interslice * sums.sum1_Interslice),
    theta2 := icd_info.theta2 +
      (b_nearest * sums.sum2_Nearest + b_diag * sums.sum2_Diag
        + b_interslice * sums.sum2_Interslice) }

/-- Returns the updated voxel value together with the modified `icd_info`.
The quotient `theta1 / theta2` is the one division of the step whose divisor is computed from
the data; for `theta2 = 0` the floating-point quotient is infinite or NaN, not a number, and
the result is reported as `none`. -/
noncomputable def ICDStep3D (e w : ℤ → ℤ → ℝ) (A : SysMatrix2D ℝ) (icd_info : ICDInfo ℝ) :
    Option ℝ × ICDInfo ℝ :=
  let Nxy := icd_info.Nxy
  let XYPixelIndex := icd_info.VoxelIndex.tmod Nxy
  let SliceIndex := icd_info.VoxelIndex.tdiv Nxy
  let A_column := A.column XYPixelIndex
  let icd_info := { icd_info with theta1 := 0, theta2 := 0 }
  let icd_info := forLoop 0 A_column.Nnonzero
    (fun n (icd_info : ICDInfo ℝ) =>
      let i := A_column.RowIndex n
      { icd_info with
        theta1 := icd_info.theta1 - A_column.Value n * w SliceIndex i * e SliceIndex i,
        theta2 := icd_info.theta2 + A_column.Value n * w SliceIndex i * A_column.Value n })
    icd_info
  let icd_info := QGGMRF3D_UpdateICDParams icd_info
  let UpdatedVoxelValue :=
    if icd_info.theta2 = 0 then none else some (icd_info.v - icd_info.theta1 / icd_info.theta2)
  (UpdatedVoxelValue, icd_info)

/-- Sum of `f s` over `lo ≤ s < hi`. -/
def sumFromTo {α : Type} [AddCommMonoid α] (lo hi : ℤ) (f : ℤ → α) : α :=
  ∑ k in Finset.range (hi - lo).toNat, f (lo + (k : ℤ))

/-! ### System matrix generation (A_comp.c) -/

structure SinoParams3DParallel where
  NChannels : ℤ
  DeltaChannel : ℝ
  CenterOffset : ℝ
  NViews : ℤ
  ViewAngles : ℤ → ℝ

/-- Compile-time constants of `A_comp.h`: the table lengths `LEN_PIX`, `LEN_DET` and whether
`WIDE_BEAM` is defined. -/
structure BuildConfig where
  LEN_PIX : ℤ
  LEN_DET : ℤ
  WIDE_BEAM : Bool

/-- The constant `PI` of `MBIRModularUtils_2D.h`. -/
noncomputable def PI : ℝ := 3.1415926535897932384

/-- Conversion of a floating-point value to `int`: truncation toward zero. -/
noncomputable def truncToInt (r : ℝ) : ℤ := if 0 ≤ r then ⌊r⌋ else ⌈r⌉

/-- First angle loop: `while (ang >= pi/2.0) ang -= pi/2.0;`. -/
noncomputable def foldAngleDown (ang : ℝ) : ℝ :=
  if h : PI / 2 ≤ ang then foldAngleDown (ang - PI / 2) else ang
termination_by ⌊ang / (PI / 2)⌋.toNat
decreasing_by
  have hPI : (0 : ℝ) < PI / 2 := by unfold PI; norm_num
  have h1 : (ang - PI / 2) / (PI / 2) = ang / (PI / 2) - 1 := by
    rw [sub_div, div_self hPI.ne']
  have h2 : (1 : ℝ) ≤ ang / (PI / 2) := by
    rw [le_div_iff₀ hPI]; linarith
  have h3 : (1 : ℤ) ≤ ⌊ang / (PI / 2)⌋ := Int.le_floor.mpr (by exact_mod_cast h2)
  rw [h1, Int.floor_sub_one]
  omega

/-- Second angle loop: `while (ang < 0.0) ang += pi/2.0;`. -/
noncomputable def foldAngleUp (ang : ℝ) : ℝ :=
  if h : ang < 0 then foldAngleUp (ang + PI / 2) else ang
termination_by ⌈-ang / (PI / 2)⌉.toNat
decreasing_by
  have hPI : (0 : ℝ) < PI / 2 := by unfold PI; norm_num
  have h1 : -(ang + PI / 2) / (PI / 2) = -ang / (PI / 2) - 1 := by
    rw [neg_add, ← sub_eq_add_neg, sub_div, div_self hPI.ne']
  have h2 : (0 : ℝ) < -ang / (PI / 2) := div_pos (by linarith) hPI
  have h3 : (0 : ℤ) < ⌈-ang / (PI / 2)⌉ := Int.ceil_pos.mpr h2
  rw [h1, Int.ceil_sub_one]
  omega

/-- Body of the two nested loops of `ComputePixelProfile3DParallel`: the value stored in
`pix_prof[i][j]`, for view angle `ViewAngle = ViewAngles[i]`. -/
noncomputable def pixProfEntry (LEN_PIX : ℤ) (DeltaPix : ℝ) (ViewAngle : ℝ) (j : ℤ) : ℝ :=
  let pi := PI
  let rc := Real.sin (pi / 4)
  let ang := ViewAngle
  let ang := foldAngleDown ang
  let ang := foldAngleUp ang
  let maxval := if ang ≤ pi / 4 then DeltaPix / Real.cos ang
    else DeltaPix / Real.cos (pi / 2 - ang)
  let d1 := rc * Real.cos (pi / 4 - ang)
  let d2 := rc * |Real.sin (pi / 4 - ang)|
  let t_1 := 1 - d1
  let t_2 := 1 - d2
  let t_3 := 1 + d2
  let t_4 := 1 + d1
  let t := 2 * (j : ℝ) / (LEN_PIX : ℝ)
  if t ≤ t_1 ∨ t > t_4 then 0
  else if t ≤ t_2 then maxval * (t - t_1) / (t_2 - t_1)
  else if t ≤ t_3 then maxval
  else maxval * (t_4 - t) / (t_4 - t_3)

/-- The table is filled into freshly allocated memory `pix_prof`, given as an argument. -/
noncomputable def ComputePixelProfile3DParallel (cfg : BuildConfig)
    (sinoparams : SinoParams3DParallel) (imgparams : ImageParams3D ℝ)
    (pix_prof : ℤ → ℤ → ℝ) : ℤ → ℤ → ℝ :=
  let DeltaPix := imgparams.Deltaxy
  forLoop 0 sinoparams.NViews
    (fun i pix_prof =>
      forLoop 0 cfg.LEN_PIX
        (fun j pix_prof =>
          store2 pix_prof i j (pixProfEntry cfg.LEN_PIX DeltaPix (sinoparams.ViewAngles i) j))
        pix_prof)
    pix_prof

/-- Position of detector channel 0 (`t_0`, cached in a static on the first call). -/
noncomputable def t_0 (sinoparams : SinoParams3DParallel) : ℝ :=
  ((-(sinoparams.NChannels - 1) : ℤ) : ℝ) * sinoparams.DeltaChannel / 2
    - sinoparams.CenterOffset * sinoparams.DeltaChannel

/-- Projection `y*cos(ang) - x*sin(ang)` of the centre of pixel `ColumnIndex` onto the
detector axis at view `pr`; `x`, `y` are computed from `im_col`, `im_row` as in the source. -/
noncomputable def projectedCenter (sinoparams : SinoParams3DParallel)
    (imgparams : ImageParams3D ℝ) (ColumnIndex pr : ℤ) : ℝ :=
  let Nx := imgparams.Nx
  let Ny := imgparams.Ny
  let DeltaPix := imgparams.Deltaxy
  let x_0 := ((-(Nx - 1) : ℤ) : ℝ) * imgparams.Deltaxy / 2
  let y_0 := ((-(Ny - 1) : ℤ) : ℝ) * imgparams.Deltaxy / 2
  let im_row := ColumnIndex.tdiv Nx
  let im_col := ColumnIndex.tmod Nx
  let y := y_0 + (im_row : ℝ) * DeltaPix
  let x := x_0 + (im_col : ℝ) * DeltaPix
  let ang := sinoparams.ViewAngles pr
  y * Real.cos ang - x * Real.sin ang

/-- First channel of the inner loop: `ceil((t_min-t_0)/DeltaChannel - 0.5)` clamped to 0. -/
noncomputable def channelMin (t_min t_0 DeltaChannel : ℝ) : ℤ :=
  let ind_min : ℤ := ⌈(t_min - t_0) / DeltaChannel - 0.5⌉
  if ind_min < 0 then 0 else ind_min

/-- Last channel of the inner loop: `(t_max-t_0)/DeltaChannel + 0.5` converted to `int`,
clamped to `NChannels-1`. -/
noncomputable def channelMax (t_max t_0 DeltaChannel : ℝ) (NChannels : ℤ) : ℤ :=
  let ind_max : ℤ := truncToInt ((t_max - t_0) / DeltaChannel + 0.5)
  if ind_max ≥ NChannels then NChannels - 1 else ind_max

/-- Narrow-beam profile index before the range check. -/
noncomputable def narrowProfInd (LEN_PIX : ℤ) (t_0 DeltaChannel const3 DeltaPix : ℝ)
    (i : ℤ) : ℤ :=
  truncToInt ((LEN_PIX : ℝ) * (t_0 + (i : ℝ) * DeltaChannel + const3) / (2 * DeltaPix))

/-- Narrow-beam matrix entry (the `#else` branch); `none` is the call of `exit(-1)`. -/
noncomputable def narrowAval (LEN_PIX : ℤ) (pix_prof : ℤ → ℤ → ℝ) (pr : ℤ)
    (t_0 DeltaChannel const3 DeltaPix : ℝ) (i : ℤ) : Option ℝ :=
  let prof_ind := narrowProfInd LEN_PIX t_0 DeltaChannel const3 DeltaPix i
  if prof_ind ≥ LEN_PIX ∨ prof_ind < 0 then
    if prof_ind = LEN_PIX then some (pix_prof pr (LEN_PIX - 1))
    else if prof_ind = -1 then some (pix_prof pr 0)
    else none
  else some (pix_prof pr prof_ind)

/-- Wide-beam matrix entry (the `#ifdef WIDE_BEAM` branch), with `dprof[k] = 1.0/LEN_DET`. -/
noncomputable def wideAval (LEN_PIX LEN_DET : ℤ) (pix_prof : ℤ → ℤ → ℝ) (pr : ℤ)
    (const1 const2 const3 const4 DeltaChannel : ℝ) (i : ℤ) : ℝ :=
  forLoop 0 LEN_DET
    (fun k Aval =>
      let t := const1 + (i : ℝ) * DeltaChannel + (k : ℝ) * const2
      let pix_prof_ind := truncToInt ((t + const3) * const4 + 0.5)
      if pix_prof_ind ≥ 0 ∧ pix_prof_ind < LEN_PIX then
        Aval + 1 / (LEN_DET : ℝ) * pix_prof pr pix_prof_ind
      else Aval)
    0

/-- The value `Aval` computed for channel `i` of view `pr`; `none` is the call of `exit(-1)`. -/
noncomputable def channelAval (cfg : BuildConfig) (sinoparams : SinoParams3DParallel)
    (imgparams : ImageParams3D ℝ) (pix_prof : ℤ → ℤ → ℝ) (ColumnIndex pr i : ℤ) : Option ℝ :=
  let DeltaChannel := sinoparams.DeltaChannel
  let DeltaPix := imgparams.Deltaxy
  let const1 := t_0 sinoparams - DeltaChannel / 2
  let const2 := DeltaChannel / ((cfg.LEN_DET - 1 : ℤ) : ℝ)
  let const3 := DeltaPix - projectedCenter sinoparams imgparams ColumnIndex pr
  let const4 := ((cfg.LEN_PIX - 1 : ℤ) : ℝ) / (2 * DeltaPix)
  let const1 := const1 + const2
  if cfg.WIDE_BEAM then
    some (wideAval cfg.LEN_PIX cfg.LEN_DET pix_prof pr const1 const2 const3 const4 DeltaChannel i)
  else
    narrowAval cfg.LEN_PIX pix_prof pr (t_0 sinoparams) DeltaChannel const3 DeltaPix i

/-- State of the column loops: `proj_count` and the buffers behind `A_Column`. -/
structure ColumnState where
  proj_count : ℤ
  A_Column : SparseColumn ℝ

/-- The three statements executed when `Aval > 0.0`. -/
def appendEntry (st : ColumnState) (ind : ℤ) (Aval : ℝ) : ColumnState :=
  { proj_count := st.proj_count + 1,
    A_Column :=
      { st.A_Column with
        Value := Function.update st.A_Column.Value st.proj_count Aval,
        RowIndex := Function.update st.A_Column.RowIndex st.proj_count ind } }

/-- Body of the channel loop for channel `i` of view `pr`. -/
noncomputable def channelStep (cfg : BuildConfig) (sinoparams : SinoParams3DParallel)
    (imgparams : ImageParams3D ℝ) (pix_prof : ℤ → ℤ → ℝ) (ColumnIndex pr i : ℤ)
    (st : ColumnState) : Option ColumnState :=
  let pind := pr * sinoparams.NChannels
  let ind := pind + i
  match channelAval cfg sinoparams imgparams pix_prof ColumnIndex pr i with
  | none => none
  | some Aval => if Aval > 0 then some (appendEntry st ind Aval) else some st

/-- Body of the view loop for view `pr`. -/
noncomputable def viewStep (cfg : BuildConfig) (sinoparams : SinoParams3DParallel)
    (imgparams : ImageParams3D ℝ) (pix_prof : ℤ → ℤ → ℝ) (ColumnIndex pr : ℤ)
    (st : ColumnState) : Option ColumnState :=
  let NChannels := sinoparams.NChannels
  let DeltaChannel := sinoparams.DeltaChannel
  let DeltaPix := imgparams.Deltaxy
  let t_min := projectedCenter sinoparams imgparams ColumnIndex pr - DeltaPix
  let t_max := t_min + 2 * DeltaPix
  if t_max < t_0 sinoparams then some st
  else
    let ind_min := channelMin t_min (t_0 sinoparams) DeltaChannel
    let ind_max := channelMax t_max (t_0 sinoparams) DeltaChannel NChannels
    forLoop ind_min (ind_max + 1)
      (fun i st => st.bind (channelStep cfg sinoparams imgparams pix_prof ColumnIndex pr i))
      (some st)

/-- One call of `ComputeSysMatrixColumn3DParallel`, writing into the buffers of `A_Column`.
The geometry constants that the source caches in statics on its first call are read from
the parameter structures; `none` is termination of the program by `exit(-1)`. -/
noncomputable def ComputeSysMatrixColumn3DParallel (cfg : BuildConfig) (ColumnIndex : ℤ)
    (sinoparams : SinoParams3DParallel) (imgparams : ImageParams3D ℝ)
    (pix_prof : ℤ → ℤ → ℝ) (A_Column : SparseColumn ℝ) : Option (SparseColumn ℝ) :=
  let Ntheta := sinoparams.NViews
  let final := forLoop 0 Ntheta
    (fun pr st => st.bind (viewStep cfg sinoparams imgparams pix_prof ColumnIndex pr))
    (some { proj_count := 0, A_Column := A_Column })
  final.map fun st => { st.A_Column with Nnonzero := st.proj_count }

/-- Data-term part of `theta1` as accumulated by the column loop of `ICDStep3D`
(before negation): the sum of `a_n * w[z][k_n] * e[z][k_n]` over the voxel's column. -/
def dataTheta1 (e w : ℤ → ℤ → ℝ) (A : SysMatrix2D ℝ) (icd_info : ICDInfo ℝ) : ℝ :=
  sumTo (A.column (icd_info.VoxelIndex.tmod icd_info.Nxy)).Nnonzero fun n =>
    (A.column (icd_info.VoxelIndex.tmod icd_info.Nxy)).Value n
      * w (icd_info.VoxelIndex.tdiv icd_info.Nxy)
          ((A.column (icd_info.VoxelIndex.tmod icd_info.Nxy)).RowIndex n)
      * e (icd_info.VoxelIndex.tdiv icd_info.Nxy)
          ((A.column (icd_info.VoxelIndex.tmod icd_info.Nxy)).RowIndex n)

/-- Data-term part of `theta2`: the sum of `a_n * w[z][k_n] * a_n` over the voxel's column. -/
def dataTheta2 (w : ℤ → ℤ → ℝ) (A : SysMatrix2D ℝ) (icd_info : ICDInfo ℝ) : ℝ :=
  sumTo (A.column (icd_info.VoxelIndex.tmod icd_info.Nxy)).Nnonzero fun n =>
    (A.column (icd_info.VoxelIndex.tmod icd_info.Nxy)).Value n
      * w (icd_info.VoxelIndex.tdiv icd_info.Nxy)
          ((A.column (icd_info.VoxelIndex.tmod icd_info.Nxy)).RowIndex n)
      * (A.column (icd_info.VoxelIndex.tmod icd_info.Nxy)).Value n

/-! ### Neighbour wrap-around -/

/-- Image value at coordinates `(a, b, c)`, each taken modulo the image size. -/
def voxelAt {α : Type} (Image : Image3D α) (a b c : ℤ) : α :=
  Image.image (c % Image.imgparams.Nz)
    ((b % Image.imgparams.Ny) * Image.imgparams.Nx + a % Image.imgparams.Nx)

/-! ### The column loops as a run over the list of visited (view, channel) pairs -/

/-- The integers `lo, lo+1, ..., hi-1` in increasing order. -/
def intRange (lo hi : ℤ) : List ℤ :=
  (List.range (hi - lo).toNat).map fun (k : ℕ) => lo + (k : ℤ)

/-- Run the steps `f i` for the `i` of a list in order, stopping at the first `none`. -/
def runSteps {σ ι : Type} (f : ι → σ → Option σ) : List ι → σ → Option σ
  | [], s => some s
  | i :: l, s => (f i s).bind (runSteps f l)

/-- Channels visited by the inner loop in view `pr` (none when the view is skipped). -/
noncomputable def visitedChannels (sinoparams : SinoParams3DParallel)
    (imgparams : ImageParams3D ℝ) (ColumnIndex pr : ℤ) : List ℤ :=
  let t_min := projectedCenter sinoparams imgparams ColumnIndex pr - imgparams.Deltaxy
  let t_max := t_min + 2 * imgparams.Deltaxy
  if t_max < t_0 sinoparams then []
  else
    intRange (channelMin t_min (t_0 sinoparams) sinoparams.DeltaChannel)
      (channelMax t_max (t_0 sinoparams) sinoparams.DeltaChannel sinoparams.NChannels + 1)

/-- All (view, channel) pairs visited by the two loops, in the order of the visit. -/
noncomputable def visitedPairs (sinoparams : SinoParams3DParallel)
    (imgparams : ImageParams3D ℝ) (ColumnIndex : ℤ) : List (ℤ × ℤ) :=
  (intRange 0 sinoparams.NViews).flatMap fun pr =>
    (visitedChannels sinoparams imgparams ColumnIndex pr).map fun i => (pr, i)

/-- The entry appended for a visited pair: its row index and value when `Aval > 0`. -/
noncomputable def keptEntry (cfg : BuildConfig) (sinoparams : SinoParams3DParallel)
    (imgparams : ImageParams3D ℝ) (pix_prof : ℤ → ℤ → ℝ) (ColumnIndex : ℤ)
    (p : ℤ × ℤ) : Option (ℤ × ℝ) :=
  match channelAval cfg sinoparams imgparams pix_prof ColumnIndex p.1 p.2 with
  | some Aval => if Aval > 0 then some (p.1 * sinoparams.NChannels + p.2, Aval) else none
  | none => none

/-- Entries of a built column, in order: the kept entries of the visited pairs. -/
noncomputable def keptEntries (cfg : BuildConfig) (sinoparams : SinoParams3DParallel)
    (imgparams : ImageParams3D ℝ) (pix_prof : ℤ → ℤ → ℝ) (ColumnIndex : ℤ) : List (ℤ × ℝ) :=
  (visitedPairs sinoparams imgparams ColumnIndex).filterMap
    (keptEntry cfg sinoparams imgparams pix_prof ColumnIndex)

/-! ### A concrete geometry: one view at angle 0, three channels, one pixel -/

noncomputable def exSino : SinoParams3DParallel :=
  { NChannels := 3, DeltaChannel := 1, CenterOffset := 0, NViews := 1, ViewAngles := fun _ => 0 }

noncomputable def exImg : ImageParams3D ℝ :=
  { Nx := 1, Ny := 1, Nz := 1, Deltaxy := 1 }

def exCfg : BuildConfig := { LEN_PIX := 4, LEN_DET := 3, WIDE_BEAM := false }

/-- A profile table whose entry `j` is `j` in every view. -/
def exProf : ℤ → ℤ → ℝ := fun _ j => (j : ℝ)

noncomputable def exBuffer : SparseColumn ℝ :=
  { Nnonzero := 0, RowIndex := fun _ => 0, Value := fun _ => 0 }

/-- The column built for pixel 0 of the concrete geometry: rows 1 and 2, values 2 and 3. -/
noncomputable def exColumn : SparseColumn ℝ :=
  { Nnonzero := 2,
    RowIndex := Function.update (Function.update (fun _ => 0) 0 1) 1 2,
    Value := Function.update (Function.update (fun _ => 0) 0 2) 1 3 }

/-! ### Pixel profile table -/

/-- The view angle after the two folding loops of `ComputePixelProfile3DParallel`. -/
noncomputable def foldedAngle (ViewAngle : ℝ) : ℝ := foldAngleUp (foldAngleDown ViewAngle)

/-- Peak value `maxval` of the profile at folded angle `th`. -/
noncomputable def profileMaxval (DeltaPix th : ℝ) : ℝ :=
  if th ≤ PI / 4 then DeltaPix / Real.cos th else DeltaPix / Real.cos (PI / 2 - th)

/-- Half-width `d1 = sin(pi/4) * cos(pi/4 - th)` of the base of the trapezoid. -/
noncomputable def profileD1 (th : ℝ) : ℝ := Real.sin (PI / 4) * Real.cos (PI / 4 - th)

/-- Half-width `d2 = sin(pi/4) * |sin(pi/4 - th)|` of the top of the trapezoid. -/
noncomputable def profileD2 (th : ℝ) : ℝ := Real.sin (PI / 4) * |Real.sin (PI / 4 - th)|

/-! ### Concrete states used to instantiate the theorems -/

/-- A two-column system matrix: column `j` has two entries of value 1, in rows `j` and `j+1`. -/
noncomputable def exA : SysMatrix2D ℝ :=
  { Ncolumns := 2,
    column := fun j => { Nnonzero := 2, RowIndex := fun n => n + j, Value := fun _ => 1 } }

noncomputable def exX : ℤ → ℤ → ℝ := fun z j => (z : ℝ) + (j : ℝ)

noncomputable def exY : ℤ → ℤ → ℝ := fun _ _ => 1

noncomputable def exW : ℤ → ℤ → ℝ := fun _ _ => 1

/-- The residual of the concrete state, `e = y - A x`. -/
noncomputable def exE : ℤ → ℤ → ℝ := fun z k => exY z k - forwardProject exA exX z k

noncomputable def exRparams : ReconParamsQGGMRF3D ℝ :=
  { p := 1, q := 2, T := 1, SigmaX := 1, b_nearest := 1, b_diag := 1, b_interslice := 1 }

/-- Step context for voxel 3 of a volume with two pixels per slice (slice 1, pixel 1). -/
noncomputable def exIcd : ICDInfo ℝ :=
  { VoxelIndex := 3, Nxy := 2, v := 2, neighbors := fun _ => 0, theta1 := 7, theta2 := 7,
    Rparams := exRparams }

/-- A `2 x 2 x 2` image whose voxel `(x, y, z)` holds `4 z + 2 y + x`. -/
noncomputable def exImage : Image3D ℝ :=
  { imgparams := { Nx := 2, Ny := 2, Nz := 2, Deltaxy := 1 },
    image := fun z j => 4 * (z : ℝ) + (j : ℝ) }

/-- Step context for voxel 5 of `exImage`, the voxel `(1, 0, 1)`. -/
noncomputable def exIcd5 : ICDInfo ℝ :=
  { VoxelIndex := 5, Nxy := 4, v := 5, neighbors := fun _ => 0, theta1 := 0, theta2 := 0,
    Rparams := exRparams }

/-- The discrete sum of the normalization property: the entries of view `i` of a profile
table, each weighted by the sample spacing `2 * Deltaxy / LEN_PIX`. -/
noncomputable def profileSum (cfg : BuildConfig) (imgparams : ImageParams3D ℝ)
    (pix_prof : ℤ → ℤ → ℝ) (i : ℤ) : ℝ :=
  sumTo cfg.LEN_PIX fun j => pix_prof i j * (2 * imgparams.Deltaxy / (cfg.LEN_PIX : ℝ))

/-- The footprint length named by the normalization property: `Deltaxy / cos(th)` for a
folded angle `th ≤ PI/4`, `Deltaxy / sin(th)` otherwise. -/
noncomputable def footprintLength (DeltaPix th : ℝ) : ℝ :=
  if th ≤ PI / 4 then DeltaPix / Real.cos th else DeltaPix / Real.sin th

/-- Build constants with 256 profile samples. -/
def exCfg256 : BuildConfig := { LEN_PIX := 256, LEN_DET := 101, WIDE_BEAM := false }

/-- Image parameters with pixel size 4. -/
noncomputable def exImg4 : ImageParams3D ℝ :=
  { Nx := 1, Ny := 1, Nz := 1, Deltaxy := 4 }

/-! ### Trapezoid normalization -/

/-- The product `u (1 - u)` for the fractional part `u` of `v`. -/
noncomputable def sawProduct (v : ℝ) : ℝ := Int.fract v * (1 - Int.fract v)

/-! ### The cost function of the reconstruction -/

/-- Offset `(dx, dy, dz)` of neighbour slot `s`, as in the table of the neighbourhood. -/
def slotOffset (s : ℤ) : ℤ × ℤ × ℤ :=
  if s = 0 then (1, 0, 0)
  else if s = 1 then (-1, 0, 0)
  else if s = 2 then (0, 1, 0)
  else if s = 3 then (0, -1, 0)
  else if s = 4 then (0, 0, 1)
  else if s = 5 then (0, 0, -1)
  else if s = 6 then (1, 1, 0)
  else if s = 7 then (-1, 1, 0)
  else if s = 8 then (1, -1, 0)
  else (-1, -1, 0)

/-- The slot with the opposite offset: 0 ↔ 1, 2 ↔ 3, 4 ↔ 5, 6 ↔ 9, 7 ↔ 8. -/
def pairSlot (s : ℤ) : ℤ :=
  if s = 0 then 1
  else if s = 1 then 0
  else if s = 2 then 3
  else if s = 3 then 2
  else if s = 4 then 5
  else if s = 5 then 4
  else if s = 6 then 9
  else if s = 7 then 8
  else if s = 8 then 7
  else 6

/-- Weight of neighbour slot `s`, by the grouping of `QGGMRF3D_UpdateICDParams`: slots 0..3
`b_nearest`, slots 4..5 `b_interslice`, slots 6..9 `b_diag`. -/
def neighborWeight (Rparams : ReconParamsQGGMRF3D ℝ) (s : ℤ) : ℝ :=
  if s < 4 then Rparams.b_nearest
  else if s < 6 then Rparams.b_interslice
  else Rparams.b_diag

/-- Voxel index of the neighbour that `ExtractNeighbors3D` reads into slot `s` for voxel `I`. -/
def NeighborIndex (Nx Ny Nz I s : ℤ) : ℤ :=
  (NeighborPosition Nx Ny Nz I s).1 * (Nx * Ny) + (NeighborPosition Nx Ny Nz I s).2

/-- Data term of the cost, `1/2 * sum_z sum_k w[z][k] * e[z][k]^2`, over `Nz` slices and
`Nrows` sinogram entries per slice. -/
noncomputable def dataCost (w e : ℤ → ℤ → ℝ) (Nz Nrows : ℤ) : ℝ :=
  1 / 2 * sumTo Nz fun z => sumTo Nrows fun k => w z k * e z k ^ 2

/-- Prior term of the cost: the sum of `b * rho(x_s - x_r)` over the neighbouring voxel pairs
of the wrap-around neighbourhood. Every voxel `I` contributes its ten slots; as each pair is
met from both of its ends the double sum is halved. -/
noncomputable def priorCost (Image : Image3D ℝ) (Rparams : ReconParamsQGGMRF3D ℝ) : ℝ :=
  let Nx := Image.imgparams.Nx
  let Ny := Image.imgparams.Ny
  let Nz := Image.imgparams.Nz
  1 / 2 * sumTo (Nx * Ny * Nz) fun I =>
    sumTo 10 fun s =>
      neighborWeight Rparams s
        * QGGMRF_Potential
            (Image.image (I / (Nx * Ny)) (I % (Nx * Ny))
              - Image.image (NeighborPosition Nx Ny Nz I s).1 (NeighborPosition Nx Ny Nz I s).2)
            Rparams

/-- The cost `F` of a state: data term plus prior term. -/
noncomputable def cost (w e : ℤ → ℤ → ℝ) (Nrows : ℤ) (Image : Image3D ℝ)
    (Rparams : ReconParamsQGGMRF3D ℝ) : ℝ :=
  dataCost w e Image.imgparams.Nz Nrows + priorCost Image Rparams

/-- Reading a two-dimensional array at the slice and pixel of a voxel index. -/
def atVoxel (a : ℤ → ℤ → ℝ) (Nxy : ℤ) (I : ℤ) : ℝ := a (I / Nxy) (I % Nxy)

/-- Weighted change of the potential between voxel `I0` and its neighbour in slot `s` when
the voxel takes the value `v` (nothing when the voxel is its own neighbour in that slot). -/
noncomputable def slotChange (Image : Image3D ℝ) (Rparams : ReconParamsQGGMRF3D ℝ) (I0 : ℤ)
    (v : ℝ) (s : ℤ) : ℝ :=
  neighborWeight Rparams s *
    (if NeighborIndex Image.imgparams.Nx Image.imgparams.Ny Image.imgparams.Nz I0 s = I0
      then 0
      else QGGMRF_Potential
          (v - atVoxel Image.image (Image.imgparams.Nx * Image.imgparams.Ny)
            (NeighborIndex Image.imgparams.Nx Image.imgparams.Ny Image.imgparams.Nz I0 s))
          Rparams
        - QGGMRF_Potential
          (atVoxel Image.image (Image.imgparams.Nx * Image.imgparams.Ny) I0
            - atVoxel Image.image (Image.imgparams.Nx * Image.imgparams.Ny)
            (NeighborIndex Image.imgparams.Nx Image.imgparams.Ny Image.imgparams.Nz I0 s))
          Rparams)

/-! ### A state whose column repeats a row index -/

/-- A one-column system matrix whose column stores three entries of value 1, all three in
row 0. -/
noncomputable def dupA : SysMatrix2D ℝ :=
  { Ncolumns := 1,
    column := fun _ => { Nnonzero := 3, RowIndex := fun _ => 0, Value := fun _ => 1 } }

/-- A one-voxel image holding the value 0. -/
noncomputable def dupImage : Image3D ℝ :=
  { imgparams := { Nx := 1, Ny := 1, Nz := 1, Deltaxy := 1 }, image := fun _ _ => 0 }

/-- Prior parameters `p = 1`, `q = 2`, `T = SigmaX = 1` with all three weights zero. -/
noncomputable def dupRparams : ReconParamsQGGMRF3D ℝ :=
  { p := 1, q := 2, T := 1, SigmaX := 1, b_nearest := 0, b_diag := 0, b_interslice := 0 }

/-- Step context for the single voxel of `dupImage`. -/
noncomputable def dupIcd : ICDInfo ℝ :=
  { VoxelIndex := 0, Nxy := 1, v := 0, neighbors := fun _ => 0, theta1 := 0, theta2 := 0,
    Rparams := dupRparams }

/-- The residual of the state: `y = 1`, `x = 0`, so `e = y - A x = 1`. -/
noncomputable def dupE : ℤ → ℤ → ℝ := fun _ _ => 1

/-- A four-column system matrix for `exImage`: column `j` has two entries of value 1, in
rows `j` and `j + 1`. -/
noncomputable def exA4 : SysMatrix2D ℝ :=
  { Ncolumns := 4,
    column := fun j => { Nnonzero := 2, RowIndex := fun n => n + j, Value := fun _ => 1 } }

/-! ### A state with a negative exponent `p` -/

/-- Prior parameters with `p = -2 < q = 2`, `T = SigmaX = 1`, and only the diagonal
weight non-zero. -/
noncomputable def negRparams : ReconParamsQGGMRF3D ℝ :=
  { p := -2, q := 2, T := 1, SigmaX := 1, b_nearest := 0, b_diag := 2, b_interslice := 0 }

/-- Step context for voxel 5 of `exImage` with the parameters `negRparams`. -/
noncomputable def negIcd : ICDInfo ℝ :=
  { VoxelIndex := 5, Nxy := 4, v := 5, neighbors := fun _ => 0, theta1 := 0, theta2 := 0,
    Rparams := negRparams }

/-- A residual with every entry `-1/2`. -/
noncomputable def negE : ℤ → ℤ → ℝ := fun _ _ => -1 / 2

/-- The sinogram for which `negE` is the residual of `exImage`: `y = e + A x`. -/
noncomputable def negY : ℤ → ℤ → ℝ := fun z k => negE z k + forwardProject exA4 exImage.image z k

/-- Prior parameters with `q < 2`: `p = 1`, `q = 3/2`, `T = SigmaX = 1`, all weights 1. -/
noncomputable def lowqRparams : ReconParamsQGGMRF3D ℝ :=
  { p := 1, q := 3 / 2, T := 1, SigmaX := 1, b_nearest := 1, b_diag := 1, b_interslice := 1 }

/-- Step context with the parameters `lowqRparams`. -/
noncomputable def lowqIcd : ICDInfo ℝ :=
  { VoxelIndex := 0, Nxy := 1, v := 0, neighbors := fun _ => 0, theta1 := 0, theta2 := 0,
    Rparams := lowqRparams }

/-! ### A state with an empty column and no prior -/

/-- A system matrix whose columns store no entry. -/
noncomputable def emptyA : SysMatrix2D ℝ :=
  { Ncolumns := 1,
    column := fun _ => { Nnonzero := 0, RowIndex := fun _ => 0, Value := fun _ => 0 } }

/-- Step context for the voxel of a one-voxel volume with current value 1 and all three
prior weights zero. -/
noncomputable def skipIcd : ICDInfo ℝ :=
  { VoxelIndex := 0, Nxy := 1, v := 1, neighbors := fun _ => 1, theta1 := 0, theta2 := 0,
    Rparams := dupRparams }

/-- Weighted squared residual of slice `z`: `1/2 * sum_k w[z][k] * e[z][k]^2` over the
`Nrows` sinogram entries of the slice. -/
noncomputable def sliceCost (w e : ℤ → ℤ → ℝ) (z Nrows : ℤ) : ℝ :=
  1 / 2 * sumTo Nrows fun k => w z k * e z k ^ 2

/-- Step context for voxel 5 of `exImage` with all three prior weights zero. -/
noncomputable def mlIcd5 : ICDInfo ℝ :=
  { VoxelIndex := 5, Nxy := 4, v := 5, neighbors := fun _ => 0, theta1 := 0, theta2 := 0,
    Rparams := dupRparams }

/-- The narrow-beam `prof_ind` computed for channel `i` of view `pr` while the column of
pixel `ColumnIndex` is built, before the range check. -/
noncomputable def columnProfInd (cfg : BuildConfig) (sinoparams : SinoParams3DParallel)
    (imgparams : ImageParams3D ℝ) (ColumnIndex pr i : ℤ) : ℤ :=
  narrowProfInd cfg.LEN_PIX (t_0 sinoparams) sinoparams.DeltaChannel
    (imgparams.Deltaxy - projectedCenter sinoparams imgparams ColumnIndex pr)
    imgparams.Deltaxy i

/-- The range check of the narrow-beam branch: the index at which the profile table is
read for a computed `prof_ind`; `none` is the call of `exit(-1)`. -/
def narrowReadInd (LEN_PIX prof_ind : ℤ) : Option ℤ :=
  if prof_ind ≥ LEN_PIX ∨ prof_ind < 0 then
    if prof_ind = LEN_PIX then some (LEN_PIX - 1)
    else if prof_ind = -1 then some 0
    else none
  else some prof_ind

/-- The narrow-beam profile index as the specification states it:
`floor(LEN_PIX * (t0 + i*DeltaChannel - tau) / (2*Deltaxy) + 0.5)`. -/
noncomputable def specProfInd (LEN_PIX : ℤ) (t0 DeltaChannel tau Deltaxy : ℝ) (i : ℤ) : ℤ :=
  ⌊(LEN_PIX : ℝ) * (t0 + (i : ℝ) * DeltaChannel - tau) / (2 * Deltaxy) + 0.5⌋

/-! ### The geometry of scenario S1 -/

/-- Four channels of spacing 1, no centre offset, two views at angles 0 and `PI/2`. -/
noncomputable def s1Sino : SinoParams3DParallel :=
  { NChannels := 4, DeltaChannel := 1, CenterOffset := 0, NViews := 2,
    ViewAngles := fun pr => if pr = 0 then 0 else PI / 2 }

/-- A `3 x 3` image with pixel size 1. -/
noncomputable def s1Img : ImageParams3D ℝ :=
  { Nx := 3, Ny := 3, Nz := 1, Deltaxy := 1 }

/-- Narrow-beam build constants with 256 profile samples. -/
def s1Cfg : BuildConfig := { LEN_PIX := 256, LEN_DET := 101, WIDE_BEAM := false }

/-! ### One full ICD update of a voxel -/

/-- The step context with which voxel `I` is updated: the voxel index, `Nxy = Nx * Ny`, the
current value of the voxel, and the neighbours read by `ExtractNeighbors3D`; the prior
parameters are those of `icd_info`. -/
def stepContext (icd_info : ICDInfo ℝ) (Image : Image3D ℝ) (I : ℤ) : ICDInfo ℝ :=
  ExtractNeighbors3D
    { icd_info with
      VoxelIndex := I,
      Nxy := Image.imgparams.Nx * Image.imgparams.Ny,
      v := Image.image (I.tdiv (Image.imgparams.Nx * Image.imgparams.Ny))
        (I.tmod (Image.imgparams.Nx * Image.imgparams.Ny)) }
    Image

/-- Modelled from the spec: the sweep loop that calls the functions of `icd3d.c` is not
among the sources. One ICD update of voxel `I` without positivity, on a state made of the
volume and the residual: `ExtractNeighbors3D`, then `ICDStep3D`, then the new value is
stored in the volume, then `UpdateError3D` is run with `diff` the new value minus the old
one. The result is `none` when the step returns no number. -/
noncomputable def ICDUpdate (w : ℤ → ℤ → ℝ) (A : SysMatrix2D ℝ) (icd_info : ICDInfo ℝ)
    (st : Image3D ℝ × (ℤ → ℤ → ℝ)) (I : ℤ) : Option (Image3D ℝ × (ℤ → ℤ → ℝ)) :=
  let icd := stepContext icd_info st.1 I
  match (ICDStep3D st.2 w A icd).1 with
  | none => none
  | some UpdatedVoxelValue =>
    some ({ st.1 with
            image := store2 st.1.image (I.tdiv icd.Nxy) (I.tmod icd.Nxy) UpdatedVoxelValue },
          UpdateError3D st.2 A (UpdatedVoxelValue - icd.v) (ICDStep3D st.2 w A icd).2)

/-! ### A two-slice state with inter-slice coupling -/

/-- Image parameters of a volume of two slices with one pixel each. -/
noncomputable def cxParams : ImageParams3D ℝ := { Nx := 1, Ny := 1, Nz := 2, Deltaxy := 1 }

/-- The all-zeros volume of two one-pixel slices. -/
noncomputable def cxImage : Image3D ℝ := { imgparams := cxParams, image := fun _ _ => 0 }

/-- Prior parameters `p = 1`, `q = 2`, `T = SigmaX = 1` with only the inter-slice weight
non-zero. -/
noncomputable def cxRparams : ReconParamsQGGMRF3D ℝ :=
  { p := 1, q := 2, T := 1, SigmaX := 1, b_nearest := 0, b_diag := 0, b_interslice := 1 }

/-- Step context carrying the parameters `cxRparams`. -/
noncomputable def cxIcd : ICDInfo ℝ :=
  { VoxelIndex := 0, Nxy := 1, v := 0, neighbors := fun _ => 0, theta1 := 0, theta2 := 0,
    Rparams := cxRparams }

/-- A one-column system matrix whose column stores one entry of value 1 in row 0. -/
noncomputable def cxA : SysMatrix2D ℝ :=
  { Ncolumns := 1,
    column := fun _ => { Nnonzero := 1, RowIndex := fun _ => 0, Value := fun _ => 1 } }

/-- A residual that is 5 in slice 0 and 0 elsewhere. -/
noncomputable def cxE : ℤ → ℤ → ℝ := fun z _ => if z = 0 then 5 else 0

/-- Modelled from the spec: the sweep loop is not among the sources. One sweep applies the
ICD update to the voxels of `order`, one after the other; it returns no state as soon as
one update returns none. -/
noncomputable def ICDSweep (w : ℤ → ℤ → ℝ) (A : SysMatrix2D ℝ) (icd_info : ICDInfo ℝ)
    (order : List ℤ) (st : Image3D ℝ × (ℤ → ℤ → ℝ)) : Option (Image3D ℝ × (ℤ → ℤ → ℝ)) :=
  runSteps (fun I st => ICDUpdate w A icd_info st I) order st

/-- The sum `sum_n a_n * w[z][k_n] * e[z][k_n]` over the column of voxel `I` (slice
`z = I / Nxy`, column `I % Nxy`): minus the derivative of the data term with respect to the
voxel. -/
noncomputable def columnGradient (w e : ℤ → ℤ → ℝ) (A : SysMatrix2D ℝ) (Nxy I : ℤ) : ℝ :=
  sumTo (A.column (I.tmod Nxy)).Nnonzero fun n =>
    (A.column (I.tmod Nxy)).Value n * w (I.tdiv Nxy) ((A.column (I.tmod Nxy)).RowIndex n)
      * e (I.tdiv Nxy) ((A.column (I.tmod Nxy)).RowIndex n)

/-- A column usable by the update: its row indices lie in `[0, Nrows)` and are pairwise
distinct, and it stores at least one non-zero value. -/
def columnWellFormed (A : SysMatrix2D ℝ) (Nrows j : ℤ) : Prop :=
  (∀ n, 0 ≤ n → n < (A.column j).Nnonzero →
      0 ≤ (A.column j).RowIndex n ∧ (A.column j).RowIndex n < Nrows)
  ∧ (∀ n m, 0 ≤ n → n < (A.column j).Nnonzero → 0 ≤ m → m < (A.column j).Nnonzero →
      (A.column j).RowIndex n = (A.column j).RowIndex m → n = m)
  ∧ ∃ n, 0 ≤ n ∧ n < (A.column j).Nnonzero ∧ (A.column j).Value n ≠ 0

/-- A sinogram that is 1 in entry 1 of every slice and 0 elsewhere. -/
noncomputable def offY : ℤ → ℤ → ℝ := fun _ k => if k = 1 then 1 else 0

/-! ### A volume of a single voxel -/

/-- The volume of one voxel holding the value 7. -/
noncomputable def oneImage : Image3D ℝ :=
  { imgparams := { Nx := 1, Ny := 1, Nz := 1, Deltaxy := 1 }, image := fun _ _ => 7 }

/-- Step context for the voxel of `oneImage`, before its neighbours are read. -/
noncomputable def oneIcd : ICDInfo ℝ :=
  { VoxelIndex := 0, Nxy := 1, v := 7, neighbors := fun _ => 0, theta1 := 0, theta2 := 0,
    Rparams := cxRparams }

/-! ### Assembly of the whole matrix (A_comp.c) -/

/-- State of the column loop of `ComputeSysMatrix3DParallel`: the array `A->column` and the
temporary column `TempColumn`, whose buffers are allocated once before the loop. -/
structure AssemblyState where
  column : ℤ → SparseColumn ℝ
  TempColumn : SparseColumn ℝ

/-- The statements that store `TempColumn` as one column of `A`: `Nnonzero` is set and the
loop `for (r = 0; r < TempColumn.Nnonzero; r++)` copies `Value[r]` and `RowIndex[r]` into
the arrays `dest` just allocated for the column. -/
def copyEntries (TempColumn dest : SparseColumn ℝ) : SparseColumn ℝ :=
  forLoop 0 TempColumn.Nnonzero
    (fun r (c : SparseColumn ℝ) =>
      { c with
        Value := Function.update c.Value r (TempColumn.Value r),
        RowIndex := Function.update c.RowIndex r (TempColumn.RowIndex r) })
    { dest with Nnonzero := TempColumn.Nnonzero }

/-- Body of the column loop of `ComputeSysMatrix3DParallel` for column `i`: the column is
built into the buffers of `TempColumn` as they stand and then copied into `A->column[i]`;
`fresh i` is the memory `get_spc` returns for the two arrays of that column, and `none` is
termination of the program by `exit(-1)` inside the column builder. -/
noncomputable def columnStep (cfg : BuildConfig) (sinoparams : SinoParams3DParallel)
    (imgparams : ImageParams3D ℝ) (pix_prof : ℤ → ℤ → ℝ) (fresh : ℤ → SparseColumn ℝ)
    (i : ℤ) (st : AssemblyState) : Option AssemblyState :=
  (ComputeSysMatrixColumn3DParallel cfg i sinoparams imgparams pix_prof st.TempColumn).map
    fun TempColumn =>
      { column := Function.update st.column i (copyEntries TempColumn (fresh i)),
        TempColumn := TempColumn }

/-- The whole matrix. `column` and `TempColumn` are the freshly allocated array of columns
and temporary column; `none` is termination of the program by `exit(-1)`. -/
noncomputable def ComputeSysMatrix3DParallel (cfg : BuildConfig)
    (sinoparams : SinoParams3DParallel) (imgparams : ImageParams3D ℝ) (pix_prof : ℤ → ℤ → ℝ)
    (column : ℤ → SparseColumn ℝ) (TempColumn : SparseColumn ℝ)
    (fresh : ℤ → SparseColumn ℝ) : Option (SysMatrix2D ℝ) :=
  let Ncolumns := imgparams.Nx * imgparams.Ny
  let final := forLoop 0 Ncolumns
    (fun i st => st.bind (columnStep cfg sinoparams imgparams pix_prof fresh i))
    (some { column := column, TempColumn := TempColumn })
  final.map fun st => { Ncolumns := Ncolumns, column := st.column }

/-! ### View angles advanced by half a turn -/

theorem store2_apply {α : Type} (a : ℤ → ℤ → α) (i j : ℤ) (val : α) (i' j' : ℤ) :
    store2 a i j val i' j' = if i' = i ∧ j' = j then val else a i' j' := by
  unfold store2
  by_cases hi : i' = i
  · subst hi
    by_cases hj : j' = j
    · subst hj; simp
    · simp [Function.update_noteq hj, hj]
  · simp [Function.update_noteq hi, hi]

theorem forLoop_zero_succ {σ : Type} (m : ℕ) (body : ℤ → σ → σ) (s : σ) :
    forLoop 0 ((m + 1 : ℕ) : ℤ) body s = body m (forLoop 0 (m : ℤ) body s) := by
  unfold forLoop
  simp [List.range_succ, List.foldl_append]

theorem forLoop_empty {σ : Type} (lo hi : ℤ) (h : hi ≤ lo) (body : ℤ → σ → σ) (s : σ) :
    forLoop lo hi body s = s := by
  unfold forLoop
  have : (hi - lo).toNat = 0 := by omega
  simp [this]

theorem forLoop_toNat {σ : Type} (hi : ℤ) (body : ℤ → σ → σ) (s : σ) :
    forLoop 0 hi body s = forLoop 0 (hi.toNat : ℤ) body s := by
  unfold forLoop
  rw [sub_zero, sub_zero, Int.toNat_ofNat]

theorem sumTo_succ {α : Type} [AddCommMonoid α] (m : ℕ) (f : ℤ → α) :
    sumTo ((m + 1 : ℕ) : ℤ) f = sumTo (m : ℤ) f + f m := by
  unfold sumTo
  rw [Int.toNat_ofNat, Int.toNat_ofNat, Finset.sum_range_succ]

theorem sumTo_toNat {α : Type} [AddCommMonoid α] (N : ℤ) (f : ℤ → α) :
    sumTo N f = sumTo (N.toNat : ℤ) f := by
  unfold sumTo
  rw [Int.toNat_ofNat]

/-- Effect of the residual update loop on one entry of `e`. -/
theorem updateLoop_apply {α : Type} [Ring α] (col : SparseColumn α) (z0 : ℤ) (diff : α)
    (m : ℕ) (e : ℤ → ℤ → α) (z k : ℤ) :
    forLoop 0 (m : ℤ)
      (fun n e => store2 e z0 (col.RowIndex n) (e z0 (col.RowIndex n) - col.Value n * diff)) e z k
      = e z k - (if z = z0 then
          sumTo (m : ℤ) (fun n => if col.RowIndex n = k then col.Value n * diff else 0) else 0) := by
  induction m with
  | zero => simp [forLoop, sumTo]
  | succ m ih =>
    rw [forLoop_zero_succ, sumTo_succ, store2_apply]
    by_cases hz : z = z0
    · subst hz
      by_cases hk : col.RowIndex m = k
      · subst hk
        simp only [true_and, if_true] at ih ⊢
        rw [ih]
        abel
      · have hk2 : ¬ k = col.RowIndex m := fun h => hk h.symm
        simp only [true_and, if_true, hk, hk2, if_false, add_zero] at ih ⊢
        rw [ih]
    · simp only [hz, false_and, if_false] at ih ⊢
      rw [ih]

theorem UpdateError3D_apply {α : Type} [Ring α] (e : ℤ → ℤ → α) (A : SysMatrix2D α) (diff : α)
    (icd_info : ICDInfo α) (z k : ℤ) :
    UpdateError3D e A diff icd_info z k
      = e z k - (if z = icd_info.VoxelIndex.tdiv icd_info.Nxy then
          sumTo (A.column (icd_info.VoxelIndex.tmod icd_info.Nxy)).Nnonzero
            (fun n => if (A.column (icd_info.VoxelIndex.tmod icd_info.Nxy)).RowIndex n = k
              then (A.column (icd_info.VoxelIndex.tmod icd_info.Nxy)).Value n * diff else 0)
          else 0) := by
  unfold UpdateError3D
  simp only []
  rw [forLoop_toNat, updateLoop_apply, ← sumTo_toNat]

theorem sumTo_add {α : Type} [AddCommMonoid α] (N : ℤ) (f g : ℤ → α) :
    sumTo N (fun n => f n + g n) = sumTo N f + sumTo N g := by
  unfold sumTo
  rw [Finset.sum_add_distrib]

theorem sumTo_congr {α : Type} [AddCommMonoid α] (N : ℤ) (f g : ℤ → α)
    (h : ∀ n, 0 ≤ n → n < N → f n = g n) : sumTo N f = sumTo N g := by
  unfold sumTo
  apply Finset.sum_congr rfl
  intro n hn
  have := Finset.mem_range.mp hn
  apply h <;> omega

theorem sumTo_single {α : Type} [AddCommMonoid α] (N j : ℤ) (hj0 : 0 ≤ j) (hj1 : j < N)
    (f : ℤ → α) : sumTo N (fun n => if n = j then f n else 0) = f j := by
  unfold sumTo
  rw [Finset.sum_eq_single_of_mem j.toNat]
  · have : ((j.toNat : ℕ) : ℤ) = j := by omega
    simp [this]
  · apply Finset.mem_range.mpr; omega
  · intro n _ hn
    have : ¬ ((n : ℤ) = j) := by omega
    simp [this]

theorem sumTo_zero {α : Type} [AddCommMonoid α] (N : ℤ) :
    sumTo N (fun _ => (0 : α)) = 0 := by
  unfold sumTo
  simp

/-- Changing one voxel by `diff` changes `A * x` by `diff` times the voxel's column. -/
theorem forwardProject_store {α : Type} [Ring α] (A : SysMatrix2D α) (x : ℤ → ℤ → α)
    (z0 j : ℤ) (diff : α) (hj0 : 0 ≤ j) (hj1 : j < A.Ncolumns) (z k : ℤ) :
    forwardProject A (store2 x z0 j (x z0 j + diff)) z k
      = forwardProject A x z k + (if z = z0 then
          sumTo (A.column j).Nnonzero
            (fun n => if (A.column j).RowIndex n = k then (A.column j).Value n * diff else 0)
          else 0) := by
  unfold forwardProject
  by_cases hz : z = z0
  · subst hz
    simp only [if_true]
    rw [← sumTo_single A.Ncolumns j hj0 hj1 (fun j => sumTo (A.column j).Nnonzero
            (fun n => if (A.column j).RowIndex n = k then (A.column j).Value n * diff else 0)),
      ← sumTo_add]
    apply sumTo_congr
    intro c _ _
    by_cases hc : c = j
    · subst hc
      simp only [if_true]
      rw [← sumTo_add]
      apply sumTo_congr
      intro n _ _
      rw [store2_apply]
      by_cases hk : (A.column c).RowIndex n = k
      · simp [hk, mul_add]
      · simp [hk]
    · simp only [hc, if_false, add_zero]
      apply sumTo_congr
      intro n _ _
      rw [store2_apply]
      simp [hc]
  · simp only [hz, if_false, add_zero]
    apply sumTo_congr
    intro c _ _
    apply sumTo_congr
    intro n _ _
    rw [store2_apply]
    simp [hz]

/-- C1. Residual invariant: if `e[z] = y[z] - A x[z,:]` holds for every slice `0 ≤ z < Nz`,
then after the voxel `VoxelIndex` (slice `VoxelIndex / Nxy`, pixel `VoxelIndex % Nxy`) is
changed by `diff` and `UpdateError3D` is run with that `diff`, the equality holds again for
every slice. The matrix has `Nxy` columns; the voxel index is non-negative (its upper bound
`Nxy * Nz` is not needed). -/
theorem UpdateError3D_preserves_residual (A : SysMatrix2D ℝ) (x y e : ℤ → ℤ → ℝ)
    (icd_info : ICDInfo ℝ) (Nz : ℤ) (diff : ℝ)
    (hNxy : 0 < icd_info.Nxy) (hcols : A.Ncolumns = icd_info.Nxy)
    (hI0 : 0 ≤ icd_info.VoxelIndex)
    (hinv : ∀ z, 0 ≤ z → z < Nz → ∀ k, e z k = y z k - forwardProject A x z k) :
    ∀ z, 0 ≤ z → z < Nz → ∀ k,
      UpdateError3D e A diff icd_info z k
        = y z k - forwardProject A
            (store2 x (icd_info.VoxelIndex / icd_info.Nxy) (icd_info.VoxelIndex % icd_info.Nxy)
              (x (icd_info.VoxelIndex / icd_info.Nxy) (icd_info.VoxelIndex % icd_info.Nxy) + diff))
            z k := by
  intro z hz0 hz1 k
  have hdiv : icd_info.VoxelIndex.tdiv icd_info.Nxy = icd_info.VoxelIndex / icd_info.Nxy :=
    Int.tdiv_eq_ediv hI0 hNxy.le
  have hmod : icd_info.VoxelIndex.tmod icd_info.Nxy = icd_info.VoxelIndex % icd_info.Nxy :=
    Int.tmod_eq_emod hI0 hNxy.le
  have hj0 : 0 ≤ icd_info.VoxelIndex % icd_info.Nxy := Int.emod_nonneg _ hNxy.ne'
  have hj1 : icd_info.VoxelIndex % icd_info.Nxy < A.Ncolumns := by
    rw [hcols]; exact Int.emod_lt_of_pos _ hNxy
  rw [UpdateError3D_apply, forwardProject_store A x _ _ diff hj0 hj1, hdiv, hmod,
    hinv z hz0 hz1 k]
  ring

theorem QGGMRF_SurrogateCoeff_congr (delta : ℝ) (i1 i2 : ICDInfo ℝ)
    (h : i1.Rparams = i2.Rparams) :
    QGGMRF_SurrogateCoeff delta i1 = QGGMRF_SurrogateCoeff delta i2 := by
  unfold QGGMRF_SurrogateCoeff
  rw [h]

/-- The data-term loop of `ICDStep3D` accumulates the two sums over the column. -/
theorem dataLoop_eq (f g : ℤ → ℝ) (m : ℕ) (icd0 : ICDInfo ℝ) :
    forLoop 0 (m : ℤ)
      (fun n (icd_info : ICDInfo ℝ) =>
        { icd_info with theta1 := icd_info.theta1 - f n, theta2 := icd_info.theta2 + g n })
      icd0
    = { icd0 with theta1 := icd0.theta1 - sumTo (m : ℤ) f,
                  theta2 := icd0.theta2 + sumTo (m : ℤ) g } := by
  induction m with
  | zero => simp [forLoop, sumTo]
  | succ m ih =>
    rw [forLoop_zero_succ, ih, sumTo_succ, sumTo_succ]
    simp only [ICDInfo.mk.injEq, true_and, and_true]
    constructor <;> ring

theorem QGGMRF3D_UpdateICDParams_eq (icd_info : ICDInfo ℝ) :
    QGGMRF3D_UpdateICDParams icd_info
    = { icd_info with
        theta1 := icd_info.theta1 +
          (icd_info.Rparams.b_nearest * sumFromTo 0 4 (fun s =>
              QGGMRF_SurrogateCoeff (icd_info.v - icd_info.neighbors s) icd_info
                * (icd_info.v - icd_info.neighbors s))
           + icd_info.Rparams.b_diag * sumFromTo 6 10 (fun s =>
              QGGMRF_SurrogateCoeff (icd_info.v - icd_info.neighbors s) icd_info
                * (icd_info.v - icd_info.neighbors s))
           + icd_info.Rparams.b_interslice * sumFromTo 4 6 (fun s =>
              QGGMRF_SurrogateCoeff (icd_info.v - icd_info.neighbors s) icd_info
                * (icd_info.v - icd_info.neighbors s))),
        theta2 := icd_info.theta2 +
          (icd_info.Rparams.b_nearest * sumFromTo 0 4 (fun s =>
              QGGMRF_SurrogateCoeff (icd_info.v - icd_info.neighbors s) icd_info)
           + icd_info.Rparams.b_diag * sumFromTo 6 10 (fun s =>
              QGGMRF_SurrogateCoeff (icd_info.v - icd_info.neighbors s) icd_info)
           + icd_info.Rparams.b_interslice * sumFromTo 4 6 (fun s =>
              QGGMRF_SurrogateCoeff (icd_info.v - icd_info.neighbors s) icd_info)) } := by
  have h10 : ((10 : ℤ) - 0).toNat = 10 := rfl
  have h04 : ((4 : ℤ) - 0).toNat = 4 := rfl
  have h46 : ((6 : ℤ) - 4).toNat = 2 := rfl
  have h610 : ((10 : ℤ) - 6).toNat = 4 := rfl
  have hr : List.range 10 = [0, 1, 2, 3, 4, 5, 6, 7, 8, 9] := rfl
  unfold QGGMRF3D_UpdateICDParams
  simp only [forLoop, sumFromTo, h10, h04, h46, h610, hr, List.foldl_cons, List.foldl_nil,
    Finset.sum_range_succ, Finset.sum_range_zero]
  norm_num

theorem ICDStep3D_eq (e w : ℤ → ℤ → ℝ) (A : SysMatrix2D ℝ) (icd_info : ICDInfo ℝ) :
    ICDStep3D e w A icd_info =
      ((if (QGGMRF3D_UpdateICDParams
          { icd_info with theta1 := 0 - dataTheta1 e w A icd_info,
                          theta2 := 0 + dataTheta2 w A icd_info }).theta2 = 0 then none
        else some ((QGGMRF3D_UpdateICDParams
          { icd_info with theta1 := 0 - dataTheta1 e w A icd_info,
                          theta2 := 0 + dataTheta2 w A icd_info }).v
        - (QGGMRF3D_UpdateICDParams
          { icd_info with theta1 := 0 - dataTheta1 e w A icd_info,
                          theta2 := 0 + dataTheta2 w A icd_info }).theta1
        / (QGGMRF3D_UpdateICDParams
          { icd_info with theta1 := 0 - dataTheta1 e w A icd_info,
                          theta2 := 0 + dataTheta2 w A icd_info }).theta2)),
       QGGMRF3D_UpdateICDParams
          { icd_info with theta1 := 0 - dataTheta1 e w A icd_info,
                          theta2 := 0 + dataTheta2 w A icd_info }) := by
  unfold ICDStep3D dataTheta1 dataTheta2
  simp only []
  rw [forLoop_toNat, dataLoop_eq, ← sumTo_toNat, ← sumTo_toNat]

theorem ICDStep3D_theta1 (e w : ℤ → ℤ → ℝ) (A : SysMatrix2D ℝ) (icd_info : ICDInfo ℝ) :
    (ICDStep3D e w A icd_info).2.theta1 =
      - dataTheta1 e w A icd_info
      + (icd_info.Rparams.b_nearest * sumFromTo 0 4 (fun s =>
            QGGMRF_SurrogateCoeff (icd_info.v - icd_info.neighbors s) icd_info
              * (icd_info.v - icd_info.neighbors s))
         + icd_info.Rparams.b_diag * sumFromTo 6 10 (fun s =>
            QGGMRF_SurrogateCoeff (icd_info.v - icd_info.neighbors s) icd_info
              * (icd_info.v - icd_info.neighbors s))
         + icd_info.Rparams.b_interslice * sumFromTo 4 6 (fun s =>
            QGGMRF_SurrogateCoeff (icd_info.v - icd_info.neighbors s) icd_info
              * (icd_info.v - icd_info.neighbors s))) := by
  rw [ICDStep3D_eq, QGGMRF3D_UpdateICDParams_eq]
  simp only [zero_sub]
  congr 2

theorem ICDStep3D_theta2 (e w : ℤ → ℤ → ℝ) (A : SysMatrix2D ℝ) (icd_info : ICDInfo ℝ) :
    (ICDStep3D e w A icd_info).2.theta2 =
      dataTheta2 w A icd_info
      + (icd_info.Rparams.b_nearest * sumFromTo 0 4 (fun s =>
            QGGMRF_SurrogateCoeff (icd_info.v - icd_info.neighbors s) icd_info)
         + icd_info.Rparams.b_diag * sumFromTo 6 10 (fun s =>
            QGGMRF_SurrogateCoeff (icd_info.v - icd_info.neighbors s) icd_info)
         + icd_info.Rparams.b_interslice * sumFromTo 4 6 (fun s =>
            QGGMRF_SurrogateCoeff (icd_info.v - icd_info.neighbors s) icd_info)) := by
  rw [ICDStep3D_eq, QGGMRF3D_UpdateICDParams_eq]
  simp only [zero_add]
  congr 2

theorem ICDStep3D_value (e w : ℤ → ℤ → ℝ) (A : SysMatrix2D ℝ) (icd_info : ICDInfo ℝ) :
    (ICDStep3D e w A icd_info).1 =
      if (ICDStep3D e w A icd_info).2.theta2 = 0 then none
      else some (icd_info.v
        - (ICDStep3D e w A icd_info).2.theta1 / (ICDStep3D e w A icd_info).2.theta2) := by
  rw [ICDStep3D_eq, QGGMRF3D_UpdateICDParams_eq]

/-- C3. `ICDStep3D` computes the Newton step of the spec: whatever `theta1`, `theta2` held on
entry, on return `theta1` is minus the sum of `a_n * w[z][k_n] * e[z][k_n]` over the column
plus the three weighted neighbour sums of `a(d_s) * d_s` (slots 0..3 nearest, 4..5 inter-slice,
6..9 diagonal), `theta2` is the sum of `a_n^2 * w[z][k_n]` plus the three weighted sums of
`a(d_s)`, and the returned value is `v - theta1 / theta2` (the quotient being a number
exactly when `theta2` is not zero). -/
theorem ICDStep3D_computes_newton_step (e w : ℤ → ℤ → ℝ) (A : SysMatrix2D ℝ)
    (icd_info : ICDInfo ℝ) (hI : 0 ≤ icd_info.VoxelIndex) (hNxy : 0 < icd_info.Nxy) :
    (ICDStep3D e w A icd_info).2.theta1 =
      - (sumTo (A.column (icd_info.VoxelIndex % icd_info.Nxy)).Nnonzero fun n =>
          (A.column (icd_info.VoxelIndex % icd_info.Nxy)).Value n
            * w (icd_info.VoxelIndex / icd_info.Nxy)
                ((A.column (icd_info.VoxelIndex % icd_info.Nxy)).RowIndex n)
            * e (icd_info.VoxelIndex / icd_info.Nxy)
                ((A.column (icd_info.VoxelIndex % icd_info.Nxy)).RowIndex n))
      + icd_info.Rparams.b_nearest * sumFromTo 0 4 (fun s =>
          QGGMRF_SurrogateCoeff (icd_info.v - icd_info.neighbors s) icd_info
            * (icd_info.v - icd_info.neighbors s))
      + icd_info.Rparams.b_interslice * sumFromTo 4 6 (fun s =>
          QGGMRF_SurrogateCoeff (icd_info.v - icd_info.neighbors s) icd_info
            * (icd_info.v - icd_info.neighbors s))
      + icd_info.Rparams.b_diag * sumFromTo 6 10 (fun s =>
          QGGMRF_SurrogateCoeff (icd_info.v - icd_info.neighbors s) icd_info
            * (icd_info.v - icd_info.neighbors s))
    ∧ (ICDStep3D e w A icd_info).2.theta2 =
      (sumTo (A.column (icd_info.VoxelIndex % icd_info.Nxy)).Nnonzero fun n =>
          (A.column (icd_info.VoxelIndex % icd_info.Nxy)).Value n ^ 2
            * w (icd_info.VoxelIndex / icd_info.Nxy)
                ((A.column (icd_info.VoxelIndex % icd_info.Nxy)).RowIndex n))
      + icd_info.Rparams.b_nearest * sumFromTo 0 4 (fun s =>
          QGGMRF_SurrogateCoeff (icd_info.v - icd_info.neighbors s) icd_info)
      + icd_info.Rparams.b_interslice * sumFromTo 4 6 (fun s =>
          QGGMRF_SurrogateCoeff (icd_info.v - icd_info.neighbors s) icd_info)
      + icd_info.Rparams.b_diag * sumFromTo 6 10 (fun s =>
          QGGMRF_SurrogateCoeff (icd_info.v - icd_info.neighbors s) icd_info)
    ∧ (ICDStep3D e w A icd_info).1 =
      (if (ICDStep3D e w A icd_info).2.theta2 = 0 then none
       else some (icd_info.v
        - (ICDStep3D e w A icd_info).2.theta1 / (ICDStep3D e w A icd_info).2.theta2)) := by
  have hdiv : icd_info.VoxelIndex.tdiv icd_info.Nxy = icd_info.VoxelIndex / icd_info.Nxy :=
    Int.tdiv_eq_ediv hI hNxy.le
  have hmod : icd_info.VoxelIndex.tmod icd_info.Nxy = icd_info.VoxelIndex % icd_info.Nxy :=
    Int.tmod_eq_emod hI hNxy.le
  refine ⟨?_, ?_, ICDStep3D_value e w A icd_info⟩
  · rw [ICDStep3D_theta1]
    unfold dataTheta1
    rw [hdiv, hmod]
    ring
  · rw [ICDStep3D_theta2]
    unfold dataTheta2
    rw [hdiv, hmod]
    have : ∀ n : ℤ, (A.column (icd_info.VoxelIndex % icd_info.Nxy)).Value n
          * w (icd_info.VoxelIndex / icd_info.Nxy)
              ((A.column (icd_info.VoxelIndex % icd_info.Nxy)).RowIndex n)
          * (A.column (icd_info.VoxelIndex % icd_info.Nxy)).Value n
        = (A.column (icd_info.VoxelIndex % icd_info.Nxy)).Value n ^ 2
          * w (icd_info.VoxelIndex / icd_info.Nxy)
              ((A.column (icd_info.VoxelIndex % icd_info.Nxy)).RowIndex n) := by
      intro n; ring
    simp only [this]
    ring

/-! ### Neighbour wrap-around -/

theorem wrap_plus (a N : ℤ) (h0 : 0 ≤ a) (h1 : a < N) :
    (if a + 1 < N then a + 1 else 0) = (a + 1) % N := by
  split_ifs with h
  · exact (Int.emod_eq_of_lt (by omega) h).symm
  · have : a + 1 = N := by omega
    rw [this, Int.emod_self]

theorem wrap_minus (a N : ℤ) (h0 : 0 ≤ a) (h1 : a < N) :
    (if a - 1 < 0 then N - 1 else a - 1) = (a - 1) % N := by
  split_ifs with h
  · have : a - 1 = (N - 1) + (-1) * N := by omega
    rw [this, Int.add_mul_emod_self, Int.emod_eq_of_lt (by omega) (by omega)]
  · exact (Int.emod_eq_of_lt (by omega) (by omega)).symm

/-- Decomposition of a voxel index into its three coordinates, as done by C integer
division and remainder. -/
theorem voxel_decompose (Nx Ny x y z : ℤ) (hx0 : 0 ≤ x) (hx1 : x < Nx) (hy0 : 0 ≤ y)
    (hy1 : y < Ny) (hz0 : 0 ≤ z) :
    (z * Nx * Ny + y * Nx + x).tdiv (Ny * Nx) = z
    ∧ ((z * Nx * Ny + y * Nx + x).tdiv Nx).tmod Ny = y
    ∧ (z * Nx * Ny + y * Nx + x).tmod Nx = x := by
  have hNx : 0 < Nx := by omega
  have hNy : 0 < Ny := by omega
  have hyN : 0 ≤ y * Nx := mul_nonneg hy0 hNx.le
  have hzN : 0 ≤ z * Nx * Ny := mul_nonneg (mul_nonneg hz0 hNx.le) hNy.le
  have hyx0 : 0 ≤ y * Nx + x := by omega
  have hyx1 : y * Nx + x < Ny * Nx := by nlinarith
  have hI0 : 0 ≤ z * Nx * Ny + y * Nx + x := by omega
  have hNN : 0 < Ny * Nx := mul_pos hNy hNx
  have hyz : 0 ≤ y + Ny * z := by have := mul_nonneg hNy.le hz0; omega
  have e1 : z * Nx * Ny + y * Nx + x = (y * Nx + x) + (Ny * Nx) * z := by ring
  have e2 : z * Nx * Ny + y * Nx + x = x + Nx * (y + Ny * z) := by ring
  have hq : (z * Nx * Ny + y * Nx + x) / Nx = y + Ny * z := by
    rw [e2, Int.add_mul_ediv_left _ _ hNx.ne', Int.ediv_eq_zero_of_lt hx0 hx1, zero_add]
  refine ⟨?_, ?_, ?_⟩
  · rw [Int.tdiv_eq_ediv hI0 hNN.le, e1,
      Int.add_mul_ediv_left _ _ hNN.ne',
      Int.ediv_eq_zero_of_lt hyx0 hyx1, zero_add]
  · rw [Int.tdiv_eq_ediv hI0 hNx.le, hq, Int.tmod_eq_emod hyz hNy.le,
      Int.add_mul_emod_self_left, Int.emod_eq_of_lt hy0 hy1]
  · rw [Int.tmod_eq_emod hI0 hNx.le, e2, Int.add_mul_emod_self_left, Int.emod_eq_of_lt hx0 hx1]

theorem NeighborPosition_eq (Nx Ny Nz x y z : ℤ) (hx0 : 0 ≤ x) (hx1 : x < Nx) (hy0 : 0 ≤ y)
    (hy1 : y < Ny) (hz0 : 0 ≤ z) (hz1 : z < Nz) (s : ℤ) :
    NeighborPosition Nx Ny Nz (z * Nx * Ny + y * Nx + x) s =
      if s = 0 then (z, y * Nx + (x + 1) % Nx)
      else if s = 1 then (z, y * Nx + (x - 1) % Nx)
      else if s = 2 then (z, (y + 1) % Ny * Nx + x)
      else if s = 3 then (z, (y - 1) % Ny * Nx + x)
      else if s = 4 then ((z + 1) % Nz, y * Nx + x)
      else if s = 5 then ((z - 1) % Nz, y * Nx + x)
      else if s = 6 then (z, (y + 1) % Ny * Nx + (x + 1) % Nx)
      else if s = 7 then (z, (y + 1) % Ny * Nx + (x - 1) % Nx)
      else if s = 8 then (z, (y - 1) % Ny * Nx + (x + 1) % Nx)
      else (z, (y - 1) % Ny * Nx + (x - 1) % Nx) := by
  obtain ⟨h1, h2, h3⟩ := voxel_decompose Nx Ny x y z hx0 hx1 hy0 hy1 hz0
  unfold NeighborPosition
  simp only [h1, h2, h3]
  rw [wrap_plus x Nx hx0 hx1, wrap_minus x Nx hx0 hx1, wrap_plus y Ny hy0 hy1,
    wrap_minus y Ny hy0 hy1, wrap_plus z Nz hz0 hz1, wrap_minus z Nz hz0 hz1]

theorem pixel_index_range (Nx Ny a b : ℤ) (ha0 : 0 ≤ a) (ha1 : a < Nx) (hb0 : 0 ≤ b)
    (hb1 : b < Ny) : 0 ≤ b * Nx + a ∧ b * Nx + a < Nx * Ny := by
  have hNx : 0 ≤ Nx := by omega
  have := mul_nonneg hb0 hNx
  constructor
  · omega
  · nlinarith

/-- C4. Neighbour wrap-around: for a voxel `(x, y, z)` inside an `Nx * Ny * Nz` image,
`ExtractNeighbors3D` sets slots 0..9 to the image values at `(x+1,y,z)`, `(x-1,y,z)`,
`(x,y+1,z)`, `(x,y-1,z)`, `(x,y,z+1)`, `(x,y,z-1)`, `(x+1,y+1,z)`, `(x-1,y+1,z)`,
`(x+1,y-1,z)`, `(x-1,y-1,z)`, coordinates taken modulo the image size, and every array
position it reads is in range. -/
theorem ExtractNeighbors3D_wraps (icd_info : ICDInfo ℝ) (Image : Image3D ℝ) (x y z : ℤ)
    (hx0 : 0 ≤ x) (hx1 : x < Image.imgparams.Nx) (hy0 : 0 ≤ y) (hy1 : y < Image.imgparams.Ny)
    (hz0 : 0 ≤ z) (hz1 : z < Image.imgparams.Nz)
    (hI : icd_info.VoxelIndex
      = z * Image.imgparams.Nx * Image.imgparams.Ny + y * Image.imgparams.Nx + x) :
    (ExtractNeighbors3D icd_info Image).neighbors 0 = voxelAt Image (x + 1) y z
    ∧ (ExtractNeighbors3D icd_info Image).neighbors 1 = voxelAt Image (x - 1) y z
    ∧ (ExtractNeighbors3D icd_info Image).neighbors 2 = voxelAt Image x (y + 1) z
    ∧ (ExtractNeighbors3D icd_info Image).neighbors 3 = voxelAt Image x (y - 1) z
    ∧ (ExtractNeighbors3D icd_info Image).neighbors 4 = voxelAt Image x y (z + 1)
    ∧ (ExtractNeighbors3D icd_info Image).neighbors 5 = voxelAt Image x y (z - 1)
    ∧ (ExtractNeighbors3D icd_info Image).neighbors 6 = voxelAt Image (x + 1) (y + 1) z
    ∧ (ExtractNeighbors3D icd_info Image).neighbors 7 = voxelAt Image (x - 1) (y + 1) z
    ∧ (ExtractNeighbors3D icd_info Image).neighbors 8 = voxelAt Image (x + 1) (y - 1) z
    ∧ (ExtractNeighbors3D icd_info Image).neighbors 9 = voxelAt Image (x - 1) (y - 1) z
    ∧ ∀ s, 0 ≤ s → s < 10 →
        0 ≤ (NeighborPosition Image.imgparams.Nx Image.imgparams.Ny Image.imgparams.Nz
              icd_info.VoxelIndex s).1
        ∧ (NeighborPosition Image.imgparams.Nx Image.imgparams.Ny Image.imgparams.Nz
              icd_info.VoxelIndex s).1 < Image.imgparams.Nz
        ∧ 0 ≤ (NeighborPosition Image.imgparams.Nx Image.imgparams.Ny Image.imgparams.Nz
              icd_info.VoxelIndex s).2
        ∧ (NeighborPosition Image.imgparams.Nx Image.imgparams.Ny Image.imgparams.Nz
              icd_info.VoxelIndex s).2 < Image.imgparams.Nx * Image.imgparams.Ny := by
  have hNx : 0 < Image.imgparams.Nx := by omega
  have hNy : 0 < Image.imgparams.Ny := by omega
  have hNz : 0 < Image.imgparams.Nz := by omega
  have hpos := NeighborPosition_eq Image.imgparams.Nx Image.imgparams.Ny Image.imgparams.Nz
    x y z hx0 hx1 hy0 hy1 hz0 hz1
  have mx := Int.emod_eq_of_lt hx0 hx1
  have my := Int.emod_eq_of_lt hy0 hy1
  have mz := Int.emod_eq_of_lt hz0 hz1
  have px0 := Int.emod_nonneg (x + 1) hNx.ne'
  have px1 := Int.emod_lt_of_pos (x + 1) hNx
  have qx0 := Int.emod_nonneg (x - 1) hNx.ne'
  have qx1 := Int.emod_lt_of_pos (x - 1) hNx
  have py0 := Int.emod_nonneg (y + 1) hNy.ne'
  have py1 := Int.emod_lt_of_pos (y + 1) hNy
  have qy0 := Int.emod_nonneg (y - 1) hNy.ne'
  have qy1 := Int.emod_lt_of_pos (y - 1) hNy
  have pz0 := Int.emod_nonneg (z + 1) hNz.ne'
  have pz1 := Int.emod_lt_of_pos (z + 1) hNz
  have qz0 := Int.emod_nonneg (z - 1) hNz.ne'
  have qz1 := Int.emod_lt_of_pos (z - 1) hNz
  refine ⟨?_, ?_, ?_, ?_, ?_, ?_, ?_, ?_, ?_, ?_, ?_⟩
  case refine_11 =>
    intro s hs0 hs1
    rw [hI, hpos s]
    have hr := pixel_index_range Image.imgparams.Nx Image.imgparams.Ny
    interval_cases s
    all_goals
      norm_num
      refine ⟨by assumption, by assumption, ?_⟩
      apply hr <;> assumption
  all_goals
    unfold ExtractNeighbors3D voxelAt
    simp only [hI, hpos, mx, my, mz]
    norm_num

/-! ### The column loops as a run over the list of visited (view, channel) pairs -/

theorem foldl_bind_eq_runSteps {σ ι : Type} (f : ι → σ → Option σ) (l : List ι)
    (st : Option σ) :
    l.foldl (fun st i => st.bind (f i)) st = st.bind (runSteps f l) := by
  induction l generalizing st with
  | nil => cases st <;> rfl
  | cons i l ih =>
    rw [List.foldl_cons, ih]
    cases st with
    | none => rfl
    | some s => rfl

theorem forLoop_bind_eq_runSteps {σ : Type} (lo hi : ℤ) (f : ℤ → σ → Option σ) (s : σ) :
    forLoop lo hi (fun i st => st.bind (f i)) (some s) = runSteps f (intRange lo hi) s := by
  unfold forLoop intRange
  have h := foldl_bind_eq_runSteps f
    ((List.range (hi - lo).toNat).map fun (k : ℕ) => lo + (k : ℤ)) (some s)
  rw [List.foldl_map] at h
  exact h

theorem runSteps_append {σ ι : Type} (f : ι → σ → Option σ) (l1 l2 : List ι) (s : σ) :
    runSteps f (l1 ++ l2) s = (runSteps f l1 s).bind (runSteps f l2) := by
  induction l1 generalizing s with
  | nil => rfl
  | cons i l ih =>
    simp only [List.cons_append, runSteps]
    cases f i s with
    | none => rfl
    | some s1 => exact ih s1

theorem runSteps_map {σ ι κ : Type} (f : κ → σ → Option σ) (g : ι → κ) (l : List ι) (s : σ) :
    runSteps f (l.map g) s = runSteps (fun i => f (g i)) l s := by
  induction l generalizing s with
  | nil => rfl
  | cons i l ih =>
    simp only [List.map_cons, runSteps]
    cases f (g i) s with
    | none => rfl
    | some s1 => exact ih s1

theorem runSteps_flatMap {σ ι κ : Type} (f : κ → σ → Option σ) (g : ι → List κ)
    (l : List ι) (s : σ) :
    runSteps f (l.flatMap g) s = runSteps (fun i => runSteps f (g i)) l s := by
  induction l generalizing s with
  | nil => rfl
  | cons i l ih =>
    simp only [List.flatMap_cons, runSteps, runSteps_append]
    cases runSteps f (g i) s with
    | none => rfl
    | some s1 => exact ih s1

theorem mem_intRange (lo hi i : ℤ) : i ∈ intRange lo hi ↔ lo ≤ i ∧ i < hi := by
  unfold intRange
  simp only [List.mem_map, List.mem_range]
  constructor
  · rintro ⟨k, hk, rfl⟩
    omega
  · intro h
    exact ⟨(i - lo).toNat, by omega, by omega⟩

theorem length_intRange (lo hi : ℤ) : (intRange lo hi).length = (hi - lo).toNat := by
  unfold intRange
  simp

theorem pairwise_intRange (lo hi : ℤ) : (intRange lo hi).Pairwise (· < ·) := by
  unfold intRange
  rw [List.pairwise_map]
  refine (List.pairwise_lt_range _).imp ?_
  intro a b hab
  omega

theorem viewStep_eq (cfg : BuildConfig) (sinoparams : SinoParams3DParallel)
    (imgparams : ImageParams3D ℝ) (pix_prof : ℤ → ℤ → ℝ) (ColumnIndex pr : ℤ)
    (st : ColumnState) :
    viewStep cfg sinoparams imgparams pix_prof ColumnIndex pr st
      = runSteps (channelStep cfg sinoparams imgparams pix_prof ColumnIndex pr)
          (visitedChannels sinoparams imgparams ColumnIndex pr) st := by
  unfold viewStep visitedChannels
  simp only []
  split_ifs with h
  · rfl
  · rw [forLoop_bind_eq_runSteps]

theorem ComputeSysMatrixColumn3DParallel_eq (cfg : BuildConfig) (ColumnIndex : ℤ)
    (sinoparams : SinoParams3DParallel) (imgparams : ImageParams3D ℝ)
    (pix_prof : ℤ → ℤ → ℝ) (A_Column : SparseColumn ℝ) :
    ComputeSysMatrixColumn3DParallel cfg ColumnIndex sinoparams imgparams pix_prof A_Column
      = (runSteps
          (fun p => channelStep cfg sinoparams imgparams pix_prof ColumnIndex p.1 p.2)
          (visitedPairs sinoparams imgparams ColumnIndex)
          { proj_count := 0, A_Column := A_Column }).map
        fun st => { st.A_Column with Nnonzero := st.proj_count } := by
  unfold ComputeSysMatrixColumn3DParallel visitedPairs
  simp only []
  rw [forLoop_bind_eq_runSteps, runSteps_flatMap]
  congr 2
  funext pr st
  rw [viewStep_eq, runSteps_map]

/-- Effect of a run of channel steps that does not exit: the kept entries are appended
from position `proj_count` on, and nothing else in the buffers changes. -/
theorem runSteps_entries (cfg : BuildConfig) (sinoparams : SinoParams3DParallel)
    (imgparams : ImageParams3D ℝ) (pix_prof : ℤ → ℤ → ℝ) (ColumnIndex : ℤ)
    (l : List (ℤ × ℤ)) (st st' : ColumnState)
    (h : runSteps (fun p => channelStep cfg sinoparams imgparams pix_prof ColumnIndex p.1 p.2)
      l st = some st') :
    st'.proj_count = st.proj_count
        + ((l.filterMap (keptEntry cfg sinoparams imgparams pix_prof ColumnIndex)).length : ℤ)
    ∧ (∀ n, n < st.proj_count ∨ st'.proj_count ≤ n →
        st'.A_Column.RowIndex n = st.A_Column.RowIndex n
        ∧ st'.A_Column.Value n = st.A_Column.Value n)
    ∧ (∀ (k : ℕ) (r : ℤ) (a : ℝ),
        (l.filterMap (keptEntry cfg sinoparams imgparams pix_prof ColumnIndex))[k]? = some (r, a) →
        st'.A_Column.RowIndex (st.proj_count + (k : ℤ)) = r
        ∧ st'.A_Column.Value (st.proj_count + (k : ℤ)) = a) := by
  induction l generalizing st with
  | nil =>
    simp only [runSteps, Option.some.injEq] at h
    subst h
    simp
  | cons p l ih =>
    simp only [runSteps, channelStep] at h
    cases hA : channelAval cfg sinoparams imgparams pix_prof ColumnIndex p.1 p.2 with
    | none => rw [hA] at h; simp at h
    | some Aval =>
      rw [hA] at h
      by_cases hpos : Aval > 0
      · simp only [hpos, if_true, Option.bind_some] at h
        have hk : keptEntry cfg sinoparams imgparams pix_prof ColumnIndex p
            = some (p.1 * sinoparams.NChannels + p.2, Aval) := by
          unfold keptEntry; rw [hA]; simp [hpos]
        obtain ⟨h1, h2, h3⟩ := ih _ h
        rw [List.filterMap_cons_some hk]
        simp only [appendEntry] at h1 h2 h3
        have hlen := Int.natCast_nonneg
          (l.filterMap (keptEntry cfg sinoparams imgparams pix_prof ColumnIndex)).length
        refine ⟨?_, ?_, ?_⟩
        · rw [h1, List.length_cons]; push_cast; ring
        · intro n hn
          have hne : n ≠ st.proj_count := by omega
          obtain ⟨e1, e2⟩ := h2 n (by omega)
          rw [e1, e2, Function.update_noteq hne, Function.update_noteq hne]
          exact ⟨rfl, rfl⟩
        · intro k r a hka
          cases k with
          | zero =>
            simp only [List.getElem?_cons_zero, Option.some.injEq, Prod.mk.injEq] at hka
            obtain ⟨e1, e2⟩ := h2 st.proj_count (by omega)
            simp only [Nat.cast_zero, add_zero]
            rw [e1, e2, Function.update_same, Function.update_same]
            exact ⟨hka.1, hka.2⟩
          | succ k =>
            simp only [List.getElem?_cons_succ] at hka
            have := h3 k r a hka
            have e : st.proj_count + ((k + 1 : ℕ) : ℤ) = st.proj_count + 1 + (k : ℤ) := by
              push_cast; ring
            rw [e]
            exact this
      · simp only [hpos, if_false, Option.bind_some] at h
        have hk : keptEntry cfg sinoparams imgparams pix_prof ColumnIndex p = none := by
          unfold keptEntry; rw [hA]; simp [hpos]
        rw [List.filterMap_cons_none hk]
        exact ih _ h

/-- A run of channel steps exits exactly when some visited pair has no value. -/
theorem runSteps_eq_none_iff (cfg : BuildConfig) (sinoparams : SinoParams3DParallel)
    (imgparams : ImageParams3D ℝ) (pix_prof : ℤ → ℤ → ℝ) (ColumnIndex : ℤ)
    (l : List (ℤ × ℤ)) (st : ColumnState) :
    runSteps (fun p => channelStep cfg sinoparams imgparams pix_prof ColumnIndex p.1 p.2)
      l st = none
    ↔ ∃ p ∈ l, channelAval cfg sinoparams imgparams pix_prof ColumnIndex p.1 p.2 = none := by
  induction l generalizing st with
  | nil => simp [runSteps]
  | cons p l ih =>
    simp only [runSteps, channelStep, List.mem_cons, exists_eq_or_imp]
    cases hA : channelAval cfg sinoparams imgparams pix_prof ColumnIndex p.1 p.2 with
    | none => simp
    | some Aval =>
      by_cases hpos : Aval > 0
      · simp only [hpos, if_true, Option.bind_some, false_or, reduceCtorEq]
        exact ih _
      · simp only [hpos, if_false, Option.bind_some, false_or, reduceCtorEq]
        exact ih _

theorem channelMin_nonneg (t_min t0 DeltaChannel : ℝ) :
    0 ≤ channelMin t_min t0 DeltaChannel := by
  unfold channelMin
  simp only []
  split_ifs with h
  · exact le_rfl
  · omega

theorem channelMax_lt (t_max t0 DeltaChannel : ℝ) (NChannels : ℤ) :
    channelMax t_max t0 DeltaChannel NChannels < NChannels := by
  unfold channelMax
  simp only []
  split_ifs with h
  · omega
  · omega

theorem mem_visitedChannels_range (sinoparams : SinoParams3DParallel)
    (imgparams : ImageParams3D ℝ) (ColumnIndex pr i : ℤ)
    (h : i ∈ visitedChannels sinoparams imgparams ColumnIndex pr) :
    0 ≤ i ∧ i < sinoparams.NChannels := by
  unfold visitedChannels at h
  simp only [] at h
  split_ifs at h with hs
  · simp at h
  · rw [mem_intRange] at h
    have h1 := channelMin_nonneg
      (projectedCenter sinoparams imgparams ColumnIndex pr - imgparams.Deltaxy)
      (t_0 sinoparams) sinoparams.DeltaChannel
    have h2 := channelMax_lt
      (projectedCenter sinoparams imgparams ColumnIndex pr - imgparams.Deltaxy
        + 2 * imgparams.Deltaxy) (t_0 sinoparams) sinoparams.DeltaChannel sinoparams.NChannels
    omega

theorem length_visitedChannels_le (sinoparams : SinoParams3DParallel)
    (imgparams : ImageParams3D ℝ) (ColumnIndex pr : ℤ) :
    (visitedChannels sinoparams imgparams ColumnIndex pr).length ≤ sinoparams.NChannels.toNat := by
  unfold visitedChannels
  simp only []
  split_ifs with hs
  · simp
  · rw [length_intRange]
    have h1 := channelMin_nonneg
      (projectedCenter sinoparams imgparams ColumnIndex pr - imgparams.Deltaxy)
      (t_0 sinoparams) sinoparams.DeltaChannel
    have h2 := channelMax_lt
      (projectedCenter sinoparams imgparams ColumnIndex pr - imgparams.Deltaxy
        + 2 * imgparams.Deltaxy) (t_0 sinoparams) sinoparams.DeltaChannel sinoparams.NChannels
    omega

theorem pairwise_visitedChannels (sinoparams : SinoParams3DParallel)
    (imgparams : ImageParams3D ℝ) (ColumnIndex pr : ℤ) :
    (visitedChannels sinoparams imgparams ColumnIndex pr).Pairwise (· < ·) := by
  unfold visitedChannels
  simp only []
  split_ifs with hs
  · exact List.Pairwise.nil
  · exact pairwise_intRange _ _

theorem mem_visitedPairs (sinoparams : SinoParams3DParallel)
    (imgparams : ImageParams3D ℝ) (ColumnIndex : ℤ) (p : ℤ × ℤ) :
    p ∈ visitedPairs sinoparams imgparams ColumnIndex
      ↔ (0 ≤ p.1 ∧ p.1 < sinoparams.NViews)
        ∧ p.2 ∈ visitedChannels sinoparams imgparams ColumnIndex p.1 := by
  unfold visitedPairs
  simp only [List.mem_flatMap, List.mem_map, mem_intRange]
  constructor
  · rintro ⟨pr, hpr, i, hi, rfl⟩
    exact ⟨hpr, hi⟩
  · rintro ⟨hpr, hi⟩
    exact ⟨p.1, hpr, p.2, hi, rfl⟩

theorem length_flatMap_le {ι κ : Type} (g : ι → List κ) (m : ℕ) (l : List ι)
    (h : ∀ x, (g x).length ≤ m) : (l.flatMap g).length ≤ l.length * m := by
  induction l with
  | nil => simp
  | cons x l ih =>
    rw [List.flatMap_cons, List.length_append, List.length_cons, Nat.succ_mul]
    have := h x
    omega

theorem length_visitedPairs_le (sinoparams : SinoParams3DParallel)
    (imgparams : ImageParams3D ℝ) (ColumnIndex : ℤ) :
    (visitedPairs sinoparams imgparams ColumnIndex).length
      ≤ sinoparams.NViews.toNat * sinoparams.NChannels.toNat := by
  unfold visitedPairs
  have := length_flatMap_le
    (fun pr => (visitedChannels sinoparams imgparams ColumnIndex pr).map fun i => (pr, i))
    sinoparams.NChannels.toNat (intRange 0 sinoparams.NViews)
    (fun pr => by
      rw [List.length_map]; exact length_visitedChannels_le sinoparams imgparams ColumnIndex pr)
  rw [length_intRange, sub_zero] at this
  exact this

/-- Visited pairs come in strictly increasing order of their row index. -/
theorem pairwise_visitedPairs (sinoparams : SinoParams3DParallel)
    (imgparams : ImageParams3D ℝ) (ColumnIndex : ℤ) :
    (visitedPairs sinoparams imgparams ColumnIndex).Pairwise
      (fun p q => p.1 * sinoparams.NChannels + p.2 < q.1 * sinoparams.NChannels + q.2) := by
  unfold visitedPairs
  rw [List.pairwise_flatMap]
  constructor
  · intro pr _
    rw [List.pairwise_map]
    refine (pairwise_visitedChannels sinoparams imgparams ColumnIndex pr).imp ?_
    intro a b hab
    simp only
    omega
  · refine (pairwise_intRange 0 sinoparams.NViews).imp ?_
    intro a b hab x hx y hy
    simp only [List.mem_map] at hx hy
    obtain ⟨i, hi, rfl⟩ := hx
    obtain ⟨j, hj, rfl⟩ := hy
    have h1 := mem_visitedChannels_range sinoparams imgparams ColumnIndex a i hi
    have h2 := mem_visitedChannels_range sinoparams imgparams ColumnIndex b j hj
    simp only
    have : (a + 1) * sinoparams.NChannels ≤ b * sinoparams.NChannels :=
      mul_le_mul_of_nonneg_right (by omega) (by omega)
    nlinarith

/-- A returned column holds exactly the kept entries in its first `Nnonzero` places, and the
buffers are unchanged elsewhere. -/
theorem column_entries (cfg : BuildConfig) (ColumnIndex : ℤ)
    (sinoparams : SinoParams3DParallel) (imgparams : ImageParams3D ℝ)
    (pix_prof : ℤ → ℤ → ℝ) (A_Column col : SparseColumn ℝ)
    (h : ComputeSysMatrixColumn3DParallel cfg ColumnIndex sinoparams imgparams pix_prof A_Column
      = some col) :
    col.Nnonzero = ((keptEntries cfg sinoparams imgparams pix_prof ColumnIndex).length : ℤ)
    ∧ (∀ n, n < 0 ∨ col.Nnonzero ≤ n →
        col.RowIndex n = A_Column.RowIndex n ∧ col.Value n = A_Column.Value n)
    ∧ (∀ (k : ℕ) (r : ℤ) (a : ℝ),
        (keptEntries cfg sinoparams imgparams pix_prof ColumnIndex)[k]? = some (r, a) →
        col.RowIndex (k : ℤ) = r ∧ col.Value (k : ℤ) = a) := by
  rw [ComputeSysMatrixColumn3DParallel_eq] at h
  cases hr : runSteps
      (fun p => channelStep cfg sinoparams imgparams pix_prof ColumnIndex p.1 p.2)
      (visitedPairs sinoparams imgparams ColumnIndex)
      { proj_count := 0, A_Column := A_Column } with
  | none => rw [hr] at h; simp at h
  | some st =>
    rw [hr] at h
    simp only [Option.map_some', Option.some.injEq] at h
    obtain ⟨h1, h2, h3⟩ := runSteps_entries cfg sinoparams imgparams pix_prof ColumnIndex _ _ _ hr
    subst h
    simp only [zero_add] at h1 h2 h3
    exact ⟨h1, h2, h3⟩

/-- Every entry of a returned column, read by position. -/
theorem column_entry_at (cfg : BuildConfig) (ColumnIndex : ℤ)
    (sinoparams : SinoParams3DParallel) (imgparams : ImageParams3D ℝ)
    (pix_prof : ℤ → ℤ → ℝ) (A_Column col : SparseColumn ℝ)
    (h : ComputeSysMatrixColumn3DParallel cfg ColumnIndex sinoparams imgparams pix_prof A_Column
      = some col) (n : ℤ) (hn0 : 0 ≤ n) (hn1 : n < col.Nnonzero) :
    ∃ hlt : n.toNat < (keptEntries cfg sinoparams imgparams pix_prof ColumnIndex).length,
      (keptEntries cfg sinoparams imgparams pix_prof ColumnIndex)[n.toNat]
        = (col.RowIndex n, col.Value n) := by
  obtain ⟨h1, _, h3⟩ := column_entries cfg ColumnIndex sinoparams imgparams pix_prof A_Column col h
  have hlt : n.toNat < (keptEntries cfg sinoparams imgparams pix_prof ColumnIndex).length := by
    omega
  refine ⟨hlt, ?_⟩
  have := h3 n.toNat _ _ (List.getElem?_eq_getElem hlt)
  have hn : ((n.toNat : ℕ) : ℤ) = n := by omega
  rw [hn] at this
  exact Prod.ext this.1.symm this.2.symm

theorem keptEntry_eq_some (cfg : BuildConfig) (sinoparams : SinoParams3DParallel)
    (imgparams : ImageParams3D ℝ) (pix_prof : ℤ → ℤ → ℝ) (ColumnIndex : ℤ)
    (p : ℤ × ℤ) (r : ℤ) (a : ℝ) :
    keptEntry cfg sinoparams imgparams pix_prof ColumnIndex p = some (r, a)
      ↔ channelAval cfg sinoparams imgparams pix_prof ColumnIndex p.1 p.2 = some a
        ∧ 0 < a ∧ r = p.1 * sinoparams.NChannels + p.2 := by
  unfold keptEntry
  cases hA : channelAval cfg sinoparams imgparams pix_prof ColumnIndex p.1 p.2 with
  | none => simp
  | some Aval =>
    by_cases hpos : Aval > 0
    · simp only [hpos, if_true, Option.some.injEq, Prod.mk.injEq]
      constructor
      · rintro ⟨rfl, rfl⟩
        exact ⟨rfl, hpos, rfl⟩
      · rintro ⟨rfl, _, rfl⟩
        exact ⟨rfl, rfl⟩
    · simp only [hpos, if_false, Option.some.injEq, false_iff, not_and, reduceCtorEq]
      rintro rfl h
      exact absurd h hpos

theorem mem_keptEntries (cfg : BuildConfig) (sinoparams : SinoParams3DParallel)
    (imgparams : ImageParams3D ℝ) (pix_prof : ℤ → ℤ → ℝ) (ColumnIndex : ℤ)
    (r : ℤ) (a : ℝ) :
    (r, a) ∈ keptEntries cfg sinoparams imgparams pix_prof ColumnIndex
      ↔ ∃ p ∈ visitedPairs sinoparams imgparams ColumnIndex,
          channelAval cfg sinoparams imgparams pix_prof ColumnIndex p.1 p.2 = some a
          ∧ 0 < a ∧ r = p.1 * sinoparams.NChannels + p.2 := by
  unfold keptEntries
  rw [List.mem_filterMap]
  constructor
  · rintro ⟨p, hp, hk⟩
    exact ⟨p, hp, (keptEntry_eq_some cfg sinoparams imgparams pix_prof ColumnIndex p r a).mp hk⟩
  · rintro ⟨p, hp, hk⟩
    exact ⟨p, hp, (keptEntry_eq_some cfg sinoparams imgparams pix_prof ColumnIndex p r a).mpr hk⟩

theorem pairwise_keptEntries (cfg : BuildConfig) (sinoparams : SinoParams3DParallel)
    (imgparams : ImageParams3D ℝ) (pix_prof : ℤ → ℤ → ℝ) (ColumnIndex : ℤ) :
    (keptEntries cfg sinoparams imgparams pix_prof ColumnIndex).Pairwise
      (fun u v => u.1 < v.1) := by
  unfold keptEntries
  refine List.Pairwise.filterMap _ ?_ (pairwise_visitedPairs sinoparams imgparams ColumnIndex)
  intro p q hpq u hu v hv
  obtain ⟨r, a⟩ := u
  obtain ⟨r', a'⟩ := v
  rw [Option.mem_def, keptEntry_eq_some] at hu hv
  simp only
  rw [hu.2.2, hv.2.2]
  exact hpq

theorem length_keptEntries_le (cfg : BuildConfig) (sinoparams : SinoParams3DParallel)
    (imgparams : ImageParams3D ℝ) (pix_prof : ℤ → ℤ → ℝ) (ColumnIndex : ℤ) :
    (keptEntries cfg sinoparams imgparams pix_prof ColumnIndex).length
      ≤ sinoparams.NViews.toNat * sinoparams.NChannels.toNat :=
  le_trans (List.length_filterMap_le _ _) (length_visitedPairs_le sinoparams imgparams ColumnIndex)

/-- Row indices of a returned column increase strictly with the position. -/
theorem column_rows_increasing (cfg : BuildConfig) (ColumnIndex : ℤ)
    (sinoparams : SinoParams3DParallel) (imgparams : ImageParams3D ℝ)
    (pix_prof : ℤ → ℤ → ℝ) (A_Column col : SparseColumn ℝ)
    (h : ComputeSysMatrixColumn3DParallel cfg ColumnIndex sinoparams imgparams pix_prof A_Column
      = some col) (n m : ℤ) (hn : 0 ≤ n) (hnm : n < m) (hm : m < col.Nnonzero) :
    col.RowIndex n < col.RowIndex m := by
  obtain ⟨hn1, en⟩ := column_entry_at cfg ColumnIndex sinoparams imgparams pix_prof A_Column
    col h n hn (by omega)
  obtain ⟨hm1, em⟩ := column_entry_at cfg ColumnIndex sinoparams imgparams pix_prof A_Column
    col h m (by omega) hm
  have := List.pairwise_iff_getElem.mp
    (pairwise_keptEntries cfg sinoparams imgparams pix_prof ColumnIndex)
    n.toNat m.toNat hn1 hm1 (by omega)
  rw [en, em] at this
  exact this

/-- Every entry of a returned column comes from a visited pair with positive `Aval`. -/
theorem column_entry_origin (cfg : BuildConfig) (ColumnIndex : ℤ)
    (sinoparams : SinoParams3DParallel) (imgparams : ImageParams3D ℝ)
    (pix_prof : ℤ → ℤ → ℝ) (A_Column col : SparseColumn ℝ)
    (h : ComputeSysMatrixColumn3DParallel cfg ColumnIndex sinoparams imgparams pix_prof A_Column
      = some col) (n : ℤ) (hn0 : 0 ≤ n) (hn1 : n < col.Nnonzero) :
    ∃ p ∈ visitedPairs sinoparams imgparams ColumnIndex,
      channelAval cfg sinoparams imgparams pix_prof ColumnIndex p.1 p.2 = some (col.Value n)
      ∧ 0 < col.Value n ∧ col.RowIndex n = p.1 * sinoparams.NChannels + p.2 := by
  obtain ⟨hlt, en⟩ := column_entry_at cfg ColumnIndex sinoparams imgparams pix_prof A_Column
    col h n hn0 hn1
  have hmem : (col.RowIndex n, col.Value n)
      ∈ keptEntries cfg sinoparams imgparams pix_prof ColumnIndex := by
    rw [← en]; exact List.getElem_mem hlt
  exact (mem_keptEntries cfg sinoparams imgparams pix_prof ColumnIndex _ _).mp hmem

/-- C5. Column bound: when `ComputeSysMatrixColumn3DParallel` returns, `Nnonzero` lies between
0 and `NViews * NChannels` (so every write into a temporary column of that capacity is in
bounds) and the stored row indices are pairwise distinct. -/
theorem ComputeSysMatrixColumn3DParallel_column_bound (cfg : BuildConfig) (ColumnIndex : ℤ)
    (sinoparams : SinoParams3DParallel) (imgparams : ImageParams3D ℝ)
    (pix_prof : ℤ → ℤ → ℝ) (A_Column col : SparseColumn ℝ)
    (hViews : 1 ≤ sinoparams.NViews) (hChannels : 1 ≤ sinoparams.NChannels)
    (h : ComputeSysMatrixColumn3DParallel cfg ColumnIndex sinoparams imgparams pix_prof A_Column
      = some col) :
    0 ≤ col.Nnonzero ∧ col.Nnonzero ≤ sinoparams.NViews * sinoparams.NChannels
    ∧ ∀ n m, 0 ≤ n → n < col.Nnonzero → 0 ≤ m → m < col.Nnonzero → n ≠ m →
        col.RowIndex n ≠ col.RowIndex m := by
  obtain ⟨h1, _, _⟩ := column_entries cfg ColumnIndex sinoparams imgparams pix_prof A_Column col h
  have hle := length_keptEntries_le cfg sinoparams imgparams pix_prof ColumnIndex
  refine ⟨by omega, ?_, ?_⟩
  · have e1 : ((sinoparams.NViews.toNat : ℕ) : ℤ) = sinoparams.NViews := by omega
    have e2 : ((sinoparams.NChannels.toNat : ℕ) : ℤ) = sinoparams.NChannels := by omega
    have : ((keptEntries cfg sinoparams imgparams pix_prof ColumnIndex).length : ℤ)
        ≤ ((sinoparams.NViews.toNat * sinoparams.NChannels.toNat : ℕ) : ℤ) := by
      exact_mod_cast hle
    rw [Nat.cast_mul, e1, e2] at this
    omega
  · intro n m hn0 hn1 hm0 hm1 hne
    rcases lt_or_gt_of_ne hne with hlt | hgt
    · exact (column_rows_increasing cfg ColumnIndex sinoparams imgparams pix_prof A_Column col
        h n m hn0 hlt hm1).ne
    · exact (column_rows_increasing cfg ColumnIndex sinoparams imgparams pix_prof A_Column col
        h m n hm0 hgt hn1).ne'

/-- C6. Row indices of a built column are in range and ordered: every `RowIndex[n]` is
`v * NChannels + i` for a view `v` in `[0, NViews)` and a channel `i` in `[0, NChannels)`,
hence lies in `[0, NViews * NChannels)`, and `RowIndex[0..Nnonzero)` is strictly increasing. -/
theorem ComputeSysMatrixColumn3DParallel_rows_ordered (cfg : BuildConfig) (ColumnIndex : ℤ)
    (sinoparams : SinoParams3DParallel) (imgparams : ImageParams3D ℝ)
    (pix_prof : ℤ → ℤ → ℝ) (A_Column col : SparseColumn ℝ)
    (h : ComputeSysMatrixColumn3DParallel cfg ColumnIndex sinoparams imgparams pix_prof A_Column
      = some col) :
    (∀ n, 0 ≤ n → n < col.Nnonzero →
      (∃ v i, 0 ≤ v ∧ v < sinoparams.NViews ∧ 0 ≤ i ∧ i < sinoparams.NChannels
        ∧ col.RowIndex n = v * sinoparams.NChannels + i)
      ∧ 0 ≤ col.RowIndex n ∧ col.RowIndex n < sinoparams.NViews * sinoparams.NChannels)
    ∧ (∀ n m, 0 ≤ n → n < m → m < col.Nnonzero → col.RowIndex n < col.RowIndex m) := by
  constructor
  · intro n hn0 hn1
    obtain ⟨p, hp, _, _, hrow⟩ := column_entry_origin cfg ColumnIndex sinoparams imgparams
      pix_prof A_Column col h n hn0 hn1
    rw [mem_visitedPairs] at hp
    obtain ⟨⟨hv0, hv1⟩, hi⟩ := hp
    obtain ⟨hi0, hi1⟩ := mem_visitedChannels_range sinoparams imgparams ColumnIndex p.1 p.2 hi
    refine ⟨⟨p.1, p.2, hv0, hv1, hi0, hi1, hrow⟩, ?_, ?_⟩
    · rw [hrow]
      have := mul_nonneg hv0 (by omega : (0 : ℤ) ≤ sinoparams.NChannels)
      omega
    · rw [hrow]
      have : (p.1 + 1) * sinoparams.NChannels ≤ sinoparams.NViews * sinoparams.NChannels :=
        mul_le_mul_of_nonneg_right (by omega) (by omega)
      nlinarith
  · intro n m hn hnm hm
    exact column_rows_increasing cfg ColumnIndex sinoparams imgparams pix_prof A_Column col
      h n m hn hnm hm

/-- C7. Only positive entries are stored: every stored `Value[n]` is strictly positive and is
the `Aval` of the visited (view, channel) pair whose row index it carries, and a visited pair
has an entry in the column if and only if its `Aval` is positive. -/
theorem ComputeSysMatrixColumn3DParallel_positive_entries (cfg : BuildConfig)
    (ColumnIndex : ℤ) (sinoparams : SinoParams3DParallel) (imgparams : ImageParams3D ℝ)
    (pix_prof : ℤ → ℤ → ℝ) (A_Column col : SparseColumn ℝ)
    (h : ComputeSysMatrixColumn3DParallel cfg ColumnIndex sinoparams imgparams pix_prof A_Column
      = some col) :
    (∀ n, 0 ≤ n → n < col.Nnonzero →
      0 < col.Value n
      ∧ ∃ p ∈ visitedPairs sinoparams imgparams ColumnIndex,
          col.RowIndex n = p.1 * sinoparams.NChannels + p.2
          ∧ channelAval cfg sinoparams imgparams pix_prof ColumnIndex p.1 p.2
              = some (col.Value n))
    ∧ (∀ p ∈ visitedPairs sinoparams imgparams ColumnIndex,
        (∃ n, 0 ≤ n ∧ n < col.Nnonzero
            ∧ col.RowIndex n = p.1 * sinoparams.NChannels + p.2
            ∧ channelAval cfg sinoparams imgparams pix_prof ColumnIndex p.1 p.2
                = some (col.Value n))
        ↔ ∃ Aval, channelAval cfg sinoparams imgparams pix_prof ColumnIndex p.1 p.2 = some Aval
            ∧ 0 < Aval) := by
  constructor
  · intro n hn0 hn1
    obtain ⟨p, hp, hA, hpos, hrow⟩ := column_entry_origin cfg ColumnIndex sinoparams imgparams
      pix_prof A_Column col h n hn0 hn1
    exact ⟨hpos, p, hp, hrow, hA⟩
  · intro p hp
    constructor
    · rintro ⟨n, hn0, hn1, _, hA⟩
      obtain ⟨_, _, _, hpos, _⟩ := column_entry_origin cfg ColumnIndex sinoparams imgparams
        pix_prof A_Column col h n hn0 hn1
      exact ⟨col.Value n, hA, hpos⟩
    · rintro ⟨Aval, hA, hpos⟩
      have hmem : (p.1 * sinoparams.NChannels + p.2, Aval)
          ∈ keptEntries cfg sinoparams imgparams pix_prof ColumnIndex :=
        (mem_keptEntries cfg sinoparams imgparams pix_prof ColumnIndex _ _).mpr
          ⟨p, hp, hA, hpos, rfl⟩
      obtain ⟨k, hk, ek⟩ := List.mem_iff_getElem.mp hmem
      obtain ⟨h1, _, h3⟩ := column_entries cfg ColumnIndex sinoparams imgparams pix_prof
        A_Column col h
      have := h3 k _ _ (by rw [List.getElem?_eq_getElem hk, ek])
      refine ⟨(k : ℤ), by omega, by omega, this.1, ?_⟩
      rw [this.2]
      exact hA

/-! ### A concrete geometry: one view at angle 0, three channels, one pixel -/

theorem exSino_t_0 : t_0 exSino = -1 := by
  unfold t_0 exSino
  norm_num

theorem ex_projectedCenter : projectedCenter exSino exImg 0 0 = 0 := by
  unfold projectedCenter exSino exImg
  norm_num

theorem truncToInt_intCast (z : ℤ) : truncToInt (z : ℝ) = z := by
  unfold truncToInt
  split_ifs <;> simp

theorem ex_visitedChannels : visitedChannels exSino exImg 0 0 = [0, 1, 2] := by
  unfold visitedChannels
  rw [ex_projectedCenter, exSino_t_0]
  have h1 : channelMin ((0 : ℝ) - exImg.Deltaxy) (-1) exSino.DeltaChannel = 0 := by
    unfold channelMin exImg exSino
    have : ⌈((0 : ℝ) - 1 - -1) / 1 - 0.5⌉ = 0 := by
      rw [Int.ceil_eq_iff]; norm_num
    simp only [this]
    norm_num
  have h2 : channelMax ((0 : ℝ) - exImg.Deltaxy + 2 * exImg.Deltaxy) (-1) exSino.DeltaChannel
      exSino.NChannels = 2 := by
    unfold channelMax exImg exSino truncToInt
    have : ⌊((0 : ℝ) - 1 + 2 * 1 - -1) / 1 + 0.5⌋ = 2 := by
      rw [Int.floor_eq_iff]; norm_num
    norm_num [this]
  simp only [h1, h2]
  have h3 : ¬ ((0 : ℝ) - exImg.Deltaxy + 2 * exImg.Deltaxy < -1) := by
    unfold exImg; norm_num
  rw [if_neg h3]
  rfl

theorem ex_visitedPairs : visitedPairs exSino exImg 0 = [(0, 0), (0, 1), (0, 2)] := by
  unfold visitedPairs
  have : intRange 0 exSino.NViews = [0] := rfl
  rw [this]
  simp [ex_visitedChannels]

theorem ex_channelAval (i : ℤ) (hi0 : 0 ≤ i) (hi1 : i ≤ 2) :
    channelAval exCfg exSino exImg exProf 0 0 i = some (if i = 2 then 3 else 2 * (i : ℝ)) := by
  unfold channelAval
  rw [ex_projectedCenter, exSino_t_0]
  have hp : narrowProfInd 4 (-1) 1 (1 - 0) 1 i = 2 * i := by
    unfold narrowProfInd
    have : ((4 : ℤ) : ℝ) * (-1 + (i : ℝ) * 1 + (1 - 0)) / (2 * 1) = ((2 * i : ℤ) : ℝ) := by
      push_cast; ring
    rw [this, truncToInt_intCast]
  simp only [exCfg, exSino, exImg, Bool.false_eq_true, if_false, narrowAval, hp, exProf]
  interval_cases i <;> norm_num

theorem ex_column_built :
    ComputeSysMatrixColumn3DParallel exCfg 0 exSino exImg exProf exBuffer = some exColumn := by
  rw [ComputeSysMatrixColumn3DParallel_eq, ex_visitedPairs]
  simp only [runSteps, channelStep]
  rw [ex_channelAval 0 le_rfl (by norm_num), ex_channelAval 1 (by norm_num) (by norm_num),
    ex_channelAval 2 (by norm_num) le_rfl]
  norm_num [appendEntry, exColumn, exBuffer, exSino]

/-! ### Pixel profile table -/

theorem PI_pos : 0 < PI := by unfold PI; norm_num

theorem PI_lt_pi : PI < Real.pi := by
  have := Real.pi_gt_d20
  unfold PI
  linarith

theorem foldAngleDown_spec (k : ℕ) : ∀ ang : ℝ, ang < PI / 2 + k * (PI / 2) →
    foldAngleDown ang < PI / 2
    ∧ (PI / 2 ≤ ang → 0 ≤ foldAngleDown ang)
    ∧ (ang < PI / 2 → foldAngleDown ang = ang)
    ∧ ∃ m : ℕ, foldAngleDown ang = ang - m * (PI / 2) := by
  have hPI := PI_pos
  induction k with
  | zero =>
    intro ang h
    have h' : ang < PI / 2 := by simpa using h
    have e : foldAngleDown ang = ang := by
      rw [foldAngleDown]; simp [not_le.mpr h']
    rw [e]
    exact ⟨h', fun hc => absurd hc (not_le.mpr h'), fun _ => rfl, 0, by simp⟩
  | succ k ih =>
    intro ang h
    by_cases hc : PI / 2 ≤ ang
    · have e : foldAngleDown ang = foldAngleDown (ang - PI / 2) := by
        rw [foldAngleDown]; simp [hc]
      have hlt : ang - PI / 2 < PI / 2 + k * (PI / 2) := by
        push_cast at h; linarith
      obtain ⟨h1, h2, h3, m, h4⟩ := ih (ang - PI / 2) hlt
      rw [e]
      refine ⟨h1, fun _ => ?_, fun hc' => absurd hc (not_le.mpr hc'), m + 1, ?_⟩
      · by_cases hc2 : PI / 2 ≤ ang - PI / 2
        · exact h2 hc2
        · rw [h3 (not_le.mp hc2)]; linarith
      · rw [h4]; push_cast; ring
    · have h' : ang < PI / 2 := not_le.mp hc
      have e : foldAngleDown ang = ang := by
        rw [foldAngleDown]; simp [hc]
      rw [e]
      exact ⟨h', fun hc' => absurd hc' hc, fun _ => rfl, 0, by simp⟩

theorem foldAngleUp_spec (k : ℕ) : ∀ ang : ℝ, -(k * (PI / 2)) ≤ ang → ang < PI / 2 →
    0 ≤ foldAngleUp ang ∧ foldAngleUp ang < PI / 2
    ∧ ∃ m : ℕ, foldAngleUp ang = ang + m * (PI / 2) := by
  have hPI := PI_pos
  induction k with
  | zero =>
    intro ang h hlt
    have h' : 0 ≤ ang := by simpa using h
    have e : foldAngleUp ang = ang := by
      rw [foldAngleUp]; simp [not_lt.mpr h']
    rw [e]
    exact ⟨h', hlt, 0, by simp⟩
  | succ k ih =>
    intro ang h hlt
    by_cases hc : ang < 0
    · have e : foldAngleUp ang = foldAngleUp (ang + PI / 2) := by
        rw [foldAngleUp]; simp [hc]
      have hge : -(k * (PI / 2)) ≤ ang + PI / 2 := by
        push_cast at h; linarith
      obtain ⟨h1, h2, m, h3⟩ := ih (ang + PI / 2) hge (by linarith)
      rw [e]
      refine ⟨h1, h2, m + 1, ?_⟩
      rw [h3]; push_cast; ring
    · have e : foldAngleUp ang = ang := by
        rw [foldAngleUp]; simp [hc]
      rw [e]
      exact ⟨not_lt.mp hc, hlt, 0, by simp⟩

/-- The two folding loops bring every angle into `[0, PI/2)`, moving it by a whole multiple
of `PI/2`. -/
theorem foldedAngle_spec (ang : ℝ) :
    0 ≤ foldAngleUp (foldAngleDown ang) ∧ foldAngleUp (foldAngleDown ang) < PI / 2
    ∧ ∃ k : ℤ, foldAngleUp (foldAngleDown ang) = ang + k * (PI / 2) := by
  have hPI := PI_pos
  obtain ⟨k, hk⟩ := exists_nat_gt (ang / (PI / 2))
  have h1 : ang < PI / 2 + k * (PI / 2) := by
    rw [div_lt_iff₀ (by linarith)] at hk
    linarith
  obtain ⟨d1, d2, d3, m, d4⟩ := foldAngleDown_spec k ang h1
  obtain ⟨k', hk'⟩ := exists_nat_gt (-(foldAngleDown ang) / (PI / 2))
  have h2 : -(k' * (PI / 2)) ≤ foldAngleDown ang := by
    rw [div_lt_iff₀ (by linarith)] at hk'
    linarith
  obtain ⟨u1, u2, m', u3⟩ := foldAngleUp_spec k' (foldAngleDown ang) h2 d1
  refine ⟨u1, u2, (m' : ℤ) - (m : ℤ), ?_⟩
  rw [u3, d4]
  push_cast
  ring

/-- For `x` between `-pi/4` and `pi/4`, `|sin x| ≤ cos x` and `cos x` is positive. -/
theorem abs_sin_le_cos (x : ℝ) (h0 : -(Real.pi / 4) ≤ x) (h1 : x ≤ Real.pi / 4) :
    |Real.sin x| ≤ Real.cos x ∧ 0 < Real.cos x := by
  have hpi := Real.pi_pos
  have hc : 0 < Real.cos x :=
    Real.cos_pos_of_mem_Ioo ⟨by linarith, by linarith⟩
  have h2 : 0 ≤ Real.cos (2 * x) :=
    Real.cos_nonneg_of_neg_pi_div_two_le_of_le (by linarith) (by linarith)
  have h3 : Real.cos (2 * x) = Real.cos x ^ 2 - Real.sin x ^ 2 := by
    rw [Real.cos_two_mul, ← Real.sin_sq_add_cos_sq x]; ring
  refine ⟨?_, hc⟩
  apply abs_le_of_sq_le_sq _ hc.le
  linarith

/-- Ordering of the breakpoints of the trapezoid: `0 ≤ d2 ≤ d1` at every folded angle. -/
theorem profile_breakpoints (th : ℝ) (h0 : 0 ≤ th) (h1 : th < PI / 2) :
    0 ≤ Real.sin (PI / 4) * |Real.sin (PI / 4 - th)|
    ∧ Real.sin (PI / 4) * |Real.sin (PI / 4 - th)|
        ≤ Real.sin (PI / 4) * Real.cos (PI / 4 - th) := by
  have hPI := PI_pos
  have hlt := PI_lt_pi
  have hrc : 0 < Real.sin (PI / 4) :=
    Real.sin_pos_of_pos_of_lt_pi (by linarith) (by linarith)
  obtain ⟨ha, _⟩ := abs_sin_le_cos (PI / 4 - th) (by linarith) (by linarith)
  exact ⟨mul_nonneg hrc.le (abs_nonneg _), mul_le_mul_of_nonneg_left ha hrc.le⟩

/-- The peak value `maxval` of a view is positive when `DeltaPix` is. -/
theorem profile_maxval_pos (DeltaPix th : ℝ) (hD : 0 < DeltaPix) (h0 : 0 ≤ th)
    (h1 : th < PI / 2) :
    0 < (if th ≤ PI / 4 then DeltaPix / Real.cos th else DeltaPix / Real.cos (PI / 2 - th)) := by
  have hPI := PI_pos
  have hlt := PI_lt_pi
  split_ifs with h
  · exact div_pos hD (Real.cos_pos_of_mem_Ioo ⟨by linarith, by linarith⟩)
  · exact div_pos hD (Real.cos_pos_of_mem_Ioo ⟨by linarith, by linarith⟩)

theorem storeLoop_apply {α : Type} (f : ℤ → α) (i : ℤ) (m : ℕ) (a : ℤ → ℤ → α) (i' j' : ℤ) :
    forLoop 0 (m : ℤ) (fun j a => store2 a i j (f j)) a i' j'
      = if i' = i ∧ 0 ≤ j' ∧ j' < m then f j' else a i' j' := by
  induction m with
  | zero =>
    rw [forLoop_empty 0 _ (by simp)]
    have : ¬ (i' = i ∧ 0 ≤ j' ∧ j' < ((0 : ℕ) : ℤ)) := by
      rintro ⟨_, h1, h2⟩; simp at h2; omega
    rw [if_neg this]
  | succ m ih =>
    rw [forLoop_zero_succ, store2_apply, ih]
    by_cases h1 : i' = i ∧ j' = (m : ℤ)
    · obtain ⟨rfl, rfl⟩ := h1
      simp
    · rw [if_neg h1]
      by_cases h2 : i' = i ∧ 0 ≤ j' ∧ j' < (m : ℤ)
      · rw [if_pos h2, if_pos ⟨h2.1, h2.2.1, by push_cast; omega⟩]
      · rw [if_neg h2, if_neg]
        rintro ⟨h3, h4, h5⟩
        push_cast at h5
        by_cases h6 : j' = (m : ℤ)
        · exact h1 ⟨h3, h6⟩
        · exact h2 ⟨h3, h4, by omega⟩

theorem tableLoop_apply {α : Type} (f : ℤ → ℤ → α) (L : ℤ) (m : ℕ) (a : ℤ → ℤ → α)
    (i' j' : ℤ) :
    forLoop 0 (m : ℤ) (fun i a => forLoop 0 L (fun j a => store2 a i j (f i j)) a) a i' j'
      = if (0 ≤ i' ∧ i' < m) ∧ 0 ≤ j' ∧ j' < L then f i' j' else a i' j' := by
  induction m with
  | zero =>
    rw [forLoop_empty 0 _ (by simp)]
    have : ¬ ((0 ≤ i' ∧ i' < ((0 : ℕ) : ℤ)) ∧ 0 ≤ j' ∧ j' < L) := by
      rintro ⟨⟨h1, h2⟩, _⟩; simp at h2; omega
    rw [if_neg this]
  | succ m ih =>
    rw [forLoop_zero_succ, forLoop_toNat, storeLoop_apply, ih]
    by_cases h1 : i' = (m : ℤ) ∧ 0 ≤ j' ∧ j' < (L.toNat : ℤ)
    · rw [if_pos h1, if_pos ⟨⟨by omega, by push_cast; omega⟩, h1.2.1, by omega⟩, h1.1]
    · rw [if_neg h1]
      by_cases h2 : (0 ≤ i' ∧ i' < (m : ℤ)) ∧ 0 ≤ j' ∧ j' < L
      · rw [if_pos h2, if_pos ⟨⟨h2.1.1, by push_cast; omega⟩, h2.2⟩]
      · rw [if_neg h2, if_neg]
        rintro ⟨⟨h3, h4⟩, h5, h6⟩
        push_cast at h4
        by_cases h7 : i' = (m : ℤ)
        · exact h1 ⟨h7, h5, by omega⟩
        · exact h2 ⟨⟨h3, by omega⟩, h5, h6⟩

/-- Entries of the table built by `ComputePixelProfile3DParallel`. -/
theorem ComputePixelProfile3DParallel_apply (cfg : BuildConfig)
    (sinoparams : SinoParams3DParallel) (imgparams : ImageParams3D ℝ)
    (pix_prof : ℤ → ℤ → ℝ) (i j : ℤ) (hi0 : 0 ≤ i) (hi1 : i < sinoparams.NViews)
    (hj0 : 0 ≤ j) (hj1 : j < cfg.LEN_PIX) :
    ComputePixelProfile3DParallel cfg sinoparams imgparams pix_prof i j
      = pixProfEntry cfg.LEN_PIX imgparams.Deltaxy (sinoparams.ViewAngles i) j := by
  unfold ComputePixelProfile3DParallel
  rw [forLoop_toNat,
    tableLoop_apply (fun i j => pixProfEntry cfg.LEN_PIX imgparams.Deltaxy
      (sinoparams.ViewAngles i) j),
    if_pos ⟨⟨hi0, by omega⟩, hj0, hj1⟩]

/-! ### Concrete states used to instantiate the theorems -/

theorem pixProfEntry_eq (LEN_PIX : ℤ) (DeltaPix ViewAngle : ℝ) (j : ℤ) :
    pixProfEntry LEN_PIX DeltaPix ViewAngle j =
      if 2 * (j : ℝ) / (LEN_PIX : ℝ) ≤ 1 - profileD1 (foldedAngle ViewAngle)
          ∨ 2 * (j : ℝ) / (LEN_PIX : ℝ) > 1 + profileD1 (foldedAngle ViewAngle) then 0
      else if 2 * (j : ℝ) / (LEN_PIX : ℝ) ≤ 1 - profileD2 (foldedAngle ViewAngle) then
        profileMaxval DeltaPix (foldedAngle ViewAngle)
          * (2 * (j : ℝ) / (LEN_PIX : ℝ) - (1 - profileD1 (foldedAngle ViewAngle)))
          / ((1 - profileD2 (foldedAngle ViewAngle)) - (1 - profileD1 (foldedAngle ViewAngle)))
      else if 2 * (j : ℝ) / (LEN_PIX : ℝ) ≤ 1 + profileD2 (foldedAngle ViewAngle) then
        profileMaxval DeltaPix (foldedAngle ViewAngle)
      else
        profileMaxval DeltaPix (foldedAngle ViewAngle)
          * ((1 + profileD1 (foldedAngle ViewAngle)) - 2 * (j : ℝ) / (LEN_PIX : ℝ))
          / ((1 + profileD1 (foldedAngle ViewAngle)) - (1 + profileD2 (foldedAngle ViewAngle))) :=
  rfl

/-- The if-chain of the profile loop, on abstract breakpoints `1 ∓ d1`, `1 ∓ d2` with
`0 ≤ d2 ≤ d1`, is the trapezoid of the specification. -/
theorem trapezoid_cases (M d1 d2 t : ℝ) (h2 : 0 ≤ d2) (h12 : d2 ≤ d1) :
    ((t ≤ 1 - d1 ∨ t > 1 + d1) →
      (if t ≤ 1 - d1 ∨ t > 1 + d1 then 0
        else if t ≤ 1 - d2 then M * (t - (1 - d1)) / ((1 - d2) - (1 - d1))
        else if t ≤ 1 + d2 then M
        else M * ((1 + d1) - t) / ((1 + d1) - (1 + d2))) = 0)
    ∧ ((1 - d1 < t ∧ t ≤ 1 - d2) →
      (if t ≤ 1 - d1 ∨ t > 1 + d1 then 0
        else if t ≤ 1 - d2 then M * (t - (1 - d1)) / ((1 - d2) - (1 - d1))
        else if t ≤ 1 + d2 then M
        else M * ((1 + d1) - t) / ((1 + d1) - (1 + d2)))
        = M * (t - (1 - d1)) / ((1 - d2) - (1 - d1)))
    ∧ ((1 - d2 < t ∧ t ≤ 1 + d2) →
      (if t ≤ 1 - d1 ∨ t > 1 + d1 then 0
        else if t ≤ 1 - d2 then M * (t - (1 - d1)) / ((1 - d2) - (1 - d1))
        else if t ≤ 1 + d2 then M
        else M * ((1 + d1) - t) / ((1 + d1) - (1 + d2))) = M)
    ∧ ((1 + d2 < t ∧ t ≤ 1 + d1) →
      (if t ≤ 1 - d1 ∨ t > 1 + d1 then 0
        else if t ≤ 1 - d2 then M * (t - (1 - d1)) / ((1 - d2) - (1 - d1))
        else if t ≤ 1 + d2 then M
        else M * ((1 + d1) - t) / ((1 + d1) - (1 + d2)))
        = M * ((1 + d1) - t) / ((1 + d1) - (1 + d2))) := by
  refine ⟨?_, ?_, ?_, ?_⟩
  · intro h
    rw [if_pos h]
  · rintro ⟨ha, hb⟩
    rw [if_neg (by rw [not_or]; exact ⟨not_le.mpr ha, by linarith⟩), if_pos hb]
  · rintro ⟨ha, hb⟩
    rw [if_neg (by rw [not_or]; exact ⟨by linarith, by linarith⟩), if_neg (not_le.mpr ha),
      if_pos hb]
  · rintro ⟨ha, hb⟩
    rw [if_neg (by rw [not_or]; exact ⟨by linarith, by linarith⟩), if_neg (by linarith),
      if_neg (not_le.mpr ha)]

theorem trapezoid_bounds (M d1 d2 t : ℝ) (hM : 0 ≤ M) :
    0 ≤ (if t ≤ 1 - d1 ∨ t > 1 + d1 then 0
        else if t ≤ 1 - d2 then M * (t - (1 - d1)) / ((1 - d2) - (1 - d1))
        else if t ≤ 1 + d2 then M
        else M * ((1 + d1) - t) / ((1 + d1) - (1 + d2)))
    ∧ (if t ≤ 1 - d1 ∨ t > 1 + d1 then 0
        else if t ≤ 1 - d2 then M * (t - (1 - d1)) / ((1 - d2) - (1 - d1))
        else if t ≤ 1 + d2 then M
        else M * ((1 + d1) - t) / ((1 + d1) - (1 + d2))) ≤ M := by
  split_ifs with c1 c2 c3
  · exact ⟨le_rfl, hM⟩
  · rw [not_or] at c1
    have hlt : 0 < 1 - d2 - (1 - d1) := by linarith [c1.1]
    rw [mul_div_assoc]
    have hr0 : 0 ≤ (t - (1 - d1)) / (1 - d2 - (1 - d1)) :=
      div_nonneg (by linarith [c1.1]) hlt.le
    have hr1 : (t - (1 - d1)) / (1 - d2 - (1 - d1)) ≤ 1 := by
      rw [div_le_one hlt]; linarith
    exact ⟨mul_nonneg hM hr0, by nlinarith⟩
  · exact ⟨hM, le_rfl⟩
  · rw [not_or] at c1
    have hlt : 0 < 1 + d1 - (1 + d2) := by linarith [c1.2]
    rw [mul_div_assoc]
    have hr0 : 0 ≤ (1 + d1 - t) / (1 + d1 - (1 + d2)) :=
      div_nonneg (by linarith [c1.2]) hlt.le
    have hr1 : (1 + d1 - t) / (1 + d1 - (1 + d2)) ≤ 1 := by
      rw [div_le_one hlt]; linarith
    exact ⟨mul_nonneg hM hr0, by nlinarith⟩

/-- Every table value lies between 0 and the peak value of its view. -/
theorem pixProfEntry_bounds (LEN_PIX : ℤ) (DeltaPix ViewAngle : ℝ) (j : ℤ) (hD : 0 < DeltaPix) :
    0 ≤ pixProfEntry LEN_PIX DeltaPix ViewAngle j
    ∧ pixProfEntry LEN_PIX DeltaPix ViewAngle j
      ≤ profileMaxval DeltaPix (foldedAngle ViewAngle) := by
  obtain ⟨h0, h1, _⟩ := foldedAngle_spec ViewAngle
  have hmax := profile_maxval_pos DeltaPix _ hD h0 h1
  rw [pixProfEntry_eq]
  exact trapezoid_bounds _ _ _ _ hmax.le

/-- C8. The profile table equals the trapezoid of the folded angle: the two folding loops
terminate with an angle `th` in `[0, PI/2)` that differs from `ViewAngles[i]` by a whole
multiple of `PI/2`, and with `t = 2j/LEN_PIX`, `t1 = 1-d1`, `t2 = 1-d2`, `t3 = 1+d2`,
`t4 = 1+d1`, the entry `pix_prof[i][j]` is 0 for `t ≤ t1` or `t > t4`,
`maxval*(t-t1)/(t2-t1)` for `t1 < t ≤ t2`, `maxval` for `t2 < t ≤ t3` and
`maxval*(t4-t)/(t4-t3)` for `t3 < t ≤ t4`. -/
theorem ComputePixelProfile3DParallel_trapezoid (cfg : BuildConfig)
    (sinoparams : SinoParams3DParallel) (imgparams : ImageParams3D ℝ)
    (pix_prof : ℤ → ℤ → ℝ) (i j : ℤ) (hi0 : 0 ≤ i) (hi1 : i < sinoparams.NViews)
    (hj0 : 0 ≤ j) (hj1 : j < cfg.LEN_PIX) :
    (0 ≤ foldedAngle (sinoparams.ViewAngles i) ∧ foldedAngle (sinoparams.ViewAngles i) < PI / 2
      ∧ ∃ k : ℤ, foldedAngle (sinoparams.ViewAngles i)
          = sinoparams.ViewAngles i + k * (PI / 2))
    ∧ ((2 * (j : ℝ) / (cfg.LEN_PIX : ℝ) ≤ 1 - profileD1 (foldedAngle (sinoparams.ViewAngles i))
        ∨ 2 * (j : ℝ) / (cfg.LEN_PIX : ℝ)
            > 1 + profileD1 (foldedAngle (sinoparams.ViewAngles i))) →
      ComputePixelProfile3DParallel cfg sinoparams imgparams pix_prof i j = 0)
    ∧ ((1 - profileD1 (foldedAngle (sinoparams.ViewAngles i)) < 2 * (j : ℝ) / (cfg.LEN_PIX : ℝ)
        ∧ 2 * (j : ℝ) / (cfg.LEN_PIX : ℝ)
            ≤ 1 - profileD2 (foldedAngle (sinoparams.ViewAngles i))) →
      ComputePixelProfile3DParallel cfg sinoparams imgparams pix_prof i j =
        profileMaxval imgparams.Deltaxy (foldedAngle (sinoparams.ViewAngles i))
          * (2 * (j : ℝ) / (cfg.LEN_PIX : ℝ)
              - (1 - profileD1 (foldedAngle (sinoparams.ViewAngles i))))
          / ((1 - profileD2 (foldedAngle (sinoparams.ViewAngles i)))
              - (1 - profileD1 (foldedAngle (sinoparams.ViewAngles i)))))
    ∧ ((1 - profileD2 (foldedAngle (sinoparams.ViewAngles i)) < 2 * (j : ℝ) / (cfg.LEN_PIX : ℝ)
        ∧ 2 * (j : ℝ) / (cfg.LEN_PIX : ℝ)
            ≤ 1 + profileD2 (foldedAngle (sinoparams.ViewAngles i))) →
      ComputePixelProfile3DParallel cfg sinoparams imgparams pix_prof i j =
        profileMaxval imgparams.Deltaxy (foldedAngle (sinoparams.ViewAngles i)))
    ∧ ((1 + profileD2 (foldedAngle (sinoparams.ViewAngles i)) < 2 * (j : ℝ) / (cfg.LEN_PIX : ℝ)
        ∧ 2 * (j : ℝ) / (cfg.LEN_PIX : ℝ)
            ≤ 1 + profileD1 (foldedAngle (sinoparams.ViewAngles i))) →
      ComputePixelProfile3DParallel cfg sinoparams imgparams pix_prof i j =
        profileMaxval imgparams.Deltaxy (foldedAngle (sinoparams.ViewAngles i))
          * ((1 + profileD1 (foldedAngle (sinoparams.ViewAngles i)))
              - 2 * (j : ℝ) / (cfg.LEN_PIX : ℝ))
          / ((1 + profileD1 (foldedAngle (sinoparams.ViewAngles i)))
              - (1 + profileD2 (foldedAngle (sinoparams.ViewAngles i))))) := by
  have hfold := foldedAngle_spec (sinoparams.ViewAngles i)
  obtain ⟨hd2, hd⟩ := profile_breakpoints _ hfold.1 hfold.2.1
  rw [ComputePixelProfile3DParallel_apply cfg sinoparams imgparams pix_prof i j hi0 hi1 hj0 hj1,
    pixProfEntry_eq]
  exact ⟨hfold, trapezoid_cases _ _ _ _ hd2 hd⟩

/-- C9. Profile table entries are non-negative: for `Deltaxy > 0`, every entry
`pix_prof[i][j]` of the table is at least 0 and at most the peak value `maxval` of view `i`. -/
theorem ComputePixelProfile3DParallel_nonneg (cfg : BuildConfig)
    (sinoparams : SinoParams3DParallel) (imgparams : ImageParams3D ℝ)
    (pix_prof : ℤ → ℤ → ℝ) (i j : ℤ) (hD : 0 < imgparams.Deltaxy)
    (hi0 : 0 ≤ i) (hi1 : i < sinoparams.NViews) (hj0 : 0 ≤ j) (hj1 : j < cfg.LEN_PIX) :
    0 ≤ ComputePixelProfile3DParallel cfg sinoparams imgparams pix_prof i j
    ∧ ComputePixelProfile3DParallel cfg sinoparams imgparams pix_prof i j
        ≤ profileMaxval imgparams.Deltaxy (foldedAngle (sinoparams.ViewAngles i)) := by
  rw [ComputePixelProfile3DParallel_apply cfg sinoparams imgparams pix_prof i j hi0 hi1 hj0 hj1]
  exact pixProfEntry_bounds cfg.LEN_PIX imgparams.Deltaxy (sinoparams.ViewAngles i) j hD

/-- Instance of C1 on the concrete state `exA`, `exX`, `exY`, `exE` for voxel 3 and
`diff = 5`. -/
theorem UpdateError3D_preserves_residual_witness :
    (0 < exIcd.Nxy ∧ exA.Ncolumns = exIcd.Nxy ∧ 0 ≤ exIcd.VoxelIndex
      ∧ ∀ z, 0 ≤ z → z < 2 → ∀ k, exE z k = exY z k - forwardProject exA exX z k)
    ∧ ∀ z, 0 ≤ z → z < 2 → ∀ k,
      UpdateError3D exE exA 5 exIcd z k
        = exY z k - forwardProject exA
            (store2 exX (exIcd.VoxelIndex / exIcd.Nxy) (exIcd.VoxelIndex % exIcd.Nxy)
              (exX (exIcd.VoxelIndex / exIcd.Nxy) (exIcd.VoxelIndex % exIcd.Nxy) + 5))
            z k :=
  ⟨⟨by decide, rfl, by decide, fun _ _ _ _ => rfl⟩,
   UpdateError3D_preserves_residual exA exX exY exE exIcd 2 5 (by decide) rfl (by decide)
     (fun _ _ _ _ => rfl)⟩

/-- Instance of C3 on the concrete state: the value returned for voxel 3. -/
theorem ICDStep3D_computes_newton_step_witness :
    (0 ≤ exIcd.VoxelIndex ∧ 0 < exIcd.Nxy)
    ∧ (ICDStep3D exE exW exA exIcd).1 =
      (if (ICDStep3D exE exW exA exIcd).2.theta2 = 0 then none
       else some (exIcd.v
        - (ICDStep3D exE exW exA exIcd).2.theta1 / (ICDStep3D exE exW exA exIcd).2.theta2)) :=
  ⟨⟨by decide, by decide⟩,
   (ICDStep3D_computes_newton_step exE exW exA exIcd (by decide) (by decide)).2.2⟩

/-- Instance of C4 on the `2 x 2 x 2` image for the voxel `(1, 0, 1)`: the `x+1` neighbour
wraps to `x = 0`, the `z+1` neighbour wraps to `z = 0`. -/
theorem ExtractNeighbors3D_wraps_witness :
    ((0 : ℤ) ≤ 1 ∧ (1 : ℤ) < exImage.imgparams.Nx ∧ (0 : ℤ) ≤ 0 ∧ (0 : ℤ) < exImage.imgparams.Ny
      ∧ (0 : ℤ) ≤ 1 ∧ (1 : ℤ) < exImage.imgparams.Nz
      ∧ exIcd5.VoxelIndex
        = 1 * exImage.imgparams.Nx * exImage.imgparams.Ny + 0 * exImage.imgparams.Nx + 1)
    ∧ (ExtractNeighbors3D exIcd5 exImage).neighbors 0 = voxelAt exImage (1 + 1) 0 1
    ∧ (ExtractNeighbors3D exIcd5 exImage).neighbors 4 = voxelAt exImage 1 0 (1 + 1) :=
  ⟨⟨by decide, by decide, by decide, by decide, by decide, by decide, by decide⟩,
   (ExtractNeighbors3D_wraps exIcd5 exImage 1 0 1 (by decide) (by decide) (by decide)
      (by decide) (by decide) (by decide) (by decide)).1,
   (ExtractNeighbors3D_wraps exIcd5 exImage 1 0 1 (by decide) (by decide) (by decide)
      (by decide) (by decide) (by decide) (by decide)).2.2.2.2.1⟩

/-- Instance of C5 on the concrete geometry, whose column has two entries. -/
theorem ComputeSysMatrixColumn3DParallel_column_bound_witness :
    (1 ≤ exSino.NViews ∧ 1 ≤ exSino.NChannels
      ∧ ComputeSysMatrixColumn3DParallel exCfg 0 exSino exImg exProf exBuffer = some exColumn)
    ∧ (0 ≤ exColumn.Nnonzero ∧ exColumn.Nnonzero ≤ exSino.NViews * exSino.NChannels
      ∧ ∀ n m, 0 ≤ n → n < exColumn.Nnonzero → 0 ≤ m → m < exColumn.Nnonzero → n ≠ m →
          exColumn.RowIndex n ≠ exColumn.RowIndex m) :=
  ⟨⟨by decide, by decide, ex_column_built⟩,
   ComputeSysMatrixColumn3DParallel_column_bound exCfg 0 exSino exImg exProf exBuffer exColumn
     (by decide) (by decide) ex_column_built⟩

/-- Instance of C6 on the concrete geometry. -/
theorem ComputeSysMatrixColumn3DParallel_rows_ordered_witness :
    ComputeSysMatrixColumn3DParallel exCfg 0 exSino exImg exProf exBuffer = some exColumn
    ∧ (∀ n, 0 ≤ n → n < exColumn.Nnonzero →
        (∃ v i, 0 ≤ v ∧ v < exSino.NViews ∧ 0 ≤ i ∧ i < exSino.NChannels
          ∧ exColumn.RowIndex n = v * exSino.NChannels + i)
        ∧ 0 ≤ exColumn.RowIndex n ∧ exColumn.RowIndex n < exSino.NViews * exSino.NChannels)
    ∧ (∀ n m, 0 ≤ n → n < m → m < exColumn.Nnonzero →
        exColumn.RowIndex n < exColumn.RowIndex m) :=
  ⟨ex_column_built,
   ComputeSysMatrixColumn3DParallel_rows_ordered exCfg 0 exSino exImg exProf exBuffer exColumn
     ex_column_built⟩

/-- Instance of C7 on the concrete geometry: channel 0 has `Aval = 0` and is not stored,
channels 1 and 2 are. -/
theorem ComputeSysMatrixColumn3DParallel_positive_entries_witness :
    ComputeSysMatrixColumn3DParallel exCfg 0 exSino exImg exProf exBuffer = some exColumn
    ∧ (∀ n, 0 ≤ n → n < exColumn.Nnonzero →
        0 < exColumn.Value n
        ∧ ∃ p ∈ visitedPairs exSino exImg 0,
            exColumn.RowIndex n = p.1 * exSino.NChannels + p.2
            ∧ channelAval exCfg exSino exImg exProf 0 p.1 p.2 = some (exColumn.Value n))
    ∧ (∀ p ∈ visitedPairs exSino exImg 0,
        (∃ n, 0 ≤ n ∧ n < exColumn.Nnonzero
            ∧ exColumn.RowIndex n = p.1 * exSino.NChannels + p.2
            ∧ channelAval exCfg exSino exImg exProf 0 p.1 p.2 = some (exColumn.Value n))
        ↔ ∃ Aval, channelAval exCfg exSino exImg exProf 0 p.1 p.2 = some Aval ∧ 0 < Aval) :=
  ⟨ex_column_built,
   ComputeSysMatrixColumn3DParallel_positive_entries exCfg 0 exSino exImg exProf exBuffer
     exColumn ex_column_built⟩

/-- Instance of C8 on the concrete geometry: the folded angle of view 0. -/
theorem ComputePixelProfile3DParallel_trapezoid_witness :
    ((0 : ℤ) ≤ 0 ∧ (0 : ℤ) < exSino.NViews ∧ (0 : ℤ) ≤ 2 ∧ (2 : ℤ) < exCfg.LEN_PIX)
    ∧ (0 ≤ foldedAngle (exSino.ViewAngles 0) ∧ foldedAngle (exSino.ViewAngles 0) < PI / 2
      ∧ ∃ k : ℤ, foldedAngle (exSino.ViewAngles 0) = exSino.ViewAngles 0 + k * (PI / 2)) :=
  ⟨⟨by decide, by decide, by decide, by decide⟩,
   (ComputePixelProfile3DParallel_trapezoid exCfg exSino exImg exProf 0 2 (by decide)
      (by decide) (by decide) (by decide)).1⟩

/-- Instance of C9 on the concrete geometry: entry 2 of view 0. -/
theorem ComputePixelProfile3DParallel_nonneg_witness :
    (0 < exImg.Deltaxy ∧ (0 : ℤ) ≤ 0 ∧ (0 : ℤ) < exSino.NViews ∧ (0 : ℤ) ≤ 2
      ∧ (2 : ℤ) < exCfg.LEN_PIX)
    ∧ 0 ≤ ComputePixelProfile3DParallel exCfg exSino exImg exProf 0 2
    ∧ ComputePixelProfile3DParallel exCfg exSino exImg exProf 0 2
        ≤ profileMaxval exImg.Deltaxy (foldedAngle (exSino.ViewAngles 0)) :=
  ⟨⟨by norm_num [exImg], by decide, by decide, by decide, by decide⟩,
   ComputePixelProfile3DParallel_nonneg exCfg exSino exImg exProf 0 2 (by norm_num [exImg])
     (by decide) (by decide) (by decide) (by decide)⟩

/-! ### Trapezoid normalization -/

theorem sawProduct_nonneg (v : ℝ) : 0 ≤ sawProduct v := by
  unfold sawProduct
  have h0 := Int.fract_nonneg v
  have h1 := Int.fract_lt_one v
  nlinarith

theorem sawProduct_le (v : ℝ) : sawProduct v ≤ 1 / 4 := by
  unfold sawProduct
  nlinarith [sq_nonneg (Int.fract v - 1 / 2)]

theorem sawProduct_le_fract (v : ℝ) : sawProduct v ≤ Int.fract v := by
  unfold sawProduct
  have h0 := Int.fract_nonneg v
  nlinarith

theorem sawProduct_le_one_sub_fract (v : ℝ) : sawProduct v ≤ 1 - Int.fract v := by
  unfold sawProduct
  have h0 := Int.fract_nonneg v
  have h1 := Int.fract_lt_one v
  nlinarith

theorem sawProduct_natCast_sub (L : ℕ) (v : ℝ) : sawProduct ((L : ℝ) - v) = sawProduct v := by
  unfold sawProduct
  have e : Int.fract ((L : ℝ) - v) = Int.fract (-v) := by
    rw [sub_eq_add_neg, add_comm]
    exact Int.fract_add_nat (-v) L
  rw [e]
  by_cases h : Int.fract v = 0
  · have : Int.fract (-v) = 0 := by
      rw [Int.fract_neg_eq_zero]; exact h
    rw [h, this]
  · rw [Int.fract_neg h]
    ring

/-- The function `u (1 - u)` of the fractional part is 1-Lipschitz. -/
theorem sawProduct_sub_le (a b : ℝ) (hab : a ≤ b) :
    |sawProduct a - sawProduct b| ≤ b - a := by
  have ha0 := Int.fract_nonneg a
  have ha1 := Int.fract_lt_one a
  have hb0 := Int.fract_nonneg b
  have hb1 := Int.fract_lt_one b
  by_cases hbig : 1 / 4 ≤ b - a
  · have h1 := sawProduct_nonneg a
    have h2 := sawProduct_nonneg b
    have h3 := sawProduct_le a
    have h4 := sawProduct_le b
    rw [abs_le]
    constructor <;> linarith
  · have hfl : ⌊a⌋ ≤ ⌊b⌋ := Int.floor_le_floor hab
    have hea : a = ⌊a⌋ + Int.fract a := (Int.floor_add_fract a).symm
    have heb : b = ⌊b⌋ + Int.fract b := (Int.floor_add_fract b).symm
    rcases hfl.eq_or_lt with heq | hlt
    · have hd : Int.fract b - Int.fract a = b - a := by
        rw [Int.fract, Int.fract, heq]; ring
      unfold sawProduct
      have : Int.fract a * (1 - Int.fract a) - Int.fract b * (1 - Int.fract b)
          = (Int.fract a - Int.fract b) * (1 - Int.fract a - Int.fract b) := by ring
      rw [this, abs_mul]
      have h1 : |Int.fract a - Int.fract b| = b - a := by
        rw [abs_sub_comm, hd, abs_of_nonneg (by linarith)]
      have h2 : |1 - Int.fract a - Int.fract b| ≤ 1 := by
        rw [abs_le]; constructor <;> linarith
      rw [h1]
      have : 0 ≤ b - a := by linarith
      nlinarith
    · have hlt' : (⌊a⌋ : ℝ) + 1 ≤ ⌊b⌋ := by exact_mod_cast hlt
      have h1 := sawProduct_nonneg a
      have h2 := sawProduct_nonneg b
      have h3 := sawProduct_le_one_sub_fract a
      have h4 := sawProduct_le_fract b
      have h5 : (1 - Int.fract a) + Int.fract b ≤ b - a := by
        rw [Int.fract, Int.fract]; linarith
      rw [abs_le]
      constructor <;> linarith

/-- Closed form of the sum of the ramps `max (j - v) 0` over `j = 0, ..., L-1`. -/
theorem sum_ramp (L : ℕ) : ∀ v : ℝ, 0 ≤ v → v ≤ L →
    ∑ j in Finset.range L, max ((j : ℝ) - v) 0
      = ((L : ℝ) - v) ^ 2 / 2 - ((L : ℝ) - v) / 2 + sawProduct v / 2 := by
  induction L with
  | zero =>
    intro v h0 h1
    have : v = 0 := le_antisymm (by simpa using h1) h0
    subst this
    simp [sawProduct]
  | succ L ih =>
    intro v h0 h1
    push_cast at h1 ⊢
    by_cases hv : v ≤ L
    · rw [Finset.sum_range_succ, ih v h0 hv, max_eq_left (by linarith)]
      ring
    · have hv' : (L : ℝ) < v := not_le.mp hv
      have hz : ∑ j in Finset.range (L + 1), max ((j : ℝ) - v) 0 = 0 := by
        apply Finset.sum_eq_zero
        intro j hj
        have hjL : (j : ℝ) ≤ L := by
          have := Finset.mem_range.mp hj
          exact_mod_cast Nat.lt_succ_iff.mp this
        exact max_eq_right (by linarith)
      rw [hz]
      rcases h1.eq_or_lt with heq | hlt
      · have : sawProduct v = 0 := by
          unfold sawProduct
          have : Int.fract v = 0 := by
            rw [heq]
            have : ((L : ℝ) + 1) = ((L + 1 : ℕ) : ℝ) := by push_cast; ring
            rw [this, Int.fract_natCast]
          rw [this]; ring
        rw [this, heq]; ring
      · have hfl : ⌊v⌋ = (L : ℤ) := by
          rw [Int.floor_eq_iff]
          push_cast
          exact ⟨hv'.le, hlt⟩
        have hfr : Int.fract v = v - L := by
          rw [Int.fract, hfl]; push_cast; ring
        unfold sawProduct
        rw [hfr]
        ring

/-- The if-chain of the profile loop written with ramps `max u 0`, for `0 ≤ d2 < d1`. -/
theorem trapezoid_eq_ramps (M d1 d2 t : ℝ) (h2 : 0 ≤ d2) (h12 : d2 < d1) :
    (if t ≤ 1 - d1 ∨ t > 1 + d1 then 0
      else if t ≤ 1 - d2 then M * (t - (1 - d1)) / ((1 - d2) - (1 - d1))
      else if t ≤ 1 + d2 then M
      else M * ((1 + d1) - t) / ((1 + d1) - (1 + d2)))
    = M / (d1 - d2) * (max (t - (1 - d1)) 0 - max (t - (1 - d2)) 0
        - max (t - (1 + d2)) 0 + max (t - (1 + d1)) 0) := by
  have hw : d1 - d2 ≠ 0 := by linarith
  have hw1 : (1 - d2) - (1 - d1) ≠ 0 := by intro h; apply hw; linarith
  have hw2 : (1 + d1) - (1 + d2) ≠ 0 := by intro h; apply hw; linarith
  split_ifs with c1 c2 c3
  · rcases c1 with c | c
    · rw [max_eq_right (by linarith), max_eq_right (by linarith), max_eq_right (by linarith),
        max_eq_right (by linarith)]
      ring
    · rw [max_eq_left (by linarith), max_eq_left (by linarith), max_eq_left (by linarith),
        max_eq_left (by linarith), div_mul_eq_mul_div, eq_div_iff hw]
      ring
  · rw [not_or] at c1
    rw [max_eq_left (by linarith [c1.1]), max_eq_right (by linarith), max_eq_right (by linarith),
      max_eq_right (by linarith [c1.2]), div_mul_eq_mul_div, div_eq_div_iff hw1 hw]
    ring
  · rw [not_or] at c1
    rw [max_eq_left (by linarith [c1.1]), max_eq_left (by linarith), max_eq_right (by linarith),
      max_eq_right (by linarith [c1.2]), div_mul_eq_mul_div, eq_div_iff hw]
    ring
  · rw [not_or] at c1
    rw [max_eq_left (by linarith [c1.1]), max_eq_left (by linarith), max_eq_left (by linarith),
      max_eq_right (by linarith [c1.2]), div_mul_eq_mul_div, div_eq_div_iff hw2 hw]
    ring

theorem ramp_scale (L : ℕ) (hL : 0 < L) (j : ℕ) (a : ℝ) :
    max (2 * (j : ℝ) / (L : ℝ) - a) 0 = 2 / (L : ℝ) * max ((j : ℝ) - (L : ℝ) * a / 2) 0 := by
  have hL' : (0 : ℝ) < L := by exact_mod_cast hL
  have e : 2 * (j : ℝ) / (L : ℝ) - a = 2 / (L : ℝ) * ((j : ℝ) - (L : ℝ) * a / 2) := by
    field_simp
    ring
  rw [e, mul_max_of_nonneg _ _ (by positivity : (0 : ℝ) ≤ 2 / (L : ℝ)), mul_zero]

/-- Exact value of the discrete sum of a trapezoid sampled at `t = 2j/L`, `j < L`: the area
`M (d1 + d2)` of the trapezoid divided by the step `2/L`, plus a term that depends on the
fractional positions of the two lower breakpoints on the sampling grid. -/
theorem sum_trapezoid (L : ℕ) (hL : 0 < L) (M d1 d2 : ℝ) (h2 : 0 ≤ d2) (h12 : d2 < d1)
    (h1 : d1 ≤ 1) :
    ∑ j in Finset.range L,
      (if 2 * (j : ℝ) / (L : ℝ) ≤ 1 - d1 ∨ 2 * (j : ℝ) / (L : ℝ) > 1 + d1 then 0
        else if 2 * (j : ℝ) / (L : ℝ) ≤ 1 - d2 then
          M * (2 * (j : ℝ) / (L : ℝ) - (1 - d1)) / ((1 - d2) - (1 - d1))
        else if 2 * (j : ℝ) / (L : ℝ) ≤ 1 + d2 then M
        else M * ((1 + d1) - 2 * (j : ℝ) / (L : ℝ)) / ((1 + d1) - (1 + d2)))
    = M * (d1 + d2) * ((L : ℝ) / 2)
      + 2 * M / ((L : ℝ) * (d1 - d2))
        * (sawProduct ((L : ℝ) * (1 - d1) / 2) - sawProduct ((L : ℝ) * (1 - d2) / 2)) := by
  have hL' : (0 : ℝ) < L := by exact_mod_cast hL
  have hw : d1 - d2 ≠ 0 := by linarith
  have hterm : ∀ j : ℕ,
      (if 2 * (j : ℝ) / (L : ℝ) ≤ 1 - d1 ∨ 2 * (j : ℝ) / (L : ℝ) > 1 + d1 then 0
        else if 2 * (j : ℝ) / (L : ℝ) ≤ 1 - d2 then
          M * (2 * (j : ℝ) / (L : ℝ) - (1 - d1)) / ((1 - d2) - (1 - d1))
        else if 2 * (j : ℝ) / (L : ℝ) ≤ 1 + d2 then M
        else M * ((1 + d1) - 2 * (j : ℝ) / (L : ℝ)) / ((1 + d1) - (1 + d2)))
      = M / (d1 - d2) * (2 / (L : ℝ))
        * (max ((j : ℝ) - (L : ℝ) * (1 - d1) / 2) 0 - max ((j : ℝ) - (L : ℝ) * (1 - d2) / 2) 0
          - max ((j : ℝ) - (L : ℝ) * (1 + d2) / 2) 0
          + max ((j : ℝ) - (L : ℝ) * (1 + d1) / 2) 0) := by
    intro j
    rw [trapezoid_eq_ramps M d1 d2 _ h2 h12, ramp_scale L hL j, ramp_scale L hL j,
      ramp_scale L hL j, ramp_scale L hL j]
    ring
  simp only [hterm]
  rw [← Finset.mul_sum, Finset.sum_add_distrib, Finset.sum_sub_distrib, Finset.sum_sub_distrib,
    sum_ramp L _ (div_nonneg (mul_nonneg hL'.le (by linarith)) (by norm_num)) (by nlinarith),
    sum_ramp L _ (div_nonneg (mul_nonneg hL'.le (by linarith)) (by norm_num)) (by nlinarith),
    sum_ramp L _ (div_nonneg (mul_nonneg hL'.le (by linarith)) (by norm_num)) (by nlinarith),
    sum_ramp L _ (div_nonneg (mul_nonneg hL'.le (by linarith)) (by norm_num)) (by nlinarith)]
  have e4 : (L : ℝ) * (1 + d1) / 2 = (L : ℝ) - (L : ℝ) * (1 - d1) / 2 := by ring
  have e3 : (L : ℝ) * (1 + d2) / 2 = (L : ℝ) - (L : ℝ) * (1 - d2) / 2 := by ring
  have s4 : sawProduct ((L : ℝ) * (1 + d1) / 2) = sawProduct ((L : ℝ) * (1 - d1) / 2) := by
    rw [e4, sawProduct_natCast_sub]
  have s3 : sawProduct ((L : ℝ) * (1 + d2) / 2) = sawProduct ((L : ℝ) * (1 - d2) / 2) := by
    rw [e3, sawProduct_natCast_sub]
  rw [s4, s3]
  field_simp
  ring

/-- The constant `PI` falls short of the number pi by less than `7e-20`. -/
theorem pi_sub_PI_lt : Real.pi - PI < 7 / 100000000000000000000 := by
  have := Real.pi_lt_d20
  unfold PI
  linarith

/-- At the angle `PI/4` the cosine exceeds the sine by a positive amount below `1e-19`. -/
theorem cos_sub_sin_PI_div_four :
    0 < Real.cos (PI / 4) - Real.sin (PI / 4)
    ∧ Real.cos (PI / 4) - Real.sin (PI / 4) ≤ 1 / 10000000000000000000 := by
  have hlt := PI_lt_pi
  have hsub := pi_sub_PI_lt
  have hs2 : Real.sqrt 2 ^ 2 = 2 := Real.sq_sqrt (by norm_num)
  have hs0 : 0 < Real.sqrt 2 := Real.sqrt_pos.mpr (by norm_num)
  have hs2le : Real.sqrt 2 ≤ 2 := by rw [Real.sqrt_le_iff]; norm_num
  have key : Real.cos (PI / 4) - Real.sin (PI / 4)
      = Real.sqrt 2 * Real.sin (Real.pi / 4 - PI / 4) := by
    rw [Real.sin_sub, Real.sin_pi_div_four, Real.cos_pi_div_four]
    have : Real.sqrt 2 * (Real.sqrt 2 / 2 * Real.cos (PI / 4)
        - Real.sqrt 2 / 2 * Real.sin (PI / 4))
        = Real.sqrt 2 ^ 2 / 2 * (Real.cos (PI / 4) - Real.sin (PI / 4)) := by ring
    rw [this, hs2]; ring
  have hpos : 0 < Real.pi / 4 - PI / 4 := by linarith
  have h1 : 0 < Real.sin (Real.pi / 4 - PI / 4) :=
    Real.sin_pos_of_pos_of_lt_pi hpos (by linarith [Real.pi_pos, PI_pos])
  have h2 : Real.sin (Real.pi / 4 - PI / 4) ≤ Real.pi / 4 - PI / 4 := Real.sin_le hpos.le
  rw [key]
  constructor
  · exact mul_pos hs0 h1
  · have : Real.sqrt 2 * Real.sin (Real.pi / 4 - PI / 4)
        ≤ 2 * (Real.pi / 4 - PI / 4) :=
      mul_le_mul hs2le h2 h1.le (by norm_num)
    linarith

/-- Bounds on `sin(PI/4)`. -/
theorem sin_PI_div_four_bounds :
    7 / 10 ≤ Real.sin (PI / 4) ∧ Real.sin (PI / 4) ≤ 1 := by
  obtain ⟨h1, h2⟩ := cos_sub_sin_PI_div_four
  have hsq := Real.sin_sq_add_cos_sq (PI / 4)
  have hs0 : 0 < Real.sin (PI / 4) :=
    Real.sin_pos_of_pos_of_lt_pi (by linarith [PI_pos]) (by linarith [PI_lt_pi, PI_pos])
  have hs1 := Real.sin_le_one (PI / 4)
  refine ⟨?_, hs1⟩
  by_contra hc
  push_neg at hc
  nlinarith

/-- Sine and cosine of a folded angle in `[0, PI/4]`: `0 ≤ sin ≤ cos` and `cos > 0`. -/
theorem sin_le_cos_of_le_PI_div_four (th : ℝ) (h0 : 0 ≤ th) (h1 : th ≤ PI / 4) :
    0 ≤ Real.sin th ∧ Real.sin th ≤ Real.cos th ∧ 0 < Real.cos th := by
  have hlt := PI_lt_pi
  have hPI := PI_pos
  have hs : 0 ≤ Real.sin th :=
    Real.sin_nonneg_of_nonneg_of_le_pi h0 (by linarith)
  obtain ⟨ha, hc⟩ := abs_sin_le_cos th (by linarith) (by linarith)
  rw [abs_of_nonneg hs] at ha
  exact ⟨hs, ha, hc⟩

theorem area_ratio_algebra (D s c C Sn : ℝ) (hD : 0 < D) (hC : 0 < C) (hS0 : 0 ≤ Sn)
    (hSC : Sn ≤ C) (hsq : s ^ 2 + c ^ 2 = 1) (hs0 : 7 / 10 ≤ s) (hs1 : s ≤ 1)
    (he0 : 0 < c - s) (he1 : c - s ≤ 1 / 10000000000000000000) :
    D / C * (s * (c * C + s * Sn) + s * (s * C - c * Sn)) ≤ D
    ∧ (1 - 1 / 1000000000000000000) * D
      ≤ D / C * (s * (c * C + s * Sn) + s * (s * C - c * Sn)) := by
  have e : D / C * (s * (c * C + s * Sn) + s * (s * C - c * Sn))
      = D * (s * (c + s) - s * (c - s) * (Sn / C)) := by
    have h : Sn / C * C = Sn := div_mul_cancel₀ Sn hC.ne'
    rw [div_mul_eq_mul_div, mul_div_assoc]
    congr 1
    rw [div_eq_iff hC.ne']
    linear_combination (s * (c - s)) * h
  rw [e]
  have hr0 : 0 ≤ Sn / C := div_nonneg hS0 hC.le
  have hr1 : Sn / C ≤ 1 := (div_le_one hC).mpr hSC
  have hk : s * (c + s) = 1 - s * (c - s) - (c - s) ^ 2 := by nlinarith
  have hse0 : 0 ≤ s * (c - s) := mul_nonneg (by linarith) he0.le
  have hse1 : s * (c - s) ≤ c - s := by
    have := mul_le_mul_of_nonneg_right hs1 he0.le
    linarith
  have hq : 0 ≤ s * (c - s) * (Sn / C) := mul_nonneg hse0 hr0
  have hq1 : s * (c - s) * (Sn / C) ≤ s * (c - s) := by
    have := mul_le_mul_of_nonneg_left hr1 hse0
    linarith
  have hsq2 : (c - s) ^ 2 ≤ c - s := by
    have : (c - s) ^ 2 = (c - s) * (c - s) := by ring
    rw [this]
    have := mul_le_mul_of_nonneg_right (by linarith : c - s ≤ 1) he0.le
    linarith
  have hsq0 : 0 ≤ (c - s) ^ 2 := sq_nonneg _
  have up : s * (c + s) - s * (c - s) * (Sn / C) ≤ 1 := by linarith
  have lo : 1 - 1 / 1000000000000000000 ≤ s * (c + s) - s * (c - s) * (Sn / C) := by
    linarith
  constructor
  · have := mul_le_mul_of_nonneg_left up hD.le
    linarith
  · have := mul_le_mul_of_nonneg_left lo hD.le
    linarith

/-- The area under the trapezoid of a view, `maxval * (d1 + d2)`, for a folded angle
`th ≤ PI/4` written with `sin(PI/4 - th) ≥ 0`: it is `DeltaPix` up to the relative defect
`1e-18` caused by `PI` not being the number pi. -/
theorem trapezoid_area_ratio (DeltaPix th : ℝ) (hD : 0 < DeltaPix) (h0 : 0 ≤ th)
    (h1 : th ≤ PI / 4) :
    DeltaPix / Real.cos th
        * (Real.sin (PI / 4) * Real.cos (PI / 4 - th)
          + Real.sin (PI / 4) * Real.sin (PI / 4 - th)) ≤ DeltaPix
    ∧ (1 - 1 / 1000000000000000000) * DeltaPix
      ≤ DeltaPix / Real.cos th
        * (Real.sin (PI / 4) * Real.cos (PI / 4 - th)
          + Real.sin (PI / 4) * Real.sin (PI / 4 - th)) := by
  obtain ⟨hS0, hSC, hC⟩ := sin_le_cos_of_le_PI_div_four th h0 h1
  obtain ⟨he0, he1⟩ := cos_sub_sin_PI_div_four
  obtain ⟨hs0, hs1⟩ := sin_PI_div_four_bounds
  have hsq := Real.sin_sq_add_cos_sq (PI / 4)
  rw [Real.cos_sub, Real.sin_sub]
  exact area_ratio_algebra DeltaPix _ _ _ _ hD hC hS0 hSC hsq hs0 hs1 he0 he1

/-- Breakpoint facts used for the normalization: `0 ≤ d2 < d1 ≤ 1` and `d1 ≥ 0.49`. -/
theorem profile_breakpoints_strict (th : ℝ) (h0 : 0 ≤ th) (h1 : th < PI / 2) :
    0 ≤ profileD2 th ∧ profileD2 th < profileD1 th ∧ profileD1 th ≤ 1
    ∧ 49 / 100 ≤ profileD1 th := by
  have hPI := PI_pos
  have hlt := PI_lt_pi
  obtain ⟨hs0, hs1⟩ := sin_PI_div_four_bounds
  obtain ⟨he0, he1⟩ := cos_sub_sin_PI_div_four
  have hx0 : -(Real.pi / 4) < PI / 4 - th := by linarith
  have hx1 : PI / 4 - th < Real.pi / 4 := by linarith
  have hc : 0 < Real.cos (PI / 4 - th) :=
    Real.cos_pos_of_mem_Ioo ⟨by linarith, by linarith⟩
  have h2x : 0 < Real.cos (2 * (PI / 4 - th)) :=
    Real.cos_pos_of_mem_Ioo ⟨by linarith, by linarith⟩
  have h3 : Real.cos (2 * (PI / 4 - th))
      = Real.cos (PI / 4 - th) ^ 2 - Real.sin (PI / 4 - th) ^ 2 := by
    rw [Real.cos_two_mul, ← Real.sin_sq_add_cos_sq (PI / 4 - th)]; ring
  have hlt2 : |Real.sin (PI / 4 - th)| < Real.cos (PI / 4 - th) := by
    apply abs_lt_of_sq_lt_sq _ hc.le
    linarith
  have hcle : Real.cos (PI / 4 - th) ≤ 1 := Real.cos_le_one _
  have hcge : Real.cos (PI / 4) ≤ Real.cos (PI / 4 - th) := by
    rw [← Real.cos_abs (PI / 4 - th)]
    apply Real.cos_le_cos_of_nonneg_of_le_pi (abs_nonneg _) (by linarith)
    rw [abs_le]
    constructor <;> linarith
  unfold profileD1 profileD2
  refine ⟨mul_nonneg (by linarith) (abs_nonneg _), ?_, ?_, ?_⟩
  · exact mul_lt_mul_of_pos_left hlt2 (by linarith)
  · nlinarith
  · nlinarith

/-- Size of the grid term of `sum_trapezoid` against the area, for at least 256 samples. -/
theorem grid_term_bound (L M D d1 d2 q : ℝ) (hL : 256 ≤ L) (hM : 0 < M) (hD : 0 < D)
    (h2 : 0 ≤ d2) (h12 : d2 < d1) (hd1 : 49 / 100 ≤ d1)
    (hq1 : |q| ≤ 1 / 4) (hq2 : |q| ≤ L * (d1 - d2) / 2) :
    4 * (M * D) / (L ^ 2 * (d1 - d2)) * |q| ≤ 9 / 1000 * (D * M * (d1 + d2)) := by
  have hL0 : (0 : ℝ) < L := by linarith
  have hw : 0 < d1 - d2 := by linarith
  have hMD : 0 < M * D := mul_pos hM hD
  have hL2 : (65536 : ℝ) ≤ L ^ 2 := by nlinarith
  have hK0 : 0 ≤ 4 * (M * D) / (L ^ 2 * (d1 - d2)) :=
    div_nonneg (by positivity) (by positivity)
  by_cases hcase : 1 / 64 ≤ d1 - d2
  · have hden : (1024 : ℝ) ≤ L ^ 2 * (d1 - d2) := by nlinarith
    have hK : 4 * (M * D) / (L ^ 2 * (d1 - d2)) ≤ 4 * (M * D) / 1024 :=
      div_le_div_of_nonneg_left (by positivity) (by norm_num) hden
    have step : 4 * (M * D) / (L ^ 2 * (d1 - d2)) * |q| ≤ 4 * (M * D) / 1024 * (1 / 4) :=
      mul_le_mul hK hq1 (abs_nonneg _) (by positivity)
    have h49 : M * D * (49 / 100) ≤ M * D * (d1 + d2) :=
      mul_le_mul_of_nonneg_left (by linarith) hMD.le
    linarith
  · push_neg at hcase
    have step : 4 * (M * D) / (L ^ 2 * (d1 - d2)) * |q|
        ≤ 4 * (M * D) / (L ^ 2 * (d1 - d2)) * (L * (d1 - d2) / 2) :=
      mul_le_mul_of_nonneg_left hq2 hK0
    have e2 : 4 * (M * D) / (L ^ 2 * (d1 - d2)) * (L * (d1 - d2) / 2) = 2 * (M * D) / L := by
      field_simp
      ring
    have h3 : 2 * (M * D) / L ≤ 2 * (M * D) / 256 :=
      div_le_div_of_nonneg_left (by positivity) (by norm_num) hL
    have h49 : M * D * (49 / 50 - 1 / 64) ≤ M * D * (d1 + d2) :=
      mul_le_mul_of_nonneg_left (by linarith) hMD.le
    linarith

/-- The sampled trapezoid sums to its area within 0.9 percent, for at least 256 samples. -/
theorem sum_trapezoid_within (L : ℕ) (hL : 256 ≤ L) (M D d1 d2 : ℝ) (hM : 0 < M) (hD : 0 < D)
    (h2 : 0 ≤ d2) (h12 : d2 < d1) (h1 : d1 ≤ 1) (hd1 : 49 / 100 ≤ d1) :
    |(∑ j in Finset.range L,
        (if 2 * (j : ℝ) / (L : ℝ) ≤ 1 - d1 ∨ 2 * (j : ℝ) / (L : ℝ) > 1 + d1 then 0
          else if 2 * (j : ℝ) / (L : ℝ) ≤ 1 - d2 then
            M * (2 * (j : ℝ) / (L : ℝ) - (1 - d1)) / ((1 - d2) - (1 - d1))
          else if 2 * (j : ℝ) / (L : ℝ) ≤ 1 + d2 then M
          else M * ((1 + d1) - 2 * (j : ℝ) / (L : ℝ)) / ((1 + d1) - (1 + d2))))
        * (2 * D / (L : ℝ)) - D * M * (d1 + d2)|
      ≤ 9 / 1000 * (D * M * (d1 + d2)) := by
  have hLpos : 0 < L := by omega
  have hL' : (256 : ℝ) ≤ L := by exact_mod_cast hL
  have hL0 : (0 : ℝ) < L := by linarith
  have hw : 0 < d1 - d2 := by linarith
  rw [sum_trapezoid L hLpos M d1 d2 h2 h12 h1]
  have hv : (L : ℝ) * (1 - d1) / 2 ≤ (L : ℝ) * (1 - d2) / 2 := by
    have := mul_le_mul_of_nonneg_left (by linarith : 1 - d1 ≤ 1 - d2) hL0.le
    linarith
  have hLip := sawProduct_sub_le _ _ hv
  have hgap : (L : ℝ) * (1 - d2) / 2 - (L : ℝ) * (1 - d1) / 2 = (L : ℝ) * (d1 - d2) / 2 := by
    ring
  rw [hgap] at hLip
  have hq1 : |sawProduct ((L : ℝ) * (1 - d1) / 2) - sawProduct ((L : ℝ) * (1 - d2) / 2)|
      ≤ 1 / 4 := by
    have a1 := sawProduct_nonneg ((L : ℝ) * (1 - d1) / 2)
    have a2 := sawProduct_nonneg ((L : ℝ) * (1 - d2) / 2)
    have a3 := sawProduct_le ((L : ℝ) * (1 - d1) / 2)
    have a4 := sawProduct_le ((L : ℝ) * (1 - d2) / 2)
    rw [abs_le]; constructor <;> linarith
  generalize sawProduct ((L : ℝ) * (1 - d1) / 2) - sawProduct ((L : ℝ) * (1 - d2) / 2) = q
    at hLip hq1 ⊢
  have hE : (M * (d1 + d2) * ((L : ℝ) / 2) + 2 * M / ((L : ℝ) * (d1 - d2)) * q)
        * (2 * D / (L : ℝ)) - D * M * (d1 + d2)
      = 4 * (M * D) / ((L : ℝ) ^ 2 * (d1 - d2)) * q := by
    field_simp
    ring
  rw [hE, abs_mul, abs_of_pos (div_pos (by positivity) (by positivity))]
  exact grid_term_bound L M D d1 d2 q hL' hM hD h2 h12 hd1 hq1 hLip

theorem foldedAngle_range (ViewAngle : ℝ) :
    0 ≤ foldedAngle ViewAngle ∧ foldedAngle ViewAngle < PI / 2 :=
  ⟨(foldedAngle_spec ViewAngle).1, (foldedAngle_spec ViewAngle).2.1⟩

theorem profileMaxval_pos (DeltaPix th : ℝ) (hD : 0 < DeltaPix) (h0 : 0 ≤ th)
    (h1 : th < PI / 2) : 0 < profileMaxval DeltaPix th :=
  profile_maxval_pos DeltaPix th hD h0 h1

/-- The area under the trapezoid of a view, `maxval * (d1 + d2)`, is `DeltaPix` up to the
relative defect `1e-18`, at every folded angle. -/
theorem profile_area (DeltaPix th : ℝ) (hD : 0 < DeltaPix) (h0 : 0 ≤ th) (h1 : th < PI / 2) :
    profileMaxval DeltaPix th * (profileD1 th + profileD2 th) ≤ DeltaPix
    ∧ (1 - 1 / 1000000000000000000) * DeltaPix
        ≤ profileMaxval DeltaPix th * (profileD1 th + profileD2 th) := by
  have hPI := PI_pos
  have hlt := PI_lt_pi
  unfold profileMaxval profileD1 profileD2
  by_cases hc : th ≤ PI / 4
  · rw [if_pos hc]
    have hs : 0 ≤ Real.sin (PI / 4 - th) :=
      Real.sin_nonneg_of_nonneg_of_le_pi (by linarith) (by linarith)
    rw [abs_of_nonneg hs]
    exact trapezoid_area_ratio DeltaPix th hD h0 hc
  · rw [if_neg hc]
    push_neg at hc
    have e : PI / 4 - th = -(PI / 4 - (PI / 2 - th)) := by ring
    have hs : 0 ≤ Real.sin (PI / 4 - (PI / 2 - th)) :=
      Real.sin_nonneg_of_nonneg_of_le_pi (by linarith) (by linarith)
    rw [e, Real.cos_neg, Real.sin_neg, abs_neg, abs_of_nonneg hs]
    exact trapezoid_area_ratio DeltaPix (PI / 2 - th) hD (by linarith) (by linarith)

/-- The discrete sum of a table row in terms of the trapezoid parameters of its view. -/
theorem profileSum_eq (cfg : BuildConfig) (sinoparams : SinoParams3DParallel)
    (imgparams : ImageParams3D ℝ) (pix_prof : ℤ → ℤ → ℝ) (i : ℤ)
    (hi0 : 0 ≤ i) (hi1 : i < sinoparams.NViews) (hL : 0 ≤ cfg.LEN_PIX) :
    profileSum cfg imgparams
        (ComputePixelProfile3DParallel cfg sinoparams imgparams pix_prof) i
      = (∑ j in Finset.range cfg.LEN_PIX.toNat,
          (if 2 * (j : ℝ) / (cfg.LEN_PIX.toNat : ℝ)
                ≤ 1 - profileD1 (foldedAngle (sinoparams.ViewAngles i))
              ∨ 2 * (j : ℝ) / (cfg.LEN_PIX.toNat : ℝ)
                > 1 + profileD1 (foldedAngle (sinoparams.ViewAngles i)) then 0
            else if 2 * (j : ℝ) / (cfg.LEN_PIX.toNat : ℝ)
                ≤ 1 - profileD2 (foldedAngle (sinoparams.ViewAngles i)) then
              profileMaxval imgparams.Deltaxy (foldedAngle (sinoparams.ViewAngles i))
                * (2 * (j : ℝ) / (cfg.LEN_PIX.toNat : ℝ)
                    - (1 - profileD1 (foldedAngle (sinoparams.ViewAngles i))))
                / ((1 - profileD2 (foldedAngle (sinoparams.ViewAngles i)))
                    - (1 - profileD1 (foldedAngle (sinoparams.ViewAngles i))))
            else if 2 * (j : ℝ) / (cfg.LEN_PIX.toNat : ℝ)
                ≤ 1 + profileD2 (foldedAngle (sinoparams.ViewAngles i)) then
              profileMaxval imgparams.Deltaxy (foldedAngle (sinoparams.ViewAngles i))
            else
              profileMaxval imgparams.Deltaxy (foldedAngle (sinoparams.ViewAngles i))
                * ((1 + profileD1 (foldedAngle (sinoparams.ViewAngles i)))
                    - 2 * (j : ℝ) / (cfg.LEN_PIX.toNat : ℝ))
                / ((1 + profileD1 (foldedAngle (sinoparams.ViewAngles i)))
                    - (1 + profileD2 (foldedAngle (sinoparams.ViewAngles i))))))
        * (2 * imgparams.Deltaxy / (cfg.LEN_PIX.toNat : ℝ)) := by
  have hcast : ((cfg.LEN_PIX.toNat : ℕ) : ℝ) = (cfg.LEN_PIX : ℝ) := by
    have : ((cfg.LEN_PIX.toNat : ℕ) : ℤ) = cfg.LEN_PIX := Int.toNat_of_nonneg hL
    exact_mod_cast this
  unfold profileSum sumTo
  rw [Finset.sum_mul, hcast]
  apply Finset.sum_congr rfl
  intro n hn
  have hn' := Finset.mem_range.mp hn
  beta_reduce
  rw [ComputePixelProfile3DParallel_apply cfg sinoparams imgparams pix_prof i n hi0 hi1
    (by omega) (by omega), pixProfEntry_eq]
  simp only [Int.cast_natCast]

/-- The discrete sum of a table row is within 0.9 percent of `Deltaxy * maxval * (d1 + d2)`,
the area under the trapezoid of the view scaled by `Deltaxy`, for `LEN_PIX ≥ 256`. -/
theorem profileSum_near_trapezoid_area (cfg : BuildConfig) (sinoparams : SinoParams3DParallel)
    (imgparams : ImageParams3D ℝ) (pix_prof : ℤ → ℤ → ℝ) (i : ℤ)
    (hD : 0 < imgparams.Deltaxy) (hL : 256 ≤ cfg.LEN_PIX)
    (hi0 : 0 ≤ i) (hi1 : i < sinoparams.NViews) :
    |profileSum cfg imgparams
        (ComputePixelProfile3DParallel cfg sinoparams imgparams pix_prof) i
      - imgparams.Deltaxy
          * profileMaxval imgparams.Deltaxy (foldedAngle (sinoparams.ViewAngles i))
          * (profileD1 (foldedAngle (sinoparams.ViewAngles i))
              + profileD2 (foldedAngle (sinoparams.ViewAngles i)))|
      ≤ 9 / 1000 * (imgparams.Deltaxy
          * profileMaxval imgparams.Deltaxy (foldedAngle (sinoparams.ViewAngles i))
          * (profileD1 (foldedAngle (sinoparams.ViewAngles i))
              + profileD2 (foldedAngle (sinoparams.ViewAngles i)))) := by
  obtain ⟨h0, h1⟩ := foldedAngle_range (sinoparams.ViewAngles i)
  obtain ⟨b1, b2, b3, b4⟩ := profile_breakpoints_strict _ h0 h1
  have hM := profileMaxval_pos imgparams.Deltaxy _ hD h0 h1
  have hmain := sum_trapezoid_within cfg.LEN_PIX.toNat (by omega)
    (profileMaxval imgparams.Deltaxy (foldedAngle (sinoparams.ViewAngles i))) imgparams.Deltaxy
    (profileD1 (foldedAngle (sinoparams.ViewAngles i)))
    (profileD2 (foldedAngle (sinoparams.ViewAngles i))) hM hD b1 b2 b3 b4
  rw [← profileSum_eq cfg sinoparams imgparams pix_prof i hi0 hi1 (by omega)] at hmain
  exact hmain

/-- C10 (amended). Trapezoid normalization: for `Deltaxy > 0` and `LEN_PIX ≥ 256` the discrete
sum over `j` of `pix_prof[v][j] * (2 * Deltaxy / LEN_PIX)` is, at every folded angle, within
0.9 percent of `Deltaxy * maxval * (d1 + d2)` (the area under the trapezoid, `maxval` being
the footprint length) and within 1 percent of the pixel area `Deltaxy^2`. -/
theorem ComputePixelProfile3DParallel_normalization (cfg : BuildConfig)
    (sinoparams : SinoParams3DParallel) (imgparams : ImageParams3D ℝ)
    (pix_prof : ℤ → ℤ → ℝ) (i : ℤ)
    (hD : 0 < imgparams.Deltaxy) (hL : 256 ≤ cfg.LEN_PIX)
    (hi0 : 0 ≤ i) (hi1 : i < sinoparams.NViews) :
    |profileSum cfg imgparams
        (ComputePixelProfile3DParallel cfg sinoparams imgparams pix_prof) i
      - imgparams.Deltaxy
          * profileMaxval imgparams.Deltaxy (foldedAngle (sinoparams.ViewAngles i))
          * (profileD1 (foldedAngle (sinoparams.ViewAngles i))
              + profileD2 (foldedAngle (sinoparams.ViewAngles i)))|
      ≤ 9 / 1000 * (imgparams.Deltaxy
          * profileMaxval imgparams.Deltaxy (foldedAngle (sinoparams.ViewAngles i))
          * (profileD1 (foldedAngle (sinoparams.ViewAngles i))
              + profileD2 (foldedAngle (sinoparams.ViewAngles i))))
    ∧ |profileSum cfg imgparams
        (ComputePixelProfile3DParallel cfg sinoparams imgparams pix_prof) i
      - imgparams.Deltaxy ^ 2| ≤ 1 / 100 * imgparams.Deltaxy ^ 2 := by
  obtain ⟨h0, h1⟩ := foldedAngle_range (sinoparams.ViewAngles i)
  obtain ⟨a1, a2⟩ := profile_area imgparams.Deltaxy _ hD h0 h1
  have hmain := profileSum_near_trapezoid_area cfg sinoparams imgparams pix_prof i hD hL hi0 hi1
  refine ⟨hmain, ?_⟩
  have u1 := mul_le_mul_of_nonneg_left a1 hD.le
  have u2 := mul_le_mul_of_nonneg_left a2 hD.le
  have hD2 : 0 < imgparams.Deltaxy ^ 2 := by positivity
  have hsq : imgparams.Deltaxy ^ 2 = imgparams.Deltaxy * imgparams.Deltaxy := by ring
  rw [mul_assoc] at hmain
  rw [abs_le] at hmain ⊢
  obtain ⟨m1, m2⟩ := hmain
  constructor <;> nlinarith

theorem foldAngleDown_of_lt (ang : ℝ) (h : ang < PI / 2) : foldAngleDown ang = ang := by
  rw [foldAngleDown]
  simp [not_le.mpr h]

theorem foldAngleUp_of_nonneg (ang : ℝ) (h : 0 ≤ ang) : foldAngleUp ang = ang := by
  rw [foldAngleUp]
  simp [not_lt.mpr h]

theorem foldedAngle_zero : foldedAngle 0 = 0 := by
  unfold foldedAngle
  rw [foldAngleDown_of_lt 0 (by linarith [PI_pos]), foldAngleUp_of_nonneg 0 le_rfl]

/-- Counterexample to C10 as stated: with `LEN_PIX = 256`, `Deltaxy = 4` and view angle 0 the
footprint length is 4, while the discrete sum is at least 15.8 (it is close to
`Deltaxy^2 = 16`), so the sum is not within 1 percent of the footprint length. -/
theorem normalization_to_footprint_fails :
    (0 < exImg4.Deltaxy ∧ 256 ≤ exCfg256.LEN_PIX ∧ foldedAngle (exSino.ViewAngles 0) ≤ PI / 4)
    ∧ ¬ (|profileSum exCfg256 exImg4
            (ComputePixelProfile3DParallel exCfg256 exSino exImg4 exProf) 0
          - footprintLength exImg4.Deltaxy (foldedAngle (exSino.ViewAngles 0))|
        ≤ 1 / 100 * footprintLength exImg4.Deltaxy (foldedAngle (exSino.ViewAngles 0))) := by
  have hD : 0 < exImg4.Deltaxy := by norm_num [exImg4]
  have hang : foldedAngle (exSino.ViewAngles 0) = 0 := foldedAngle_zero
  have hfoot : footprintLength exImg4.Deltaxy (foldedAngle (exSino.ViewAngles 0)) = 4 := by
    rw [hang]
    unfold footprintLength
    rw [if_pos (by linarith [PI_pos]), Real.cos_zero]
    norm_num [exImg4]
  refine ⟨⟨hD, by decide, by rw [hang]; linarith [PI_pos]⟩, ?_⟩
  have hnear := profileSum_near_trapezoid_area exCfg256 exSino exImg4 exProf 0 hD (by decide)
    (by decide) (by decide)
  obtain ⟨_, a2⟩ := profile_area exImg4.Deltaxy (foldedAngle (exSino.ViewAngles 0)) hD
    (foldedAngle_range _).1 (foldedAngle_range _).2
  have u2 := mul_le_mul_of_nonneg_left a2 hD.le
  rw [hfoot]
  rw [mul_assoc] at hnear
  have hval : exImg4.Deltaxy = 4 := rfl
  rw [hval] at hnear u2
  intro hclaim
  rw [abs_le] at hnear hclaim
  obtain ⟨m1, _⟩ := hnear
  obtain ⟨_, c2⟩ := hclaim
  nlinarith

/-- Instance of the amended C10 for `LEN_PIX = 256`, `Deltaxy = 4` and view angle 0. -/
theorem ComputePixelProfile3DParallel_normalization_witness :
    (0 < exImg4.Deltaxy ∧ 256 ≤ exCfg256.LEN_PIX ∧ (0 : ℤ) ≤ 0 ∧ (0 : ℤ) < exSino.NViews)
    ∧ |profileSum exCfg256 exImg4
          (ComputePixelProfile3DParallel exCfg256 exSino exImg4 exProf) 0
        - exImg4.Deltaxy ^ 2| ≤ 1 / 100 * exImg4.Deltaxy ^ 2 :=
  ⟨⟨by norm_num [exImg4], by decide, by decide, by decide⟩,
   (ComputePixelProfile3DParallel_normalization exCfg256 exSino exImg4 exProf 0
      (by norm_num [exImg4]) (by decide) (by decide) (by decide)).2⟩

/-! ### The quadratic surrogate majorizes the QGGMRF potential -/

/-- Tangent bound for the harmonic combination `X Y / (X + Y)` at a point `(X0, Y0)` with
positive coordinates. -/
theorem harmonic_tangent (X Y X0 Y0 : ℝ) (hX : 0 ≤ X) (hY : 0 ≤ Y) (hX0 : 0 < X0)
    (hY0 : 0 < Y0) :
    X * Y / (X + Y) ≤ (Y0 ^ 2 * X + X0 ^ 2 * Y) / (X0 + Y0) ^ 2 := by
  have h0 : 0 < (X0 + Y0) ^ 2 := by positivity
  by_cases hz : X + Y = 0
  · rw [hz, div_zero]
    positivity
  · have hpos : 0 < X + Y := lt_of_le_of_ne (by linarith) (Ne.symm hz)
    rw [div_le_div_iff₀ hpos h0]
    nlinarith [sq_nonneg (Y0 * X - X0 * Y)]

/-- Bernoulli bound for a power with exponent in `(0, 2]`, as a function of the square:
`m^g ≤ m0^g + (g/2) m0^(g-2) (m^2 - m0^2)`. -/
theorem rpow_tangent_sq (m m0 g : ℝ) (hm : 0 ≤ m) (hm0 : 0 < m0) (hg0 : 0 < g) (hg2 : g ≤ 2) :
    m ^ g ≤ m0 ^ g + g / 2 * (m0 ^ g / m0 ^ 2) * (m ^ 2 - m0 ^ 2) := by
  have hr : 0 ≤ m / m0 := div_nonneg hm hm0.le
  have hB := rpow_one_add_le_one_add_mul_self
    (s := (m / m0) ^ 2 - 1) (by nlinarith [sq_nonneg (m / m0)])
    (p := g / 2) (by linarith) (by linarith)
  have e1 : (1 + ((m / m0) ^ 2 - 1)) ^ (g / 2) = m ^ g / m0 ^ g := by
    have : 1 + ((m / m0) ^ 2 - 1) = (m / m0) ^ (2 : ℝ) := by
      rw [Real.rpow_two]; ring
    rw [this, ← Real.rpow_mul hr, Real.div_rpow hm hm0.le]
    congr 2 <;> ring
  rw [e1] at hB
  have hm0g : 0 < m0 ^ g := Real.rpow_pos_of_pos hm0 g
  rw [div_le_iff₀ hm0g] at hB
  have e2 : (1 + g / 2 * ((m / m0) ^ 2 - 1)) * m0 ^ g
      = m0 ^ g + g / 2 * (m0 ^ g / m0 ^ 2) * (m ^ 2 - m0 ^ 2) := by
    field_simp
    ring
  rw [e2] at hB
  exact hB

/-- The potential written with the powers `P = |t|^p`, `Q = |t|^q` and the constants
`sp = SigmaX^p`, `tau = (T*SigmaX)^(q-p)`. -/
theorem QGGMRF_Potential_eq (t : ℝ) (R : ReconParamsQGGMRF3D ℝ) (hp : 0 < R.p)
    (hpq : R.p < R.q) (hT : 0 < R.T) (hS : 0 < R.SigmaX) :
    QGGMRF_Potential t R
      = (|t| ^ R.p / (R.p * R.SigmaX ^ R.p))
          * (|t| ^ R.q / (R.p * R.SigmaX ^ R.p * (R.T * R.SigmaX) ^ (R.q - R.p)))
        / (|t| ^ R.p / (R.p * R.SigmaX ^ R.p)
          + |t| ^ R.q / (R.p * R.SigmaX ^ R.p * (R.T * R.SigmaX) ^ (R.q - R.p))) := by
  unfold QGGMRF_Potential
  simp only []
  have hTS : 0 < R.T * R.SigmaX := mul_pos hT hS
  have hq : 0 < R.q := by linarith
  by_cases ht : t = 0
  · subst ht
    rw [abs_zero, Real.zero_rpow hp.ne', Real.zero_rpow hq.ne']
    simp
  · have hm : 0 < |t| := abs_pos.mpr ht
    have hP : 0 < |t| ^ R.p := Real.rpow_pos_of_pos hm _
    have hQ : 0 < |t| ^ R.q := Real.rpow_pos_of_pos hm _
    have hsp : 0 < R.SigmaX ^ R.p := Real.rpow_pos_of_pos hS _
    have htau : 0 < (R.T * R.SigmaX) ^ (R.q - R.p) := Real.rpow_pos_of_pos hTS _
    have e : |t / (R.T * R.SigmaX)| ^ (R.q - R.p)
        = |t| ^ R.q / |t| ^ R.p / (R.T * R.SigmaX) ^ (R.q - R.p) := by
      rw [abs_div, abs_of_pos hTS, Real.div_rpow hm.le hTS.le, Real.rpow_sub hm]
    rw [e]
    have hne : 1 + |t| ^ R.q / |t| ^ R.p / (R.T * R.SigmaX) ^ (R.q - R.p) ≠ 0 := by
      positivity
    field_simp
    ring

/-- The surrogate coefficient at a nonzero `delta`, written with the same powers. -/
theorem QGGMRF_SurrogateCoeff_eq (delta : ℝ) (icd_info : ICDInfo ℝ) (hd : delta ≠ 0)
    (hT : 0 < icd_info.Rparams.T) (hS : 0 < icd_info.Rparams.SigmaX) :
    QGGMRF_SurrogateCoeff delta icd_info
      = (icd_info.Rparams.q / icd_info.Rparams.p
            + |delta| ^ icd_info.Rparams.q / |delta| ^ icd_info.Rparams.p
              / (icd_info.Rparams.T * icd_info.Rparams.SigmaX)
                  ^ (icd_info.Rparams.q - icd_info.Rparams.p))
          * (|delta| ^ icd_info.Rparams.p / delta ^ 2)
          * (|delta| ^ icd_info.Rparams.q / |delta| ^ icd_info.Rparams.p
              / (icd_info.Rparams.T * icd_info.Rparams.SigmaX)
                  ^ (icd_info.Rparams.q - icd_info.Rparams.p))
        / (icd_info.Rparams.SigmaX ^ icd_info.Rparams.p
            * (1 + |delta| ^ icd_info.Rparams.q / |delta| ^ icd_info.Rparams.p
              / (icd_info.Rparams.T * icd_info.Rparams.SigmaX)
                  ^ (icd_info.Rparams.q - icd_info.Rparams.p))
            * (1 + |delta| ^ icd_info.Rparams.q / |delta| ^ icd_info.Rparams.p
              / (icd_info.Rparams.T * icd_info.Rparams.SigmaX)
                  ^ (icd_info.Rparams.q - icd_info.Rparams.p))) := by
  unfold QGGMRF_SurrogateCoeff
  simp only []
  rw [if_neg hd]
  have hTS : 0 < icd_info.Rparams.T * icd_info.Rparams.SigmaX := mul_pos hT hS
  have hm : 0 < |delta| := abs_pos.mpr hd
  have e : |delta / (icd_info.Rparams.T * icd_info.Rparams.SigmaX)|
        ^ (icd_info.Rparams.q - icd_info.Rparams.p)
      = |delta| ^ icd_info.Rparams.q / |delta| ^ icd_info.Rparams.p
          / (icd_info.Rparams.T * icd_info.Rparams.SigmaX)
              ^ (icd_info.Rparams.q - icd_info.Rparams.p) := by
    rw [abs_div, abs_of_pos hTS, Real.div_rpow hm.le hTS.le, Real.rpow_sub hm]
  have e2 : |delta| ^ (icd_info.Rparams.p - 2) = |delta| ^ icd_info.Rparams.p / delta ^ 2 := by
    rw [Real.rpow_sub hm, Real.rpow_two, sq_abs]
  rw [e, e2]

/-- The tangent bound of the potential in terms of abstract powers: `P`, `Q` at the new
point, `P0`, `Q0` at the expansion point, `m2`, `m02` the squares of the two arguments. -/
theorem majorize_algebra (P Q P0 Q0 m2 m02 p q sp tau : ℝ) (hP : 0 ≤ P) (hQ : 0 ≤ Q)
    (hP0 : 0 < P0) (hQ0 : 0 < Q0) (hm02 : 0 < m02) (hp : 0 < p) (hsp : 0 < sp)
    (htau : 0 < tau)
    (hPt : P ≤ P0 + p / 2 * (P0 / m02) * (m2 - m02))
    (hQt : Q ≤ Q0 + q / 2 * (Q0 / m02) * (m2 - m02)) :
    (P / (p * sp)) * (Q / (p * sp * tau)) / (P / (p * sp) + Q / (p * sp * tau))
      ≤ (P0 / (p * sp)) * (Q0 / (p * sp * tau)) / (P0 / (p * sp) + Q0 / (p * sp * tau))
        + ((q / p + Q0 / P0 / tau) * (P0 / m02) * (Q0 / P0 / tau)
            / (sp * (1 + Q0 / P0 / tau) * (1 + Q0 / P0 / tau))) * (m2 - m02) / 2 := by
  have hX : 0 ≤ P / (p * sp) := div_nonneg hP (by positivity)
  have hY : 0 ≤ Q / (p * sp * tau) := div_nonneg hQ (by positivity)
  have hX0 : 0 < P0 / (p * sp) := div_pos hP0 (by positivity)
  have hY0 : 0 < Q0 / (p * sp * tau) := div_pos hQ0 (by positivity)
  have h1 := harmonic_tangent _ _ _ _ hX hY hX0 hY0
  have hXt : P / (p * sp) ≤ P0 / (p * sp) + p / 2 * (P0 / (p * sp) / m02) * (m2 - m02) := by
    have := div_le_div_of_nonneg_right hPt (by positivity : (0 : ℝ) ≤ p * sp)
    calc P / (p * sp) ≤ (P0 + p / 2 * (P0 / m02) * (m2 - m02)) / (p * sp) := this
      _ = P0 / (p * sp) + p / 2 * (P0 / (p * sp) / m02) * (m2 - m02) := by
        field_simp
        ring
  have hYt : Q / (p * sp * tau)
      ≤ Q0 / (p * sp * tau) + q / 2 * (Q0 / (p * sp * tau) / m02) * (m2 - m02) := by
    have := div_le_div_of_nonneg_right hQt (by positivity : (0 : ℝ) ≤ p * sp * tau)
    calc Q / (p * sp * tau) ≤ (Q0 + q / 2 * (Q0 / m02) * (m2 - m02)) / (p * sp * tau) := this
      _ = Q0 / (p * sp * tau) + q / 2 * (Q0 / (p * sp * tau) / m02) * (m2 - m02) := by
        field_simp
        ring
  have hden : 0 < (P0 / (p * sp) + Q0 / (p * sp * tau)) ^ 2 := by positivity
  have h2 : ((Q0 / (p * sp * tau)) ^ 2 * (P / (p * sp))
        + (P0 / (p * sp)) ^ 2 * (Q / (p * sp * tau)))
        / (P0 / (p * sp) + Q0 / (p * sp * tau)) ^ 2
      ≤ ((Q0 / (p * sp * tau)) ^ 2
            * (P0 / (p * sp) + p / 2 * (P0 / (p * sp) / m02) * (m2 - m02))
          + (P0 / (p * sp)) ^ 2
            * (Q0 / (p * sp * tau) + q / 2 * (Q0 / (p * sp * tau) / m02) * (m2 - m02)))
        / (P0 / (p * sp) + Q0 / (p * sp * tau)) ^ 2 := by
    apply div_le_div_of_nonneg_right _ hden.le
    have a1 := mul_le_mul_of_nonneg_left hXt (sq_nonneg (Q0 / (p * sp * tau)))
    have a2 := mul_le_mul_of_nonneg_left hYt (sq_nonneg (P0 / (p * sp)))
    linarith
  have h3 : ((Q0 / (p * sp * tau)) ^ 2
            * (P0 / (p * sp) + p / 2 * (P0 / (p * sp) / m02) * (m2 - m02))
          + (P0 / (p * sp)) ^ 2
            * (Q0 / (p * sp * tau) + q / 2 * (Q0 / (p * sp * tau) / m02) * (m2 - m02)))
        / (P0 / (p * sp) + Q0 / (p * sp * tau)) ^ 2
      = (P0 / (p * sp)) * (Q0 / (p * sp * tau)) / (P0 / (p * sp) + Q0 / (p * sp * tau))
        + ((q / p + Q0 / P0 / tau) * (P0 / m02) * (Q0 / P0 / tau)
            / (sp * (1 + Q0 / P0 / tau) * (1 + Q0 / P0 / tau))) * (m2 - m02) / 2 := by
    have hne1 : P0 / (p * sp) + Q0 / (p * sp * tau) ≠ 0 := by positivity
    have hne2 : 1 + Q0 / P0 / tau ≠ 0 := by positivity
    field_simp
    ring
  linarith

theorem QGGMRF_Potential_zero (R : ReconParamsQGGMRF3D ℝ) (hp : 0 < R.p) :
    QGGMRF_Potential 0 R = 0 := by
  unfold QGGMRF_Potential
  simp only []
  rw [abs_zero, Real.zero_rpow hp.ne']
  simp

theorem QGGMRF_Potential_neg (t : ℝ) (R : ReconParamsQGGMRF3D ℝ) :
    QGGMRF_Potential (-t) R = QGGMRF_Potential t R := by
  unfold QGGMRF_Potential
  simp only [abs_neg, neg_div]

theorem QGGMRF_SurrogateCoeff_zero_pos (icd_info : ICDInfo ℝ) (hp : 0 < icd_info.Rparams.p)
    (hT : 0 < icd_info.Rparams.T) (hS : 0 < icd_info.Rparams.SigmaX) :
    0 < QGGMRF_SurrogateCoeff 0 icd_info := by
  unfold QGGMRF_SurrogateCoeff
  simp only [if_true]
  have h1 : 0 < icd_info.Rparams.SigmaX ^ icd_info.Rparams.q := Real.rpow_pos_of_pos hS _
  have h2 : 0 < icd_info.Rparams.T ^ (icd_info.Rparams.q - icd_info.Rparams.p) :=
    Real.rpow_pos_of_pos hT _
  positivity

/-- The quadratic surrogate with coefficient `a(delta)` lies above the potential:
`rho(t) ≤ rho(delta) + a(delta) (t^2 - delta^2) / 2`, for `0 < p < q ≤ 2`, `T, SigmaX > 0`,
at every `delta ≠ 0`, and at `delta = 0` when `q = 2`. -/
theorem QGGMRF_surrogate_majorizes (icd_info : ICDInfo ℝ) (delta t : ℝ)
    (hp : 0 < icd_info.Rparams.p) (hpq : icd_info.Rparams.p < icd_info.Rparams.q)
    (hq2 : icd_info.Rparams.q ≤ 2) (hT : 0 < icd_info.Rparams.T)
    (hS : 0 < icd_info.Rparams.SigmaX) (hd : delta ≠ 0 ∨ icd_info.Rparams.q = 2) :
    QGGMRF_Potential t icd_info.Rparams
      ≤ QGGMRF_Potential delta icd_info.Rparams
        + QGGMRF_SurrogateCoeff delta icd_info * (t ^ 2 - delta ^ 2) / 2 := by
  have hTS : 0 < icd_info.Rparams.T * icd_info.Rparams.SigmaX := mul_pos hT hS
  have hq : 0 < icd_info.Rparams.q := by linarith
  have hsp : 0 < icd_info.Rparams.SigmaX ^ icd_info.Rparams.p := Real.rpow_pos_of_pos hS _
  have htau : 0 < (icd_info.Rparams.T * icd_info.Rparams.SigmaX)
      ^ (icd_info.Rparams.q - icd_info.Rparams.p) := Real.rpow_pos_of_pos hTS _
  have hP : 0 ≤ |t| ^ icd_info.Rparams.p := Real.rpow_nonneg (abs_nonneg t) _
  have hQ : 0 ≤ |t| ^ icd_info.Rparams.q := Real.rpow_nonneg (abs_nonneg t) _
  by_cases h0 : delta = 0
  · have hq2' : icd_info.Rparams.q = 2 := by
      rcases hd with h | h
      · exact absurd h0 h
      · exact h
    subst h0
    rw [QGGMRF_Potential_zero _ hp, QGGMRF_Potential_eq t _ hp hpq hT hS]
    have ha : QGGMRF_SurrogateCoeff 0 icd_info
        = 2 / (icd_info.Rparams.p * icd_info.Rparams.SigmaX ^ icd_info.Rparams.q
            * icd_info.Rparams.T ^ (icd_info.Rparams.q - icd_info.Rparams.p)) := by
      unfold QGGMRF_SurrogateCoeff
      simp only [if_true]
    have hY : |t| ^ icd_info.Rparams.q
          / (icd_info.Rparams.p * icd_info.Rparams.SigmaX ^ icd_info.Rparams.p
            * (icd_info.Rparams.T * icd_info.Rparams.SigmaX)
                ^ (icd_info.Rparams.q - icd_info.Rparams.p))
        = QGGMRF_SurrogateCoeff 0 icd_info * (t ^ 2 - 0 ^ 2) / 2 := by
      rw [ha, Real.mul_rpow hT.le hS.le]
      have e1 : icd_info.Rparams.SigmaX ^ icd_info.Rparams.q
          = icd_info.Rparams.SigmaX ^ icd_info.Rparams.p
            * icd_info.Rparams.SigmaX ^ (icd_info.Rparams.q - icd_info.Rparams.p) := by
        rw [← Real.rpow_add hS]; congr 1; ring
      have e2 : |t| ^ icd_info.Rparams.q = t ^ 2 := by
        rw [hq2', Real.rpow_two, sq_abs]
      have hT' : 0 < icd_info.Rparams.T ^ (icd_info.Rparams.q - icd_info.Rparams.p) :=
        Real.rpow_pos_of_pos hT _
      have hS' : 0 < icd_info.Rparams.SigmaX ^ (icd_info.Rparams.q - icd_info.Rparams.p) :=
        Real.rpow_pos_of_pos hS _
      rw [e1, e2]
      field_simp
      ring
    rw [zero_add, ← hY]
    have hXn : 0 ≤ |t| ^ icd_info.Rparams.p
        / (icd_info.Rparams.p * icd_info.Rparams.SigmaX ^ icd_info.Rparams.p) :=
      div_nonneg hP (by positivity)
    have hYn : 0 ≤ |t| ^ icd_info.Rparams.q
        / (icd_info.Rparams.p * icd_info.Rparams.SigmaX ^ icd_info.Rparams.p
          * (icd_info.Rparams.T * icd_info.Rparams.SigmaX)
              ^ (icd_info.Rparams.q - icd_info.Rparams.p)) :=
      div_nonneg hQ (by positivity)
    generalize |t| ^ icd_info.Rparams.p
        / (icd_info.Rparams.p * icd_info.Rparams.SigmaX ^ icd_info.Rparams.p) = X at hXn ⊢
    generalize |t| ^ icd_info.Rparams.q
        / (icd_info.Rparams.p * icd_info.Rparams.SigmaX ^ icd_info.Rparams.p
          * (icd_info.Rparams.T * icd_info.Rparams.SigmaX)
              ^ (icd_info.Rparams.q - icd_info.Rparams.p)) = Y at hYn ⊢
    by_cases hz : X + Y = 0
    · rw [hz, div_zero]; exact hYn
    · have hpos : 0 < X + Y := lt_of_le_of_ne (by linarith) (Ne.symm hz)
      rw [div_le_iff₀ hpos]
      nlinarith
  · have hm : 0 < |delta| := abs_pos.mpr h0
    have hP0 : 0 < |delta| ^ icd_info.Rparams.p := Real.rpow_pos_of_pos hm _
    have hQ0 : 0 < |delta| ^ icd_info.Rparams.q := Real.rpow_pos_of_pos hm _
    have hm02 : 0 < delta ^ 2 := by positivity
    have hPt := rpow_tangent_sq |t| |delta| icd_info.Rparams.p (abs_nonneg t) hm hp
      (by linarith)
    have hQt := rpow_tangent_sq |t| |delta| icd_info.Rparams.q (abs_nonneg t) hm hq hq2
    rw [sq_abs, sq_abs] at hPt hQt
    rw [QGGMRF_Potential_eq t _ hp hpq hT hS, QGGMRF_Potential_eq delta _ hp hpq hT hS,
      QGGMRF_SurrogateCoeff_eq delta icd_info h0 hT hS]
    exact majorize_algebra _ _ _ _ (t ^ 2) (delta ^ 2) _ _ _ _ hP hQ hP0 hQ0 hm02 hp hsp htau
      hPt hQt

/-! ### Symmetry of the wrap-around neighbourhood -/

theorem slotOffset_pairSlot (s : ℤ) (h0 : 0 ≤ s) (h1 : s < 10) :
    (0 ≤ pairSlot s ∧ pairSlot s < 10)
    ∧ slotOffset (pairSlot s)
        = (-(slotOffset s).1, -(slotOffset s).2.1, -(slotOffset s).2.2)
    ∧ pairSlot (pairSlot s) = s := by
  interval_cases s <;> simp [pairSlot, slotOffset]

theorem neighborWeight_pairSlot (Rparams : ReconParamsQGGMRF3D ℝ) (s : ℤ) (h0 : 0 ≤ s)
    (h1 : s < 10) : neighborWeight Rparams (pairSlot s) = neighborWeight Rparams s := by
  interval_cases s <;> simp [pairSlot, neighborWeight]

/-- The position read for slot `s`, by the offset of the slot. -/
theorem NeighborPosition_offset (Nx Ny Nz x y z : ℤ) (hx0 : 0 ≤ x) (hx1 : x < Nx)
    (hy0 : 0 ≤ y) (hy1 : y < Ny) (hz0 : 0 ≤ z) (hz1 : z < Nz) (s : ℤ) (h0 : 0 ≤ s)
    (h1 : s < 10) :
    NeighborPosition Nx Ny Nz (z * Nx * Ny + y * Nx + x) s
      = ((z + (slotOffset s).2.2) % Nz,
         (y + (slotOffset s).2.1) % Ny * Nx + (x + (slotOffset s).1) % Nx) := by
  rw [NeighborPosition_eq Nx Ny Nz x y z hx0 hx1 hy0 hy1 hz0 hz1]
  have mx := Int.emod_eq_of_lt hx0 hx1
  have my := Int.emod_eq_of_lt hy0 hy1
  have mz := Int.emod_eq_of_lt hz0 hz1
  interval_cases s <;> simp [slotOffset, mx, my, mz, sub_eq_add_neg]

/-- Every voxel index below `Nx * Ny * Nz` is `z * Nx * Ny + y * Nx + x` for coordinates in
range. -/
theorem voxel_coords (Nx Ny Nz I : ℤ) (hNx : 0 < Nx) (hNy : 0 < Ny) (hI0 : 0 ≤ I)
    (hI1 : I < Nx * Ny * Nz) :
    ∃ x y z, (0 ≤ x ∧ x < Nx) ∧ (0 ≤ y ∧ y < Ny) ∧ (0 ≤ z ∧ z < Nz)
      ∧ I = z * Nx * Ny + y * Nx + x := by
  have hNN : 0 < Nx * Ny := mul_pos hNx hNy
  have hr0 := Int.emod_nonneg I hNN.ne'
  have hr1 := Int.emod_lt_of_pos I hNN
  refine ⟨I % (Nx * Ny) % Nx, I % (Nx * Ny) / Nx, I / (Nx * Ny),
    ⟨Int.emod_nonneg _ hNx.ne', Int.emod_lt_of_pos _ hNx⟩,
    ⟨Int.ediv_nonneg hr0 hNx.le, ?_⟩,
    ⟨Int.ediv_nonneg hI0 hNN.le, ?_⟩, ?_⟩
  · apply Int.ediv_lt_of_lt_mul hNx
    linarith [mul_comm Nx Ny]
  · apply Int.ediv_lt_of_lt_mul hNN
    linarith [mul_comm (Nx * Ny) Nz]
  · have h1 := Int.emod_add_ediv I (Nx * Ny)
    have h2 := Int.emod_add_ediv (I % (Nx * Ny)) Nx
    nlinarith

theorem wrap_inverse (a d N : ℤ) (h0 : 0 ≤ a) (h1 : a < N) : ((a + d) % N + -d) % N = a := by
  rw [Int.emod_add_emod, add_neg_cancel_right, Int.emod_eq_of_lt h0 h1]

/-- The neighbour of a voxel is a voxel, and the paired slot leads back: if `r` is read into
slot `s` for voxel `I`, then `I` is read into slot `pairSlot s` for `r`. -/
theorem NeighborIndex_pair (Nx Ny Nz I s : ℤ) (hNx : 0 < Nx) (hNy : 0 < Ny)
    (hI0 : 0 ≤ I) (hI1 : I < Nx * Ny * Nz) (h0 : 0 ≤ s) (h1 : s < 10) :
    (0 ≤ NeighborIndex Nx Ny Nz I s ∧ NeighborIndex Nx Ny Nz I s < Nx * Ny * Nz)
    ∧ NeighborIndex Nx Ny Nz (NeighborIndex Nx Ny Nz I s) (pairSlot s) = I := by
  obtain ⟨x, y, z, ⟨hx0, hx1⟩, ⟨hy0, hy1⟩, ⟨hz0, hz1⟩, rfl⟩ :=
    voxel_coords Nx Ny Nz I hNx hNy hI0 hI1
  have hNz : 0 < Nz := by omega
  obtain ⟨⟨hp0, hp1⟩, hoff, _⟩ := slotOffset_pairSlot s h0 h1
  have px0 := Int.emod_nonneg (x + (slotOffset s).1) hNx.ne'
  have px1 := Int.emod_lt_of_pos (x + (slotOffset s).1) hNx
  have py0 := Int.emod_nonneg (y + (slotOffset s).2.1) hNy.ne'
  have py1 := Int.emod_lt_of_pos (y + (slotOffset s).2.1) hNy
  have pz0 := Int.emod_nonneg (z + (slotOffset s).2.2) hNz.ne'
  have pz1 := Int.emod_lt_of_pos (z + (slotOffset s).2.2) hNz
  have e1 : NeighborIndex Nx Ny Nz (z * Nx * Ny + y * Nx + x) s
      = (z + (slotOffset s).2.2) % Nz * Nx * Ny
        + (y + (slotOffset s).2.1) % Ny * Nx + (x + (slotOffset s).1) % Nx := by
    unfold NeighborIndex
    rw [NeighborPosition_offset Nx Ny Nz x y z hx0 hx1 hy0 hy1 hz0 hz1 s h0 h1]
    ring
  rw [e1]
  constructor
  · have hr := pixel_index_range Nx Ny _ _ px0 px1 py0 py1
    have hzN : 0 ≤ (z + (slotOffset s).2.2) % Nz * (Nx * Ny) :=
      mul_nonneg pz0 (mul_pos hNx hNy).le
    have hzN' : ((z + (slotOffset s).2.2) % Nz + 1) * (Nx * Ny) ≤ Nz * (Nx * Ny) :=
      mul_le_mul_of_nonneg_right (by omega) (mul_pos hNx hNy).le
    constructor
    · nlinarith [hr.1]
    · nlinarith [hr.2]
  · unfold NeighborIndex
    rw [NeighborPosition_offset Nx Ny Nz _ _ _ px0 px1 py0 py1 pz0 pz1 (pairSlot s) hp0 hp1,
      hoff]
    simp only
    rw [wrap_inverse x _ Nx hx0 hx1, wrap_inverse y _ Ny hy0 hy1, wrap_inverse z _ Nz hz0 hz1]
    ring

/-! ### Change of the prior term when one voxel changes -/

theorem sumTo_sub (N : ℤ) (f g : ℤ → ℝ) :
    sumTo N f - sumTo N g = sumTo N (fun n => f n - g n) := by
  unfold sumTo
  rw [Finset.sum_sub_distrib]

theorem sumTo_mul_left (N : ℤ) (c : ℝ) (f : ℤ → ℝ) :
    sumTo N (fun n => c * f n) = c * sumTo N f := by
  unfold sumTo
  rw [Finset.mul_sum]

theorem sumTo_comm (N M : ℤ) (f : ℤ → ℤ → ℝ) :
    sumTo N (fun n => sumTo M (fun m => f n m)) = sumTo M (fun m => sumTo N (fun n => f n m)) := by
  unfold sumTo
  exact Finset.sum_comm

theorem sumTo_le_sumTo (N : ℤ) (f g : ℤ → ℝ) (h : ∀ n, 0 ≤ n → n < N → f n ≤ g n) :
    sumTo N f ≤ sumTo N g := by
  unfold sumTo
  apply Finset.sum_le_sum
  intro n hn
  have := Finset.mem_range.mp hn
  apply h <;> omega

/-- Change of a sum of `rho(x_I - x_{nb I})` over all voxels when the value of voxel `I0`
becomes `v`, for a neighbour map `nb` with inverse `nb'` and an even function `rho`: only the
term of `I0` and the term of the voxel whose neighbour is `I0` change. -/
theorem slot_sum_change (N : ℤ) (nb nb' : ℤ → ℤ) (rho : ℝ → ℝ) (x : ℤ → ℝ) (I0 : ℤ) (v : ℝ)
    (h0 : 0 ≤ I0) (h1 : I0 < N)
    (hnb : ∀ I, 0 ≤ I → I < N → nb' (nb I) = I)
    (hnb' : ∀ I, 0 ≤ I → I < N → (0 ≤ nb' I ∧ nb' I < N) ∧ nb (nb' I) = I)
    (heven : ∀ t, rho (-t) = rho t) :
    sumTo N (fun I => rho (Function.update x I0 v I - Function.update x I0 v (nb I)))
        - sumTo N (fun I => rho (x I - x (nb I)))
      = (if nb I0 = I0 then 0 else rho (v - x (nb I0)) - rho (x I0 - x (nb I0)))
        + (if nb' I0 = I0 then 0 else rho (v - x (nb' I0)) - rho (x I0 - x (nb' I0))) := by
  obtain ⟨⟨hu0, hu1⟩, hu⟩ := hnb' I0 h0 h1
  rw [sumTo_sub,
    ← sumTo_single N I0 h0 h1
      (fun _ => if nb I0 = I0 then 0 else rho (v - x (nb I0)) - rho (x I0 - x (nb I0))),
    ← sumTo_single N (nb' I0) hu0 hu1
      (fun _ => if nb' I0 = I0 then 0 else rho (v - x (nb' I0)) - rho (x I0 - x (nb' I0))),
    ← sumTo_add]
  apply sumTo_congr
  intro I hI0 hI1
  beta_reduce
  by_cases hI : I = I0
  · subst hI
    rw [if_pos rfl, Function.update_same]
    by_cases hs : nb I = I
    · have hs' : nb' I = I := by
        have := hnb I h0 h1
        rw [hs] at this
        exact this
      rw [hs, Function.update_same, if_pos rfl, hs', if_pos rfl]
      simp
    · have hs' : ¬ (I = nb' I) := by
        intro hc
        apply hs
        have := hu
        rw [← hc] at this
        exact this
      rw [Function.update_noteq hs, if_neg hs, if_neg hs']
      simp
  · rw [if_neg hI, Function.update_noteq hI, zero_add]
    by_cases hI' : I = nb' I0
    · have hnI : nb I = I0 := by rw [hI', hu]
      have hne : ¬ (nb' I0 = I0) := by
        intro hc
        apply hI
        rw [hI', hc]
      rw [if_pos hI', hnI, Function.update_same, if_neg hne, ← hI',
        ← heven (x I - v), ← heven (x I - x I0)]
      congr 2 <;> ring
    · have hnI : nb I ≠ I0 := by
        intro hc
        apply hI'
        have := hnb I hI0 hI1
        rw [hc] at this
        exact this.symm
      rw [if_neg hI', Function.update_noteq hnI]
      simp

theorem NeighborPosition_range (Nx Ny Nz I s : ℤ) (hNx : 0 < Nx) (hNy : 0 < Ny)
    (hI0 : 0 ≤ I) (hI1 : I < Nx * Ny * Nz) (h0 : 0 ≤ s) (h1 : s < 10) :
    0 ≤ (NeighborPosition Nx Ny Nz I s).2 ∧ (NeighborPosition Nx Ny Nz I s).2 < Nx * Ny := by
  obtain ⟨x, y, z, ⟨hx0, hx1⟩, ⟨hy0, hy1⟩, ⟨hz0, hz1⟩, rfl⟩ :=
    voxel_coords Nx Ny Nz I hNx hNy hI0 hI1
  rw [NeighborPosition_offset Nx Ny Nz x y z hx0 hx1 hy0 hy1 hz0 hz1 s h0 h1]
  exact pixel_index_range Nx Ny _ _ (Int.emod_nonneg _ hNx.ne') (Int.emod_lt_of_pos _ hNx)
    (Int.emod_nonneg _ hNy.ne') (Int.emod_lt_of_pos _ hNy)

theorem atVoxel_store2 (a : ℤ → ℤ → ℝ) (Nxy I0 : ℤ) (v : ℝ) (I : ℤ) :
    atVoxel (store2 a (I0 / Nxy) (I0 % Nxy) v) Nxy I
      = Function.update (atVoxel a Nxy) I0 v I := by
  unfold atVoxel
  rw [store2_apply]
  by_cases h : I = I0
  · subst h; simp
  · rw [Function.update_noteq h, if_neg]
    rintro ⟨h1, h2⟩
    apply h
    rw [← Int.ediv_add_emod I Nxy, ← Int.ediv_add_emod I0 Nxy, h1, h2]

theorem atVoxel_position (a : ℤ → ℤ → ℝ) (Nx Ny Nz I s : ℤ) (hNx : 0 < Nx) (hNy : 0 < Ny)
    (hI0 : 0 ≤ I) (hI1 : I < Nx * Ny * Nz) (h0 : 0 ≤ s) (h1 : s < 10) :
    a (NeighborPosition Nx Ny Nz I s).1 (NeighborPosition Nx Ny Nz I s).2
      = atVoxel a (Nx * Ny) (NeighborIndex Nx Ny Nz I s) := by
  obtain ⟨hp0, hp1⟩ := NeighborPosition_range Nx Ny Nz I s hNx hNy hI0 hI1 h0 h1
  have hNN : 0 < Nx * Ny := mul_pos hNx hNy
  unfold atVoxel NeighborIndex
  congr 1
  · rw [add_comm, Int.add_mul_ediv_right _ _ hNN.ne', Int.ediv_eq_zero_of_lt hp0 hp1, zero_add]
  · rw [add_comm, Int.add_mul_emod_self, Int.emod_eq_of_lt hp0 hp1]

/-- The prior term as a weighted sum, over the ten slots, of the sums over all voxels. -/
theorem priorCost_eq (Image : Image3D ℝ) (Rparams : ReconParamsQGGMRF3D ℝ)
    (hNx : 0 < Image.imgparams.Nx) (hNy : 0 < Image.imgparams.Ny) :
    priorCost Image Rparams
      = 1 / 2 * sumTo 10 (fun s => neighborWeight Rparams s
          * sumTo (Image.imgparams.Nx * Image.imgparams.Ny * Image.imgparams.Nz) (fun I =>
              QGGMRF_Potential
                (atVoxel Image.image (Image.imgparams.Nx * Image.imgparams.Ny) I
                  - atVoxel Image.image (Image.imgparams.Nx * Image.imgparams.Ny)
                      (NeighborIndex Image.imgparams.Nx Image.imgparams.Ny Image.imgparams.Nz
                        I s))
                Rparams)) := by
  unfold priorCost
  simp only []
  congr 1
  rw [sumTo_comm]
  apply sumTo_congr
  intro s hs0 hs1
  beta_reduce
  rw [← sumTo_mul_left]
  apply sumTo_congr
  intro I hI0 hI1
  beta_reduce
  rw [atVoxel_position Image.image _ _ _ I s hNx hNy hI0 hI1 hs0 hs1]
  rfl

/-- Reindexing a sum over the ten slots by the pairing of the slots. -/
theorem sumTo_pairSlot (g : ℤ → ℝ) : sumTo 10 (fun s => g (pairSlot s)) = sumTo 10 g := by
  have h10 : (10 : ℤ).toNat = 10 := rfl
  unfold sumTo
  rw [h10]
  simp only [Finset.sum_range_succ, Finset.sum_range_zero]
  norm_num [pairSlot]
  ring

/-- Change of the prior term when voxel `I0` takes the value `v`: the sum over the slots of
the weighted change of the potential between the voxel and its neighbour in that slot
(nothing for a slot in which the voxel is its own neighbour). -/
theorem priorCost_change (Image : Image3D ℝ) (Rparams : ReconParamsQGGMRF3D ℝ) (I0 : ℤ)
    (v : ℝ) (hNx : 0 < Image.imgparams.Nx) (hNy : 0 < Image.imgparams.Ny)
    (hI0 : 0 ≤ I0)
    (hI1 : I0 < Image.imgparams.Nx * Image.imgparams.Ny * Image.imgparams.Nz) :
    priorCost
        { Image with
          image := store2 Image.image (I0 / (Image.imgparams.Nx * Image.imgparams.Ny))
            (I0 % (Image.imgparams.Nx * Image.imgparams.Ny)) v } Rparams
      - priorCost Image Rparams
      = sumTo 10 (slotChange Image Rparams I0 v) := by
  have e1 := priorCost_eq
    { Image with
      image := store2 Image.image (I0 / (Image.imgparams.Nx * Image.imgparams.Ny))
        (I0 % (Image.imgparams.Nx * Image.imgparams.Ny)) v } Rparams hNx hNy
  simp only [] at e1
  rw [e1, priorCost_eq Image Rparams hNx hNy, ← mul_sub, sumTo_sub]
  have hslot : ∀ s, 0 ≤ s → s < 10 →
      neighborWeight Rparams s
          * sumTo (Image.imgparams.Nx * Image.imgparams.Ny * Image.imgparams.Nz) (fun I =>
              QGGMRF_Potential
                (atVoxel (store2 Image.image (I0 / (Image.imgparams.Nx * Image.imgparams.Ny))
                    (I0 % (Image.imgparams.Nx * Image.imgparams.Ny)) v)
                    (Image.imgparams.Nx * Image.imgparams.Ny) I
                  - atVoxel (store2 Image.image (I0 / (Image.imgparams.Nx * Image.imgparams.Ny))
                      (I0 % (Image.imgparams.Nx * Image.imgparams.Ny)) v)
                      (Image.imgparams.Nx * Image.imgparams.Ny)
                      (NeighborIndex Image.imgparams.Nx Image.imgparams.Ny Image.imgparams.Nz
                        I s))
                Rparams)
        - neighborWeight Rparams s
          * sumTo (Image.imgparams.Nx * Image.imgparams.Ny * Image.imgparams.Nz) (fun I =>
              QGGMRF_Potential
                (atVoxel Image.image (Image.imgparams.Nx * Image.imgparams.Ny) I
                  - atVoxel Image.image (Image.imgparams.Nx * Image.imgparams.Ny)
                      (NeighborIndex Image.imgparams.Nx Image.imgparams.Ny Image.imgparams.Nz
                        I s))
                Rparams)
      = slotChange Image Rparams I0 v s + slotChange Image Rparams I0 v (pairSlot s) := by
    intro s hs0 hs1
    obtain ⟨⟨hp0, hp1⟩, _, hpp⟩ := slotOffset_pairSlot s hs0 hs1
    simp only [atVoxel_store2]
    unfold slotChange
    rw [← mul_sub,
      slot_sum_change _
        (fun I => NeighborIndex Image.imgparams.Nx Image.imgparams.Ny Image.imgparams.Nz I s)
        (fun I => NeighborIndex Image.imgparams.Nx Image.imgparams.Ny Image.imgparams.Nz I
          (pairSlot s))
        (fun t => QGGMRF_Potential t Rparams) _ I0 v hI0 hI1
        (fun I h0 h1 => (NeighborIndex_pair _ _ _ I s hNx hNy h0 h1 hs0 hs1).2)
        (fun I h0 h1 => by
          have := NeighborIndex_pair _ _ _ I (pairSlot s) hNx hNy h0 h1 hp0 hp1
          rw [hpp] at this
          exact this)
        (fun t => QGGMRF_Potential_neg t Rparams),
      neighborWeight_pairSlot Rparams s hs0 hs1]
    ring
  rw [sumTo_congr 10 _ _ hslot, sumTo_add, sumTo_pairSlot (slotChange Image Rparams I0 v)]
  ring

/-! ### Change of the data term under the residual update -/

/-- For pairwise distinct row indices at most one entry of a column lies in row `k`, so a sum
over the entries of row `k` is a sum of one term or none: a function applied to the sum is
the sum of the function applied to the terms. -/
theorem sumTo_row_apply (N : ℤ) (r : ℤ → ℤ) (g : ℤ → ℝ) (F : ℝ → ℝ) (hF : F 0 = 0) (k : ℤ)
    (hinj : ∀ n m, 0 ≤ n → n < N → 0 ≤ m → m < N → r n = r m → n = m) :
    F (sumTo N (fun n => if r n = k then g n else 0))
      = sumTo N (fun n => if r n = k then F (g n) else 0) := by
  by_cases hex : ∃ n0, 0 ≤ n0 ∧ n0 < N ∧ r n0 = k
  · obtain ⟨n0, h0, h1, hr⟩ := hex
    have e1 : ∀ G : ℤ → ℝ, sumTo N (fun n => if r n = k then G n else 0) = G n0 := by
      intro G
      rw [← sumTo_single N n0 h0 h1 G]
      apply sumTo_congr
      intro n hn0 hn1
      by_cases hn : n = n0
      · subst hn; simp [hr]
      · have : ¬ r n = k := by
          intro hc
          exact hn (hinj n n0 hn0 hn1 h0 h1 (hc.trans hr.symm))
        simp [hn, this]
    rw [e1 g, e1 (fun n => F (g n))]
  · have e0 : ∀ G : ℤ → ℝ, sumTo N (fun n => if r n = k then G n else 0) = 0 := by
      intro G
      rw [sumTo_congr N _ (fun _ => (0 : ℝ)) ?_, sumTo_zero]
      intro n hn0 hn1
      have : ¬ r n = k := fun hc => hex ⟨n, hn0, hn1, hc⟩
      simp [this]
    rw [e0 g, e0 (fun n => F (g n)), hF]

/-- A sum over the rows of the row-`k` entries of a column, weighted by a function of the
row, is the sum over the entries of the column (every row index being in range). -/
theorem sumTo_rows_entries (Nrows N : ℤ) (r : ℤ → ℤ) (c : ℤ → ℝ) (g : ℤ → ℝ)
    (hrange : ∀ n, 0 ≤ n → n < N → 0 ≤ r n ∧ r n < Nrows) :
    sumTo Nrows (fun k => c k * sumTo N (fun n => if r n = k then g n else 0))
      = sumTo N (fun n => c (r n) * g n) := by
  have e1 : ∀ k, c k * sumTo N (fun n => if r n = k then g n else 0)
      = sumTo N (fun n => if k = r n then c k * g n else 0) := by
    intro k
    rw [← sumTo_mul_left]
    apply sumTo_congr
    intro n _ _
    by_cases h : r n = k
    · simp [h]
    · have h2 : ¬ k = r n := fun hc => h hc.symm
      simp [h, h2]
  simp only [e1]
  rw [sumTo_comm]
  apply sumTo_congr
  intro n hn0 hn1
  obtain ⟨hr0, hr1⟩ := hrange n hn0 hn1
  exact sumTo_single Nrows (r n) hr0 hr1 (fun k => c k * g n)

/-- Change of the data term of the cost under `UpdateError3D` with `diff = d`, for a voxel
whose column has pairwise distinct row indices in `[0, Nrows)`: `d` times the data part of
`theta1` plus `d^2 / 2` times the data part of `theta2`. -/
theorem dataCost_change (e w : ℤ → ℤ → ℝ) (A : SysMatrix2D ℝ) (icd_info : ICDInfo ℝ)
    (Nz Nrows : ℤ) (d : ℝ)
    (hz0 : 0 ≤ icd_info.VoxelIndex.tdiv icd_info.Nxy)
    (hz1 : icd_info.VoxelIndex.tdiv icd_info.Nxy < Nz)
    (hrange : ∀ n, 0 ≤ n →
      n < (A.column (icd_info.VoxelIndex.tmod icd_info.Nxy)).Nnonzero →
      0 ≤ (A.column (icd_info.VoxelIndex.tmod icd_info.Nxy)).RowIndex n
        ∧ (A.column (icd_info.VoxelIndex.tmod icd_info.Nxy)).RowIndex n < Nrows)
    (hinj : ∀ n m, 0 ≤ n →
      n < (A.column (icd_info.VoxelIndex.tmod icd_info.Nxy)).Nnonzero → 0 ≤ m →
      m < (A.column (icd_info.VoxelIndex.tmod icd_info.Nxy)).Nnonzero →
      (A.column (icd_info.VoxelIndex.tmod icd_info.Nxy)).RowIndex n
        = (A.column (icd_info.VoxelIndex.tmod icd_info.Nxy)).RowIndex m → n = m) :
    dataCost w (UpdateError3D e A d icd_info) Nz Nrows - dataCost w e Nz Nrows
      = d * (- dataTheta1 e w A icd_info) + d ^ 2 / 2 * dataTheta2 w A icd_info := by
  generalize hcol : A.column (icd_info.VoxelIndex.tmod icd_info.Nxy) = col at hrange hinj
  generalize hz : icd_info.VoxelIndex.tdiv icd_info.Nxy = z0 at hz0 hz1
  have hslice : ∀ z, 0 ≤ z → z < Nz →
      sumTo Nrows (fun k => w z k * UpdateError3D e A d icd_info z k ^ 2)
        - sumTo Nrows (fun k => w z k * e z k ^ 2)
      = if z = z0 then
          sumTo Nrows (fun k => w z0 k * e z0 k
              * sumTo col.Nnonzero (fun n => if col.RowIndex n = k then -2 * d * col.Value n
                  else 0))
            + sumTo Nrows (fun k => w z0 k
              * sumTo col.Nnonzero (fun n => if col.RowIndex n = k
                  then (col.Value n * d) ^ 2 else 0))
        else 0 := by
    intro z _ _
    rw [sumTo_sub]
    by_cases hzz : z = z0
    · subst hzz
      rw [if_pos rfl, ← sumTo_add]
      apply sumTo_congr
      intro k _ _
      beta_reduce
      rw [UpdateError3D_apply, hcol, hz, if_pos rfl,
        ← sumTo_row_apply col.Nnonzero col.RowIndex (fun n => col.Value n * d)
          (fun t => t ^ 2) (by norm_num) k hinj]
      have e2 : sumTo col.Nnonzero (fun n => if col.RowIndex n = k then -2 * d * col.Value n
            else 0)
          = -2 * sumTo col.Nnonzero (fun n => if col.RowIndex n = k then col.Value n * d
            else 0) := by
        rw [← sumTo_mul_left]
        apply sumTo_congr
        intro n _ _
        by_cases h : col.RowIndex n = k
        · simp only [h, if_true]; ring
        · simp [h]
      rw [e2]
      ring
    · rw [if_neg hzz, ← sumTo_zero Nrows]
      apply sumTo_congr
      intro k _ _
      beta_reduce
      rw [UpdateError3D_apply, hz, if_neg hzz]
      ring
  unfold dataCost
  rw [← mul_sub, sumTo_sub, sumTo_congr Nz _ _ hslice, sumTo_single Nz z0 hz0 hz1
    (fun _ => sumTo Nrows (fun k => w z0 k * e z0 k
              * sumTo col.Nnonzero (fun n => if col.RowIndex n = k then -2 * d * col.Value n
                  else 0))
            + sumTo Nrows (fun k => w z0 k
              * sumTo col.Nnonzero (fun n => if col.RowIndex n = k
                  then (col.Value n * d) ^ 2 else 0))),
    sumTo_rows_entries Nrows col.Nnonzero col.RowIndex (fun k => w z0 k * e z0 k) _ hrange,
    sumTo_rows_entries Nrows col.Nnonzero col.RowIndex (fun k => w z0 k) _ hrange]
  unfold dataTheta1 dataTheta2
  rw [hcol, hz]
  have h1 : sumTo col.Nnonzero
        (fun n => w z0 (col.RowIndex n) * e z0 (col.RowIndex n) * (-2 * d * col.Value n))
      = -2 * d * sumTo col.Nnonzero
        (fun n => col.Value n * w z0 (col.RowIndex n) * e z0 (col.RowIndex n)) := by
    rw [← sumTo_mul_left]
    apply sumTo_congr
    intro n _ _
    ring
  have h2 : sumTo col.Nnonzero (fun n => w z0 (col.RowIndex n) * (col.Value n * d) ^ 2)
      = d ^ 2 * sumTo col.Nnonzero
        (fun n => col.Value n * w z0 (col.RowIndex n) * col.Value n) := by
    rw [← sumTo_mul_left]
    apply sumTo_congr
    intro n _ _
    ring
  rw [h1, h2]
  ring

/-! ### One ICD update does not increase the cost -/

/-- The three weighted group sums of `QGGMRF3D_UpdateICDParams` as one sum over the ten
slots with the weight of each slot. -/
theorem group_sums_eq (R : ReconParamsQGGMRF3D ℝ) (f : ℤ → ℝ) :
    R.b_nearest * sumFromTo 0 4 f + R.b_diag * sumFromTo 6 10 f
        + R.b_interslice * sumFromTo 4 6 f
      = sumTo 10 (fun s => neighborWeight R s * f s) := by
  have h10 : ((10 : ℤ)).toNat = 10 := rfl
  have h04 : ((4 : ℤ) - 0).toNat = 4 := rfl
  have h46 : ((6 : ℤ) - 4).toNat = 2 := rfl
  have h610 : ((10 : ℤ) - 6).toNat = 4 := rfl
  simp only [sumFromTo, sumTo, h10, h04, h46, h610, Finset.sum_range_succ,
    Finset.sum_range_zero, neighborWeight]
  norm_num
  ring

theorem neighborWeight_nonneg (R : ReconParamsQGGMRF3D ℝ) (h1 : 0 ≤ R.b_nearest)
    (h2 : 0 ≤ R.b_diag) (h3 : 0 ≤ R.b_interslice) (s : ℤ) : 0 ≤ neighborWeight R s := by
  unfold neighborWeight
  split_ifs <;> assumption

/-- `ICDStep3D` leaves the voxel index and `Nxy` of `icd_info` as they were. -/
theorem ICDStep3D_index (e w : ℤ → ℤ → ℝ) (A : SysMatrix2D ℝ) (icd_info : ICDInfo ℝ) :
    (ICDStep3D e w A icd_info).2.VoxelIndex = icd_info.VoxelIndex
      ∧ (ICDStep3D e w A icd_info).2.Nxy = icd_info.Nxy := by
  rw [ICDStep3D_eq, QGGMRF3D_UpdateICDParams_eq]
  exact ⟨rfl, rfl⟩

/-- `UpdateError3D` reads only the voxel index and `Nxy` of `icd_info`. -/
theorem UpdateError3D_congr (e : ℤ → ℤ → ℝ) (A : SysMatrix2D ℝ) (diff : ℝ)
    (i1 i2 : ICDInfo ℝ) (hI : i1.VoxelIndex = i2.VoxelIndex) (hN : i1.Nxy = i2.Nxy) :
    UpdateError3D e A diff i1 = UpdateError3D e A diff i2 := by
  unfold UpdateError3D
  rw [hI, hN]

/-- The Newton step on a quadratic upper bound of the change of the cost: if the change is
at most `d * theta1 + d^2 / 2 * theta2` with `theta2 > 0`, the step `d = -theta1 / theta2`
does not increase the cost. -/
theorem newton_step_descent (T1 T2 theta1 theta2 d : ℝ) (nw a dl sc : ℤ → ℝ)
    (h1 : theta1 = -T1 + sumTo 10 (fun s => nw s * (a s * dl s)))
    (h2 : theta2 = T2 + sumTo 10 (fun s => nw s * a s))
    (hpos : 0 < theta2) (hd : d = -theta1 / theta2)
    (hsc : ∀ s, 0 ≤ s → s < 10 → sc s ≤ nw s * (a s * dl s * d + a s * d ^ 2 / 2)) :
    d * -T1 + d ^ 2 / 2 * T2 + sumTo 10 sc ≤ 0 := by
  have hsum : sumTo 10 sc
      ≤ d * sumTo 10 (fun s => nw s * (a s * dl s))
        + d ^ 2 / 2 * sumTo 10 (fun s => nw s * a s) := by
    rw [← sumTo_mul_left, ← sumTo_mul_left, ← sumTo_add]
    apply sumTo_le_sumTo
    intro s hs0 hs1
    have := hsc s hs0 hs1
    linarith
  have hq : d * theta1 + d ^ 2 / 2 * theta2 = -(theta1 ^ 2 / (2 * theta2)) := by
    rw [hd]
    field_simp
    ring
  have hq2 : 0 ≤ theta1 ^ 2 / (2 * theta2) := by positivity
  have : d * -T1 + d ^ 2 / 2 * T2
      + (d * sumTo 10 (fun s => nw s * (a s * dl s))
        + d ^ 2 / 2 * sumTo 10 (fun s => nw s * a s))
      = d * theta1 + d ^ 2 / 2 * theta2 := by
    rw [h1, h2]; ring
  linarith

/-- C2 (amended). One ICD update without positivity does not increase the cost
`F = 1/2 * sum_z sum_k w[z][k] * e[z][k]^2 + sum over neighbouring pairs of b * rho`:
for an image with `Nx, Ny >= 1`, a voxel index in `[0, Nx*Ny*Nz)` whose current value is
`icd_info.v`, a column of the voxel whose row indices lie in `[0, Nrows)` and are pairwise
distinct, `0 < p < q <= 2`, `T > 0`, `SigmaX > 0`, all `b >= 0`, `theta2 > 0`, and either
`q = 2` or no neighbouring voxel other than the voxel itself holding exactly the value
`icd_info.v`: `ICDStep3D` after `ExtractNeighbors3D` returns a value `v'`, and storing `v'`
in the voxel and running `UpdateError3D` with `diff = v' - v` gives a cost not above the
cost before. Neither `w >= 0` nor `e = y - A x` is needed. -/
theorem ICD_update_cost_nonincreasing (e w : ℤ → ℤ → ℝ) (A : SysMatrix2D ℝ)
    (Image : Image3D ℝ) (icd_info : ICDInfo ℝ) (Nrows : ℤ)
    (hNx : 0 < Image.imgparams.Nx) (hNy : 0 < Image.imgparams.Ny)
    (hNxy : icd_info.Nxy = Image.imgparams.Nx * Image.imgparams.Ny)
    (hI0 : 0 ≤ icd_info.VoxelIndex)
    (hI1 : icd_info.VoxelIndex
      < Image.imgparams.Nx * Image.imgparams.Ny * Image.imgparams.Nz)
    (hv : icd_info.v = Image.image (icd_info.VoxelIndex / icd_info.Nxy)
      (icd_info.VoxelIndex % icd_info.Nxy))
    (hrange : ∀ n, 0 ≤ n →
      n < (A.column (icd_info.VoxelIndex % icd_info.Nxy)).Nnonzero →
      0 ≤ (A.column (icd_info.VoxelIndex % icd_info.Nxy)).RowIndex n
        ∧ (A.column (icd_info.VoxelIndex % icd_info.Nxy)).RowIndex n < Nrows)
    (hinj : ∀ n m, 0 ≤ n →
      n < (A.column (icd_info.VoxelIndex % icd_info.Nxy)).Nnonzero → 0 ≤ m →
      m < (A.column (icd_info.VoxelIndex % icd_info.Nxy)).Nnonzero →
      (A.column (icd_info.VoxelIndex % icd_info.Nxy)).RowIndex n
        = (A.column (icd_info.VoxelIndex % icd_info.Nxy)).RowIndex m → n = m)
    (hp : 0 < icd_info.Rparams.p) (hpq : icd_info.Rparams.p < icd_info.Rparams.q)
    (hq2 : icd_info.Rparams.q ≤ 2) (hT : 0 < icd_info.Rparams.T)
    (hS : 0 < icd_info.Rparams.SigmaX) (hb1 : 0 ≤ icd_info.Rparams.b_nearest)
    (hb2 : 0 ≤ icd_info.Rparams.b_diag) (hb3 : 0 ≤ icd_info.Rparams.b_interslice)
    (hth : 0 < (ICDStep3D e w A (ExtractNeighbors3D icd_info Image)).2.theta2)
    (hnb : icd_info.Rparams.q = 2 ∨ ∀ s, 0 ≤ s → s < 10 →
      NeighborIndex Image.imgparams.Nx Image.imgparams.Ny Image.imgparams.Nz
        icd_info.VoxelIndex s ≠ icd_info.VoxelIndex →
      Image.image
        (NeighborPosition Image.imgparams.Nx Image.imgparams.Ny Image.imgparams.Nz
          icd_info.VoxelIndex s).1
        (NeighborPosition Image.imgparams.Nx Image.imgparams.Ny Image.imgparams.Nz
          icd_info.VoxelIndex s).2 ≠ icd_info.v) :
    ∃ v', (ICDStep3D e w A (ExtractNeighbors3D icd_info Image)).1 = some v' ∧
      cost w
          (UpdateError3D e A (v' - icd_info.v)
            (ICDStep3D e w A (ExtractNeighbors3D icd_info Image)).2)
          Nrows
          { Image with
            image := store2 Image.image (icd_info.VoxelIndex / icd_info.Nxy)
              (icd_info.VoxelIndex % icd_info.Nxy) v' }
          icd_info.Rparams
        ≤ cost w e Nrows Image icd_info.Rparams := by
  have hNN : 0 < icd_info.Nxy := by rw [hNxy]; exact mul_pos hNx hNy
  have hdiv : icd_info.VoxelIndex.tdiv icd_info.Nxy = icd_info.VoxelIndex / icd_info.Nxy :=
    Int.tdiv_eq_ediv hI0 hNN.le
  have hmod : icd_info.VoxelIndex.tmod icd_info.Nxy = icd_info.VoxelIndex % icd_info.Nxy :=
    Int.tmod_eq_emod hI0 hNN.le
  have hz0 : 0 ≤ icd_info.VoxelIndex / icd_info.Nxy := Int.ediv_nonneg hI0 hNN.le
  have hz1 : icd_info.VoxelIndex / icd_info.Nxy < Image.imgparams.Nz := by
    apply Int.ediv_lt_of_lt_mul hNN
    rw [hNxy, mul_comm]
    exact hI1
  have hne : (ICDStep3D e w A (ExtractNeighbors3D icd_info Image)).2.theta2 ≠ 0 := hth.ne'
  have hval := ICDStep3D_value e w A (ExtractNeighbors3D icd_info Image)
  rw [if_neg hne] at hval
  refine ⟨_, hval, ?_⟩
  have hvE : (ExtractNeighbors3D icd_info Image).v = icd_info.v := rfl
  rw [hvE]
  obtain ⟨hxI, hxN⟩ := ICDStep3D_index e w A (ExtractNeighbors3D icd_info Image)
  rw [UpdateError3D_congr e A _ _ icd_info hxI hxN]
  generalize hd : icd_info.v
      - (ICDStep3D e w A (ExtractNeighbors3D icd_info Image)).2.theta1
        / (ICDStep3D e w A (ExtractNeighbors3D icd_info Image)).2.theta2 - icd_info.v = d
  have hd2 : icd_info.v
      - (ICDStep3D e w A (ExtractNeighbors3D icd_info Image)).2.theta1
        / (ICDStep3D e w A (ExtractNeighbors3D icd_info Image)).2.theta2 = icd_info.v + d := by
    rw [← hd]; ring
  rw [hd2]
  have hdd : d = -(ICDStep3D e w A (ExtractNeighbors3D icd_info Image)).2.theta1
      / (ICDStep3D e w A (ExtractNeighbors3D icd_info Image)).2.theta2 := by
    rw [← hd]; ring
  have hdata := dataCost_change e w A icd_info Image.imgparams.Nz Nrows d
    (by rw [hdiv]; exact hz0) (by rw [hdiv]; exact hz1)
    (by rw [hmod]; exact hrange) (by rw [hmod]; exact hinj)
  have hprior := priorCost_change Image icd_info.Rparams icd_info.VoxelIndex
    (icd_info.v + d) hNx hNy hI0 hI1
  rw [← hNxy] at hprior
  have hnbr : ∀ s, 0 ≤ s → s < 10 →
      (ExtractNeighbors3D icd_info Image).neighbors s
        = atVoxel Image.image (Image.imgparams.Nx * Image.imgparams.Ny)
            (NeighborIndex Image.imgparams.Nx Image.imgparams.Ny Image.imgparams.Nz
              icd_info.VoxelIndex s) := by
    intro s hs0 hs1
    rw [← atVoxel_position Image.image _ _ _ _ s hNx hNy hI0 hI1 hs0 hs1]
    unfold ExtractNeighbors3D
    simp only [hs0, hs1, and_self, if_true]
  have hvA : atVoxel Image.image (Image.imgparams.Nx * Image.imgparams.Ny)
      icd_info.VoxelIndex = icd_info.v := by
    unfold atVoxel
    rw [hv, hNxy]
  have hdesc := newton_step_descent (dataTheta1 e w A icd_info) (dataTheta2 w A icd_info)
    (ICDStep3D e w A (ExtractNeighbors3D icd_info Image)).2.theta1
    (ICDStep3D e w A (ExtractNeighbors3D icd_info Image)).2.theta2 d
    (neighborWeight icd_info.Rparams)
    (fun s => QGGMRF_SurrogateCoeff
      (icd_info.v - (ExtractNeighbors3D icd_info Image).neighbors s)
      (ExtractNeighbors3D icd_info Image))
    (fun s => icd_info.v - (ExtractNeighbors3D icd_info Image).neighbors s)
    (slotChange Image icd_info.Rparams icd_info.VoxelIndex (icd_info.v + d))
    (by
      rw [ICDStep3D_theta1, group_sums_eq]
      rfl)
    (by
      rw [ICDStep3D_theta2, group_sums_eq]
      rfl)
    hth hdd
    (by
      intro s hs0 hs1
      have hw := neighborWeight_nonneg icd_info.Rparams hb1 hb2 hb3 s
      unfold slotChange
      apply mul_le_mul_of_nonneg_left _ hw
      beta_reduce
      rw [hnbr s hs0 hs1, hvA]
      by_cases hself : NeighborIndex Image.imgparams.Nx Image.imgparams.Ny
          Image.imgparams.Nz icd_info.VoxelIndex s = icd_info.VoxelIndex
      · rw [if_pos hself, hself, hvA, sub_self]
        have ha := QGGMRF_SurrogateCoeff_zero_pos (ExtractNeighbors3D icd_info Image)
          hp hT hS
        have hsq : 0 ≤ d ^ 2 := sq_nonneg d
        have := mul_nonneg ha.le hsq
        linarith
      · rw [if_neg hself]
        have hdl : icd_info.v - atVoxel Image.image
              (Image.imgparams.Nx * Image.imgparams.Ny)
              (NeighborIndex Image.imgparams.Nx Image.imgparams.Ny Image.imgparams.Nz
                icd_info.VoxelIndex s) ≠ 0 ∨ icd_info.Rparams.q = 2 := by
          rcases hnb with h | h
          · exact Or.inr h
          · left
            have := h s hs0 hs1 hself
            rw [atVoxel_position Image.image _ _ _ _ s hNx hNy hI0 hI1 hs0 hs1] at this
            intro hc
            apply this
            linarith
        have hmaj := QGGMRF_surrogate_majorizes (ExtractNeighbors3D icd_info Image)
          (icd_info.v - atVoxel Image.image
              (Image.imgparams.Nx * Image.imgparams.Ny)
              (NeighborIndex Image.imgparams.Nx Image.imgparams.Ny Image.imgparams.Nz
                icd_info.VoxelIndex s))
          (icd_info.v + d - atVoxel Image.image
              (Image.imgparams.Nx * Image.imgparams.Ny)
              (NeighborIndex Image.imgparams.Nx Image.imgparams.Ny Image.imgparams.Nz
                icd_info.VoxelIndex s))
          hp hpq hq2 hT hS hdl
        have hR : (ExtractNeighbors3D icd_info Image).Rparams = icd_info.Rparams := rfl
        rw [hR] at hmaj
        linarith)
  unfold cost
  have hNz : ({ Image with
      image := store2 Image.image (icd_info.VoxelIndex / icd_info.Nxy)
        (icd_info.VoxelIndex % icd_info.Nxy) (icd_info.v + d) } : Image3D ℝ).imgparams.Nz
      = Image.imgparams.Nz := rfl
  rw [hNz]
  linarith

/-! ### The cost can increase when a column repeats a row index -/

theorem dup_dataTheta1 : dataTheta1 dupE exW dupA (ExtractNeighbors3D dupIcd dupImage) = 3 := by
  have h3 : ((3 : ℤ)).toNat = 3 := rfl
  simp only [dataTheta1, dupA, exW, dupE, sumTo, h3, Finset.sum_range_succ,
    Finset.sum_range_zero]
  norm_num

theorem dup_dataTheta2 : dataTheta2 exW dupA (ExtractNeighbors3D dupIcd dupImage) = 3 := by
  have h3 : ((3 : ℤ)).toNat = 3 := rfl
  simp only [dataTheta2, dupA, exW, sumTo, h3, Finset.sum_range_succ, Finset.sum_range_zero]
  norm_num

theorem dup_theta1 : (ICDStep3D dupE exW dupA (ExtractNeighbors3D dupIcd dupImage)).2.theta1
    = -3 := by
  rw [ICDStep3D_theta1, dup_dataTheta1]
  have h1 : (ExtractNeighbors3D dupIcd dupImage).Rparams.b_nearest = 0 := rfl
  have h2 : (ExtractNeighbors3D dupIcd dupImage).Rparams.b_diag = 0 := rfl
  have h3 : (ExtractNeighbors3D dupIcd dupImage).Rparams.b_interslice = 0 := rfl
  rw [h1, h2, h3]
  ring

theorem dup_theta2 : (ICDStep3D dupE exW dupA (ExtractNeighbors3D dupIcd dupImage)).2.theta2
    = 3 := by
  rw [ICDStep3D_theta2, dup_dataTheta2]
  have h1 : (ExtractNeighbors3D dupIcd dupImage).Rparams.b_nearest = 0 := rfl
  have h2 : (ExtractNeighbors3D dupIcd dupImage).Rparams.b_diag = 0 := rfl
  have h3 : (ExtractNeighbors3D dupIcd dupImage).Rparams.b_interslice = 0 := rfl
  rw [h1, h2, h3]
  ring

theorem dup_value : (ICDStep3D dupE exW dupA (ExtractNeighbors3D dupIcd dupImage)).1
    = some 1 := by
  rw [ICDStep3D_value, dup_theta1, dup_theta2]
  have hv : (ExtractNeighbors3D dupIcd dupImage).v = 0 := rfl
  rw [hv]
  norm_num

theorem dup_priorCost (image : ℤ → ℤ → ℝ) :
    priorCost { dupImage with image := image } dupRparams = 0 := by
  have hw : ∀ s, neighborWeight dupRparams s = 0 := by
    intro s
    unfold neighborWeight
    split_ifs <;> rfl
  unfold priorCost
  simp only [hw, zero_mul, sumTo_zero, mul_zero]

theorem dup_cost_before : cost exW dupE 1 dupImage dupRparams = 1 / 2 := by
  have h := dup_priorCost dupImage.image
  have h1 : ((1 : ℤ)).toNat = 1 := rfl
  unfold cost
  rw [h]
  simp only [dataCost, dupImage, exW, dupE, sumTo, h1, Finset.sum_range_one]
  norm_num

theorem dup_cost_after :
    cost exW
      (UpdateError3D dupE dupA (1 - dupIcd.v)
        (ICDStep3D dupE exW dupA (ExtractNeighbors3D dupIcd dupImage)).2)
      1
      { dupImage with
        image := store2 dupImage.image (dupIcd.VoxelIndex / dupIcd.Nxy)
          (dupIcd.VoxelIndex % dupIcd.Nxy) 1 }
      dupRparams = 2 := by
  have h := dup_priorCost (store2 dupImage.image (dupIcd.VoxelIndex / dupIcd.Nxy)
          (dupIcd.VoxelIndex % dupIcd.Nxy) 1)
  have h1 : ((1 : ℤ)).toNat = 1 := rfl
  have h3 : ((3 : ℤ)).toNat = 3 := rfl
  obtain ⟨hxI, hxN⟩ := ICDStep3D_index dupE exW dupA (ExtractNeighbors3D dupIcd dupImage)
  unfold cost
  rw [h]
  simp only [dataCost, sumTo, h1, Finset.sum_range_one, UpdateError3D_apply, hxI, hxN]
  simp only [ExtractNeighbors3D, dupIcd, dupA, dupImage, exW, dupE, sumTo, h3,
    Finset.sum_range_succ, Finset.sum_range_zero]
  norm_num

/-- C2 (counterexample). The claim as written fails on a column that stores a row index
more than once: one voxel with value 0, a column of three entries of value 1 all in row 0,
`y = 1` so `e = y - A x = 1`, `w = 1`, `p = 1 < q = 2`, `T = SigmaX = 1`, all `b = 0`. The
step computes `theta1 = -3`, `theta2 = 3 > 0` and returns `v' = 1`; `UpdateError3D` leaves
`e = -2`, and the cost rises from `1/2` to `2`. -/
theorem ICD_update_cost_increases :
    (∀ z k, 0 ≤ z → z < 1 → 0 ≤ k → k < 1 →
        dupE z k = exY z k - forwardProject dupA dupImage.image z k)
    ∧ (∀ z k, 0 ≤ exW z k)
    ∧ dupRparams.p < dupRparams.q ∧ dupRparams.q ≤ 2 ∧ 0 < dupRparams.T
    ∧ 0 < dupRparams.SigmaX ∧ 0 ≤ dupRparams.b_nearest ∧ 0 ≤ dupRparams.b_diag
    ∧ 0 ≤ dupRparams.b_interslice
    ∧ 0 < (ICDStep3D dupE exW dupA (ExtractNeighbors3D dupIcd dupImage)).2.theta2
    ∧ (ICDStep3D dupE exW dupA (ExtractNeighbors3D dupIcd dupImage)).1 = some 1
    ∧ ¬ (cost exW
          (UpdateError3D dupE dupA (1 - dupIcd.v)
            (ICDStep3D dupE exW dupA (ExtractNeighbors3D dupIcd dupImage)).2)
          1
          { dupImage with
            image := store2 dupImage.image (dupIcd.VoxelIndex / dupIcd.Nxy)
              (dupIcd.VoxelIndex % dupIcd.Nxy) 1 }
          dupRparams
        ≤ cost exW dupE 1 dupImage dupRparams) := by
  refine ⟨?_, ?_, ?_, ?_, ?_, ?_, ?_, ?_, ?_, ?_, dup_value, ?_⟩
  · intro z k _ _ _ _
    have h1 : ((1 : ℤ)).toNat = 1 := rfl
    have h3 : ((3 : ℤ)).toNat = 3 := rfl
    simp only [forwardProject, dupA, dupImage, dupE, exY, sumTo, h1, h3,
      Finset.sum_range_succ, Finset.sum_range_zero]
    norm_num
  · intro z k
    simp only [exW]
    norm_num
  · simp only [dupRparams]; norm_num
  · simp only [dupRparams]; norm_num
  · simp only [dupRparams]; norm_num
  · simp only [dupRparams]; norm_num
  · simp only [dupRparams]; norm_num
  · simp only [dupRparams]; norm_num
  · simp only [dupRparams]; norm_num
  · rw [dup_theta2]; norm_num
  · rw [dup_cost_after, dup_cost_before]
    norm_num

theorem QGGMRF_SurrogateCoeff_nonneg (delta : ℝ) (icd_info : ICDInfo ℝ)
    (hp : 0 < icd_info.Rparams.p) (hpq : icd_info.Rparams.p < icd_info.Rparams.q)
    (hT : 0 < icd_info.Rparams.T) (hS : 0 < icd_info.Rparams.SigmaX) :
    0 ≤ QGGMRF_SurrogateCoeff delta icd_info := by
  by_cases h0 : delta = 0
  · rw [h0]
    exact (QGGMRF_SurrogateCoeff_zero_pos icd_info hp hT hS).le
  · unfold QGGMRF_SurrogateCoeff
    simp only [h0, if_false]
    have h1 : 0 ≤ |delta / (icd_info.Rparams.T * icd_info.Rparams.SigmaX)|
        ^ (icd_info.Rparams.q - icd_info.Rparams.p) := Real.rpow_nonneg (abs_nonneg _) _
    have h2 : 0 ≤ |delta| ^ (icd_info.Rparams.p - 2) := Real.rpow_nonneg (abs_nonneg _) _
    have h3 : 0 < icd_info.Rparams.SigmaX ^ icd_info.Rparams.p := Real.rpow_pos_of_pos hS _
    have h4 : 0 ≤ icd_info.Rparams.q / icd_info.Rparams.p := div_nonneg (by linarith) hp.le
    apply div_nonneg
    · exact mul_nonneg (mul_nonneg (by linarith) h2) h1
    · exact mul_nonneg (mul_nonneg h3.le (by linarith)) (by linarith)

/-- With non-negative weights and `0 < p < q`, `T, SigmaX > 0`, the prior adds a
non-negative amount to `theta2`: `theta2` is at least its data part. -/
theorem ICDStep3D_theta2_ge (e w : ℤ → ℤ → ℝ) (A : SysMatrix2D ℝ) (icd_info : ICDInfo ℝ)
    (hp : 0 < icd_info.Rparams.p) (hpq : icd_info.Rparams.p < icd_info.Rparams.q)
    (hT : 0 < icd_info.Rparams.T) (hS : 0 < icd_info.Rparams.SigmaX)
    (hb1 : 0 ≤ icd_info.Rparams.b_nearest) (hb2 : 0 ≤ icd_info.Rparams.b_diag)
    (hb3 : 0 ≤ icd_info.Rparams.b_interslice) :
    dataTheta2 w A icd_info ≤ (ICDStep3D e w A icd_info).2.theta2 := by
  rw [ICDStep3D_theta2, group_sums_eq]
  have h : sumTo 10 (fun _ => (0 : ℝ))
      ≤ sumTo 10 (fun s => neighborWeight icd_info.Rparams s
          * QGGMRF_SurrogateCoeff (icd_info.v - icd_info.neighbors s) icd_info) := by
    apply sumTo_le_sumTo
    intro s _ _
    exact mul_nonneg (neighborWeight_nonneg icd_info.Rparams hb1 hb2 hb3 s)
      (QGGMRF_SurrogateCoeff_nonneg _ icd_info hp hpq hT hS)
  rw [sumTo_zero] at h
  linarith

theorem ex_dataTheta2 : dataTheta2 exW exA4 (ExtractNeighbors3D exIcd5 exImage) = 2 := by
  have h2 : ((2 : ℤ)).toNat = 2 := rfl
  simp only [dataTheta2, exA4, exW, sumTo, h2, Finset.sum_range_succ, Finset.sum_range_zero]
  norm_num

theorem ex_theta2_pos :
    0 < (ICDStep3D exY exW exA4 (ExtractNeighbors3D exIcd5 exImage)).2.theta2 := by
  have h := ICDStep3D_theta2_ge exY exW exA4 (ExtractNeighbors3D exIcd5 exImage)
    (by simp only [ExtractNeighbors3D, exIcd5, exRparams]; norm_num)
    (by simp only [ExtractNeighbors3D, exIcd5, exRparams]; norm_num)
    (by simp only [ExtractNeighbors3D, exIcd5, exRparams]; norm_num)
    (by simp only [ExtractNeighbors3D, exIcd5, exRparams]; norm_num)
    (by simp only [ExtractNeighbors3D, exIcd5, exRparams]; norm_num)
    (by simp only [ExtractNeighbors3D, exIcd5, exRparams]; norm_num)
    (by simp only [ExtractNeighbors3D, exIcd5, exRparams]; norm_num)
  rw [ex_dataTheta2] at h
  linarith

/-- Instance of C2 (amended) on the `2 x 2 x 2` image for voxel 5, with all weights 1,
`p = 1`, `q = 2`, and a column with entries in rows 1 and 2. -/
theorem ICD_update_cost_nonincreasing_witness :
    (0 < (ICDStep3D exY exW exA4 (ExtractNeighbors3D exIcd5 exImage)).2.theta2
      ∧ exIcd5.Rparams.q = 2)
    ∧ ∃ v', (ICDStep3D exY exW exA4 (ExtractNeighbors3D exIcd5 exImage)).1 = some v' ∧
      cost exW
          (UpdateError3D exY exA4 (v' - exIcd5.v)
            (ICDStep3D exY exW exA4 (ExtractNeighbors3D exIcd5 exImage)).2)
          5
          { exImage with
            image := store2 exImage.image (exIcd5.VoxelIndex / exIcd5.Nxy)
              (exIcd5.VoxelIndex % exIcd5.Nxy) v' }
          exIcd5.Rparams
        ≤ cost exW exY 5 exImage exIcd5.Rparams :=
  ⟨⟨ex_theta2_pos, rfl⟩,
    ICD_update_cost_nonincreasing exY exW exA4 exImage exIcd5 5 (by decide) (by decide)
      (by decide) (by decide) (by decide)
      (by simp only [exIcd5, exImage]; norm_num)
      (by
        intro n h0 h1
        simp only [exA4] at h1 ⊢
        constructor <;> simp only [exIcd5] <;> omega)
      (by
        intro n m _ _ _ _ h
        simp only [exA4] at h
        omega)
      (by simp only [exIcd5, exRparams]; norm_num)
      (by simp only [exIcd5, exRparams]; norm_num)
      (by simp only [exIcd5, exRparams]; norm_num)
      (by simp only [exIcd5, exRparams]; norm_num)
      (by simp only [exIcd5, exRparams]; norm_num)
      (by simp only [exIcd5, exRparams]; norm_num)
      (by simp only [exIcd5, exRparams]; norm_num)
      (by simp only [exIcd5, exRparams]; norm_num)
      ex_theta2_pos
      (Or.inl rfl)⟩

/-! ### The cost can increase when `p` is negative -/

theorem neg_potential (t : ℝ) :
    QGGMRF_Potential t negRparams = (|t| ^ 2)⁻¹ / (-2) * |t| ^ 4 / (1 + |t| ^ 4) := by
  have h1 : |t| ^ (-2 : ℝ) = (|t| ^ 2)⁻¹ := by
    rw [Real.rpow_neg (abs_nonneg t), Real.rpow_two]
  have h2 : ((2 : ℝ) - -2) = ((4 : ℕ) : ℝ) := by norm_num
  unfold QGGMRF_Potential
  simp only [negRparams]
  rw [h1, h2, Real.rpow_natCast, Real.one_rpow]
  norm_num

theorem neg_neighbors (s : ℤ) (h0 : 6 ≤ s) (h1 : s < 10) :
    (ExtractNeighbors3D negIcd exImage).neighbors s = 6 := by
  have h : s = 6 ∨ s = 7 ∨ s = 8 ∨ s = 9 := by omega
  rcases h with h | h | h | h <;> subst h <;>
    simp [ExtractNeighbors3D, NeighborPosition, negIcd, exImage, Int.tdiv, Int.tmod] <;>
    norm_num

theorem neg_surrogate : QGGMRF_SurrogateCoeff (-1) (ExtractNeighbors3D negIcd exImage) = 0 := by
  have hR : (ExtractNeighbors3D negIcd exImage).Rparams = negRparams := rfl
  unfold QGGMRF_SurrogateCoeff
  rw [hR]
  simp only [negRparams]
  norm_num

theorem neg_dataTheta1 :
    dataTheta1 negE exW exA4 (ExtractNeighbors3D negIcd exImage) = -1 := by
  have h2 : ((2 : ℤ)).toNat = 2 := rfl
  simp only [dataTheta1, exA4, exW, negE, sumTo, h2, Finset.sum_range_succ,
    Finset.sum_range_zero]
  norm_num

theorem neg_dataTheta2 : dataTheta2 exW exA4 (ExtractNeighbors3D negIcd exImage) = 2 := by
  have h2 : ((2 : ℤ)).toNat = 2 := rfl
  simp only [dataTheta2, exA4, exW, sumTo, h2, Finset.sum_range_succ, Finset.sum_range_zero]
  norm_num

theorem neg_group (f : ℝ → ℝ) (h : f (-1) = 0) :
    (ExtractNeighbors3D negIcd exImage).Rparams.b_nearest * sumFromTo 0 4 (fun s =>
        f ((ExtractNeighbors3D negIcd exImage).v
          - (ExtractNeighbors3D negIcd exImage).neighbors s))
      + (ExtractNeighbors3D negIcd exImage).Rparams.b_diag * sumFromTo 6 10 (fun s =>
        f ((ExtractNeighbors3D negIcd exImage).v
          - (ExtractNeighbors3D negIcd exImage).neighbors s))
      + (ExtractNeighbors3D negIcd exImage).Rparams.b_interslice * sumFromTo 4 6 (fun s =>
        f ((ExtractNeighbors3D negIcd exImage).v
          - (ExtractNeighbors3D negIcd exImage).neighbors s)) = 0 := by
  have h1 : (ExtractNeighbors3D negIcd exImage).Rparams.b_nearest = 0 := rfl
  have h3 : (ExtractNeighbors3D negIcd exImage).Rparams.b_interslice = 0 := rfl
  have hv : (ExtractNeighbors3D negIcd exImage).v = 5 := rfl
  have h610 : ((10 : ℤ) - 6).toNat = 4 := rfl
  have hd : ∀ s, 6 ≤ s → s < 10 → (5 : ℝ) - (ExtractNeighbors3D negIcd exImage).neighbors s
      = -1 := by
    intro s hs0 hs1
    rw [neg_neighbors s hs0 hs1]
    norm_num
  rw [h1, h3, hv]
  simp only [sumFromTo, h610, Finset.sum_range_succ, Finset.sum_range_zero]
  rw [hd _ (by norm_num) (by norm_num), hd _ (by norm_num) (by norm_num),
    hd _ (by norm_num) (by norm_num), hd _ (by norm_num) (by norm_num), h]
  ring

theorem neg_theta1 :
    (ICDStep3D negE exW exA4 (ExtractNeighbors3D negIcd exImage)).2.theta1 = 1 := by
  rw [ICDStep3D_theta1, neg_dataTheta1]
  have := neg_group (fun t => QGGMRF_SurrogateCoeff t (ExtractNeighbors3D negIcd exImage) * t)
    (by beta_reduce; rw [neg_surrogate]; ring)
  rw [this]
  norm_num

theorem neg_theta2 :
    (ICDStep3D negE exW exA4 (ExtractNeighbors3D negIcd exImage)).2.theta2 = 2 := by
  rw [ICDStep3D_theta2, neg_dataTheta2]
  have := neg_group (fun t => QGGMRF_SurrogateCoeff t (ExtractNeighbors3D negIcd exImage))
    neg_surrogate
  rw [this]
  norm_num

theorem neg_value :
    (ICDStep3D negE exW exA4 (ExtractNeighbors3D negIcd exImage)).1 = some (9 / 2) := by
  rw [ICDStep3D_value, neg_theta1, neg_theta2]
  have hv : (ExtractNeighbors3D negIcd exImage).v = 5 := rfl
  rw [hv]
  norm_num

theorem neg_slotChange_low (v : ℝ) (s : ℤ) (h : s < 6) :
    slotChange exImage negRparams 5 v s = 0 := by
  have hw : neighborWeight negRparams s = 0 := by
    unfold neighborWeight
    split_ifs <;> rfl
  unfold slotChange
  rw [hw, zero_mul]

theorem neg_slotChange_high (s : ℤ) (h0 : 6 ≤ s) (h1 : s < 10) :
    slotChange exImage negRparams 5 (9 / 2) s = 25 / 194 := by
  have hw : neighborWeight negRparams s = 2 := by
    unfold neighborWeight
    split_ifs <;> first | rfl | omega
  have hn : NeighborIndex exImage.imgparams.Nx exImage.imgparams.Ny exImage.imgparams.Nz 5 s
      = 6 := by
    have h : s = 6 ∨ s = 7 ∨ s = 8 ∨ s = 9 := by omega
    rcases h with h | h | h | h <;> subst h <;> decide
  have h6 : atVoxel exImage.image (exImage.imgparams.Nx * exImage.imgparams.Ny) 6 = 6 := by
    simp only [atVoxel, exImage]
    norm_num
  have h5 : atVoxel exImage.image (exImage.imgparams.Nx * exImage.imgparams.Ny) 5 = 5 := by
    simp only [atVoxel, exImage]
    norm_num
  have ha : |(9 / 2 : ℝ) - 6| = 3 / 2 := by
    rw [abs_of_neg (by norm_num)]; norm_num
  have hb : |(5 : ℝ) - 6| = 1 := by
    rw [abs_of_neg (by norm_num)]; norm_num
  unfold slotChange
  rw [hw, hn, if_neg (by decide), h6, h5, neg_potential, neg_potential, ha, hb]
  norm_num

theorem neg_prior_change :
    priorCost
        { exImage with
          image := store2 exImage.image (negIcd.VoxelIndex / negIcd.Nxy)
            (negIcd.VoxelIndex % negIcd.Nxy) (9 / 2) } negRparams
      - priorCost exImage negRparams = 50 / 97 := by
  have h := priorCost_change exImage negRparams 5 (9 / 2) (by decide) (by decide)
    (by decide) (by decide)
  have h10 : ((10 : ℤ)).toNat = 10 := rfl
  rw [sumTo, h10] at h
  simp only [Finset.sum_range_succ, Finset.sum_range_zero] at h
  rw [neg_slotChange_low _ _ (by norm_num), neg_slotChange_low _ _ (by norm_num),
    neg_slotChange_low _ _ (by norm_num), neg_slotChange_low _ _ (by norm_num),
    neg_slotChange_low _ _ (by norm_num), neg_slotChange_low _ _ (by norm_num),
    neg_slotChange_high _ (by norm_num) (by norm_num),
    neg_slotChange_high _ (by norm_num) (by norm_num),
    neg_slotChange_high _ (by norm_num) (by norm_num),
    neg_slotChange_high _ (by norm_num) (by norm_num)] at h
  rw [show (50 : ℝ) / 97 = 0 + 0 + 0 + 0 + 0 + 0 + 0 + 25 / 194 + 25 / 194 + 25 / 194
    + 25 / 194 by norm_num]
  exact h

theorem neg_data_change :
    dataCost exW
        (UpdateError3D negE exA4 (9 / 2 - negIcd.v)
          (ICDStep3D negE exW exA4 (ExtractNeighbors3D negIcd exImage)).2) 2 5
      - dataCost exW negE 2 5 = -1 / 4 := by
  obtain ⟨hxI, hxN⟩ := ICDStep3D_index negE exW exA4 (ExtractNeighbors3D negIcd exImage)
  rw [UpdateError3D_congr negE exA4 _ _ negIcd hxI hxN,
    dataCost_change negE exW exA4 negIcd 2 5 _ (by decide) (by decide)
      (by
        intro n h0 h1
        simp only [exA4] at h1 ⊢
        have : negIcd.VoxelIndex.tmod negIcd.Nxy = 1 := by decide
        rw [this]
        constructor <;> omega)
      (by
        intro n m _ _ _ _ h
        simp only [exA4] at h
        omega)]
  have e1 : dataTheta1 negE exW exA4 negIcd = -1 := neg_dataTheta1
  have e2 : dataTheta2 exW exA4 negIcd = 2 := neg_dataTheta2
  have hv : negIcd.v = 5 := rfl
  rw [e1, e2, hv]
  norm_num

/-- The claim as written also fails for a negative exponent `p`, which `p < q <= 2`
does not exclude: on the `2 x 2 x 2` image with voxel values `4 z + 2 y + x`, voxel 5,
a column with entries of value 1 in rows 1 and 2, `w = 1`, `e = y - A x = -1/2`,
`p = -2 < q = 2`, `T = SigmaX = 1`, `b_diag = 2` and the other weights 0, the step has
`theta2 = 2 > 0` and returns `v' = 9/2`, and the cost rises by `50/97 - 1/4`. -/
theorem negative_p_cost_increases :
    (∀ z k, negE z k = negY z k - forwardProject exA4 exImage.image z k)
    ∧ (∀ z k, 0 ≤ exW z k)
    ∧ negRparams.p < negRparams.q ∧ negRparams.q ≤ 2 ∧ 0 < negRparams.T
    ∧ 0 < negRparams.SigmaX ∧ 0 ≤ negRparams.b_nearest ∧ 0 ≤ negRparams.b_diag
    ∧ 0 ≤ negRparams.b_interslice
    ∧ 0 < (ICDStep3D negE exW exA4 (ExtractNeighbors3D negIcd exImage)).2.theta2
    ∧ (ICDStep3D negE exW exA4 (ExtractNeighbors3D negIcd exImage)).1 = some (9 / 2)
    ∧ cost exW negE 5 exImage negRparams
      < cost exW
          (UpdateError3D negE exA4 (9 / 2 - negIcd.v)
            (ICDStep3D negE exW exA4 (ExtractNeighbors3D negIcd exImage)).2)
          5
          { exImage with
            image := store2 exImage.image (negIcd.VoxelIndex / negIcd.Nxy)
              (negIcd.VoxelIndex % negIcd.Nxy) (9 / 2) }
          negRparams := by
  refine ⟨?_, ?_, ?_, ?_, ?_, ?_, ?_, ?_, ?_, ?_, neg_value, ?_⟩
  · intro z k
    unfold negY
    ring
  · intro z k
    simp only [exW]
    norm_num
  · simp only [negRparams]; norm_num
  · simp only [negRparams]; norm_num
  · simp only [negRparams]; norm_num
  · simp only [negRparams]; norm_num
  · simp only [negRparams]; norm_num
  · simp only [negRparams]; norm_num
  · simp only [negRparams]; norm_num
  · rw [neg_theta2]; norm_num
  · have h1 := neg_prior_change
    have h2 := neg_data_change
    have hNz : exImage.imgparams.Nz = 2 := rfl
    unfold cost
    simp only [hNz]
    linarith

/-! ### The coefficient returned at `delta = 0` when `q < 2` -/

/-- For `q < 2` the quadratic with the coefficient that `QGGMRF_SurrogateCoeff` returns at
`delta = 0` does not lie above the potential: with `p = 1`, `q = 3/2`, `T = SigmaX = 1` the
coefficient is 2, the quadratic at `t = 1/16` is `1/256`, and the potential there is
`1/80`. -/
theorem QGGMRF_surrogate_zero_below_potential :
    QGGMRF_SurrogateCoeff 0 lowqIcd = 2
    ∧ QGGMRF_Potential (1 / 16) lowqIcd.Rparams = 1 / 80
    ∧ QGGMRF_Potential 0 lowqIcd.Rparams
        + QGGMRF_SurrogateCoeff 0 lowqIcd * ((1 / 16) ^ 2 - 0 ^ 2) / 2
      < QGGMRF_Potential (1 / 16) lowqIcd.Rparams := by
  have hs : (1 / 16 : ℝ) ^ (1 / 2 : ℝ) = 1 / 4 := by
    have h : (1 / 16 : ℝ) = (1 / 4 : ℝ) ^ (2 : ℝ) := by
      rw [Real.rpow_two]; norm_num
    rw [h, ← Real.rpow_mul (by norm_num)]
    norm_num
  have h32 : (3 / 2 : ℝ) - 1 = 1 / 2 := by norm_num
  have ha : QGGMRF_SurrogateCoeff 0 lowqIcd = 2 := by
    unfold QGGMRF_SurrogateCoeff
    simp only [lowqIcd, lowqRparams, if_true, Real.one_rpow]
    norm_num
  have hr : QGGMRF_Potential (1 / 16) lowqIcd.Rparams = 1 / 80 := by
    have habs : |(1 / 16 : ℝ)| = 1 / 16 := abs_of_pos (by norm_num)
    unfold QGGMRF_Potential
    simp only [lowqIcd, lowqRparams, mul_one, div_one, h32, habs, hs, Real.rpow_one]
    norm_num
  have h0 : QGGMRF_Potential 0 lowqIcd.Rparams = 0 :=
    QGGMRF_Potential_zero _ (by simp only [lowqIcd, lowqRparams]; norm_num)
  refine ⟨ha, hr, ?_⟩
  rw [ha, hr, h0]
  norm_num

/-! ### Frame of the ICD step and of the residual update -/

/-- C11. Frame of the two functions. `ICDStep3D` returns, besides the voxel value, the
step context with nothing changed but `theta1` and `theta2` (it has no other output: `e`,
`w`, `A` and the volume are only read), and `UpdateError3D` returns the residual with every
entry `e[z][k]` unchanged unless `z` is the slice `VoxelIndex / Nxy` of the voxel and `k` is
a row index stored in the column `VoxelIndex % Nxy` (the quotient and remainder being those
of C); in particular the residual of every other slice is unchanged. -/
theorem ICDStep3D_UpdateError3D_frame (e w : ℤ → ℤ → ℝ) (A : SysMatrix2D ℝ)
    (icd_info : ICDInfo ℝ) (diff : ℝ) :
    (ICDStep3D e w A icd_info).2
      = { icd_info with
          theta1 := (ICDStep3D e w A icd_info).2.theta1,
          theta2 := (ICDStep3D e w A icd_info).2.theta2 }
    ∧ (∀ z k,
        (z ≠ icd_info.VoxelIndex.tdiv icd_info.Nxy
          ∨ ∀ n, 0 ≤ n → n < (A.column (icd_info.VoxelIndex.tmod icd_info.Nxy)).Nnonzero →
              (A.column (icd_info.VoxelIndex.tmod icd_info.Nxy)).RowIndex n ≠ k) →
        UpdateError3D e A diff icd_info z k = e z k)
    ∧ (∀ z, z ≠ icd_info.VoxelIndex.tdiv icd_info.Nxy →
        UpdateError3D e A diff icd_info z = e z) := by
  have hframe : ∀ z k,
      (z ≠ icd_info.VoxelIndex.tdiv icd_info.Nxy
        ∨ ∀ n, 0 ≤ n → n < (A.column (icd_info.VoxelIndex.tmod icd_info.Nxy)).Nnonzero →
            (A.column (icd_info.VoxelIndex.tmod icd_info.Nxy)).RowIndex n ≠ k) →
      UpdateError3D e A diff icd_info z k = e z k := by
    intro z k h
    rw [UpdateError3D_apply]
    rcases h with h | h
    · rw [if_neg h, sub_zero]
    · have h0 : sumTo (A.column (icd_info.VoxelIndex.tmod icd_info.Nxy)).Nnonzero
          (fun n => if (A.column (icd_info.VoxelIndex.tmod icd_info.Nxy)).RowIndex n = k
            then (A.column (icd_info.VoxelIndex.tmod icd_info.Nxy)).Value n * diff else 0)
          = 0 := by
        rw [sumTo_congr _ _ (fun _ => (0 : ℝ)) ?_, sumTo_zero]
        intro n hn0 hn1
        rw [if_neg (h n hn0 hn1)]
      rw [h0]
      split_ifs <;> ring
  refine ⟨?_, hframe, ?_⟩
  · rw [ICDStep3D_eq, QGGMRF3D_UpdateICDParams_eq]
  · intro z hz
    funext k
    exact hframe z k (Or.inl hz)

/-- Instance of C11 on the concrete state: the update of voxel 3 (slice 1, column 1, rows 1
and 2) leaves entry 0 of slice 1 and all of slice 0 as they were. -/
theorem ICDStep3D_UpdateError3D_frame_witness :
    (∀ n : ℤ, 0 ≤ n → n < (exA.column (exIcd.VoxelIndex.tmod exIcd.Nxy)).Nnonzero →
        (exA.column (exIcd.VoxelIndex.tmod exIcd.Nxy)).RowIndex n ≠ 0)
    ∧ UpdateError3D exE exA 1 exIcd 1 0 = exE 1 0
    ∧ UpdateError3D exE exA 1 exIcd 0 = exE 0 :=
  ⟨by
      intro n h0 _
      have : exIcd.VoxelIndex.tmod exIcd.Nxy = 1 := by decide
      rw [this]
      simp only [exA]
      omega,
    (ICDStep3D_UpdateError3D_frame exE exW exA exIcd 1).2.1 1 0
      (Or.inr (by
        intro n h0 _
        have : exIcd.VoxelIndex.tmod exIcd.Nxy = 1 := by decide
        rw [this]
        simp only [exA]
        omega)),
    (ICDStep3D_UpdateError3D_frame exE exW exA exIcd 1).2.2 0 (by decide)⟩

/-! ### Sign of `theta2` -/

theorem sumTo_nonneg (N : ℤ) (f : ℤ → ℝ) (h : ∀ n, 0 ≤ n → n < N → 0 ≤ f n) :
    0 ≤ sumTo N f := by
  have := sumTo_le_sumTo N (fun _ => (0 : ℝ)) f h
  rw [sumTo_zero] at this
  exact this

theorem sumTo_pos (N : ℤ) (f : ℤ → ℝ) (hN : 0 < N) (h : ∀ n, 0 ≤ n → n < N → 0 < f n) :
    0 < sumTo N f := by
  unfold sumTo
  apply Finset.sum_pos
  · intro n hn
    have := Finset.mem_range.mp hn
    apply h <;> omega
  · exact ⟨0, Finset.mem_range.mpr (by omega)⟩

/-- The surrogate coefficient is non-negative for `p, q, T, SigmaX > 0`. -/
theorem QGGMRF_SurrogateCoeff_nonneg_of_pos (delta : ℝ) (icd_info : ICDInfo ℝ)
    (hp : 0 < icd_info.Rparams.p) (hq : 0 < icd_info.Rparams.q)
    (hT : 0 < icd_info.Rparams.T) (hS : 0 < icd_info.Rparams.SigmaX) :
    0 ≤ QGGMRF_SurrogateCoeff delta icd_info := by
  by_cases h0 : delta = 0
  · rw [h0]
    exact (QGGMRF_SurrogateCoeff_zero_pos icd_info hp hT hS).le
  · unfold QGGMRF_SurrogateCoeff
    simp only [h0, if_false]
    have h1 : 0 ≤ |delta / (icd_info.Rparams.T * icd_info.Rparams.SigmaX)|
        ^ (icd_info.Rparams.q - icd_info.Rparams.p) := Real.rpow_nonneg (abs_nonneg _) _
    have h2 : 0 ≤ |delta| ^ (icd_info.Rparams.p - 2) := Real.rpow_nonneg (abs_nonneg _) _
    have h3 : 0 < icd_info.Rparams.SigmaX ^ icd_info.Rparams.p := Real.rpow_pos_of_pos hS _
    have h4 : 0 ≤ icd_info.Rparams.q / icd_info.Rparams.p := div_nonneg hq.le hp.le
    apply div_nonneg
    · exact mul_nonneg (mul_nonneg (by linarith) h2) h1
    · exact mul_nonneg (mul_nonneg h3.le (by linarith)) (by linarith)

/-- C13. With positive weights on the rows of the voxel's column, positive stored values,
`b_nearest, b_diag, b_interslice >= 0` and `p, q, T, SigmaX > 0`, the `theta2` computed by
`ICDStep3D` is non-positive only if the column is empty (the loop over its entries runs
zero times: `Nnonzero <= 0`, that is `Nnonzero = 0` for a count) and the weighted prior
coefficient sum `b_nearest*sum2_Nearest + b_diag*sum2_Diag + b_interslice*sum2_Interslice`
is zero. The slice and the column are `VoxelIndex / Nxy` and `VoxelIndex % Nxy` of C. -/
theorem ICDStep3D_theta2_nonpos_only_if (e w : ℤ → ℤ → ℝ) (A : SysMatrix2D ℝ)
    (icd_info : ICDInfo ℝ)
    (hw : ∀ n, 0 ≤ n → n < (A.column (icd_info.VoxelIndex.tmod icd_info.Nxy)).Nnonzero →
      0 < w (icd_info.VoxelIndex.tdiv icd_info.Nxy)
        ((A.column (icd_info.VoxelIndex.tmod icd_info.Nxy)).RowIndex n))
    (ha : ∀ n, 0 ≤ n → n < (A.column (icd_info.VoxelIndex.tmod icd_info.Nxy)).Nnonzero →
      0 < (A.column (icd_info.VoxelIndex.tmod icd_info.Nxy)).Value n)
    (hb1 : 0 ≤ icd_info.Rparams.b_nearest) (hb2 : 0 ≤ icd_info.Rparams.b_diag)
    (hb3 : 0 ≤ icd_info.Rparams.b_interslice)
    (hp : 0 < icd_info.Rparams.p) (hq : 0 < icd_info.Rparams.q)
    (hT : 0 < icd_info.Rparams.T) (hS : 0 < icd_info.Rparams.SigmaX)
    (hle : (ICDStep3D e w A icd_info).2.theta2 ≤ 0) :
    (A.column (icd_info.VoxelIndex.tmod icd_info.Nxy)).Nnonzero ≤ 0
    ∧ (0 ≤ (A.column (icd_info.VoxelIndex.tmod icd_info.Nxy)).Nnonzero →
        (A.column (icd_info.VoxelIndex.tmod icd_info.Nxy)).Nnonzero = 0)
    ∧ icd_info.Rparams.b_nearest * sumFromTo 0 4 (fun s =>
          QGGMRF_SurrogateCoeff (icd_info.v - icd_info.neighbors s) icd_info)
        + icd_info.Rparams.b_diag * sumFromTo 6 10 (fun s =>
          QGGMRF_SurrogateCoeff (icd_info.v - icd_info.neighbors s) icd_info)
        + icd_info.Rparams.b_interslice * sumFromTo 4 6 (fun s =>
          QGGMRF_SurrogateCoeff (icd_info.v - icd_info.neighbors s) icd_info) = 0 := by
  rw [ICDStep3D_theta2] at hle
  have hprior : 0 ≤ icd_info.Rparams.b_nearest * sumFromTo 0 4 (fun s =>
          QGGMRF_SurrogateCoeff (icd_info.v - icd_info.neighbors s) icd_info)
        + icd_info.Rparams.b_diag * sumFromTo 6 10 (fun s =>
          QGGMRF_SurrogateCoeff (icd_info.v - icd_info.neighbors s) icd_info)
        + icd_info.Rparams.b_interslice * sumFromTo 4 6 (fun s =>
          QGGMRF_SurrogateCoeff (icd_info.v - icd_info.neighbors s) icd_info) := by
    rw [group_sums_eq]
    apply sumTo_nonneg
    intro s _ _
    exact mul_nonneg (neighborWeight_nonneg icd_info.Rparams hb1 hb2 hb3 s)
      (QGGMRF_SurrogateCoeff_nonneg_of_pos _ icd_info hp hq hT hS)
  have hdata : 0 ≤ dataTheta2 w A icd_info := by
    unfold dataTheta2
    apply sumTo_nonneg
    intro n hn0 hn1
    exact (mul_pos (mul_pos (ha n hn0 hn1) (hw n hn0 hn1)) (ha n hn0 hn1)).le
  have hN : (A.column (icd_info.VoxelIndex.tmod icd_info.Nxy)).Nnonzero ≤ 0 := by
    by_contra hc
    have hpos : 0 < dataTheta2 w A icd_info := by
      unfold dataTheta2
      apply sumTo_pos _ _ (by omega)
      intro n hn0 hn1
      exact mul_pos (mul_pos (ha n hn0 hn1) (hw n hn0 hn1)) (ha n hn0 hn1)
    linarith
  exact ⟨hN, fun h => le_antisymm hN h, by linarith⟩

theorem skip_theta1 (e w : ℤ → ℤ → ℝ) : (ICDStep3D e w emptyA skipIcd).2.theta1 = 0 := by
  have h1 : skipIcd.Rparams.b_nearest = 0 := rfl
  have h2 : skipIcd.Rparams.b_diag = 0 := rfl
  have h3 : skipIcd.Rparams.b_interslice = 0 := rfl
  rw [ICDStep3D_theta1, h1, h2, h3]
  simp [dataTheta1, emptyA, sumTo]

theorem skip_theta2 (e w : ℤ → ℤ → ℝ) : (ICDStep3D e w emptyA skipIcd).2.theta2 = 0 := by
  have h1 : skipIcd.Rparams.b_nearest = 0 := rfl
  have h2 : skipIcd.Rparams.b_diag = 0 := rfl
  have h3 : skipIcd.Rparams.b_interslice = 0 := rfl
  rw [ICDStep3D_theta2, h1, h2, h3]
  simp [dataTheta2, emptyA, sumTo]

/-- Instance of C13 on the empty column with zero prior weights, where `theta2 = 0`. -/
theorem ICDStep3D_theta2_nonpos_only_if_witness :
    (ICDStep3D exE exW emptyA skipIcd).2.theta2 ≤ 0
    ∧ (emptyA.column (skipIcd.VoxelIndex.tmod skipIcd.Nxy)).Nnonzero ≤ 0 :=
  ⟨(skip_theta2 exE exW).le,
    (ICDStep3D_theta2_nonpos_only_if exE exW emptyA skipIcd
      (by intro n h0 h1; simp only [emptyA] at h1; omega)
      (by intro n h0 h1; simp only [emptyA] at h1; omega)
      (by simp only [skipIcd, dupRparams]; norm_num)
      (by simp only [skipIcd, dupRparams]; norm_num)
      (by simp only [skipIcd, dupRparams]; norm_num)
      (by simp only [skipIcd, dupRparams]; norm_num)
      (by simp only [skipIcd, dupRparams]; norm_num)
      (by simp only [skipIcd, dupRparams]; norm_num)
      (by simp only [skipIcd, dupRparams]; norm_num)
      (skip_theta2 exE exW).le).1⟩

/-! ### `theta2 = 0` -/

/-- C14 (amended). `ICDStep3D` has no test of `theta2`: it always evaluates
`v - theta1 / theta2`. On every input on which `theta2` evaluates to 0 the division is a
division by zero, whose quotient is no number, so the step returns no voxel value (it does
not return `v`); on every other input it returns `v - theta1 / theta2`. -/
theorem ICDStep3D_divides_by_theta2 (e w : ℤ → ℤ → ℝ) (A : SysMatrix2D ℝ)
    (icd_info : ICDInfo ℝ) :
    ((ICDStep3D e w A icd_info).2.theta2 = 0 → (ICDStep3D e w A icd_info).1 = none)
    ∧ ((ICDStep3D e w A icd_info).2.theta2 ≠ 0 →
        (ICDStep3D e w A icd_info).1
          = some (icd_info.v
              - (ICDStep3D e w A icd_info).2.theta1 / (ICDStep3D e w A icd_info).2.theta2)) := by
  constructor
  · intro h
    rw [ICDStep3D_value, if_pos h]
  · intro h
    rw [ICDStep3D_value, if_neg h]

/-- C14 (counterexample). On the empty column with `b_nearest = b_diag = b_interslice = 0`
and current value `v = 1`, `theta1` and `theta2` both evaluate to 0 and the step does not
return `v`: the quotient `0 / 0` is evaluated and the result is no number. -/
theorem ICDStep3D_zero_theta2_not_skipped :
    (ICDStep3D exE exW emptyA skipIcd).2.theta1 = 0
    ∧ (ICDStep3D exE exW emptyA skipIcd).2.theta2 = 0
    ∧ (ICDStep3D exE exW emptyA skipIcd).1 ≠ some skipIcd.v := by
  refine ⟨skip_theta1 exE exW, skip_theta2 exE exW, ?_⟩
  rw [ICDStep3D_value, if_pos (skip_theta2 exE exW)]
  exact fun h => Option.noConfusion h

/-- Instance of C14 (amended) on the empty column. -/
theorem ICDStep3D_divides_by_theta2_witness :
    (ICDStep3D exE exW emptyA skipIcd).2.theta2 = 0
    ∧ (ICDStep3D exE exW emptyA skipIcd).1 = none :=
  ⟨skip_theta2 exE exW,
    (ICDStep3D_divides_by_theta2 exE exW emptyA skipIcd).1 (skip_theta2 exE exW)⟩

/-! ### `theta1` and `theta2` as gradient and curvature of the data term -/

/-- Change of the weighted squared residual of the voxel's slice under `UpdateError3D`
with `diff = d`, for a column with pairwise distinct row indices in `[0, Nrows)`. -/
theorem sliceCost_change (e w : ℤ → ℤ → ℝ) (A : SysMatrix2D ℝ) (icd_info : ICDInfo ℝ)
    (Nrows : ℤ) (d : ℝ)
    (hrange : ∀ n, 0 ≤ n →
      n < (A.column (icd_info.VoxelIndex.tmod icd_info.Nxy)).Nnonzero →
      0 ≤ (A.column (icd_info.VoxelIndex.tmod icd_info.Nxy)).RowIndex n
        ∧ (A.column (icd_info.VoxelIndex.tmod icd_info.Nxy)).RowIndex n < Nrows)
    (hinj : ∀ n m, 0 ≤ n →
      n < (A.column (icd_info.VoxelIndex.tmod icd_info.Nxy)).Nnonzero → 0 ≤ m →
      m < (A.column (icd_info.VoxelIndex.tmod icd_info.Nxy)).Nnonzero →
      (A.column (icd_info.VoxelIndex.tmod icd_info.Nxy)).RowIndex n
        = (A.column (icd_info.VoxelIndex.tmod icd_info.Nxy)).RowIndex m → n = m) :
    sliceCost w (UpdateError3D e A d icd_info) (icd_info.VoxelIndex.tdiv icd_info.Nxy) Nrows
      = sliceCost w e (icd_info.VoxelIndex.tdiv icd_info.Nxy) Nrows
        + d * (- dataTheta1 e w A icd_info) + d ^ 2 / 2 * dataTheta2 w A icd_info := by
  have h := dataCost_change
    (fun _ k => e (icd_info.VoxelIndex.tdiv icd_info.Nxy) k)
    (fun _ k => w (icd_info.VoxelIndex.tdiv icd_info.Nxy) k) A
    { icd_info with VoxelIndex := icd_info.VoxelIndex.tmod icd_info.Nxy, Nxy := 0 } 1 Nrows d
    (by simp) (by simp) (by simpa using hrange) (by simpa using hinj)
  have h1 : ((1 : ℤ)).toNat = 1 := rfl
  simp only [dataCost, sumTo, h1, Finset.sum_range_one, UpdateError3D_apply, dataTheta1,
    dataTheta2, Int.tdiv_zero, Int.tmod_zero, Nat.cast_zero, if_true] at h
  unfold sliceCost dataTheta1 dataTheta2
  simp only [sumTo, UpdateError3D_apply, if_true]
  linarith

/-- C20. For a voxel whose column has pairwise distinct row indices (each an index of the
slice's sinogram, `0 <= RowIndex < Nrows`) and with `b_nearest = b_diag = b_interslice = 0`,
for every real `d` the weighted squared residual of the voxel's slice after `UpdateError3D`
with `diff = d` is the one before plus `theta1 * d + 1/2 * theta2 * d^2`, where `theta1`,
`theta2` are the values `ICDStep3D` computes from the state before the update; hence for
`theta2 > 0` the step `d = -theta1 / theta2` lowers it by exactly `theta1^2 / (2 * theta2)`. -/
theorem ICDStep3D_data_gradient_curvature (e w : ℤ → ℤ → ℝ) (A : SysMatrix2D ℝ)
    (icd_info : ICDInfo ℝ) (Nrows : ℤ)
    (hrange : ∀ n, 0 ≤ n →
      n < (A.column (icd_info.VoxelIndex.tmod icd_info.Nxy)).Nnonzero →
      0 ≤ (A.column (icd_info.VoxelIndex.tmod icd_info.Nxy)).RowIndex n
        ∧ (A.column (icd_info.VoxelIndex.tmod icd_info.Nxy)).RowIndex n < Nrows)
    (hinj : ∀ n m, 0 ≤ n →
      n < (A.column (icd_info.VoxelIndex.tmod icd_info.Nxy)).Nnonzero → 0 ≤ m →
      m < (A.column (icd_info.VoxelIndex.tmod icd_info.Nxy)).Nnonzero →
      (A.column (icd_info.VoxelIndex.tmod icd_info.Nxy)).RowIndex n
        = (A.column (icd_info.VoxelIndex.tmod icd_info.Nxy)).RowIndex m → n = m)
    (hb1 : icd_info.Rparams.b_nearest = 0) (hb2 : icd_info.Rparams.b_diag = 0)
    (hb3 : icd_info.Rparams.b_interslice = 0) :
    (∀ d : ℝ,
      sliceCost w (UpdateError3D e A d icd_info) (icd_info.VoxelIndex.tdiv icd_info.Nxy) Nrows
        = sliceCost w e (icd_info.VoxelIndex.tdiv icd_info.Nxy) Nrows
          + (ICDStep3D e w A icd_info).2.theta1 * d
          + 1 / 2 * (ICDStep3D e w A icd_info).2.theta2 * d ^ 2)
    ∧ (0 < (ICDStep3D e w A icd_info).2.theta2 →
      sliceCost w
          (UpdateError3D e A
            (- (ICDStep3D e w A icd_info).2.theta1 / (ICDStep3D e w A icd_info).2.theta2)
            icd_info)
          (icd_info.VoxelIndex.tdiv icd_info.Nxy) Nrows
        = sliceCost w e (icd_info.VoxelIndex.tdiv icd_info.Nxy) Nrows
          - (ICDStep3D e w A icd_info).2.theta1 ^ 2
            / (2 * (ICDStep3D e w A icd_info).2.theta2)) := by
  have h1 : (ICDStep3D e w A icd_info).2.theta1 = - dataTheta1 e w A icd_info := by
    rw [ICDStep3D_theta1, hb1, hb2, hb3]
    ring
  have h2 : (ICDStep3D e w A icd_info).2.theta2 = dataTheta2 w A icd_info := by
    rw [ICDStep3D_theta2, hb1, hb2, hb3]
    ring
  have hquad : ∀ d : ℝ,
      sliceCost w (UpdateError3D e A d icd_info) (icd_info.VoxelIndex.tdiv icd_info.Nxy) Nrows
        = sliceCost w e (icd_info.VoxelIndex.tdiv icd_info.Nxy) Nrows
          + (ICDStep3D e w A icd_info).2.theta1 * d
          + 1 / 2 * (ICDStep3D e w A icd_info).2.theta2 * d ^ 2 := by
    intro d
    rw [sliceCost_change e w A icd_info Nrows d hrange hinj, h1, h2]
    ring
  refine ⟨hquad, ?_⟩
  intro hpos
  rw [hquad]
  field_simp
  ring

/-- Instance of C20: voxel 5 (slice 1, column 1 with rows 1 and 2) with zero prior
weights and `d = 1`. -/
theorem ICDStep3D_data_gradient_curvature_witness :
    (mlIcd5.Rparams.b_nearest = 0 ∧ mlIcd5.Rparams.b_diag = 0
      ∧ mlIcd5.Rparams.b_interslice = 0)
    ∧ sliceCost exW (UpdateError3D negE exA4 1 mlIcd5)
          (mlIcd5.VoxelIndex.tdiv mlIcd5.Nxy) 5
        = sliceCost exW negE (mlIcd5.VoxelIndex.tdiv mlIcd5.Nxy) 5
          + (ICDStep3D negE exW exA4 mlIcd5).2.theta1 * 1
          + 1 / 2 * (ICDStep3D negE exW exA4 mlIcd5).2.theta2 * 1 ^ 2 :=
  ⟨⟨rfl, rfl, rfl⟩,
    (ICDStep3D_data_gradient_curvature negE exW exA4 mlIcd5 5
      (by
        intro n h0 h1
        simp only [exA4] at h1 ⊢
        have : mlIcd5.VoxelIndex.tmod mlIcd5.Nxy = 1 := by decide
        rw [this]
        constructor <;> omega)
      (by
        intro n m _ _ _ _ h
        simp only [exA4] at h
        omega)
      rfl rfl rfl).1 1⟩

/-! ### Range check of the narrow-beam profile index -/

/-- The narrow-beam entry is the profile table read at the index left by the range check. -/
theorem narrowAval_eq (LEN_PIX : ℤ) (pix_prof : ℤ → ℤ → ℝ) (pr : ℤ)
    (t_0 DeltaChannel const3 DeltaPix : ℝ) (i : ℤ) :
    narrowAval LEN_PIX pix_prof pr t_0 DeltaChannel const3 DeltaPix i
      = (narrowReadInd LEN_PIX (narrowProfInd LEN_PIX t_0 DeltaChannel const3 DeltaPix i)).map
          (pix_prof pr) := by
  unfold narrowAval narrowReadInd
  simp only []
  split_ifs <;> rfl

theorem channelAval_narrow (cfg : BuildConfig) (sinoparams : SinoParams3DParallel)
    (imgparams : ImageParams3D ℝ) (pix_prof : ℤ → ℤ → ℝ) (ColumnIndex pr i : ℤ)
    (hW : cfg.WIDE_BEAM = false) :
    channelAval cfg sinoparams imgparams pix_prof ColumnIndex pr i
      = (narrowReadInd cfg.LEN_PIX
          (columnProfInd cfg sinoparams imgparams ColumnIndex pr i)).map (pix_prof pr) := by
  unfold channelAval columnProfInd
  simp only [hW]
  rw [← narrowAval_eq]
  rfl

theorem narrowReadInd_eq_none_iff (LEN_PIX prof_ind : ℤ) (hL : 1 ≤ LEN_PIX) :
    narrowReadInd LEN_PIX prof_ind = none ↔ prof_ind < -1 ∨ prof_ind > LEN_PIX := by
  unfold narrowReadInd
  split_ifs with h1 h2 h3
  · simp only [reduceCtorEq, false_iff]; omega
  · simp only [reduceCtorEq, false_iff]; omega
  · simp only [true_iff]; omega
  · simp only [reduceCtorEq, false_iff]; omega

/-- C15. Narrow-beam build (`WIDE_BEAM` not defined, table length `LEN_PIX >= 1`). For
every view `pr` and channel `i` the entry is the profile table of view `pr` read at index
0 if `prof_ind = -1`, at `LEN_PIX - 1` if `prof_ind = LEN_PIX`, at `prof_ind` if
`0 <= prof_ind < LEN_PIX`; `ComputeSysMatrixColumn3DParallel` ends in `exit(-1)` if and only
if some visited (view, channel) pair has `prof_ind < -1` or `prof_ind > LEN_PIX`; and
every read of the table made for a visited pair is at a view in `[0, NViews)` and an index
in `[0, LEN_PIX)`. -/
theorem ComputeSysMatrixColumn3DParallel_profile_index_check (cfg : BuildConfig)
    (ColumnIndex : ℤ) (sinoparams : SinoParams3DParallel) (imgparams : ImageParams3D ℝ)
    (pix_prof : ℤ → ℤ → ℝ) (A_Column : SparseColumn ℝ)
    (hW : cfg.WIDE_BEAM = false) (hL : 1 ≤ cfg.LEN_PIX) :
    (∀ pr i,
      channelAval cfg sinoparams imgparams pix_prof ColumnIndex pr i
          = (narrowReadInd cfg.LEN_PIX
              (columnProfInd cfg sinoparams imgparams ColumnIndex pr i)).map (pix_prof pr)
      ∧ (columnProfInd cfg sinoparams imgparams ColumnIndex pr i = -1 →
          narrowReadInd cfg.LEN_PIX (columnProfInd cfg sinoparams imgparams ColumnIndex pr i)
            = some 0)
      ∧ (columnProfInd cfg sinoparams imgparams ColumnIndex pr i = cfg.LEN_PIX →
          narrowReadInd cfg.LEN_PIX (columnProfInd cfg sinoparams imgparams ColumnIndex pr i)
            = some (cfg.LEN_PIX - 1))
      ∧ (0 ≤ columnProfInd cfg sinoparams imgparams ColumnIndex pr i
          ∧ columnProfInd cfg sinoparams imgparams ColumnIndex pr i < cfg.LEN_PIX →
          narrowReadInd cfg.LEN_PIX (columnProfInd cfg sinoparams imgparams ColumnIndex pr i)
            = some (columnProfInd cfg sinoparams imgparams ColumnIndex pr i)))
    ∧ (ComputeSysMatrixColumn3DParallel cfg ColumnIndex sinoparams imgparams pix_prof A_Column
          = none
        ↔ ∃ p ∈ visitedPairs sinoparams imgparams ColumnIndex,
            columnProfInd cfg sinoparams imgparams ColumnIndex p.1 p.2 < -1
            ∨ columnProfInd cfg sinoparams imgparams ColumnIndex p.1 p.2 > cfg.LEN_PIX)
    ∧ (∀ p ∈ visitedPairs sinoparams imgparams ColumnIndex, ∀ j,
        narrowReadInd cfg.LEN_PIX (columnProfInd cfg sinoparams imgparams ColumnIndex p.1 p.2)
            = some j →
          (0 ≤ p.1 ∧ p.1 < sinoparams.NViews) ∧ 0 ≤ j ∧ j < cfg.LEN_PIX) := by
  refine ⟨?_, ?_, ?_⟩
  · intro pr i
    refine ⟨channelAval_narrow cfg sinoparams imgparams pix_prof ColumnIndex pr i hW, ?_, ?_, ?_⟩
    · intro h
      rw [h]
      unfold narrowReadInd
      rw [if_pos (Or.inr (by norm_num)), if_neg (by omega), if_pos rfl]
    · intro h
      rw [h]
      unfold narrowReadInd
      rw [if_pos (Or.inl le_rfl), if_pos rfl]
    · rintro ⟨h0, h1⟩
      unfold narrowReadInd
      rw [if_neg (by omega)]
  · rw [ComputeSysMatrixColumn3DParallel_eq, Option.map_eq_none', runSteps_eq_none_iff]
    constructor
    · rintro ⟨p, hp, h⟩
      refine ⟨p, hp, ?_⟩
      rw [channelAval_narrow _ _ _ _ _ _ _ hW, Option.map_eq_none'] at h
      exact (narrowReadInd_eq_none_iff _ _ hL).mp h
    · rintro ⟨p, hp, h⟩
      refine ⟨p, hp, ?_⟩
      rw [channelAval_narrow _ _ _ _ _ _ _ hW, Option.map_eq_none']
      exact (narrowReadInd_eq_none_iff _ _ hL).mpr h
  · intro p hp j hj
    refine ⟨((mem_visitedPairs sinoparams imgparams ColumnIndex p).mp hp).1, ?_⟩
    unfold narrowReadInd at hj
    split_ifs at hj with h1 h2 h3
    · have := Option.some.inj hj
      omega
    · have := Option.some.inj hj
      omega
    · have := Option.some.inj hj
      omega

/-- Instance of C15 on the concrete geometry (`LEN_PIX = 4`): the column is built, so no
visited pair has `prof_ind < -1` or `prof_ind > LEN_PIX`. -/
theorem ComputeSysMatrixColumn3DParallel_profile_index_check_witness :
    (exCfg.WIDE_BEAM = false ∧ 1 ≤ exCfg.LEN_PIX)
    ∧ ¬ ∃ p ∈ visitedPairs exSino exImg 0,
        columnProfInd exCfg exSino exImg 0 p.1 p.2 < -1
        ∨ columnProfInd exCfg exSino exImg 0 p.1 p.2 > exCfg.LEN_PIX :=
  ⟨⟨rfl, by decide⟩, fun h => by
    have := (ComputeSysMatrixColumn3DParallel_profile_index_check exCfg 0 exSino exImg exProf
      exBuffer rfl (by decide)).2.1.mpr h
    rw [ex_column_built] at this
    exact Option.noConfusion this⟩

/-! ### The narrow-beam profile index -/

/-- Conversion to `int` moves a value by less than 1. -/
theorem truncToInt_near (r : ℝ) : |((truncToInt r : ℤ) : ℝ) - r| < 1 := by
  unfold truncToInt
  split_ifs with h
  · rw [abs_lt]
    constructor
    · linarith [Int.lt_floor_add_one r]
    · linarith [Int.floor_le r]
  · rw [abs_lt]
    constructor
    · linarith [Int.le_ceil r]
    · linarith [Int.ceil_lt_add_one r]

/-- C16 (amended). For `Deltaxy` not zero, every view `pr` and channel `i`, with
`tau = y*cos(th) - x*sin(th)` the projected pixel centre, the narrow-beam `prof_ind` is an
integer that differs by less than 1 from
`LEN_PIX * (t0 + i*DeltaChannel - tau) / (2*Deltaxy) + LEN_PIX / 2`: the profile is indexed
from its left end, one pixel width before the pixel centre. How the value is rounded to
the integer is not stated. -/
theorem ComputeSysMatrixColumn3DParallel_profile_index (cfg : BuildConfig)
    (sinoparams : SinoParams3DParallel) (imgparams : ImageParams3D ℝ) (ColumnIndex pr i : ℤ)
    (hD : imgparams.Deltaxy ≠ 0) :
    |((columnProfInd cfg sinoparams imgparams ColumnIndex pr i : ℤ) : ℝ)
      - ((cfg.LEN_PIX : ℝ)
          * (t_0 sinoparams + (i : ℝ) * sinoparams.DeltaChannel
              - projectedCenter sinoparams imgparams ColumnIndex pr)
          / (2 * imgparams.Deltaxy)
        + (cfg.LEN_PIX : ℝ) / 2)| < 1 := by
  have h := truncToInt_near ((cfg.LEN_PIX : ℝ)
    * (t_0 sinoparams + (i : ℝ) * sinoparams.DeltaChannel
        + (imgparams.Deltaxy - projectedCenter sinoparams imgparams ColumnIndex pr))
    / (2 * imgparams.Deltaxy))
  have e : (cfg.LEN_PIX : ℝ)
      * (t_0 sinoparams + (i : ℝ) * sinoparams.DeltaChannel
          + (imgparams.Deltaxy - projectedCenter sinoparams imgparams ColumnIndex pr))
      / (2 * imgparams.Deltaxy)
      = (cfg.LEN_PIX : ℝ)
          * (t_0 sinoparams + (i : ℝ) * sinoparams.DeltaChannel
              - projectedCenter sinoparams imgparams ColumnIndex pr)
          / (2 * imgparams.Deltaxy)
        + (cfg.LEN_PIX : ℝ) / 2 := by
    field_simp
    ring
  rw [← e]
  exact h

theorem ex_columnProfInd : columnProfInd exCfg exSino exImg 0 0 1 = 2 := by
  unfold columnProfInd narrowProfInd
  rw [ex_projectedCenter, exSino_t_0]
  have : ((exCfg.LEN_PIX : ℤ) : ℝ) * (-1 + ((1 : ℤ) : ℝ) * exSino.DeltaChannel
      + (exImg.Deltaxy - 0)) / (2 * exImg.Deltaxy) = ((2 : ℤ) : ℝ) := by
    simp only [exCfg, exSino, exImg]
    norm_num
  rw [this, truncToInt_intCast]

/-- C16 (counterexample). With `LEN_PIX = 4`, three channels of spacing 1, one pixel of
size 1 and view angle 0, channel 1 lies at the projected pixel centre
(`t0 + i*DeltaChannel - tau = 0`): the formula of the claim gives `floor(0.5) = 0`, the
code computes `prof_ind = 4 * (0 + 1) / 2 = 2`. -/
theorem profile_index_formula_fails :
    (1 : ℤ) ∈ visitedChannels exSino exImg 0 0
    ∧ specProfInd exCfg.LEN_PIX (t_0 exSino) exSino.DeltaChannel
        (projectedCenter exSino exImg 0 0) exImg.Deltaxy 1 = 0
    ∧ columnProfInd exCfg exSino exImg 0 0 1 = 2
    ∧ columnProfInd exCfg exSino exImg 0 0 1
      ≠ specProfInd exCfg.LEN_PIX (t_0 exSino) exSino.DeltaChannel
          (projectedCenter exSino exImg 0 0) exImg.Deltaxy 1 := by
  have hs : specProfInd exCfg.LEN_PIX (t_0 exSino) exSino.DeltaChannel
      (projectedCenter exSino exImg 0 0) exImg.Deltaxy 1 = 0 := by
    unfold specProfInd
    rw [ex_projectedCenter, exSino_t_0, Int.floor_eq_iff]
    simp only [exCfg, exSino, exImg]
    norm_num
  refine ⟨?_, hs, ex_columnProfInd, ?_⟩
  · rw [ex_visitedChannels]
    decide
  · rw [hs, ex_columnProfInd]
    decide

/-- Instance of C16 (amended) on the concrete geometry, channel 1. -/
theorem ComputeSysMatrixColumn3DParallel_profile_index_witness :
    exImg.Deltaxy ≠ 0
    ∧ |((columnProfInd exCfg exSino exImg 0 0 1 : ℤ) : ℝ)
      - ((exCfg.LEN_PIX : ℝ)
          * (t_0 exSino + ((1 : ℤ) : ℝ) * exSino.DeltaChannel - projectedCenter exSino exImg 0 0)
          / (2 * exImg.Deltaxy)
        + (exCfg.LEN_PIX : ℝ) / 2)| < 1 :=
  ⟨by simp only [exImg]; norm_num,
    ComputeSysMatrixColumn3DParallel_profile_index exCfg exSino exImg 0 0 1
      (by simp only [exImg]; norm_num)⟩

/-! ### Scenario S1: the centre pixel of a `3 x 3` image -/

/-- In the narrow-beam build a visited pair whose `prof_ind` is below `-1` or above
`LEN_PIX` ends the call in `exit(-1)`. -/
theorem column_exits_of_bad_index (cfg : BuildConfig) (ColumnIndex : ℤ)
    (sinoparams : SinoParams3DParallel) (imgparams : ImageParams3D ℝ)
    (pix_prof : ℤ → ℤ → ℝ) (A_Column : SparseColumn ℝ)
    (hW : cfg.WIDE_BEAM = false) (hL : 1 ≤ cfg.LEN_PIX) (p : ℤ × ℤ)
    (hp : p ∈ visitedPairs sinoparams imgparams ColumnIndex)
    (hbad : columnProfInd cfg sinoparams imgparams ColumnIndex p.1 p.2 < -1
      ∨ columnProfInd cfg sinoparams imgparams ColumnIndex p.1 p.2 > cfg.LEN_PIX) :
    ComputeSysMatrixColumn3DParallel cfg ColumnIndex sinoparams imgparams pix_prof A_Column
      = none := by
  rw [ComputeSysMatrixColumn3DParallel_eq, Option.map_eq_none', runSteps_eq_none_iff]
  refine ⟨p, hp, ?_⟩
  rw [channelAval_narrow _ _ _ _ _ _ _ hW, Option.map_eq_none']
  exact (narrowReadInd_eq_none_iff _ _ hL).mpr hbad

theorem s1_t_0 : t_0 s1Sino = -3 / 2 := by
  unfold t_0 s1Sino
  norm_num

theorem s1_projectedCenter : projectedCenter s1Sino s1Img 4 0 = 0 := by
  have h1 : (4 : ℤ).tdiv 3 = 1 := by decide
  have h2 : (4 : ℤ).tmod 3 = 1 := by decide
  unfold projectedCenter s1Sino s1Img
  simp only [h1, h2]
  norm_num

theorem s1_visited : ((0 : ℤ), (0 : ℤ)) ∈ visitedPairs s1Sino s1Img 4 := by
  rw [mem_visitedPairs]
  refine ⟨⟨le_rfl, by decide⟩, ?_⟩
  show (0 : ℤ) ∈ visitedChannels s1Sino s1Img 4 0
  unfold visitedChannels
  rw [s1_projectedCenter, s1_t_0]
  have h1 : channelMin ((0 : ℝ) - s1Img.Deltaxy) (-3 / 2) s1Sino.DeltaChannel = 0 := by
    unfold channelMin s1Img s1Sino
    have : ⌈((0 : ℝ) - 1 - -3 / 2) / 1 - 0.5⌉ = 0 := by
      rw [Int.ceil_eq_iff]; norm_num
    simp only [this]
    norm_num
  have h2 : channelMax ((0 : ℝ) - s1Img.Deltaxy + 2 * s1Img.Deltaxy) (-3 / 2)
      s1Sino.DeltaChannel s1Sino.NChannels = 3 := by
    unfold channelMax s1Img s1Sino truncToInt
    have : ⌊((0 : ℝ) - 1 + 2 * 1 - -3 / 2) / 1 + 0.5⌋ = 3 := by
      rw [Int.floor_eq_iff]; norm_num
    norm_num [this]
  simp only [h1, h2]
  have h3 : ¬ ((0 : ℝ) - s1Img.Deltaxy + 2 * s1Img.Deltaxy < -3 / 2) := by
    unfold s1Img; norm_num
  rw [if_neg h3, mem_intRange]
  norm_num

theorem s1_columnProfInd (cfg : BuildConfig) (hL : 8 ≤ cfg.LEN_PIX) :
    columnProfInd cfg s1Sino s1Img 4 0 0 < -1 := by
  unfold columnProfInd narrowProfInd
  rw [s1_projectedCenter, s1_t_0]
  have e : (cfg.LEN_PIX : ℝ) * (-3 / 2 + ((0 : ℤ) : ℝ) * s1Sino.DeltaChannel
      + (s1Img.Deltaxy - 0)) / (2 * s1Img.Deltaxy) = -(cfg.LEN_PIX : ℝ) / 4 := by
    simp only [s1Sino, s1Img]
    norm_num
    ring
  have hL2 : (8 : ℝ) ≤ (cfg.LEN_PIX : ℝ) := by exact_mod_cast hL
  rw [e]
  unfold truncToInt
  rw [if_neg (by linarith)]
  have : ⌈-(cfg.LEN_PIX : ℝ) / 4⌉ ≤ -2 := by
    rw [Int.ceil_le]
    push_cast
    linarith
  omega

/-- C17 (amended). Scenario S1 in the narrow-beam build with `LEN_PIX >= 8`: four channels,
two views (angles 0 and `PI/2`), a `3 x 3` image, `Deltaxy = DeltaChannel = 1`,
`CenterOffset = 0`. For the centre pixel (`ColumnIndex = 4`) channel 0 of view 0 is
visited and its `prof_ind`, the conversion of `-LEN_PIX/4`, is below `-1`, so
`ComputeSysMatrixColumn3DParallel` ends in `exit(-1)` and returns no column, whatever the
profile table and the column buffers hold. -/
theorem ComputeSysMatrixColumn3DParallel_S1_exits (cfg : BuildConfig)
    (pix_prof : ℤ → ℤ → ℝ) (A_Column : SparseColumn ℝ)
    (hW : cfg.WIDE_BEAM = false) (hL : 8 ≤ cfg.LEN_PIX) :
    ((0 : ℤ), (0 : ℤ)) ∈ visitedPairs s1Sino s1Img 4
    ∧ columnProfInd cfg s1Sino s1Img 4 0 0 < -1
    ∧ ComputeSysMatrixColumn3DParallel cfg 4 s1Sino s1Img pix_prof A_Column = none := by
  have hbad := s1_columnProfInd cfg hL
  refine ⟨s1_visited, hbad, ?_⟩
  exact column_exits_of_bad_index cfg 4 s1Sino s1Img pix_prof A_Column hW (by omega) (0, 0)
    s1_visited (Or.inl hbad)

/-- C17 (counterexample). With `LEN_PIX = 256` and the profile table computed for the
geometry of S1, the call for `ColumnIndex = 4` returns no column: it ends in `exit(-1)`
at channel 0 of view 0. -/
theorem S1_column_not_returned :
    ComputeSysMatrixColumn3DParallel s1Cfg 4 s1Sino s1Img
        (ComputePixelProfile3DParallel s1Cfg s1Sino s1Img exProf) exBuffer = none
    ∧ ¬ ∃ col, ComputeSysMatrixColumn3DParallel s1Cfg 4 s1Sino s1Img
        (ComputePixelProfile3DParallel s1Cfg s1Sino s1Img exProf) exBuffer = some col := by
  have h : ComputeSysMatrixColumn3DParallel s1Cfg 4 s1Sino s1Img
      (ComputePixelProfile3DParallel s1Cfg s1Sino s1Img exProf) exBuffer = none :=
    column_exits_of_bad_index s1Cfg 4 s1Sino s1Img _ exBuffer rfl (by decide) (0, 0)
      s1_visited (Or.inl (s1_columnProfInd s1Cfg (by decide)))
  refine ⟨h, ?_⟩
  rintro ⟨col, hc⟩
  rw [h] at hc
  exact Option.noConfusion hc

/-- Instance of C17 (amended) for `LEN_PIX = 256`. -/
theorem ComputeSysMatrixColumn3DParallel_S1_exits_witness :
    (s1Cfg.WIDE_BEAM = false ∧ 8 ≤ s1Cfg.LEN_PIX)
    ∧ ComputeSysMatrixColumn3DParallel s1Cfg 4 s1Sino s1Img exProf exBuffer = none :=
  ⟨⟨rfl, by decide⟩,
    (ComputeSysMatrixColumn3DParallel_S1_exits s1Cfg exProf exBuffer rfl (by decide)).2.2⟩

/-! ### The surrogate coefficient and the derivative of the potential -/

theorem QGGMRF_SurrogateCoeff_neg (delta : ℝ) (icd_info : ICDInfo ℝ) :
    QGGMRF_SurrogateCoeff (-delta) icd_info = QGGMRF_SurrogateCoeff delta icd_info := by
  unfold QGGMRF_SurrogateCoeff
  simp only [abs_neg, neg_div, neg_eq_zero]

theorem QGGMRF_SurrogateCoeff_pos (delta : ℝ) (icd_info : ICDInfo ℝ) (hd : delta ≠ 0)
    (hp : 0 < icd_info.Rparams.p) (hq : 0 < icd_info.Rparams.q)
    (hT : 0 < icd_info.Rparams.T) (hS : 0 < icd_info.Rparams.SigmaX) :
    0 < QGGMRF_SurrogateCoeff delta icd_info := by
  unfold QGGMRF_SurrogateCoeff
  simp only [hd, if_false]
  have hTS : 0 < icd_info.Rparams.T * icd_info.Rparams.SigmaX := mul_pos hT hS
  have hm : 0 < |delta| := abs_pos.mpr hd
  have hu : 0 < |delta / (icd_info.Rparams.T * icd_info.Rparams.SigmaX)| :=
    abs_pos.mpr (div_ne_zero hd hTS.ne')
  have h1 : 0 < |delta / (icd_info.Rparams.T * icd_info.Rparams.SigmaX)|
      ^ (icd_info.Rparams.q - icd_info.Rparams.p) := Real.rpow_pos_of_pos hu _
  have h2 : 0 < |delta| ^ (icd_info.Rparams.p - 2) := Real.rpow_pos_of_pos hm _
  have h3 : 0 < icd_info.Rparams.SigmaX ^ icd_info.Rparams.p := Real.rpow_pos_of_pos hS _
  have h4 : 0 < icd_info.Rparams.q / icd_info.Rparams.p := div_pos hq hp
  apply div_pos
  · exact mul_pos (mul_pos (by linarith) h2) h1
  · exact mul_pos (mul_pos h3 (by linarith)) (by linarith)

/-- Derivative of the potential at a positive argument. -/
theorem QGGMRF_Potential_hasDerivAt_pos (delta : ℝ) (icd_info : ICDInfo ℝ) (hd : 0 < delta)
    (hp : 0 < icd_info.Rparams.p) (hT : 0 < icd_info.Rparams.T)
    (hS : 0 < icd_info.Rparams.SigmaX) :
    HasDerivAt (fun t => QGGMRF_Potential t icd_info.Rparams)
      (QGGMRF_SurrogateCoeff delta icd_info * delta) delta := by
  have hTS : 0 < icd_info.Rparams.T * icd_info.Rparams.SigmaX := mul_pos hT hS
  have hx : 0 < delta / (icd_info.Rparams.T * icd_info.Rparams.SigmaX) := div_pos hd hTS
  have hsp : 0 < icd_info.Rparams.SigmaX ^ icd_info.Rparams.p := Real.rpow_pos_of_pos hS _
  have hu : 0 < (delta / (icd_info.Rparams.T * icd_info.Rparams.SigmaX))
      ^ (icd_info.Rparams.q - icd_info.Rparams.p) := Real.rpow_pos_of_pos hx _
  have hP : 0 < delta ^ icd_info.Rparams.p := Real.rpow_pos_of_pos hd _
  have h1 : HasDerivAt (fun t : ℝ => t ^ icd_info.Rparams.p)
      (icd_info.Rparams.p * delta ^ (icd_info.Rparams.p - 1)) delta :=
    Real.hasDerivAt_rpow_const (Or.inl hd.ne')
  have h2 : HasDerivAt (fun t : ℝ => t / (icd_info.Rparams.T * icd_info.Rparams.SigmaX))
      (1 / (icd_info.Rparams.T * icd_info.Rparams.SigmaX)) delta :=
    (hasDerivAt_id delta).div_const _
  have h3 := h2.rpow_const (p := icd_info.Rparams.q - icd_info.Rparams.p) (Or.inl hx.ne')
  have h4 := ((h1.div_const (icd_info.Rparams.p * icd_info.Rparams.SigmaX ^ icd_info.Rparams.p)).mul
    h3).div (h3.const_add 1) (by positivity)
  have hev : (fun t => QGGMRF_Potential t icd_info.Rparams)
      =ᶠ[nhds delta] fun t =>
        t ^ icd_info.Rparams.p
            / (icd_info.Rparams.p * icd_info.Rparams.SigmaX ^ icd_info.Rparams.p)
          * (t / (icd_info.Rparams.T * icd_info.Rparams.SigmaX))
              ^ (icd_info.Rparams.q - icd_info.Rparams.p)
          / (1 + (t / (icd_info.Rparams.T * icd_info.Rparams.SigmaX))
              ^ (icd_info.Rparams.q - icd_info.Rparams.p)) := by
    apply Filter.eventually_of_mem (Ioi_mem_nhds hd)
    intro t ht
    have ht0 : 0 < t := ht
    unfold QGGMRF_Potential
    simp only []
    rw [abs_of_pos ht0, abs_of_pos (div_pos ht0 hTS)]
  refine (h4.congr_of_eventuallyEq hev).congr_deriv ?_
  have e1 : delta ^ (icd_info.Rparams.p - 1) = delta ^ icd_info.Rparams.p / delta := by
    rw [Real.rpow_sub_one hd.ne']
  have e2 : (delta / (icd_info.Rparams.T * icd_info.Rparams.SigmaX))
        ^ (icd_info.Rparams.q - icd_info.Rparams.p - 1)
      = (delta / (icd_info.Rparams.T * icd_info.Rparams.SigmaX))
          ^ (icd_info.Rparams.q - icd_info.Rparams.p)
        / (delta / (icd_info.Rparams.T * icd_info.Rparams.SigmaX)) := by
    rw [Real.rpow_sub_one hx.ne']
  have e3 : |delta| ^ (icd_info.Rparams.p - 2) = delta ^ icd_info.Rparams.p / delta ^ 2 := by
    rw [abs_of_pos hd, Real.rpow_sub hd, Real.rpow_two]
  unfold QGGMRF_SurrogateCoeff
  simp only [hd.ne', if_false]
  rw [abs_of_pos hx, e3]
  simp only [id, e1, e2]
  generalize delta ^ icd_info.Rparams.p = P at hP ⊢
  generalize (delta / (icd_info.Rparams.T * icd_info.Rparams.SigmaX))
      ^ (icd_info.Rparams.q - icd_info.Rparams.p) = u at hu ⊢
  generalize icd_info.Rparams.SigmaX ^ icd_info.Rparams.p = sp at hsp ⊢
  have hu1 : 1 + u ≠ 0 := by positivity
  field_simp
  ring

/-- Derivative of the potential at every non-zero argument: `a(delta) * delta`. -/
theorem QGGMRF_Potential_hasDerivAt (delta : ℝ) (icd_info : ICDInfo ℝ) (hd : delta ≠ 0)
    (hp : 0 < icd_info.Rparams.p) (hT : 0 < icd_info.Rparams.T)
    (hS : 0 < icd_info.Rparams.SigmaX) :
    HasDerivAt (fun t => QGGMRF_Potential t icd_info.Rparams)
      (QGGMRF_SurrogateCoeff delta icd_info * delta) delta := by
  rcases lt_or_gt_of_ne hd with h | h
  · have hpos := QGGMRF_Potential_hasDerivAt_pos (-delta) icd_info (by linarith) hp hT hS
    have hneg : HasDerivAt (fun t : ℝ => -t) (-1) delta := (hasDerivAt_id delta).neg
    have hcomp := HasDerivAt.comp delta hpos hneg
    have hfun : ((fun t => QGGMRF_Potential t icd_info.Rparams) ∘ fun t : ℝ => -t)
        = fun t => QGGMRF_Potential t icd_info.Rparams := by
      funext t
      exact QGGMRF_Potential_neg t icd_info.Rparams
    rw [hfun, QGGMRF_SurrogateCoeff_neg] at hcomp
    refine hcomp.congr_deriv ?_
    ring
  · exact QGGMRF_Potential_hasDerivAt_pos delta icd_info h hp hT hS

/-- C19. For `p, q, T, SigmaX > 0` and every real `delta` other than 0, the potential
computed by `QGGMRF_Potential` is differentiable at `delta` and
`QGGMRF_SurrogateCoeff(delta)` equals its derivative there divided by `delta`; the
coefficient is strictly positive and even in `delta`. The order `p < q` of the two
exponents is not needed. -/
theorem QGGMRF_SurrogateCoeff_is_derivative_ratio (delta : ℝ) (icd_info : ICDInfo ℝ)
    (hd : delta ≠ 0) (hp : 0 < icd_info.Rparams.p) (hq : 0 < icd_info.Rparams.q)
    (hT : 0 < icd_info.Rparams.T) (hS : 0 < icd_info.Rparams.SigmaX) :
    DifferentiableAt ℝ (fun t => QGGMRF_Potential t icd_info.Rparams) delta
    ∧ QGGMRF_SurrogateCoeff delta icd_info
        = deriv (fun t => QGGMRF_Potential t icd_info.Rparams) delta / delta
    ∧ 0 < QGGMRF_SurrogateCoeff delta icd_info
    ∧ QGGMRF_SurrogateCoeff (-delta) icd_info = QGGMRF_SurrogateCoeff delta icd_info := by
  have h := QGGMRF_Potential_hasDerivAt delta icd_info hd hp hT hS
  refine ⟨h.differentiableAt, ?_, QGGMRF_SurrogateCoeff_pos delta icd_info hd hp hq hT hS,
    QGGMRF_SurrogateCoeff_neg delta icd_info⟩
  rw [h.deriv, mul_div_assoc, div_self hd, mul_one]

/-- Instance of C19 at `delta = 2` with `p = 1`, `q = 2`, `T = SigmaX = 1`. -/
theorem QGGMRF_SurrogateCoeff_is_derivative_ratio_witness :
    ((2 : ℝ) ≠ 0 ∧ exIcd.Rparams.p < exIcd.Rparams.q)
    ∧ QGGMRF_SurrogateCoeff 2 exIcd
        = deriv (fun t => QGGMRF_Potential t exIcd.Rparams) 2 / 2 :=
  ⟨⟨by norm_num, by simp only [exIcd, exRparams]; norm_num⟩,
    (QGGMRF_SurrogateCoeff_is_derivative_ratio 2 exIcd (by norm_num)
      (by simp only [exIcd, exRparams]; norm_num)
      (by simp only [exIcd, exRparams]; norm_num)
      (by simp only [exIcd, exRparams]; norm_num)
      (by simp only [exIcd, exRparams]; norm_num)).2.1⟩

/-! ### Order of two ICD updates -/

theorem sumFromTo_congr (lo hi : ℤ) (f g : ℤ → ℝ) (h : ∀ s, lo ≤ s → s < hi → f s = g s) :
    sumFromTo lo hi f = sumFromTo lo hi g := by
  unfold sumFromTo
  apply Finset.sum_congr rfl
  intro k hk
  have := Finset.mem_range.mp hk
  apply h <;> omega

/-- The update in closed form: it returns a state exactly when `theta2` is not zero, the
volume with the new value `v - theta1 / theta2` stored and the residual updated with
`diff = -theta1 / theta2`. -/
theorem ICDUpdate_eq (w : ℤ → ℤ → ℝ) (A : SysMatrix2D ℝ) (icd_info : ICDInfo ℝ)
    (st : Image3D ℝ × (ℤ → ℤ → ℝ)) (I : ℤ) :
    ICDUpdate w A icd_info st I
      = if (ICDStep3D st.2 w A (stepContext icd_info st.1 I)).2.theta2 = 0 then none
        else some
          ({ st.1 with
              image := store2 st.1.image (I.tdiv (st.1.imgparams.Nx * st.1.imgparams.Ny))
                (I.tmod (st.1.imgparams.Nx * st.1.imgparams.Ny))
                ((stepContext icd_info st.1 I).v
                  - (ICDStep3D st.2 w A (stepContext icd_info st.1 I)).2.theta1
                    / (ICDStep3D st.2 w A (stepContext icd_info st.1 I)).2.theta2) },
            UpdateError3D st.2 A
              (- ((ICDStep3D st.2 w A (stepContext icd_info st.1 I)).2.theta1
                    / (ICDStep3D st.2 w A (stepContext icd_info st.1 I)).2.theta2))
              (stepContext icd_info st.1 I)) := by
  obtain ⟨hxI, hxN⟩ := ICDStep3D_index st.2 w A (stepContext icd_info st.1 I)
  have hN : (stepContext icd_info st.1 I).Nxy = st.1.imgparams.Nx * st.1.imgparams.Ny := rfl
  unfold ICDUpdate
  simp only []
  rw [ICDStep3D_value]
  split_ifs with h
  · rfl
  · simp only [hN]
    rw [UpdateError3D_congr st.2 A _ _ (stepContext icd_info st.1 I) hxI hxN,
      sub_sub_cancel_left]

theorem stepContext_neighbors (icd_info : ICDInfo ℝ) (Image : Image3D ℝ) (I s : ℤ)
    (h0 : 0 ≤ s) (h1 : s < 10) :
    (stepContext icd_info Image I).neighbors s
      = Image.image
          (NeighborPosition Image.imgparams.Nx Image.imgparams.Ny Image.imgparams.Nz I s).1
          (NeighborPosition Image.imgparams.Nx Image.imgparams.Ny Image.imgparams.Nz I s).2 := by
  unfold stepContext ExtractNeighbors3D
  simp only [h0, h1, and_self, if_true]

/-- The neighbours of slots 0..3 and 6..9 lie in the slice of the voxel. -/
theorem NeighborPosition_slice (Nx Ny Nz I s : ℤ) (h : s < 4 ∨ 6 ≤ s) :
    (NeighborPosition Nx Ny Nz I s).1 = I.tdiv (Nx * Ny) := by
  have h4 : ¬ s = 4 := by omega
  have h5 : ¬ s = 5 := by omega
  unfold NeighborPosition
  simp only [apply_ite Prod.fst, h4, h5, if_false, ite_self, mul_comm Ny Nx]

/-- The values `theta1`, `theta2` and `v` of the step for voxel `I` are the same in two
states that agree on the residual of the voxel's slice, on the value of the voxel and on
the values of its neighbours, where the inter-slice neighbours (slots 4 and 5) need not
agree if `b_interslice = 0`. -/
theorem step_congr (w : ℤ → ℤ → ℝ) (A : SysMatrix2D ℝ) (icd_info : ICDInfo ℝ)
    (st st' : Image3D ℝ × (ℤ → ℤ → ℝ)) (I : ℤ)
    (hparams : st'.1.imgparams = st.1.imgparams)
    (he : st'.2 (I.tdiv (st.1.imgparams.Nx * st.1.imgparams.Ny))
      = st.2 (I.tdiv (st.1.imgparams.Nx * st.1.imgparams.Ny)))
    (hv : st'.1.image (I.tdiv (st.1.imgparams.Nx * st.1.imgparams.Ny))
        (I.tmod (st.1.imgparams.Nx * st.1.imgparams.Ny))
      = st.1.image (I.tdiv (st.1.imgparams.Nx * st.1.imgparams.Ny))
        (I.tmod (st.1.imgparams.Nx * st.1.imgparams.Ny)))
    (hn : ∀ s, 0 ≤ s → s < 10 → s < 4 ∨ 6 ≤ s →
      st'.1.image
          (NeighborPosition st.1.imgparams.Nx st.1.imgparams.Ny st.1.imgparams.Nz I s).1
          (NeighborPosition st.1.imgparams.Nx st.1.imgparams.Ny st.1.imgparams.Nz I s).2
        = st.1.image
          (NeighborPosition st.1.imgparams.Nx st.1.imgparams.Ny st.1.imgparams.Nz I s).1
          (NeighborPosition st.1.imgparams.Nx st.1.imgparams.Ny st.1.imgparams.Nz I s).2)
    (hz : icd_info.Rparams.b_interslice = 0 ∨ ∀ s, 4 ≤ s → s < 6 →
      st'.1.image
          (NeighborPosition st.1.imgparams.Nx st.1.imgparams.Ny st.1.imgparams.Nz I s).1
          (NeighborPosition st.1.imgparams.Nx st.1.imgparams.Ny st.1.imgparams.Nz I s).2
        = st.1.image
          (NeighborPosition st.1.imgparams.Nx st.1.imgparams.Ny st.1.imgparams.Nz I s).1
          (NeighborPosition st.1.imgparams.Nx st.1.imgparams.Ny st.1.imgparams.Nz I s).2) :
    (ICDStep3D st'.2 w A (stepContext icd_info st'.1 I)).2.theta1
        = (ICDStep3D st.2 w A (stepContext icd_info st.1 I)).2.theta1
    ∧ (ICDStep3D st'.2 w A (stepContext icd_info st'.1 I)).2.theta2
        = (ICDStep3D st.2 w A (stepContext icd_info st.1 I)).2.theta2
    ∧ (stepContext icd_info st'.1 I).v = (stepContext icd_info st.1 I).v := by
  have hv' : (stepContext icd_info st'.1 I).v = (stepContext icd_info st.1 I).v := by
    show st'.1.image _ _ = st.1.image _ _
    rw [hparams]
    exact hv
  have hnb : ∀ s, 0 ≤ s → s < 10 → s < 4 ∨ 6 ≤ s →
      (stepContext icd_info st'.1 I).neighbors s = (stepContext icd_info st.1 I).neighbors s := by
    intro s h0 h1 h
    rw [stepContext_neighbors _ _ _ _ h0 h1, stepContext_neighbors _ _ _ _ h0 h1, hparams]
    exact hn s h0 h1 h
  have hR : (stepContext icd_info st'.1 I).Rparams = (stepContext icd_info st.1 I).Rparams := rfl
  have hd1 : dataTheta1 st'.2 w A (stepContext icd_info st'.1 I)
      = dataTheta1 st.2 w A (stepContext icd_info st.1 I) := by
    show sumTo _ _ = sumTo _ _
    simp only [stepContext, ExtractNeighbors3D, hparams, he]
  have hd2 : dataTheta2 w A (stepContext icd_info st'.1 I)
      = dataTheta2 w A (stepContext icd_info st.1 I) := by
    show sumTo _ _ = sumTo _ _
    simp only [stepContext, ExtractNeighbors3D, hparams]
  have hgroup : ∀ F : ICDInfo ℝ → ℤ → ℝ,
      (∀ s, (stepContext icd_info st'.1 I).neighbors s
          = (stepContext icd_info st.1 I).neighbors s →
        F (stepContext icd_info st'.1 I) s = F (stepContext icd_info st.1 I) s) →
      (stepContext icd_info st'.1 I).Rparams.b_nearest
          * sumFromTo 0 4 (F (stepContext icd_info st'.1 I))
        + (stepContext icd_info st'.1 I).Rparams.b_diag
          * sumFromTo 6 10 (F (stepContext icd_info st'.1 I))
        + (stepContext icd_info st'.1 I).Rparams.b_interslice
          * sumFromTo 4 6 (F (stepContext icd_info st'.1 I))
      = (stepContext icd_info st.1 I).Rparams.b_nearest
          * sumFromTo 0 4 (F (stepContext icd_info st.1 I))
        + (stepContext icd_info st.1 I).Rparams.b_diag
          * sumFromTo 6 10 (F (stepContext icd_info st.1 I))
        + (stepContext icd_info st.1 I).Rparams.b_interslice
          * sumFromTo 4 6 (F (stepContext icd_info st.1 I)) := by
    intro F hF
    rw [hR,
      sumFromTo_congr 0 4 _ _ (fun s h0 h1 => hF s (hnb s h0 (by omega) (Or.inl h1))),
      sumFromTo_congr 6 10 _ _ (fun s h0 h1 => hF s (hnb s (by omega) h1 (Or.inr h0)))]
    rcases hz with hb | hz
    · have hb' : (stepContext icd_info st.1 I).Rparams.b_interslice = 0 := hb
      rw [hb', zero_mul, zero_mul]
    · rw [sumFromTo_congr 4 6 _ _ (fun s h0 h1 => hF s (by
        rw [stepContext_neighbors _ _ _ _ (by omega) (by omega),
          stepContext_neighbors _ _ _ _ (by omega) (by omega), hparams]
        exact hz s h0 h1))]
  refine ⟨?_, ?_, hv'⟩
  · rw [ICDStep3D_theta1, ICDStep3D_theta1, hd1,
      hgroup (fun icd s => QGGMRF_SurrogateCoeff (icd.v - icd.neighbors s) icd
        * (icd.v - icd.neighbors s))
        (fun s hs => by
          beta_reduce
          rw [hs, hv', QGGMRF_SurrogateCoeff_congr _ _ _ hR])]
  · rw [ICDStep3D_theta2, ICDStep3D_theta2, hd2,
      hgroup (fun icd s => QGGMRF_SurrogateCoeff (icd.v - icd.neighbors s) icd)
        (fun s hs => by
          beta_reduce
          rw [hs, hv', QGGMRF_SurrogateCoeff_congr _ _ _ hR])]

/-- After an update of voxel `I1`, the step for a voxel `I2` of another slice computes the
same `theta1`, `theta2` and reads the same `v` as before the update, provided
`b_interslice = 0` or `I1` is not an inter-slice neighbour (slot 4 or 5) of `I2`. -/
theorem step_after_update (w : ℤ → ℤ → ℝ) (A : SysMatrix2D ℝ) (icd_info : ICDInfo ℝ)
    (st st1 : Image3D ℝ × (ℤ → ℤ → ℝ)) (I1 I2 : ℤ)
    (h1 : ICDUpdate w A icd_info st I1 = some st1)
    (hslice : I1.tdiv (st.1.imgparams.Nx * st.1.imgparams.Ny)
      ≠ I2.tdiv (st.1.imgparams.Nx * st.1.imgparams.Ny))
    (hz : icd_info.Rparams.b_interslice = 0 ∨ ∀ s, 4 ≤ s → s < 6 →
      NeighborPosition st.1.imgparams.Nx st.1.imgparams.Ny st.1.imgparams.Nz I2 s
        ≠ (I1.tdiv (st.1.imgparams.Nx * st.1.imgparams.Ny),
            I1.tmod (st.1.imgparams.Nx * st.1.imgparams.Ny))) :
    st1.1.imgparams = st.1.imgparams
    ∧ (ICDStep3D st1.2 w A (stepContext icd_info st1.1 I2)).2.theta1
        = (ICDStep3D st.2 w A (stepContext icd_info st.1 I2)).2.theta1
    ∧ (ICDStep3D st1.2 w A (stepContext icd_info st1.1 I2)).2.theta2
        = (ICDStep3D st.2 w A (stepContext icd_info st.1 I2)).2.theta2
    ∧ (stepContext icd_info st1.1 I2).v = (stepContext icd_info st.1 I2).v := by
  rw [ICDUpdate_eq] at h1
  split_ifs at h1 with h0
  have hst := Option.some.inj h1
  have hpar : st1.1.imgparams = st.1.imgparams := by rw [← hst]
  have himg : st1.1.image
      = store2 st.1.image (I1.tdiv (st.1.imgparams.Nx * st.1.imgparams.Ny))
          (I1.tmod (st.1.imgparams.Nx * st.1.imgparams.Ny))
          ((stepContext icd_info st.1 I1).v
            - (ICDStep3D st.2 w A (stepContext icd_info st.1 I1)).2.theta1
              / (ICDStep3D st.2 w A (stepContext icd_info st.1 I1)).2.theta2) := by
    rw [← hst]
  have hres : st1.2
      = UpdateError3D st.2 A
          (- ((ICDStep3D st.2 w A (stepContext icd_info st.1 I1)).2.theta1
                / (ICDStep3D st.2 w A (stepContext icd_info st.1 I1)).2.theta2))
          (stepContext icd_info st.1 I1) := by
    rw [← hst]
  refine ⟨hpar, step_congr w A icd_info st st1 I2 hpar ?_ ?_ ?_ ?_⟩
  · funext k
    rw [hres, UpdateError3D_apply]
    have : (stepContext icd_info st.1 I1).VoxelIndex.tdiv (stepContext icd_info st.1 I1).Nxy
        = I1.tdiv (st.1.imgparams.Nx * st.1.imgparams.Ny) := rfl
    rw [this, if_neg (fun h => hslice h.symm), sub_zero]
  · rw [himg, store2_apply, if_neg (fun h => hslice h.1.symm)]
  · intro s _ _ hs
    rw [himg, store2_apply, if_neg]
    rintro ⟨h, _⟩
    rw [NeighborPosition_slice _ _ _ _ _ hs] at h
    exact hslice h.symm
  · rcases hz with hb | hz
    · exact Or.inl hb
    · right
      intro s h4 h6
      rw [himg, store2_apply, if_neg]
      rintro ⟨ha, hb⟩
      exact hz s h4 h6 (Prod.ext ha hb)

theorem store2_comm (a : ℤ → ℤ → ℝ) (z1 j1 z2 j2 : ℤ) (u v : ℝ) (h : z1 ≠ z2) :
    store2 (store2 a z1 j1 u) z2 j2 v = store2 (store2 a z2 j2 v) z1 j1 u := by
  funext z j
  simp only [store2_apply]
  by_cases hz1 : z = z1
  · have hz2 : ¬ z = z2 := fun hc => h (hz1.symm.trans hc)
    simp [hz1, hz2, h]
  · simp [hz1]

theorem UpdateError3D_comm (e : ℤ → ℤ → ℝ) (A : SysMatrix2D ℝ) (d1 d2 : ℝ)
    (i1 i2 : ICDInfo ℝ) :
    UpdateError3D (UpdateError3D e A d1 i1) A d2 i2
      = UpdateError3D (UpdateError3D e A d2 i2) A d1 i1 := by
  funext z k
  simp only [UpdateError3D_apply]
  ring

/-- Two successive updates, of `I1` and then of a voxel `I2` of another slice, in closed
form, when `b_interslice = 0` or `I1` is not an inter-slice neighbour of `I2`. -/
theorem two_updates_eq (w : ℤ → ℤ → ℝ) (A : SysMatrix2D ℝ) (icd_info : ICDInfo ℝ)
    (st : Image3D ℝ × (ℤ → ℤ → ℝ)) (I1 I2 : ℤ)
    (hslice : I1.tdiv (st.1.imgparams.Nx * st.1.imgparams.Ny)
      ≠ I2.tdiv (st.1.imgparams.Nx * st.1.imgparams.Ny))
    (hz : icd_info.Rparams.b_interslice = 0 ∨ ∀ s, 4 ≤ s → s < 6 →
      NeighborPosition st.1.imgparams.Nx st.1.imgparams.Ny st.1.imgparams.Nz I2 s
        ≠ (I1.tdiv (st.1.imgparams.Nx * st.1.imgparams.Ny),
            I1.tmod (st.1.imgparams.Nx * st.1.imgparams.Ny))) :
    (ICDUpdate w A icd_info st I1).bind (fun st1 => ICDUpdate w A icd_info st1 I2)
      = if (ICDStep3D st.2 w A (stepContext icd_info st.1 I1)).2.theta2 = 0
          ∨ (ICDStep3D st.2 w A (stepContext icd_info st.1 I2)).2.theta2 = 0 then none
        else some
          ({ st.1 with
              image := store2
                (store2 st.1.image (I1.tdiv (st.1.imgparams.Nx * st.1.imgparams.Ny))
                  (I1.tmod (st.1.imgparams.Nx * st.1.imgparams.Ny))
                  ((stepContext icd_info st.1 I1).v
                    - (ICDStep3D st.2 w A (stepContext icd_info st.1 I1)).2.theta1
                      / (ICDStep3D st.2 w A (stepContext icd_info st.1 I1)).2.theta2))
                (I2.tdiv (st.1.imgparams.Nx * st.1.imgparams.Ny))
                (I2.tmod (st.1.imgparams.Nx * st.1.imgparams.Ny))
                ((stepContext icd_info st.1 I2).v
                  - (ICDStep3D st.2 w A (stepContext icd_info st.1 I2)).2.theta1
                    / (ICDStep3D st.2 w A (stepContext icd_info st.1 I2)).2.theta2) },
            UpdateError3D
              (UpdateError3D st.2 A
                (- ((ICDStep3D st.2 w A (stepContext icd_info st.1 I1)).2.theta1
                      / (ICDStep3D st.2 w A (stepContext icd_info st.1 I1)).2.theta2))
                (stepContext icd_info st.1 I1))
              A
              (- ((ICDStep3D st.2 w A (stepContext icd_info st.1 I2)).2.theta1
                    / (ICDStep3D st.2 w A (stepContext icd_info st.1 I2)).2.theta2))
              (stepContext icd_info st.1 I2)) := by
  cases h1 : ICDUpdate w A icd_info st I1 with
  | none =>
    rw [ICDUpdate_eq] at h1
    split_ifs at h1 with h0
    rw [Option.none_bind, if_pos (Or.inl h0)]
  | some st1 =>
    obtain ⟨hp, ht1, ht2, hv⟩ := step_after_update w A icd_info st st1 I1 I2 h1 hslice hz
    rw [Option.some_bind, ICDUpdate_eq, ht1, ht2, hv, hp]
    rw [ICDUpdate_eq] at h1
    split_ifs at h1 with h0
    have hst := Option.some.inj h1
    by_cases h2 : (ICDStep3D st.2 w A (stepContext icd_info st.1 I2)).2.theta2 = 0
    · rw [if_pos h2, if_pos (Or.inr h2)]
    · rw [if_neg h2, if_neg (by tauto)]
      rw [← hst]
      exact congrArg some (Prod.ext rfl (UpdateError3D_congr _ A _ _ _ rfl rfl))

/-- C12 (amended). For every state (volume, residual, weights, matrix, parameters) and
every two voxels `I1`, `I2` lying in different slices, if `b_interslice = 0` or neither
voxel is an inter-slice neighbour (slot 4 or 5 of the wrap-around neighbourhood) of the
other, the full ICD update of `I1` followed by that of `I2` yields the same volume and
residual as the update of `I2` followed by that of `I1` (and either both orders return a
state or neither does). -/
theorem ICDUpdate_commute_across_slices (w : ℤ → ℤ → ℝ) (A : SysMatrix2D ℝ)
    (icd_info : ICDInfo ℝ) (st : Image3D ℝ × (ℤ → ℤ → ℝ)) (I1 I2 : ℤ)
    (hslice : I1.tdiv (st.1.imgparams.Nx * st.1.imgparams.Ny)
      ≠ I2.tdiv (st.1.imgparams.Nx * st.1.imgparams.Ny))
    (hz : icd_info.Rparams.b_interslice = 0 ∨
      ((∀ s, 4 ≤ s → s < 6 →
        NeighborPosition st.1.imgparams.Nx st.1.imgparams.Ny st.1.imgparams.Nz I2 s
          ≠ (I1.tdiv (st.1.imgparams.Nx * st.1.imgparams.Ny),
              I1.tmod (st.1.imgparams.Nx * st.1.imgparams.Ny)))
      ∧ (∀ s, 4 ≤ s → s < 6 →
        NeighborPosition st.1.imgparams.Nx st.1.imgparams.Ny st.1.imgparams.Nz I1 s
          ≠ (I2.tdiv (st.1.imgparams.Nx * st.1.imgparams.Ny),
              I2.tmod (st.1.imgparams.Nx * st.1.imgparams.Ny))))) :
    (ICDUpdate w A icd_info st I1).bind (fun st1 => ICDUpdate w A icd_info st1 I2)
      = (ICDUpdate w A icd_info st I2).bind (fun st2 => ICDUpdate w A icd_info st2 I1) := by
  rw [two_updates_eq w A icd_info st I1 I2 hslice (hz.imp id fun h => h.1),
    two_updates_eq w A icd_info st I2 I1 (fun h => hslice h.symm) (hz.imp id fun h => h.2),
    store2_comm _ _ _ _ _ _ _ hslice, UpdateError3D_comm]
  simp only [or_comm]

/-! ### Two updates in adjacent slices do not commute -/

theorem cx_coeff_zero : QGGMRF_SurrogateCoeff 0 cxIcd = 2 := by
  unfold QGGMRF_SurrogateCoeff
  simp only [cxIcd, cxRparams, if_true, Real.one_rpow]
  norm_num

theorem cx_coeff_neg_one : QGGMRF_SurrogateCoeff (-1) cxIcd = 3 / 4 := by
  unfold QGGMRF_SurrogateCoeff
  simp only [cxIcd, cxRparams]
  norm_num

/-- The step for voxel `I` (0 or 1) of a two-slice one-pixel volume `img` with residual
`e`: `theta1`, `theta2` and `v` in terms of the value of the voxel and of the other voxel,
which is its neighbour in slots 4 and 5. -/
theorem cx_step (img e : ℤ → ℤ → ℝ) (I : ℤ) (hI : I = 0 ∨ I = 1) :
    (stepContext cxIcd { imgparams := cxParams, image := img } I).v = img I 0
    ∧ (ICDStep3D e exW cxA (stepContext cxIcd { imgparams := cxParams, image := img } I)).2.theta1
      = - e I 0 + 2 * (QGGMRF_SurrogateCoeff (img I 0 - img (1 - I) 0) cxIcd
          * (img I 0 - img (1 - I) 0))
    ∧ (ICDStep3D e exW cxA (stepContext cxIcd { imgparams := cxParams, image := img } I)).2.theta2
      = 1 + 2 * QGGMRF_SurrogateCoeff (img I 0 - img (1 - I) 0) cxIcd := by
  have hv : (stepContext cxIcd { imgparams := cxParams, image := img } I).v = img I 0 := by
    rcases hI with h | h <;> subst h <;> rfl
  have hn : ∀ s, 4 ≤ s → s < 6 →
      (stepContext cxIcd { imgparams := cxParams, image := img } I).neighbors s
        = img (1 - I) 0 := by
    intro s h4 h6
    rw [stepContext_neighbors _ _ _ _ (by omega) (by omega)]
    have hs : s = 4 ∨ s = 5 := by omega
    have hp : NeighborPosition cxParams.Nx cxParams.Ny cxParams.Nz I s = (1 - I, 0) := by
      rcases hI with h | h <;> subst h <;> rcases hs with h | h <;> subst h <;> decide
    show img _ _ = _
    rw [hp]
  have hR : (stepContext cxIcd { imgparams := cxParams, image := img } I).Rparams
      = cxIcd.Rparams := rfl
  have h1 : ((1 : ℤ)).toNat = 1 := rfl
  have h46 : ((6 : ℤ) - 4).toNat = 2 := rfl
  have hb1 : (stepContext cxIcd { imgparams := cxParams, image := img } I).Rparams.b_nearest
      = 0 := rfl
  have hb2 : (stepContext cxIcd { imgparams := cxParams, image := img } I).Rparams.b_diag
      = 0 := rfl
  have hb3 : (stepContext cxIcd { imgparams := cxParams, image := img } I).Rparams.b_interslice
      = 1 := rfl
  have hd1 : dataTheta1 e exW cxA (stepContext cxIcd { imgparams := cxParams, image := img } I)
      = e I 0 := by
    rcases hI with h | h <;> subst h <;>
      simp [dataTheta1, stepContext, ExtractNeighbors3D, cxA, cxParams, exW, sumTo]
  have hd2 : dataTheta2 exW cxA (stepContext cxIcd { imgparams := cxParams, image := img } I)
      = 1 := by
    simp [dataTheta2, stepContext, ExtractNeighbors3D, cxA, exW, sumTo]
  refine ⟨hv, ?_, ?_⟩
  · rw [ICDStep3D_theta1, hd1, hb1, hb2, hb3, hv]
    simp only [sumFromTo, h46, Finset.sum_range_succ, Finset.sum_range_zero]
    rw [hn _ (by norm_num) (by norm_num), hn _ (by norm_num) (by norm_num),
      QGGMRF_SurrogateCoeff_congr _ _ cxIcd hR]
    ring
  · rw [ICDStep3D_theta2, hd2, hb1, hb2, hb3, hv]
    simp only [sumFromTo, h46, Finset.sum_range_succ, Finset.sum_range_zero]
    rw [hn _ (by norm_num) (by norm_num), hn _ (by norm_num) (by norm_num),
      QGGMRF_SurrogateCoeff_congr _ _ cxIcd hR]
    ring

/-- One update of voxel `I` (0 or 1) of the two-slice volume, when `theta2` is not zero. -/
theorem cx_update (img e : ℤ → ℤ → ℝ) (I : ℤ) (hI : I = 0 ∨ I = 1)
    (h2 : 1 + 2 * QGGMRF_SurrogateCoeff (img I 0 - img (1 - I) 0) cxIcd ≠ 0) :
    ICDUpdate exW cxA cxIcd ({ imgparams := cxParams, image := img }, e) I
      = some
          ({ imgparams := cxParams,
             image := store2 img I 0
               (img I 0
                - (- e I 0 + 2 * (QGGMRF_SurrogateCoeff (img I 0 - img (1 - I) 0) cxIcd
                    * (img I 0 - img (1 - I) 0)))
                  / (1 + 2 * QGGMRF_SurrogateCoeff (img I 0 - img (1 - I) 0) cxIcd)) },
            UpdateError3D e cxA
              (- ((- e I 0 + 2 * (QGGMRF_SurrogateCoeff (img I 0 - img (1 - I) 0) cxIcd
                    * (img I 0 - img (1 - I) 0)))
                  / (1 + 2 * QGGMRF_SurrogateCoeff (img I 0 - img (1 - I) 0) cxIcd)))
              (stepContext cxIcd { imgparams := cxParams, image := img } I)) := by
  obtain ⟨hv, ht1, ht2⟩ := cx_step img e I hI
  have hd : I.tdiv (cxParams.Nx * cxParams.Ny) = I := by
    rcases hI with h | h <;> subst h <;> decide
  have hm : I.tmod (cxParams.Nx * cxParams.Ny) = 0 := by
    rcases hI with h | h <;> subst h <;> decide
  rw [ICDUpdate_eq]
  simp only [ht1, ht2, hv, hd, hm]
  rw [if_neg h2]

/-- C12 (counterexample). Two slices of one pixel, the all-zeros volume, a column with one
entry of value 1, `w = 1`, `e = 5` in slice 0 and `0` in slice 1, `p = 1`, `q = 2`,
`T = SigmaX = 1`, `b_interslice = 1`. Voxels 0 and 1 lie in different slices and each is the
inter-slice neighbour of the other. Updating voxel 0 first sets it to 1, and the update
of voxel 1 then gives `3/5`; updating voxel 1 first leaves it at 0. The two orders end
with different volumes. -/
theorem ICDUpdate_adjacent_slices_order :
    (0 : ℤ).tdiv (cxImage.imgparams.Nx * cxImage.imgparams.Ny)
      ≠ (1 : ℤ).tdiv (cxImage.imgparams.Nx * cxImage.imgparams.Ny)
    ∧ ∃ r01 r10,
        (ICDUpdate exW cxA cxIcd (cxImage, cxE) 0).bind
            (fun st1 => ICDUpdate exW cxA cxIcd st1 1) = some r01
        ∧ (ICDUpdate exW cxA cxIcd (cxImage, cxE) 1).bind
            (fun st2 => ICDUpdate exW cxA cxIcd st2 0) = some r10
        ∧ r01.1.image 1 0 = 3 / 5 ∧ r10.1.image 1 0 = 0 ∧ r01 ≠ r10 := by
  refine ⟨by decide, ?_⟩
  have h00 : ((fun _ _ => 0 : ℤ → ℤ → ℝ) 0 0 - (fun _ _ => 0 : ℤ → ℤ → ℝ) (1 - 0) 0) = 0 := by
    norm_num
  have h11 : ((fun _ _ => 0 : ℤ → ℤ → ℝ) 1 0 - (fun _ _ => 0 : ℤ → ℤ → ℝ) (1 - 1) 0) = 0 := by
    norm_num
  have u0 := cx_update (fun _ _ => 0) cxE 0 (Or.inl rfl)
    (by rw [h00, cx_coeff_zero]; norm_num)
  have u1 := cx_update (fun _ _ => 0) cxE 1 (Or.inr rfl)
    (by rw [h11, cx_coeff_zero]; norm_num)
  rw [h00, cx_coeff_zero] at u0
  rw [h11, cx_coeff_zero] at u1
  have hE0 : cxE 0 0 = 5 := by simp [cxE]
  have hE1 : cxE 1 0 = 0 := by simp [cxE]
  have hv0 : (0 : ℝ) - (-cxE 0 0 + 2 * (2 * 0)) / (1 + 2 * 2) = 1 := by
    rw [hE0]; norm_num
  have hv1 : (0 : ℝ) - (-cxE 1 0 + 2 * (2 * 0)) / (1 + 2 * 2) = 0 := by
    rw [hE1]; norm_num
  simp only [hv0] at u0
  simp only [hv1] at u1
  have hi01 : store2 (fun _ _ => 0 : ℤ → ℤ → ℝ) 0 0 1 1 0
      - store2 (fun _ _ => 0 : ℤ → ℤ → ℝ) 0 0 1 (1 - 1) 0 = -1 := by
    simp only [store2_apply]
    norm_num
  have hi10 : store2 (fun _ _ => 0 : ℤ → ℤ → ℝ) 1 0 0 0 0
      - store2 (fun _ _ => 0 : ℤ → ℤ → ℝ) 1 0 0 (1 - 0) 0 = 0 := by
    simp only [store2_apply]
    norm_num
  have u01 := cx_update (store2 (fun _ _ => 0) 0 0 1)
    (UpdateError3D cxE cxA (-((-cxE 0 0 + 2 * (2 * 0)) / (1 + 2 * 2)))
      (stepContext cxIcd { imgparams := cxParams, image := fun _ _ => 0 } 0)) 1 (Or.inr rfl)
    (by rw [hi01, cx_coeff_neg_one]; norm_num)
  have u10 := cx_update (store2 (fun _ _ => 0) 1 0 0)
    (UpdateError3D cxE cxA (-((-cxE 1 0 + 2 * (2 * 0)) / (1 + 2 * 2)))
      (stepContext cxIcd { imgparams := cxParams, image := fun _ _ => 0 } 1)) 0 (Or.inl rfl)
    (by rw [hi10, cx_coeff_zero]; norm_num)
  have hc : (cxImage, cxE)
      = (({ imgparams := cxParams, image := fun _ _ => 0 } : Image3D ℝ), cxE) := rfl
  have he01 : UpdateError3D cxE cxA (-((-cxE 0 0 + 2 * (2 * 0)) / (1 + 2 * 2)))
      (stepContext cxIcd { imgparams := cxParams, image := fun _ _ => 0 } 0) 1 0 = 0 := by
    rw [UpdateError3D_apply, if_neg (by decide), hE1]
    norm_num
  obtain ⟨r01, hu01, hr01⟩ : ∃ r, ICDUpdate exW cxA cxIcd
      ({ imgparams := cxParams, image := store2 (fun _ _ => 0) 0 0 1 },
        UpdateError3D cxE cxA (-((-cxE 0 0 + 2 * (2 * 0)) / (1 + 2 * 2)))
          (stepContext cxIcd { imgparams := cxParams, image := fun _ _ => 0 } 0)) 1 = some r
      ∧ r.1.image 1 0 = 3 / 5 := by
    refine ⟨_, u01, ?_⟩
    dsimp only
    rw [store2_apply, if_pos ⟨rfl, rfl⟩, hi01, cx_coeff_neg_one, he01]
    simp only [store2_apply]
    norm_num
  obtain ⟨r10, hu10, hr10⟩ : ∃ r, ICDUpdate exW cxA cxIcd
      ({ imgparams := cxParams, image := store2 (fun _ _ => 0) 1 0 0 },
        UpdateError3D cxE cxA (-((-cxE 1 0 + 2 * (2 * 0)) / (1 + 2 * 2)))
          (stepContext cxIcd { imgparams := cxParams, image := fun _ _ => 0 } 1)) 0 = some r
      ∧ r.1.image 1 0 = 0 := by
    refine ⟨_, u10, ?_⟩
    dsimp only
    rw [store2_apply, if_neg (by decide), store2_apply, if_pos ⟨rfl, rfl⟩]
  refine ⟨r01, r10, ?_, ?_, hr01, hr10, ?_⟩
  · rw [hc, u0, Option.some_bind, hu01]
  · rw [hc, u1, Option.some_bind, hu10]
  · intro h
    rw [h, hr10] at hr01
    norm_num at hr01

/-- Instance of C12 (amended) on the `2 x 2 x 2` image: voxel 0 (slice 0, pixel 0) and
voxel 5 (slice 1, pixel 1) are not inter-slice neighbours of each other. -/
theorem ICDUpdate_commute_across_slices_witness :
    (0 : ℤ).tdiv (exImage.imgparams.Nx * exImage.imgparams.Ny)
      ≠ (5 : ℤ).tdiv (exImage.imgparams.Nx * exImage.imgparams.Ny)
    ∧ (ICDUpdate exW exA4 exIcd5 (exImage, exY) 0).bind
          (fun st1 => ICDUpdate exW exA4 exIcd5 st1 5)
        = (ICDUpdate exW exA4 exIcd5 (exImage, exY) 5).bind
          (fun st2 => ICDUpdate exW exA4 exIcd5 st2 0) :=
  ⟨by decide,
    ICDUpdate_commute_across_slices exW exA4 exIcd5 (exImage, exY) 0 5 (by decide)
      (Or.inr ⟨by
          intro s h4 h6
          have hs : s = 4 ∨ s = 5 := by omega
          rcases hs with h | h <;> subst h <;> decide,
        by
          intro s h4 h6
          have hs : s = 4 ∨ s = 5 := by omega
          rcases hs with h | h <;> subst h <;> decide⟩)⟩

/-! ### One sweep of pure maximum-likelihood updates -/

theorem UpdateError3D_zero (e : ℤ → ℤ → ℝ) (A : SysMatrix2D ℝ) (icd_info : ICDInfo ℝ) :
    UpdateError3D e A 0 icd_info = e := by
  funext z k
  rw [UpdateError3D_apply]
  have h0 : sumTo (A.column (icd_info.VoxelIndex.tmod icd_info.Nxy)).Nnonzero
      (fun n => if (A.column (icd_info.VoxelIndex.tmod icd_info.Nxy)).RowIndex n = k
        then (A.column (icd_info.VoxelIndex.tmod icd_info.Nxy)).Value n * 0 else 0) = 0 := by
    rw [sumTo_congr _ _ (fun _ => (0 : ℝ)) ?_, sumTo_zero]
    intro n _ _
    split_ifs <;> ring
  rw [h0]
  split_ifs <;> ring

theorem sumTo_pos_of_nonneg (N : ℤ) (f : ℤ → ℝ) (h : ∀ n, 0 ≤ n → n < N → 0 ≤ f n)
    (n0 : ℤ) (h0 : 0 ≤ n0) (h1 : n0 < N) (hpos : 0 < f n0) : 0 < sumTo N f := by
  unfold sumTo
  apply Finset.sum_pos'
  · intro n hn
    have := Finset.mem_range.mp hn
    apply h <;> omega
  · refine ⟨n0.toNat, Finset.mem_range.mpr (by omega), ?_⟩
    have : ((n0.toNat : ℕ) : ℤ) = n0 := by omega
    rw [this]
    exact hpos

/-- One update with `w = 1` and no prior, for a voxel whose column has pairwise distinct
row indices in `[0, Nrows)` and a non-zero stored value: the update returns a state, the
data term decreases by `g^2 / (2 * theta2)` with `g` the column gradient and
`theta2 > 0`, and the residual is unchanged when `g = 0`. -/
theorem ICDUpdate_ML (w : ℤ → ℤ → ℝ) (A : SysMatrix2D ℝ) (icd_info : ICDInfo ℝ)
    (st : Image3D ℝ × (ℤ → ℤ → ℝ)) (I Nrows : ℤ)
    (hw : ∀ z k, w z k = 1)
    (hb1 : icd_info.Rparams.b_nearest = 0) (hb2 : icd_info.Rparams.b_diag = 0)
    (hb3 : icd_info.Rparams.b_interslice = 0)
    (hz0 : 0 ≤ I.tdiv (st.1.imgparams.Nx * st.1.imgparams.Ny))
    (hz1 : I.tdiv (st.1.imgparams.Nx * st.1.imgparams.Ny) < st.1.imgparams.Nz)
    (hrange : ∀ n, 0 ≤ n →
      n < (A.column (I.tmod (st.1.imgparams.Nx * st.1.imgparams.Ny))).Nnonzero →
      0 ≤ (A.column (I.tmod (st.1.imgparams.Nx * st.1.imgparams.Ny))).RowIndex n
        ∧ (A.column (I.tmod (st.1.imgparams.Nx * st.1.imgparams.Ny))).RowIndex n < Nrows)
    (hinj : ∀ n m, 0 ≤ n →
      n < (A.column (I.tmod (st.1.imgparams.Nx * st.1.imgparams.Ny))).Nnonzero → 0 ≤ m →
      m < (A.column (I.tmod (st.1.imgparams.Nx * st.1.imgparams.Ny))).Nnonzero →
      (A.column (I.tmod (st.1.imgparams.Nx * st.1.imgparams.Ny))).RowIndex n
        = (A.column (I.tmod (st.1.imgparams.Nx * st.1.imgparams.Ny))).RowIndex m → n = m)
    (hne : ∃ n, 0 ≤ n
      ∧ n < (A.column (I.tmod (st.1.imgparams.Nx * st.1.imgparams.Ny))).Nnonzero
      ∧ (A.column (I.tmod (st.1.imgparams.Nx * st.1.imgparams.Ny))).Value n ≠ 0) :
    ∃ st', ICDUpdate w A icd_info st I = some st'
      ∧ st'.1.imgparams = st.1.imgparams
      ∧ dataCost w st'.2 st.1.imgparams.Nz Nrows ≤ dataCost w st.2 st.1.imgparams.Nz Nrows
      ∧ (columnGradient w st.2 A (st.1.imgparams.Nx * st.1.imgparams.Ny) I ≠ 0 →
          dataCost w st'.2 st.1.imgparams.Nz Nrows < dataCost w st.2 st.1.imgparams.Nz Nrows)
      ∧ (columnGradient w st.2 A (st.1.imgparams.Nx * st.1.imgparams.Ny) I = 0 →
          st'.2 = st.2) := by
  have hg : dataTheta1 st.2 w A (stepContext icd_info st.1 I)
      = columnGradient w st.2 A (st.1.imgparams.Nx * st.1.imgparams.Ny) I := rfl
  have ht1 : (ICDStep3D st.2 w A (stepContext icd_info st.1 I)).2.theta1
      = - columnGradient w st.2 A (st.1.imgparams.Nx * st.1.imgparams.Ny) I := by
    have h1 : (stepContext icd_info st.1 I).Rparams.b_nearest = 0 := hb1
    have h2 : (stepContext icd_info st.1 I).Rparams.b_diag = 0 := hb2
    have h3 : (stepContext icd_info st.1 I).Rparams.b_interslice = 0 := hb3
    rw [ICDStep3D_theta1, h1, h2, h3, hg]
    ring
  have ht2 : (ICDStep3D st.2 w A (stepContext icd_info st.1 I)).2.theta2
      = dataTheta2 w A (stepContext icd_info st.1 I) := by
    have h1 : (stepContext icd_info st.1 I).Rparams.b_nearest = 0 := hb1
    have h2 : (stepContext icd_info st.1 I).Rparams.b_diag = 0 := hb2
    have h3 : (stepContext icd_info st.1 I).Rparams.b_interslice = 0 := hb3
    rw [ICDStep3D_theta2, h1, h2, h3]
    ring
  have hpos : 0 < dataTheta2 w A (stepContext icd_info st.1 I) := by
    obtain ⟨n0, h0, h1, hv⟩ := hne
    show 0 < sumTo _ _
    apply sumTo_pos_of_nonneg _ _ _ n0 h0 h1
    · simp only [hw, mul_one]
      exact mul_self_pos.mpr hv
    · intro n _ _
      simp only [hw, mul_one]
      exact mul_self_nonneg _
  have hchange := dataCost_change st.2 w A (stepContext icd_info st.1 I) st.1.imgparams.Nz Nrows
    (- ((ICDStep3D st.2 w A (stepContext icd_info st.1 I)).2.theta1
          / (ICDStep3D st.2 w A (stepContext icd_info st.1 I)).2.theta2))
    hz0 hz1 hrange hinj
  rw [ht1, ht2, hg] at hchange
  rw [ICDUpdate_eq, ht2, if_neg hpos.ne', ht1]
  refine ⟨_, rfl, rfl, ?_, ?_, ?_⟩
  · dsimp only
    have hq : 0 ≤ columnGradient w st.2 A (st.1.imgparams.Nx * st.1.imgparams.Ny) I ^ 2
        / (2 * dataTheta2 w A (stepContext icd_info st.1 I)) := by positivity
    have he : -(-columnGradient w st.2 A (st.1.imgparams.Nx * st.1.imgparams.Ny) I
          / dataTheta2 w A (stepContext icd_info st.1 I))
          * -columnGradient w st.2 A (st.1.imgparams.Nx * st.1.imgparams.Ny) I
        + (-(-columnGradient w st.2 A (st.1.imgparams.Nx * st.1.imgparams.Ny) I
          / dataTheta2 w A (stepContext icd_info st.1 I))) ^ 2 / 2
          * dataTheta2 w A (stepContext icd_info st.1 I)
        = -(columnGradient w st.2 A (st.1.imgparams.Nx * st.1.imgparams.Ny) I ^ 2
          / (2 * dataTheta2 w A (stepContext icd_info st.1 I))) := by
      field_simp
      ring
    linarith
  · intro hne0
    dsimp only
    have hq : 0 < columnGradient w st.2 A (st.1.imgparams.Nx * st.1.imgparams.Ny) I ^ 2
        / (2 * dataTheta2 w A (stepContext icd_info st.1 I)) := by positivity
    have he : -(-columnGradient w st.2 A (st.1.imgparams.Nx * st.1.imgparams.Ny) I
          / dataTheta2 w A (stepContext icd_info st.1 I))
          * -columnGradient w st.2 A (st.1.imgparams.Nx * st.1.imgparams.Ny) I
        + (-(-columnGradient w st.2 A (st.1.imgparams.Nx * st.1.imgparams.Ny) I
          / dataTheta2 w A (stepContext icd_info st.1 I))) ^ 2 / 2
          * dataTheta2 w A (stepContext icd_info st.1 I)
        = -(columnGradient w st.2 A (st.1.imgparams.Nx * st.1.imgparams.Ny) I ^ 2
          / (2 * dataTheta2 w A (stepContext icd_info st.1 I))) := by
      field_simp
      ring
    linarith
  · intro h0
    dsimp only
    rw [h0, neg_zero, zero_div, neg_zero, UpdateError3D_zero]

/-- A sweep of pure maximum-likelihood updates (`w = 1`, no prior) over voxels with
well-formed columns: it returns a state, the data term does not increase, it decreases
strictly if some voxel of the sweep has a non-zero column gradient at the start, and the
residual is unchanged if none has. -/
theorem ICDSweep_ML (w : ℤ → ℤ → ℝ) (A : SysMatrix2D ℝ) (icd_info : ICDInfo ℝ)
    (P : ImageParams3D ℝ) (Nrows : ℤ)
    (hw : ∀ z k, w z k = 1)
    (hb1 : icd_info.Rparams.b_nearest = 0) (hb2 : icd_info.Rparams.b_diag = 0)
    (hb3 : icd_info.Rparams.b_interslice = 0)
    (order : List ℤ)
    (horder : ∀ I ∈ order, (0 ≤ I.tdiv (P.Nx * P.Ny) ∧ I.tdiv (P.Nx * P.Ny) < P.Nz)
      ∧ columnWellFormed A Nrows (I.tmod (P.Nx * P.Ny)))
    (st : Image3D ℝ × (ℤ → ℤ → ℝ)) (hP : st.1.imgparams = P) :
    ∃ st', ICDSweep w A icd_info order st = some st'
      ∧ st'.1.imgparams = P
      ∧ dataCost w st'.2 P.Nz Nrows ≤ dataCost w st.2 P.Nz Nrows
      ∧ ((∃ I ∈ order, columnGradient w st.2 A (P.Nx * P.Ny) I ≠ 0) →
          dataCost w st'.2 P.Nz Nrows < dataCost w st.2 P.Nz Nrows)
      ∧ ((∀ I ∈ order, columnGradient w st.2 A (P.Nx * P.Ny) I = 0) → st'.2 = st.2) := by
  induction order generalizing st with
  | nil =>
    refine ⟨st, rfl, hP, le_rfl, ?_, fun _ => rfl⟩
    rintro ⟨I, hI, _⟩
    exact absurd hI (List.not_mem_nil I)
  | cons I rest ih =>
    obtain ⟨⟨hz0, hz1⟩, hrange, hinj, hne⟩ := horder I (List.mem_cons_self I rest)
    rw [← hP] at hz0 hz1 hrange hinj hne
    obtain ⟨st1, hu, hp1, hle, hlt, heq⟩ :=
      ICDUpdate_ML w A icd_info st I Nrows hw hb1 hb2 hb3 hz0 hz1 hrange hinj hne
    rw [hP] at hle hlt heq
    obtain ⟨st2, hs, hp2, hle2, hlt2, heq2⟩ :=
      ih (fun J hJ => horder J (List.mem_cons_of_mem I hJ)) st1 (hp1.trans hP)
    refine ⟨st2, ?_, hp2, hle2.trans hle, ?_, ?_⟩
    · show (ICDUpdate w A icd_info st I).bind _ = _
      rw [hu, Option.some_bind]
      exact hs
    · rintro ⟨J, hJ, hJne⟩
      by_cases hg : columnGradient w st.2 A (P.Nx * P.Ny) I = 0
      · have he := heq hg
        apply lt_of_lt_of_le (hlt2 ?_) hle
        rcases List.mem_cons.mp hJ with h | h
        · subst h
          exact absurd hg hJne
        · exact ⟨J, h, by rw [he]; exact hJne⟩
      · exact lt_of_le_of_lt hle2 (hlt hg)
    · intro hall
      have he := heq (hall I (List.mem_cons_self I rest))
      rw [heq2 (fun J hJ => by rw [he]; exact hall J (List.mem_cons_of_mem I hJ)), he]

/-- C18 (amended). Scenario S2, pure maximum-likelihood descent: `w = 1` (`W` the
identity), `b_nearest = b_diag = b_interslice = 0`, a volume with `Nx * Ny >= 1` pixels per
slice, a system matrix whose columns have pairwise distinct row indices in `[0, Nrows)`
and store a non-zero value, a residual `e = y`, and a sweep applying the ICD update
(`ICDStep3D`, store, `UpdateError3D`) to a list of voxels of the volume. The sweep returns
a state and does not increase `F = 1/2 * sum_z sum_k w[z][k] * e[z][k]^2`; `F` decreases
strictly if some voxel of the sweep has `sum_n a_n * y[z][k_n]` different from 0, and `e`
is left equal to `y` if no voxel has. The start volume is arbitrary (the all-zeros volume
in particular). -/
theorem ICDSweep_pure_ML_descent (w y : ℤ → ℤ → ℝ) (A : SysMatrix2D ℝ)
    (icd_info : ICDInfo ℝ) (Image : Image3D ℝ) (Nrows : ℤ) (order : List ℤ)
    (hw : ∀ z k, w z k = 1)
    (hb1 : icd_info.Rparams.b_nearest = 0) (hb2 : icd_info.Rparams.b_diag = 0)
    (hb3 : icd_info.Rparams.b_interslice = 0)
    (hNxy : 0 < Image.imgparams.Nx * Image.imgparams.Ny)
    (hcols : ∀ j, 0 ≤ j → j < Image.imgparams.Nx * Image.imgparams.Ny →
      columnWellFormed A Nrows j)
    (horder : ∀ I ∈ order, 0 ≤ I
      ∧ I < Image.imgparams.Nx * Image.imgparams.Ny * Image.imgparams.Nz) :
    ∃ st', ICDSweep w A icd_info order (Image, y) = some st'
      ∧ dataCost w st'.2 Image.imgparams.Nz Nrows ≤ dataCost w y Image.imgparams.Nz Nrows
      ∧ ((∃ I ∈ order,
            columnGradient w y A (Image.imgparams.Nx * Image.imgparams.Ny) I ≠ 0) →
          dataCost w st'.2 Image.imgparams.Nz Nrows
            < dataCost w y Image.imgparams.Nz Nrows)
      ∧ ((∀ I ∈ order,
            columnGradient w y A (Image.imgparams.Nx * Image.imgparams.Ny) I = 0) →
          st'.2 = y) := by
  obtain ⟨st', hs, _, hle, hlt, heq⟩ :=
    ICDSweep_ML w A icd_info Image.imgparams Nrows hw hb1 hb2 hb3 order
      (by
        intro I hI
        obtain ⟨h0, h1⟩ := horder I hI
        rw [Int.tdiv_eq_ediv h0 hNxy.le, Int.tmod_eq_emod h0 hNxy.le]
        refine ⟨⟨Int.ediv_nonneg h0 hNxy.le, ?_⟩,
          hcols _ (Int.emod_nonneg _ hNxy.ne') (Int.emod_lt_of_pos _ hNxy)⟩
        apply Int.ediv_lt_of_lt_mul hNxy
        rw [mul_comm]
        exact h1)
      (Image, y) rfl
  exact ⟨st', hs, hle, hlt, heq⟩

theorem cxA_wellFormed (j : ℤ) : columnWellFormed cxA 2 j := by
  refine ⟨?_, ?_, ⟨0, le_rfl, by simp [cxA], by simp [cxA]⟩⟩
  · intro n _ _
    simp [cxA]
  · intro n m h0 h1 h2 h3 _
    simp only [cxA] at h1 h3
    omega

theorem offY_gradient : columnGradient exW offY cxA
    (dupImage.imgparams.Nx * dupImage.imgparams.Ny) 0 = 0 := by
  simp [columnGradient, cxA, offY, exW, sumTo]

/-- C18 (counterexample). One voxel, a column with one entry of value 1 in row 0, two
sinogram entries `y = (0, 1)` (not zero), the all-zeros volume, `e = y`, `w = 1`, all
`b = 0`. The sweep over the voxel computes `theta1 = 0`, leaves the voxel and the residual
as they were, and `F` is not decreased. -/
theorem ICDSweep_pure_ML_no_descent :
    offY 0 1 ≠ 0
    ∧ dupImage.image = (fun _ _ => 0)
    ∧ (dupIcd.Rparams.b_nearest = 0 ∧ dupIcd.Rparams.b_diag = 0
        ∧ dupIcd.Rparams.b_interslice = 0)
    ∧ ∃ st', ICDSweep exW cxA dupIcd [0] (dupImage, offY) = some st'
        ∧ st'.2 = offY
        ∧ ¬ (dataCost exW st'.2 dupImage.imgparams.Nz 2
              < dataCost exW offY dupImage.imgparams.Nz 2) := by
  refine ⟨by simp [offY], rfl, ⟨rfl, rfl, rfl⟩, ?_⟩
  obtain ⟨st', hs, _, _, _, heq⟩ :=
    ICDSweep_ML exW cxA dupIcd dupImage.imgparams 2 (fun _ _ => rfl) rfl rfl rfl [0]
      (by
        intro I hI
        rw [List.mem_singleton.mp hI]
        exact ⟨⟨by decide, by decide⟩, cxA_wellFormed _⟩)
      (dupImage, offY) rfl
  have he : st'.2 = offY := heq (by
    intro I hI
    rw [List.mem_singleton.mp hI]
    exact offY_gradient)
  refine ⟨st', hs, he, ?_⟩
  rw [he]
  exact lt_irrefl _

theorem exY_gradient : columnGradient exW exY cxA
    (dupImage.imgparams.Nx * dupImage.imgparams.Ny) 0 ≠ 0 := by
  simp [columnGradient, cxA, exY, exW, sumTo]

/-- Instance of C18 (amended): the same one-voxel system with `y = 1` in both entries,
where the column gradient is 1 and the sweep strictly decreases `F`. -/
theorem ICDSweep_pure_ML_descent_witness :
    (∃ I ∈ [(0 : ℤ)], columnGradient exW exY cxA
        (dupImage.imgparams.Nx * dupImage.imgparams.Ny) I ≠ 0)
    ∧ ∃ st', ICDSweep exW cxA dupIcd [0] (dupImage, exY) = some st'
        ∧ dataCost exW st'.2 dupImage.imgparams.Nz 2
            < dataCost exW exY dupImage.imgparams.Nz 2 :=
  ⟨⟨0, List.mem_singleton.mpr rfl, exY_gradient⟩, by
    obtain ⟨st', hs, _, hlt, _⟩ :=
      ICDSweep_pure_ML_descent exW exY cxA dupIcd dupImage 2 [0] (fun _ _ => rfl) rfl rfl rfl
        (by decide) (fun j _ _ => cxA_wellFormed j)
        (by
          intro I hI
          rw [List.mem_singleton.mp hI]
          exact ⟨by decide, by decide⟩)
    exact ⟨st', hs, hlt ⟨0, List.mem_singleton.mpr rfl, exY_gradient⟩⟩⟩

/-! ### The channels visited in one view -/

theorem truncToInt_of_nonneg (r : ℝ) (h : 0 ≤ r) : truncToInt r = ⌊r⌋ := by
  unfold truncToInt
  rw [if_pos h]

/-- C21. For every pixel and view, with `tau = y*cos(th) - x*sin(th)` the projected pixel
centre and `DeltaChannel > 0`: the view loop of `ComputeSysMatrixColumn3DParallel` runs the
channel step over the visited channels in order; no channel is visited when
`tau + Deltaxy < t0`; otherwise the argument `(tau + Deltaxy - t0)/DeltaChannel + 0.5` of
the conversion to `int` is non-negative, so the conversion is the floor, and the visited
channels are exactly the integers `i` with
`max(0, ceil((tau - Deltaxy - t0)/DeltaChannel - 0.5)) <= i
  <= min(NChannels-1, floor((tau + Deltaxy - t0)/DeltaChannel + 0.5))`;
and `t0 = -(NChannels-1)*DeltaChannel/2 - CenterOffset*DeltaChannel`. -/
theorem ComputeSysMatrixColumn3DParallel_visited_channels (cfg : BuildConfig)
    (sinoparams : SinoParams3DParallel) (imgparams : ImageParams3D ℝ)
    (pix_prof : ℤ → ℤ → ℝ) (ColumnIndex pr : ℤ) (st : ColumnState)
    (hD : 0 < sinoparams.DeltaChannel) :
    viewStep cfg sinoparams imgparams pix_prof ColumnIndex pr st
        = runSteps (channelStep cfg sinoparams imgparams pix_prof ColumnIndex pr)
            (visitedChannels sinoparams imgparams ColumnIndex pr) st
    ∧ (projectedCenter sinoparams imgparams ColumnIndex pr + imgparams.Deltaxy
          < t_0 sinoparams →
        visitedChannels sinoparams imgparams ColumnIndex pr = [])
    ∧ (¬ (projectedCenter sinoparams imgparams ColumnIndex pr + imgparams.Deltaxy
          < t_0 sinoparams) →
        0 ≤ (projectedCenter sinoparams imgparams ColumnIndex pr + imgparams.Deltaxy
              - t_0 sinoparams) / sinoparams.DeltaChannel + 0.5
        ∧ truncToInt ((projectedCenter sinoparams imgparams ColumnIndex pr
              + imgparams.Deltaxy - t_0 sinoparams) / sinoparams.DeltaChannel + 0.5)
          = ⌊(projectedCenter sinoparams imgparams ColumnIndex pr + imgparams.Deltaxy
              - t_0 sinoparams) / sinoparams.DeltaChannel + 0.5⌋
        ∧ ∀ i, i ∈ visitedChannels sinoparams imgparams ColumnIndex pr
            ↔ max 0 ⌈(projectedCenter sinoparams imgparams ColumnIndex pr
                  - imgparams.Deltaxy - t_0 sinoparams) / sinoparams.DeltaChannel - 0.5⌉ ≤ i
              ∧ i ≤ min (sinoparams.NChannels - 1)
                  ⌊(projectedCenter sinoparams imgparams ColumnIndex pr + imgparams.Deltaxy
                      - t_0 sinoparams) / sinoparams.DeltaChannel + 0.5⌋)
    ∧ t_0 sinoparams
        = -((sinoparams.NChannels : ℝ) - 1) * sinoparams.DeltaChannel / 2
          - sinoparams.CenterOffset * sinoparams.DeltaChannel := by
  have htmax : projectedCenter sinoparams imgparams ColumnIndex pr - imgparams.Deltaxy
      + 2 * imgparams.Deltaxy
      = projectedCenter sinoparams imgparams ColumnIndex pr + imgparams.Deltaxy := by ring
  refine ⟨viewStep_eq cfg sinoparams imgparams pix_prof ColumnIndex pr st, ?_, ?_, ?_⟩
  · intro h
    unfold visitedChannels
    simp only [htmax]
    rw [if_pos h]
  · intro h
    have harg : 0 ≤ (projectedCenter sinoparams imgparams ColumnIndex pr + imgparams.Deltaxy
        - t_0 sinoparams) / sinoparams.DeltaChannel + 0.5 := by
      have h1 : 0 ≤ (projectedCenter sinoparams imgparams ColumnIndex pr + imgparams.Deltaxy
          - t_0 sinoparams) / sinoparams.DeltaChannel :=
        div_nonneg (by linarith) hD.le
      norm_num
      linarith
    refine ⟨harg, truncToInt_of_nonneg _ harg, ?_⟩
    intro i
    unfold visitedChannels
    simp only [htmax]
    rw [if_neg h, mem_intRange]
    unfold channelMin channelMax
    simp only [truncToInt_of_nonneg _ harg]
    constructor
    · rintro ⟨h1, h2⟩
      constructor
      · rw [max_le_iff]
        split_ifs at h1 <;> constructor <;> omega
      · rw [le_min_iff]
        split_ifs at h2 <;> constructor <;> omega
    · rintro ⟨h1, h2⟩
      rw [max_le_iff] at h1
      rw [le_min_iff] at h2
      constructor
      · split_ifs <;> omega
      · split_ifs <;> omega
  · unfold t_0
    push_cast
    ring

/-- Instance of C21 on the concrete geometry (three channels of spacing 1, view angle 0). -/
theorem ComputeSysMatrixColumn3DParallel_visited_channels_witness :
    0 < exSino.DeltaChannel
    ∧ (¬ (projectedCenter exSino exImg 0 0 + exImg.Deltaxy < t_0 exSino) →
        ∀ i, i ∈ visitedChannels exSino exImg 0 0
          ↔ max 0 ⌈(projectedCenter exSino exImg 0 0 - exImg.Deltaxy - t_0 exSino)
                / exSino.DeltaChannel - 0.5⌉ ≤ i
            ∧ i ≤ min (exSino.NChannels - 1)
                ⌊(projectedCenter exSino exImg 0 0 + exImg.Deltaxy - t_0 exSino)
                    / exSino.DeltaChannel + 0.5⌋) :=
  ⟨by simp only [exSino]; norm_num, fun h =>
    ((ComputeSysMatrixColumn3DParallel_visited_channels exCfg exSino exImg exProf 0 0
      { proj_count := 0, A_Column := exBuffer } (by simp only [exSino]; norm_num)).2.2.1
        h).2.2⟩

/-! ### Symmetry of the wrap-around neighbourhood -/

theorem pairSlot_group (k : ℤ) (h0 : 0 ≤ k) (h1 : k < 10) :
    (pairSlot k < 4 ↔ k < 4) ∧ (pairSlot k ≥ 4 ∧ pairSlot k < 6 ↔ k ≥ 4 ∧ k < 6)
    ∧ (pairSlot k ≥ 6 ↔ k ≥ 6) := by
  interval_cases k <;> simp [pairSlot]

/-- C26. The wrap-around neighbourhood is symmetric: for `Nx, Ny, Nz >= 1`, every voxel `I`
of the volume and every slot `k` in `0..9`, if `r` is the voxel whose position
`ExtractNeighbors3D` reads into slot `k` for `I`, then `r` is a voxel of the volume and the
position read into slot `pairSlot k` for `r` is that of `I` (slice `I / Nxy`, pixel
`I % Nxy`), where `pairSlot` swaps 0 and 1, 2 and 3, 4 and 5, 6 and 9, 7 and 8; the paired
slot is in `0..9` and falls in the same branch of the grouping of
`QGGMRF3D_UpdateICDParams` (`j < 4`, `4 <= j < 6`, `j >= 6`), so it has the same weight.
The last part records that slot `j` of `ExtractNeighbors3D` is the image value at
`NeighborPosition ... j`. -/
theorem ExtractNeighbors3D_symmetric (Nx Ny Nz I k : ℤ) (hNx : 1 ≤ Nx) (hNy : 1 ≤ Ny)
    (hI0 : 0 ≤ I) (hI1 : I < Nx * Ny * Nz) (hk0 : 0 ≤ k) (hk1 : k < 10) :
    (0 ≤ NeighborIndex Nx Ny Nz I k ∧ NeighborIndex Nx Ny Nz I k < Nx * Ny * Nz)
    ∧ NeighborPosition Nx Ny Nz (NeighborIndex Nx Ny Nz I k) (pairSlot k)
        = (I / (Nx * Ny), I % (Nx * Ny))
    ∧ (0 ≤ pairSlot k ∧ pairSlot k < 10)
    ∧ (pairSlot k < 4 ↔ k < 4) ∧ (pairSlot k ≥ 4 ∧ pairSlot k < 6 ↔ k ≥ 4 ∧ k < 6)
    ∧ (pairSlot k ≥ 6 ↔ k ≥ 6)
    ∧ (∀ Rparams : ReconParamsQGGMRF3D ℝ,
        neighborWeight Rparams (pairSlot k) = neighborWeight Rparams k)
    ∧ ∀ (icd_info : ICDInfo ℝ) (Image : Image3D ℝ) (j : ℤ), 0 ≤ j → j < 10 →
        (ExtractNeighbors3D icd_info Image).neighbors j
          = Image.image
              (NeighborPosition Image.imgparams.Nx Image.imgparams.Ny Image.imgparams.Nz
                icd_info.VoxelIndex j).1
              (NeighborPosition Image.imgparams.Nx Image.imgparams.Ny Image.imgparams.Nz
                icd_info.VoxelIndex j).2 := by
  have hNx0 : 0 < Nx := by omega
  have hNy0 : 0 < Ny := by omega
  have hNN : 0 < Nx * Ny := mul_pos hNx0 hNy0
  obtain ⟨hr, hback⟩ := NeighborIndex_pair Nx Ny Nz I k hNx0 hNy0 hI0 hI1 hk0 hk1
  obtain ⟨hp, _, _⟩ := slotOffset_pairSlot k hk0 hk1
  obtain ⟨g1, g2, g3⟩ := pairSlot_group k hk0 hk1
  refine ⟨hr, ?_, hp, g1, g2, g3, fun R => neighborWeight_pairSlot R k hk0 hk1, ?_⟩
  swap
  · intro icd_info Image j hj0 hj1
    unfold ExtractNeighbors3D
    simp only [hj0, hj1, and_self, if_true]
  obtain ⟨hq0, hq1⟩ := NeighborPosition_range Nx Ny Nz (NeighborIndex Nx Ny Nz I k)
    (pairSlot k) hNx0 hNy0 hr.1 hr.2 hp.1 hp.2
  have hq : (NeighborPosition Nx Ny Nz (NeighborIndex Nx Ny Nz I k) (pairSlot k)).1 * (Nx * Ny)
      + (NeighborPosition Nx Ny Nz (NeighborIndex Nx Ny Nz I k) (pairSlot k)).2 = I := hback
  generalize NeighborPosition Nx Ny Nz (NeighborIndex Nx Ny Nz I k) (pairSlot k) = pos
    at hq hq0 hq1 ⊢
  obtain ⟨a, b⟩ := pos
  simp only at hq hq0 hq1
  have hmod : I % (Nx * Ny) = b := by
    rw [← hq, Int.add_comm, Int.add_mul_emod_self, Int.emod_eq_of_lt hq0 hq1]
  have hdiv : I / (Nx * Ny) = a := by
    rw [← hq, Int.add_comm, Int.add_mul_ediv_right _ _ hNN.ne', Int.ediv_eq_zero_of_lt hq0 hq1,
      zero_add]
  rw [hmod, hdiv]

/-- Instance of C26 on a 2 x 2 x 2 volume: voxel 5 and the diagonal slot 6. -/
theorem ExtractNeighbors3D_symmetric_witness :
    ((1 : ℤ) ≤ 2 ∧ (0 : ℤ) ≤ 5 ∧ (5 : ℤ) < 2 * 2 * 2 ∧ (0 : ℤ) ≤ 6 ∧ (6 : ℤ) < 10)
    ∧ NeighborPosition 2 2 2 (NeighborIndex 2 2 2 5 6) (pairSlot 6) = (5 / (2 * 2), 5 % (2 * 2)) :=
  ⟨by decide,
   (ExtractNeighbors3D_symmetric 2 2 2 5 6 (by decide) (by decide) (by decide) (by decide)
     (by decide) (by decide)).2.1⟩

/-! ### Volumes with a single slice, row or column -/

theorem QGGMRF_SurrogateCoeff_self (icd_info : ICDInfo ℝ) (j : ℤ)
    (h : icd_info.neighbors j = icd_info.v) :
    QGGMRF_SurrogateCoeff (icd_info.v - icd_info.neighbors j) icd_info
        * (icd_info.v - icd_info.neighbors j) = 0
    ∧ QGGMRF_SurrogateCoeff (icd_info.v - icd_info.neighbors j) icd_info
        = 2 / (icd_info.Rparams.p * icd_info.Rparams.SigmaX ^ icd_info.Rparams.q
            * icd_info.Rparams.T ^ (icd_info.Rparams.q - icd_info.Rparams.p)) := by
  rw [h, sub_self, mul_zero]
  refine ⟨rfl, ?_⟩
  unfold QGGMRF_SurrogateCoeff
  simp only [if_true]

/-- C28. In a volume with a single slice the voxel is its own inter-slice neighbour: for
an image with `Nx, Ny >= 1`, `Nz = 1` and a voxel `(x, y, z)` of it, `ExtractNeighbors3D`
sets `neighbors[4]` and `neighbors[5]` to the voxel's own stored value
`image[z][y*Nx + x]`; when `icd_info.v` is that value, `QGGMRF3D_UpdateICDParams` leaves in
`theta1` only the sums of the nearest and diagonal groups (the inter-slice group adds 0) and
adds `2 * b_interslice * (2 / (p * SigmaX^q * T^(q-p)))` to `theta2` for the inter-slice
group.  In the same way slots 0 and 1 hold the voxel's own value when `Nx = 1` and slots 2
and 3 when `Ny = 1`, and each such slot contributes 0 to the first sum of its group and
`2 / (p * SigmaX^q * T^(q-p))` to the second. -/
theorem ExtractNeighbors3D_single_slice (icd_info : ICDInfo ℝ) (Image : Image3D ℝ)
    (x y z : ℤ) (hx0 : 0 ≤ x) (hx1 : x < Image.imgparams.Nx) (hy0 : 0 ≤ y)
    (hy1 : y < Image.imgparams.Ny) (hz0 : 0 ≤ z) (hz1 : z < Image.imgparams.Nz)
    (hI : icd_info.VoxelIndex
      = z * Image.imgparams.Nx * Image.imgparams.Ny + y * Image.imgparams.Nx + x) :
    (Image.imgparams.Nz = 1 →
      (ExtractNeighbors3D icd_info Image).neighbors 4
          = Image.image z (y * Image.imgparams.Nx + x)
      ∧ (ExtractNeighbors3D icd_info Image).neighbors 5
          = Image.image z (y * Image.imgparams.Nx + x)
      ∧ (icd_info.v = Image.image z (y * Image.imgparams.Nx + x) →
          (QGGMRF3D_UpdateICDParams (ExtractNeighbors3D icd_info Image)).theta1
            = icd_info.theta1
              + (icd_info.Rparams.b_nearest * sumFromTo 0 4 (fun s =>
                    QGGMRF_SurrogateCoeff
                      (icd_info.v - (ExtractNeighbors3D icd_info Image).neighbors s) icd_info
                      * (icd_info.v - (ExtractNeighbors3D icd_info Image).neighbors s))
                + icd_info.Rparams.b_diag * sumFromTo 6 10 (fun s =>
                    QGGMRF_SurrogateCoeff
                      (icd_info.v - (ExtractNeighbors3D icd_info Image).neighbors s) icd_info
                      * (icd_info.v - (ExtractNeighbors3D icd_info Image).neighbors s)))
              + 0
          ∧ (QGGMRF3D_UpdateICDParams (ExtractNeighbors3D icd_info Image)).theta2
            = icd_info.theta2
              + (icd_info.Rparams.b_nearest * sumFromTo 0 4 (fun s =>
                    QGGMRF_SurrogateCoeff
                      (icd_info.v - (ExtractNeighbors3D icd_info Image).neighbors s) icd_info)
                + icd_info.Rparams.b_diag * sumFromTo 6 10 (fun s =>
                    QGGMRF_SurrogateCoeff
                      (icd_info.v - (ExtractNeighbors3D icd_info Image).neighbors s) icd_info))
              + 2 * icd_info.Rparams.b_interslice
                * (2 / (icd_info.Rparams.p * icd_info.Rparams.SigmaX ^ icd_info.Rparams.q
                    * icd_info.Rparams.T ^ (icd_info.Rparams.q - icd_info.Rparams.p)))))
    ∧ (∀ j : ℤ, (Image.imgparams.Nx = 1 ∧ (j = 0 ∨ j = 1))
          ∨ (Image.imgparams.Ny = 1 ∧ (j = 2 ∨ j = 3)) →
        (ExtractNeighbors3D icd_info Image).neighbors j
            = Image.image z (y * Image.imgparams.Nx + x)
        ∧ (icd_info.v = Image.image z (y * Image.imgparams.Nx + x) →
            QGGMRF_SurrogateCoeff
                (icd_info.v - (ExtractNeighbors3D icd_info Image).neighbors j) icd_info
              * (icd_info.v - (ExtractNeighbors3D icd_info Image).neighbors j) = 0
            ∧ QGGMRF_SurrogateCoeff
                (icd_info.v - (ExtractNeighbors3D icd_info Image).neighbors j) icd_info
              = 2 / (icd_info.Rparams.p * icd_info.Rparams.SigmaX ^ icd_info.Rparams.q
                  * icd_info.Rparams.T ^ (icd_info.Rparams.q - icd_info.Rparams.p)))) := by
  have hnb : ∀ j : ℤ, 0 ≤ j → j < 10 →
      (ExtractNeighbors3D icd_info Image).neighbors j
        = Image.image
            (NeighborPosition Image.imgparams.Nx Image.imgparams.Ny Image.imgparams.Nz
              (z * Image.imgparams.Nx * Image.imgparams.Ny + y * Image.imgparams.Nx + x) j).1
            (NeighborPosition Image.imgparams.Nx Image.imgparams.Ny Image.imgparams.Nz
              (z * Image.imgparams.Nx * Image.imgparams.Ny + y * Image.imgparams.Nx + x) j).2 := by
    intro j hj0 hj1
    unfold ExtractNeighbors3D
    simp only [hj0, hj1, and_self, if_true, hI]
  have hpos := NeighborPosition_eq Image.imgparams.Nx Image.imgparams.Ny Image.imgparams.Nz
    x y z hx0 hx1 hy0 hy1 hz0 hz1
  have hc : ∀ d : ℝ, QGGMRF_SurrogateCoeff d (ExtractNeighbors3D icd_info Image)
      = QGGMRF_SurrogateCoeff d icd_info := fun _ => rfl
  have hself : ∀ j : ℤ,
      (ExtractNeighbors3D icd_info Image).neighbors j
          = Image.image z (y * Image.imgparams.Nx + x) →
      icd_info.v = Image.image z (y * Image.imgparams.Nx + x) →
      QGGMRF_SurrogateCoeff
          (icd_info.v - (ExtractNeighbors3D icd_info Image).neighbors j) icd_info
        * (icd_info.v - (ExtractNeighbors3D icd_info Image).neighbors j) = 0
      ∧ QGGMRF_SurrogateCoeff
          (icd_info.v - (ExtractNeighbors3D icd_info Image).neighbors j) icd_info
        = 2 / (icd_info.Rparams.p * icd_info.Rparams.SigmaX ^ icd_info.Rparams.q
            * icd_info.Rparams.T ^ (icd_info.Rparams.q - icd_info.Rparams.p)) := by
    intro j hj hv
    have h := QGGMRF_SurrogateCoeff_self (ExtractNeighbors3D icd_info Image) j
      (by rw [hj]; exact hv.symm)
    exact ⟨by rw [← hc]; exact h.1, by rw [← hc]; exact h.2⟩
  refine ⟨fun hNz => ?_, fun j hj => ?_⟩
  · have hz : z = 0 := by omega
    have h4 : (ExtractNeighbors3D icd_info Image).neighbors 4
        = Image.image z (y * Image.imgparams.Nx + x) := by
      rw [hnb 4 (by norm_num) (by norm_num), hpos 4, hNz, hz]
      rfl
    have h5 : (ExtractNeighbors3D icd_info Image).neighbors 5
        = Image.image z (y * Image.imgparams.Nx + x) := by
      rw [hnb 5 (by norm_num) (by norm_num), hpos 5, hNz, hz]
      rfl
    refine ⟨h4, h5, fun hv => ?_⟩
    have h46 : ((6 : ℤ) - 4).toNat = 2 := rfl
    obtain ⟨a4, c4⟩ := hself 4 h4 hv
    obtain ⟨a5, c5⟩ := hself 5 h5 hv
    have s1 : sumFromTo 4 6 (fun s => QGGMRF_SurrogateCoeff
          (icd_info.v - (ExtractNeighbors3D icd_info Image).neighbors s) icd_info
          * (icd_info.v - (ExtractNeighbors3D icd_info Image).neighbors s)) = 0 := by
      simp only [sumFromTo, h46, Finset.sum_range_succ, Finset.sum_range_zero]
      norm_num
      rw [a4, a5, add_zero]
    have s2 : sumFromTo 4 6 (fun s => QGGMRF_SurrogateCoeff
          (icd_info.v - (ExtractNeighbors3D icd_info Image).neighbors s) icd_info)
        = 2 * (2 / (icd_info.Rparams.p * icd_info.Rparams.SigmaX ^ icd_info.Rparams.q
          * icd_info.Rparams.T ^ (icd_info.Rparams.q - icd_info.Rparams.p))) := by
      simp only [sumFromTo, h46, Finset.sum_range_succ, Finset.sum_range_zero]
      norm_num
      rw [c4, c5]
      ring
    rw [QGGMRF3D_UpdateICDParams_eq]
    constructor
    · change icd_info.theta1
          + (icd_info.Rparams.b_nearest * sumFromTo 0 4 (fun s => QGGMRF_SurrogateCoeff
                (icd_info.v - (ExtractNeighbors3D icd_info Image).neighbors s) icd_info
                * (icd_info.v - (ExtractNeighbors3D icd_info Image).neighbors s))
            + icd_info.Rparams.b_diag * sumFromTo 6 10 (fun s => QGGMRF_SurrogateCoeff
                (icd_info.v - (ExtractNeighbors3D icd_info Image).neighbors s) icd_info
                * (icd_info.v - (ExtractNeighbors3D icd_info Image).neighbors s))
            + icd_info.Rparams.b_interslice * sumFromTo 4 6 (fun s => QGGMRF_SurrogateCoeff
                (icd_info.v - (ExtractNeighbors3D icd_info Image).neighbors s) icd_info
                * (icd_info.v - (ExtractNeighbors3D icd_info Image).neighbors s))) = _
      rw [s1]
      ring
    · change icd_info.theta2
          + (icd_info.Rparams.b_nearest * sumFromTo 0 4 (fun s => QGGMRF_SurrogateCoeff
                (icd_info.v - (ExtractNeighbors3D icd_info Image).neighbors s) icd_info)
            + icd_info.Rparams.b_diag * sumFromTo 6 10 (fun s => QGGMRF_SurrogateCoeff
                (icd_info.v - (ExtractNeighbors3D icd_info Image).neighbors s) icd_info)
            + icd_info.Rparams.b_interslice * sumFromTo 4 6 (fun s => QGGMRF_SurrogateCoeff
                (icd_info.v - (ExtractNeighbors3D icd_info Image).neighbors s) icd_info)) = _
      rw [s2]
      ring
  · have hj : (ExtractNeighbors3D icd_info Image).neighbors j
        = Image.image z (y * Image.imgparams.Nx + x) := by
      rcases hj with ⟨hN, rfl | rfl⟩ | ⟨hN, rfl | rfl⟩
      · rw [hnb 0 (by norm_num) (by norm_num), hpos 0, if_pos rfl, hN, Int.emod_one, add_zero]
        have : x = 0 := by omega
        rw [this, add_zero]
      · rw [hnb 1 (by norm_num) (by norm_num), hpos 1, hN, Int.emod_one]
        have : x = 0 := by omega
        rw [this]
        rfl
      · rw [hnb 2 (by norm_num) (by norm_num), hpos 2, hN, Int.emod_one]
        have : y = 0 := by omega
        rw [this]
        rfl
      · rw [hnb 3 (by norm_num) (by norm_num), hpos 3, hN, Int.emod_one]
        have : y = 0 := by omega
        rw [this]
        rfl
    exact ⟨hj, hself j hj⟩

/-- Instance of C28 on the one-voxel volume `oneImage`: slots 4 and 5 hold the voxel's own
value. -/
theorem ExtractNeighbors3D_single_slice_witness :
    ((0 : ℤ) ≤ 0 ∧ (0 : ℤ) < oneImage.imgparams.Nx ∧ (0 : ℤ) < oneImage.imgparams.Ny
      ∧ (0 : ℤ) < oneImage.imgparams.Nz
      ∧ oneIcd.VoxelIndex
        = 0 * oneImage.imgparams.Nx * oneImage.imgparams.Ny + 0 * oneImage.imgparams.Nx + 0)
    ∧ (ExtractNeighbors3D oneIcd oneImage).neighbors 4
        = oneImage.image 0 (0 * oneImage.imgparams.Nx + 0)
    ∧ (ExtractNeighbors3D oneIcd oneImage).neighbors 5
        = oneImage.image 0 (0 * oneImage.imgparams.Nx + 0) :=
  ⟨⟨by decide, by decide, by decide, by decide, by decide⟩,
   ((ExtractNeighbors3D_single_slice oneIcd oneImage 0 0 0 (by decide) (by decide) (by decide)
     (by decide) (by decide) (by decide) (by decide)).1 rfl).1,
   ((ExtractNeighbors3D_single_slice oneIcd oneImage 0 0 0 (by decide) (by decide) (by decide)
     (by decide) (by decide) (by decide) (by decide)).1 rfl).2.1⟩

/-! ### One voxel index, three decompositions -/

theorem slice_pixel_decompose (Nx Ny x y z : ℤ) (hx0 : 0 ≤ x) (hx1 : x < Nx) (hy0 : 0 ≤ y)
    (hy1 : y < Ny) (hz0 : 0 ≤ z) :
    (z * Nx * Ny + y * Nx + x).tdiv (Nx * Ny) = z
    ∧ (z * Nx * Ny + y * Nx + x).tmod (Nx * Ny) = y * Nx + x
    ∧ (y * Nx + x).tdiv Nx = y ∧ (y * Nx + x).tmod Nx = x := by
  have hNx : 0 < Nx := by omega
  have hNy : 0 < Ny := by omega
  have hNN : 0 < Nx * Ny := mul_pos hNx hNy
  obtain ⟨hp0, hp1⟩ := pixel_index_range Nx Ny x y hx0 hx1 hy0 hy1
  have hzN : 0 ≤ z * (Nx * Ny) := mul_nonneg hz0 hNN.le
  have hI : z * Nx * Ny + y * Nx + x = (y * Nx + x) + z * (Nx * Ny) := by ring
  have hyN : 0 ≤ y * Nx := mul_nonneg hy0 hNx.le
  refine ⟨?_, ?_, ?_, ?_⟩
  · rw [Int.tdiv_eq_ediv (by omega) hNN.le, hI, Int.add_mul_ediv_right _ _ hNN.ne',
      Int.ediv_eq_zero_of_lt hp0 hp1, zero_add]
  · rw [Int.tmod_eq_emod (by omega) hNN.le, hI, Int.add_mul_emod_self,
      Int.emod_eq_of_lt hp0 hp1]
  · rw [Int.tdiv_eq_ediv (by omega) hNx.le, Int.add_comm, Int.add_mul_ediv_right _ _ hNx.ne',
      Int.ediv_eq_zero_of_lt hx0 hx1, zero_add]
  · rw [Int.tmod_eq_emod (by omega) hNx.le, Int.add_comm, Int.add_mul_emod_self,
      Int.emod_eq_of_lt hx0 hx1]

/-- C23. The voxel index is decomposed consistently: for `0 <= x < Nx`, `0 <= y < Ny`,
`0 <= z < Nz`, `I = z*Nx*Ny + y*Nx + x` and a step context with `VoxelIndex = I` and
`Nxy = Nx*Ny`,
* the coordinates computed by `ExtractNeighbors3D` are `jz = z`, `jy = y`, `jx = x`, and the
  positions it reads are the neighbours of `(x, y, z)`;
* `ICDStep3D` and `UpdateError3D` both work on slice `z` with column `y*Nx + x` of the
  system matrix;
* for `ColumnIndex = y*Nx + x` the column builder computes `im_row = y`, `im_col = x`, so
  the projected centre is that of pixel `(x, y)`. -/
theorem voxel_index_decomposition_consistent (imgparams : ImageParams3D ℝ)
    (sinoparams : SinoParams3DParallel) (e w : ℤ → ℤ → ℝ) (A : SysMatrix2D ℝ) (diff : ℝ)
    (icd_info : ICDInfo ℝ) (x y z : ℤ)
    (hx0 : 0 ≤ x) (hx1 : x < imgparams.Nx) (hy0 : 0 ≤ y) (hy1 : y < imgparams.Ny)
    (hz0 : 0 ≤ z) (hz1 : z < imgparams.Nz)
    (hI : icd_info.VoxelIndex = z * imgparams.Nx * imgparams.Ny + y * imgparams.Nx + x)
    (hNxy : icd_info.Nxy = imgparams.Nx * imgparams.Ny) :
    (icd_info.VoxelIndex.tdiv (imgparams.Ny * imgparams.Nx) = z
      ∧ (icd_info.VoxelIndex.tdiv imgparams.Nx).tmod imgparams.Ny = y
      ∧ icd_info.VoxelIndex.tmod imgparams.Nx = x)
    ∧ (∀ s : ℤ, NeighborPosition imgparams.Nx imgparams.Ny imgparams.Nz icd_info.VoxelIndex s =
        if s = 0 then (z, y * imgparams.Nx + (x + 1) % imgparams.Nx)
        else if s = 1 then (z, y * imgparams.Nx + (x - 1) % imgparams.Nx)
        else if s = 2 then (z, (y + 1) % imgparams.Ny * imgparams.Nx + x)
        else if s = 3 then (z, (y - 1) % imgparams.Ny * imgparams.Nx + x)
        else if s = 4 then ((z + 1) % imgparams.Nz, y * imgparams.Nx + x)
        else if s = 5 then ((z - 1) % imgparams.Nz, y * imgparams.Nx + x)
        else if s = 6 then (z, (y + 1) % imgparams.Ny * imgparams.Nx + (x + 1) % imgparams.Nx)
        else if s = 7 then (z, (y + 1) % imgparams.Ny * imgparams.Nx + (x - 1) % imgparams.Nx)
        else if s = 8 then (z, (y - 1) % imgparams.Ny * imgparams.Nx + (x + 1) % imgparams.Nx)
        else (z, (y - 1) % imgparams.Ny * imgparams.Nx + (x - 1) % imgparams.Nx))
    ∧ (icd_info.VoxelIndex.tdiv icd_info.Nxy = z
      ∧ icd_info.VoxelIndex.tmod icd_info.Nxy = y * imgparams.Nx + x)
    ∧ (∃ s : ICDInfo ℝ,
        s = QGGMRF3D_UpdateICDParams
              (forLoop 0 (A.column (y * imgparams.Nx + x)).Nnonzero
                (fun n (s : ICDInfo ℝ) =>
                  { s with
                    theta1 := s.theta1 - (A.column (y * imgparams.Nx + x)).Value n
                      * w z ((A.column (y * imgparams.Nx + x)).RowIndex n)
                      * e z ((A.column (y * imgparams.Nx + x)).RowIndex n),
                    theta2 := s.theta2 + (A.column (y * imgparams.Nx + x)).Value n
                      * w z ((A.column (y * imgparams.Nx + x)).RowIndex n)
                      * (A.column (y * imgparams.Nx + x)).Value n })
                { icd_info with theta1 := 0, theta2 := 0 })
        ∧ ICDStep3D e w A icd_info
          = ((if s.theta2 = 0 then none else some (s.v - s.theta1 / s.theta2)), s))
    ∧ UpdateError3D e A diff icd_info
        = forLoop 0 (A.column (y * imgparams.Nx + x)).Nnonzero
            (fun n e =>
              store2 e z ((A.column (y * imgparams.Nx + x)).RowIndex n)
                (e z ((A.column (y * imgparams.Nx + x)).RowIndex n)
                  - (A.column (y * imgparams.Nx + x)).Value n * diff))
            e
    ∧ ((y * imgparams.Nx + x).tdiv imgparams.Nx = y
      ∧ (y * imgparams.Nx + x).tmod imgparams.Nx = x)
    ∧ ∀ pr : ℤ, projectedCenter sinoparams imgparams (y * imgparams.Nx + x) pr
        = (((-(imgparams.Ny - 1) : ℤ) : ℝ) * imgparams.Deltaxy / 2 + (y : ℝ) * imgparams.Deltaxy)
            * Real.cos (sinoparams.ViewAngles pr)
          - (((-(imgparams.Nx - 1) : ℤ) : ℝ) * imgparams.Deltaxy / 2
              + (x : ℝ) * imgparams.Deltaxy) * Real.sin (sinoparams.ViewAngles pr) := by
  obtain ⟨d1, d2, d3⟩ := voxel_decompose imgparams.Nx imgparams.Ny x y z hx0 hx1 hy0 hy1 hz0
  obtain ⟨c1, c2, c3, c4⟩ :=
    slice_pixel_decompose imgparams.Nx imgparams.Ny x y z hx0 hx1 hy0 hy1 hz0
  refine ⟨?_, ?_, ?_, ?_, ?_, ⟨c3, c4⟩, ?_⟩
  · rw [hI]
    exact ⟨d1, d2, d3⟩
  · intro s
    rw [hI]
    exact NeighborPosition_eq imgparams.Nx imgparams.Ny imgparams.Nz x y z hx0 hx1 hy0 hy1
      hz0 hz1 s
  · rw [hI, hNxy]
    exact ⟨c1, c2⟩
  · refine ⟨_, rfl, ?_⟩
    unfold ICDStep3D
    simp only [hI, hNxy, c1, c2]
  · unfold UpdateError3D
    simp only [hI, hNxy, c1, c2]
  · intro pr
    unfold projectedCenter
    simp only [c3, c4]

/-- Instance of C23 on the 2 x 2 x 2 volume `exImage`: voxel 5 is `(x, y, z) = (1, 0, 1)`,
slice 1 and column 1. -/
theorem voxel_index_decomposition_consistent_witness :
    ((0 : ℤ) ≤ 1 ∧ (1 : ℤ) < exImage.imgparams.Nx ∧ (0 : ℤ) ≤ 0 ∧ (0 : ℤ) < exImage.imgparams.Ny
      ∧ (0 : ℤ) ≤ 1 ∧ (1 : ℤ) < exImage.imgparams.Nz
      ∧ exIcd5.VoxelIndex
        = 1 * exImage.imgparams.Nx * exImage.imgparams.Ny + 0 * exImage.imgparams.Nx + 1
      ∧ exIcd5.Nxy = exImage.imgparams.Nx * exImage.imgparams.Ny)
    ∧ exIcd5.VoxelIndex.tdiv exIcd5.Nxy = 1
    ∧ exIcd5.VoxelIndex.tmod exIcd5.Nxy = 0 * exImage.imgparams.Nx + 1 :=
  ⟨⟨by decide, by decide, by decide, by decide, by decide, by decide, by decide, by decide⟩,
   (voxel_index_decomposition_consistent exImage.imgparams exSino (fun _ _ => 0)
     (fun _ _ => 0) exA4 0 exIcd5 1 0 1 (by decide) (by decide) (by decide) (by decide)
     (by decide) (by decide) (by decide) (by decide)).2.2.1⟩

/-! ### The surrogate coefficient near zero for `q < 2` -/

theorem lowq_coeff_eq (delta : ℝ) (hd : delta ≠ 0) :
    QGGMRF_SurrogateCoeff delta lowqIcd
      = (3 / 2 + √|delta|) / (√|delta| * ((1 + √|delta|) * (1 + √|delta|))) := by
  have hpos : 0 < |delta| := abs_pos.2 hd
  have hs : 0 < √|delta| := Real.sqrt_pos.2 hpos
  have h32 : (3 / 2 : ℝ) - 1 = 1 / 2 := by norm_num
  have h12 : (1 : ℝ) - 2 = -1 := by norm_num
  have habs : |delta| = √|delta| * √|delta| := (Real.mul_self_sqrt hpos.le).symm
  unfold QGGMRF_SurrogateCoeff
  simp only [lowqIcd, lowqRparams, if_neg hd, mul_one, div_one, h32, h12, Real.one_rpow,
    ← Real.sqrt_eq_rpow, Real.rpow_neg_one, one_mul]
  generalize √|delta| = s at hs habs ⊢
  rw [habs]
  field_simp
  ring

theorem lowq_coeff_lower (delta : ℝ) (hd : delta ≠ 0) (h1 : |delta| ≤ 1) :
    3 / (8 * √|delta|) ≤ QGGMRF_SurrogateCoeff delta lowqIcd := by
  have hpos : 0 < |delta| := abs_pos.2 hd
  have hs : 0 < √|delta| := Real.sqrt_pos.2 hpos
  have hs1 : √|delta| ≤ 1 := by
    rw [← Real.sqrt_one]; exact Real.sqrt_le_sqrt h1
  rw [lowq_coeff_eq delta hd, div_le_div_iff₀ (by positivity) (by positivity)]
  nlinarith [mul_pos hs hs, mul_nonneg hs.le (sub_nonneg.2 hs1)]

theorem lowq_coeff_tendsto_atTop :
    Filter.Tendsto (fun delta => QGGMRF_SurrogateCoeff delta lowqIcd)
      (nhdsWithin 0 {0}ᶜ) Filter.atTop := by
  rw [Filter.tendsto_atTop]
  intro M
  rw [eventually_nhdsWithin_iff, Metric.eventually_nhds_iff]
  have hK : 0 < max M 1 := lt_of_lt_of_le one_pos (le_max_right M 1)
  refine ⟨min 1 ((3 / (8 * max M 1)) ^ 2), lt_min one_pos (by positivity), ?_⟩
  intro delta hdist hne
  have hd : delta ≠ 0 := hne
  rw [Real.dist_eq, sub_zero] at hdist
  have hpos : 0 < |delta| := abs_pos.2 hd
  have hs : 0 < √|delta| := Real.sqrt_pos.2 hpos
  have h1 : |delta| ≤ 1 := (lt_of_lt_of_le hdist (min_le_left _ _)).le
  have h2 : |delta| < (3 / (8 * max M 1)) ^ 2 := lt_of_lt_of_le hdist (min_le_right _ _)
  have h3 : √|delta| < 3 / (8 * max M 1) := by
    rw [← Real.sqrt_sq (show (0 : ℝ) ≤ 3 / (8 * max M 1) by positivity)]
    exact Real.sqrt_lt_sqrt hpos.le h2
  have h4 : max M 1 < 3 / (8 * √|delta|) := by
    rw [lt_div_iff₀ (by positivity)]
    rw [lt_div_iff₀ (by positivity)] at h3
    linarith
  exact le_trans (le_max_left M 1) (le_trans h4.le (lowq_coeff_lower delta hd h1))

theorem cx_coeff_eq (delta : ℝ) (hd : delta ≠ 0) :
    QGGMRF_SurrogateCoeff delta cxIcd = (2 + |delta|) / ((1 + |delta|) * (1 + |delta|)) := by
  have hpos : 0 < |delta| := abs_pos.2 hd
  have h21 : (2 : ℝ) - 1 = 1 := by norm_num
  have h12 : (1 : ℝ) - 2 = -1 := by norm_num
  unfold QGGMRF_SurrogateCoeff
  simp only [cxIcd, cxRparams, if_neg hd, mul_one, div_one, h21, h12, Real.rpow_one,
    Real.rpow_neg_one, one_mul]
  field_simp

theorem cx_coeff_tendsto :
    Filter.Tendsto (fun delta => QGGMRF_SurrogateCoeff delta cxIcd)
      (nhdsWithin 0 {0}ᶜ) (nhds (QGGMRF_SurrogateCoeff 0 cxIcd)) := by
  have hc : Continuous fun delta : ℝ => (2 + |delta|) / ((1 + |delta|) * (1 + |delta|)) := by
    refine Continuous.div (by fun_prop) (by fun_prop) fun d => ?_
    have := abs_nonneg d
    positivity
  have h0 : (2 + |(0 : ℝ)|) / ((1 + |(0 : ℝ)|) * (1 + |(0 : ℝ)|)) = QGGMRF_SurrogateCoeff 0 cxIcd := by
    rw [cx_coeff_zero]; norm_num
  have ht := (hc.tendsto 0).mono_left (nhdsWithin_le_nhds (s := {0}ᶜ))
  rw [h0] at ht
  refine ht.congr' ?_
  filter_upwards [self_mem_nhdsWithin] with d hd
  exact (cx_coeff_eq d hd).symm

/-- C22 at a parameter set with `q < 2`. With `p = 1`, `q = 3/2`, `T = SigmaX = 1` (so
`p < q <= 2`, `T > 0`, `SigmaX > 0`) `QGGMRF_SurrogateCoeff` returns
`2 / (p * SigmaX^q * T^(q-p)) = 2` at `delta = 0`, while for `delta` tending to 0 the
coefficient grows without bound (it is at least `3 / (8 * sqrt |delta|)` for
`0 < |delta| <= 1`): the value returned at 0 is not the limit of the coefficient.  For
comparison, with `q = 2` (`p = 1`, `T = SigmaX = 1`) the value returned at 0 is the limit. -/
theorem QGGMRF_SurrogateCoeff_zero_not_limit :
    (lowqIcd.Rparams.p < lowqIcd.Rparams.q ∧ lowqIcd.Rparams.q ≤ 2
      ∧ 0 < lowqIcd.Rparams.T ∧ 0 < lowqIcd.Rparams.SigmaX)
    ∧ QGGMRF_SurrogateCoeff 0 lowqIcd
        = 2 / (lowqIcd.Rparams.p * lowqIcd.Rparams.SigmaX ^ lowqIcd.Rparams.q
            * lowqIcd.Rparams.T ^ (lowqIcd.Rparams.q - lowqIcd.Rparams.p))
    ∧ QGGMRF_SurrogateCoeff 0 lowqIcd = 2
    ∧ (∀ delta : ℝ, delta ≠ 0 → |delta| ≤ 1 →
        3 / (8 * √|delta|) ≤ QGGMRF_SurrogateCoeff delta lowqIcd)
    ∧ Filter.Tendsto (fun delta => QGGMRF_SurrogateCoeff delta lowqIcd)
        (nhdsWithin 0 {0}ᶜ) Filter.atTop
    ∧ ¬ Filter.Tendsto (fun delta => QGGMRF_SurrogateCoeff delta lowqIcd)
        (nhdsWithin 0 {0}ᶜ) (nhds (QGGMRF_SurrogateCoeff 0 lowqIcd))
    ∧ Filter.Tendsto (fun delta => QGGMRF_SurrogateCoeff delta cxIcd)
        (nhdsWithin 0 {0}ᶜ) (nhds (QGGMRF_SurrogateCoeff 0 cxIcd)) := by
  have hv : QGGMRF_SurrogateCoeff 0 lowqIcd = 2 := by
    unfold QGGMRF_SurrogateCoeff
    simp only [lowqIcd, lowqRparams, if_true, Real.one_rpow]
    norm_num
  refine ⟨?_, ?_, hv, lowq_coeff_lower, lowq_coeff_tendsto_atTop, ?_, cx_coeff_tendsto⟩
  · simp only [lowqIcd, lowqRparams]
    norm_num
  · unfold QGGMRF_SurrogateCoeff
    simp only [if_true]
  · intro h
    haveI : (nhdsWithin (0 : ℝ) {0}ᶜ).NeBot := inferInstance
    exact not_tendsto_nhds_of_tendsto_atTop lowq_coeff_tendsto_atTop _ h

/-! ### Divisors of the profile builder -/

theorem breakpoints_at_zero :
    0 < profileD1 0 - profileD2 0
    ∧ profileD1 0 - profileD2 0 ≤ 1 / 10000000000000000000
    ∧ profileD1 0 < 1 / 2
    ∧ 1 / 2 - 1 / 10000000000000000000 ≤ profileD1 0 := by
  obtain ⟨he0, he1⟩ := cos_sub_sin_PI_div_four
  obtain ⟨hs0, hs1⟩ := sin_PI_div_four_bounds
  have hsq := Real.sin_sq_add_cos_sq (PI / 4)
  have hs : 0 < Real.sin (PI / 4) := by linarith
  unfold profileD1 profileD2
  rw [sub_zero, abs_of_pos hs]
  refine ⟨?_, ?_, ?_, ?_⟩ <;> nlinarith

theorem no_ramp_at_zero (LEN_PIX j : ℤ) (hL0 : 0 < LEN_PIX) (hL1 : LEN_PIX < 2 ^ 31) :
    ¬ (1 - profileD1 0 < 2 * (j : ℝ) / (LEN_PIX : ℝ)
        ∧ 2 * (j : ℝ) / (LEN_PIX : ℝ) ≤ 1 - profileD2 0)
    ∧ ¬ (1 + profileD2 0 < 2 * (j : ℝ) / (LEN_PIX : ℝ)
        ∧ 2 * (j : ℝ) / (LEN_PIX : ℝ) ≤ 1 + profileD1 0) := by
  obtain ⟨b1, b2, b3, b4⟩ := breakpoints_at_zero
  have hL : (0 : ℝ) < (LEN_PIX : ℝ) := by exact_mod_cast hL0
  have hLb : (LEN_PIX : ℝ) < 2 ^ 31 := by exact_mod_cast hL1
  constructor
  · rintro ⟨h1, h2⟩
    rw [lt_div_iff₀ hL] at h1
    rw [div_le_iff₀ hL] at h2
    have k1 : (LEN_PIX : ℝ) < 4 * (j : ℝ) := by nlinarith
    have k2 : 4 * (j : ℝ) < (LEN_PIX : ℝ) + 1 := by nlinarith
    have k1z : LEN_PIX < 4 * j := by exact_mod_cast k1
    have k2z : 4 * j < LEN_PIX + 1 := by exact_mod_cast k2
    omega
  · rintro ⟨h1, h2⟩
    rw [lt_div_iff₀ hL] at h1
    rw [div_le_iff₀ hL] at h2
    have k1 : 3 * (LEN_PIX : ℝ) - 1 < 4 * (j : ℝ) := by nlinarith
    have k2 : 4 * (j : ℝ) < 3 * (LEN_PIX : ℝ) := by nlinarith
    have k1z : 3 * LEN_PIX - 1 < 4 * j := by exact_mod_cast k1
    have k2z : 4 * j < 3 * LEN_PIX := by exact_mod_cast k2
    omega

/-- C25. The profile builder never divides by zero. For `0 < LEN_PIX < 2^31`, every real view
angle and every table index `j`, with `th` the folded angle and `t = 2*j/LEN_PIX`:
* the divisor of `maxval` is non-zero: `cos(th)` on the branch `th <= pi/4`,
  `cos(pi/2 - th)` on the other branch;
* the rising ramp is entered (`t_1 < t <= t_2`, the first test having failed) only with
  `t_2 - t_1 > 0`, and the falling ramp (`t > t_3`, `t <= t_4`) only with `t_4 - t_3 > 0`;
* at folded angle 0 neither ramp is entered for any `j`; there `t_2 - t_1 = t_4 - t_3` lies in
  `(0, 1e-19]`: with the 20-digit constant `PI` the two breakpoints agree to that accuracy
  and are exactly equal only for the exact value of pi.
The first part records the four branches of `pixProfEntry`, the body of the two loops. -/
theorem ComputePixelProfile3DParallel_no_division_by_zero (LEN_PIX : ℤ)
    (DeltaPix ViewAngle : ℝ) (j : ℤ) (hL0 : 0 < LEN_PIX) (hL1 : LEN_PIX < 2 ^ 31) :
    pixProfEntry LEN_PIX DeltaPix ViewAngle j
      = (if 2 * (j : ℝ) / (LEN_PIX : ℝ) ≤ 1 - profileD1 (foldedAngle ViewAngle)
            ∨ 2 * (j : ℝ) / (LEN_PIX : ℝ) > 1 + profileD1 (foldedAngle ViewAngle) then 0
        else if 2 * (j : ℝ) / (LEN_PIX : ℝ) ≤ 1 - profileD2 (foldedAngle ViewAngle) then
          (if foldedAngle ViewAngle ≤ PI / 4 then DeltaPix / Real.cos (foldedAngle ViewAngle)
            else DeltaPix / Real.cos (PI / 2 - foldedAngle ViewAngle))
            * (2 * (j : ℝ) / (LEN_PIX : ℝ) - (1 - profileD1 (foldedAngle ViewAngle)))
            / ((1 - profileD2 (foldedAngle ViewAngle)) - (1 - profileD1 (foldedAngle ViewAngle)))
        else if 2 * (j : ℝ) / (LEN_PIX : ℝ) ≤ 1 + profileD2 (foldedAngle ViewAngle) then
          (if foldedAngle ViewAngle ≤ PI / 4 then DeltaPix / Real.cos (foldedAngle ViewAngle)
            else DeltaPix / Real.cos (PI / 2 - foldedAngle ViewAngle))
        else
          (if foldedAngle ViewAngle ≤ PI / 4 then DeltaPix / Real.cos (foldedAngle ViewAngle)
            else DeltaPix / Real.cos (PI / 2 - foldedAngle ViewAngle))
            * ((1 + profileD1 (foldedAngle ViewAngle)) - 2 * (j : ℝ) / (LEN_PIX : ℝ))
            / ((1 + profileD1 (foldedAngle ViewAngle))
                - (1 + profileD2 (foldedAngle ViewAngle))))
    ∧ (LEN_PIX : ℝ) ≠ 0
    ∧ (foldedAngle ViewAngle ≤ PI / 4 → Real.cos (foldedAngle ViewAngle) ≠ 0)
    ∧ (¬ foldedAngle ViewAngle ≤ PI / 4 → Real.cos (PI / 2 - foldedAngle ViewAngle) ≠ 0)
    ∧ (¬ (2 * (j : ℝ) / (LEN_PIX : ℝ) ≤ 1 - profileD1 (foldedAngle ViewAngle)
            ∨ 2 * (j : ℝ) / (LEN_PIX : ℝ) > 1 + profileD1 (foldedAngle ViewAngle)) →
        2 * (j : ℝ) / (LEN_PIX : ℝ) ≤ 1 - profileD2 (foldedAngle ViewAngle) →
        0 < (1 - profileD2 (foldedAngle ViewAngle)) - (1 - profileD1 (foldedAngle ViewAngle)))
    ∧ (¬ (2 * (j : ℝ) / (LEN_PIX : ℝ) ≤ 1 - profileD1 (foldedAngle ViewAngle)
            ∨ 2 * (j : ℝ) / (LEN_PIX : ℝ) > 1 + profileD1 (foldedAngle ViewAngle)) →
        ¬ 2 * (j : ℝ) / (LEN_PIX : ℝ) ≤ 1 - profileD2 (foldedAngle ViewAngle) →
        ¬ 2 * (j : ℝ) / (LEN_PIX : ℝ) ≤ 1 + profileD2 (foldedAngle ViewAngle) →
        0 < (1 + profileD1 (foldedAngle ViewAngle)) - (1 + profileD2 (foldedAngle ViewAngle)))
    ∧ (foldedAngle ViewAngle = 0 →
        (0 < (1 - profileD2 (foldedAngle ViewAngle)) - (1 - profileD1 (foldedAngle ViewAngle))
          ∧ (1 - profileD2 (foldedAngle ViewAngle)) - (1 - profileD1 (foldedAngle ViewAngle))
              ≤ 1 / 10000000000000000000
          ∧ (1 + profileD1 (foldedAngle ViewAngle)) - (1 + profileD2 (foldedAngle ViewAngle))
              = (1 - profileD2 (foldedAngle ViewAngle))
                - (1 - profileD1 (foldedAngle ViewAngle)))
        ∧ ∀ i : ℤ,
          ((2 * (i : ℝ) / (LEN_PIX : ℝ) ≤ 1 - profileD1 (foldedAngle ViewAngle)
              ∨ 2 * (i : ℝ) / (LEN_PIX : ℝ) > 1 + profileD1 (foldedAngle ViewAngle))
            ∨ (¬ 2 * (i : ℝ) / (LEN_PIX : ℝ) ≤ 1 - profileD2 (foldedAngle ViewAngle)
              ∧ 2 * (i : ℝ) / (LEN_PIX : ℝ) ≤ 1 + profileD2 (foldedAngle ViewAngle)))) := by
  obtain ⟨hf0, hf1⟩ := foldedAngle_range ViewAngle
  have hPI := PI_pos
  have hlt := PI_lt_pi
  refine ⟨rfl, ?_, ?_, ?_, ?_, ?_, ?_⟩
  · exact_mod_cast hL0.ne'
  · intro _
    exact (Real.cos_pos_of_mem_Ioo ⟨by linarith, by linarith⟩).ne'
  · intro h
    push_neg at h
    exact (Real.cos_pos_of_mem_Ioo ⟨by linarith, by linarith⟩).ne'
  · intro h1 h2
    push_neg at h1
    linarith [h1.1]
  · intro h1 _ h3
    push_neg at h1 h3
    linarith [h1.2]
  · intro h
    rw [h]
    obtain ⟨b1, b2, _, _⟩ := breakpoints_at_zero
    refine ⟨⟨by linarith, by linarith, by ring⟩, fun i => ?_⟩
    obtain ⟨n1, n2⟩ := no_ramp_at_zero LEN_PIX i hL0 hL1
    by_contra hc
    push_neg at hc
    obtain ⟨⟨c1, c2⟩, c3⟩ := hc
    by_cases hr : 2 * (i : ℝ) / (LEN_PIX : ℝ) ≤ 1 - profileD2 0
    · exact n1 ⟨c1, hr⟩
    · exact n2 ⟨c3 (not_le.1 hr), c2⟩

/-- Instance of C25 for a table of 256 samples and view angle 0: the divisor `cos(0)` of
`maxval` is non-zero. -/
theorem ComputePixelProfile3DParallel_no_division_by_zero_witness :
    ((0 : ℤ) < 256 ∧ (256 : ℤ) < 2 ^ 31)
    ∧ (foldedAngle 0 ≤ PI / 4 → Real.cos (foldedAngle 0) ≠ 0) :=
  ⟨by decide,
   (ComputePixelProfile3DParallel_no_division_by_zero 256 1 0 0 (by decide)
     (by decide)).2.2.1⟩

/-! ### Assembly of the matrix from its columns -/

theorem copyEntries_spec (TempColumn dest : SparseColumn ℝ) :
    (copyEntries TempColumn dest).Nnonzero = TempColumn.Nnonzero
    ∧ ∀ n : ℤ, 0 ≤ n → n < TempColumn.Nnonzero →
        (copyEntries TempColumn dest).RowIndex n = TempColumn.RowIndex n
        ∧ (copyEntries TempColumn dest).Value n = TempColumn.Value n := by
  have key : ∀ m : ℕ,
      (forLoop 0 (m : ℤ)
        (fun r (c : SparseColumn ℝ) =>
          { c with
            Value := Function.update c.Value r (TempColumn.Value r),
            RowIndex := Function.update c.RowIndex r (TempColumn.RowIndex r) })
        { dest with Nnonzero := TempColumn.Nnonzero }).Nnonzero = TempColumn.Nnonzero
      ∧ ∀ n : ℤ, 0 ≤ n → n < (m : ℤ) →
        (forLoop 0 (m : ℤ)
          (fun r (c : SparseColumn ℝ) =>
            { c with
              Value := Function.update c.Value r (TempColumn.Value r),
              RowIndex := Function.update c.RowIndex r (TempColumn.RowIndex r) })
          { dest with Nnonzero := TempColumn.Nnonzero }).RowIndex n = TempColumn.RowIndex n
        ∧ (forLoop 0 (m : ℤ)
          (fun r (c : SparseColumn ℝ) =>
            { c with
              Value := Function.update c.Value r (TempColumn.Value r),
              RowIndex := Function.update c.RowIndex r (TempColumn.RowIndex r) })
          { dest with Nnonzero := TempColumn.Nnonzero }).Value n = TempColumn.Value n := by
    intro m
    induction m with
    | zero =>
      refine ⟨by rw [forLoop_empty 0 _ (by simp)], fun n h0 h1 => ?_⟩
      simp at h1
      omega
    | succ m ih =>
      rw [forLoop_zero_succ]
      refine ⟨ih.1, fun n h0 h1 => ?_⟩
      by_cases hn : n = (m : ℤ)
      · subst hn
        simp only [Function.update_same, and_self]
      · have hlt : n < (m : ℤ) := by push_cast at h1; omega
        simp only [Function.update_noteq hn]
        exact ih.2 n h0 hlt
  unfold copyEntries
  rw [forLoop_toNat]
  obtain ⟨k1, k2⟩ := key TempColumn.Nnonzero.toNat
  exact ⟨k1, fun n h0 h1 => k2 n h0 (by omega)⟩

/-- Whether a column call exits does not depend on the contents of the buffers. -/
theorem column_exit_buffer_free (cfg : BuildConfig) (ColumnIndex : ℤ)
    (sinoparams : SinoParams3DParallel) (imgparams : ImageParams3D ℝ)
    (pix_prof : ℤ → ℤ → ℝ) (B1 B2 : SparseColumn ℝ) :
    ComputeSysMatrixColumn3DParallel cfg ColumnIndex sinoparams imgparams pix_prof B1 = none
    ↔ ComputeSysMatrixColumn3DParallel cfg ColumnIndex sinoparams imgparams pix_prof B2
        = none := by
  rw [ComputeSysMatrixColumn3DParallel_eq, ComputeSysMatrixColumn3DParallel_eq,
    Option.map_eq_none', Option.map_eq_none', runSteps_eq_none_iff, runSteps_eq_none_iff]

/-- Two results of the column builder for the same column, in whatever buffers, agree in
`Nnonzero` and in their first `Nnonzero` entries. -/
theorem column_buffer_free (cfg : BuildConfig) (ColumnIndex : ℤ)
    (sinoparams : SinoParams3DParallel) (imgparams : ImageParams3D ℝ)
    (pix_prof : ℤ → ℤ → ℝ) (B1 B2 c1 c2 : SparseColumn ℝ)
    (h1 : ComputeSysMatrixColumn3DParallel cfg ColumnIndex sinoparams imgparams pix_prof B1
      = some c1)
    (h2 : ComputeSysMatrixColumn3DParallel cfg ColumnIndex sinoparams imgparams pix_prof B2
      = some c2) :
    c1.Nnonzero = c2.Nnonzero
    ∧ ∀ n : ℤ, 0 ≤ n → n < c2.Nnonzero →
        c1.RowIndex n = c2.RowIndex n ∧ c1.Value n = c2.Value n := by
  obtain ⟨a1, _, a3⟩ := column_entries cfg ColumnIndex sinoparams imgparams pix_prof B1 c1 h1
  obtain ⟨b1, _, b3⟩ := column_entries cfg ColumnIndex sinoparams imgparams pix_prof B2 c2 h2
  refine ⟨by rw [a1, b1], fun n h0 hn => ?_⟩
  rw [b1] at hn
  have hk : n.toNat < (keptEntries cfg sinoparams imgparams pix_prof ColumnIndex).length := by
    omega
  have hget := List.getElem?_eq_getElem hk
  obtain ⟨x1, x2⟩ := a3 n.toNat _ _ hget
  obtain ⟨y1, y2⟩ := b3 n.toNat _ _ hget
  have hn' : ((n.toNat : ℕ) : ℤ) = n := Int.toNat_of_nonneg h0
  rw [hn'] at x1 x2 y1 y2
  exact ⟨by rw [x1, y1], by rw [x2, y2]⟩

theorem intRange_nodup (lo hi : ℤ) : (intRange lo hi).Nodup := by
  unfold intRange
  refine List.Nodup.map ?_ (List.nodup_range _)
  intro a b h
  simpa using h

/-- Invariant of the column loop of the assembly over a list of distinct columns none of
which exits: the run returns, the columns outside the list are untouched, and each column
of the list holds what the column builder produces for it in any buffer. -/
theorem columnStep_run (cfg : BuildConfig) (sinoparams : SinoParams3DParallel)
    (imgparams : ImageParams3D ℝ) (pix_prof : ℤ → ℤ → ℝ) (fresh : ℤ → SparseColumn ℝ)
    (B0 : SparseColumn ℝ) (l : List ℤ) :
    l.Nodup →
    (∀ c ∈ l, ComputeSysMatrixColumn3DParallel cfg c sinoparams imgparams pix_prof B0 ≠ none) →
    ∀ st : AssemblyState, ∃ st' : AssemblyState,
      runSteps (columnStep cfg sinoparams imgparams pix_prof fresh) l st = some st'
      ∧ (∀ c, c ∉ l → st'.column c = st.column c)
      ∧ ∀ c ∈ l, ∀ B col : SparseColumn ℝ,
          ComputeSysMatrixColumn3DParallel cfg c sinoparams imgparams pix_prof B = some col →
          (st'.column c).Nnonzero = col.Nnonzero
          ∧ ∀ n : ℤ, 0 ≤ n → n < col.Nnonzero →
              (st'.column c).RowIndex n = col.RowIndex n
              ∧ (st'.column c).Value n = col.Value n := by
  induction l with
  | nil =>
    intro _ _ st
    exact ⟨st, rfl, fun _ _ => rfl, fun c hc => absurd hc (List.not_mem_nil c)⟩
  | cons i l ih =>
    intro hnd hok st
    obtain ⟨hi, hnd'⟩ := List.nodup_cons.1 hnd
    have hne : ComputeSysMatrixColumn3DParallel cfg i sinoparams imgparams pix_prof
        st.TempColumn ≠ none := fun h =>
      hok i (List.mem_cons_self i l)
        ((column_exit_buffer_free cfg i sinoparams imgparams pix_prof _ _).1 h)
    obtain ⟨T, hT⟩ := Option.ne_none_iff_exists'.1 hne
    obtain ⟨st', hrun, hout, hin⟩ := ih hnd' (fun c hc => hok c (List.mem_cons_of_mem i hc))
      { column := Function.update st.column i (copyEntries T (fresh i)), TempColumn := T }
    refine ⟨st', ?_, ?_, ?_⟩
    · simp only [runSteps, columnStep, hT, Option.map_some', Option.bind_some]
      exact hrun
    · intro c hc
      rw [List.mem_cons, not_or] at hc
      rw [hout c hc.2]
      exact Function.update_noteq hc.1 _ _
    · intro c hc B col hcol
      rcases List.mem_cons.1 hc with rfl | hc'
      · rw [hout c hi]
        simp only [Function.update_same]
        obtain ⟨k1, k2⟩ := copyEntries_spec T (fresh c)
        obtain ⟨e1, e2⟩ := column_buffer_free cfg c sinoparams imgparams pix_prof _ _ _ _ hT hcol
        refine ⟨by rw [k1, e1], fun n h0 hn => ?_⟩
        obtain ⟨r1, r2⟩ := k2 n h0 (by rw [e1]; exact hn)
        obtain ⟨s1, s2⟩ := e2 n h0 hn
        exact ⟨by rw [r1, s1], by rw [r2, s2]⟩
      · exact hin c hc' B col hcol

/-- C24. The assembly copies each column exactly. If no column of the image makes the
column builder exit, `ComputeSysMatrix3DParallel` returns a matrix `A` with
`Ncolumns = Nx*Ny`, and for every `c` in `[0, Nx*Ny)` and every buffer `B` the column
builder returns a column for `ColumnIndex = c` in `B` whose `Nnonzero` and first `Nnonzero`
`(RowIndex, Value)` pairs are, in order, those of `A.column c`.  The buffer `B` is
arbitrary, in particular one never written before: what the reused temporary column holds
from earlier columns does not show in any stored column. -/
theorem ComputeSysMatrix3DParallel_copies_columns (cfg : BuildConfig)
    (sinoparams : SinoParams3DParallel) (imgparams : ImageParams3D ℝ) (pix_prof : ℤ → ℤ → ℝ)
    (column : ℤ → SparseColumn ℝ) (TempColumn : SparseColumn ℝ) (fresh : ℤ → SparseColumn ℝ)
    (hok : ∀ c : ℤ, 0 ≤ c → c < imgparams.Nx * imgparams.Ny →
      ComputeSysMatrixColumn3DParallel cfg c sinoparams imgparams pix_prof TempColumn ≠ none) :
    ∃ A : SysMatrix2D ℝ,
      ComputeSysMatrix3DParallel cfg sinoparams imgparams pix_prof column TempColumn fresh
        = some A
      ∧ A.Ncolumns = imgparams.Nx * imgparams.Ny
      ∧ ∀ c : ℤ, 0 ≤ c → c < imgparams.Nx * imgparams.Ny → ∀ B : SparseColumn ℝ,
          ∃ col : SparseColumn ℝ,
            ComputeSysMatrixColumn3DParallel cfg c sinoparams imgparams pix_prof B = some col
            ∧ (A.column c).Nnonzero = col.Nnonzero
            ∧ ∀ n : ℤ, 0 ≤ n → n < col.Nnonzero →
                (A.column c).RowIndex n = col.RowIndex n
                ∧ (A.column c).Value n = col.Value n := by
  obtain ⟨st', hrun, _, hin⟩ := columnStep_run cfg sinoparams imgparams pix_prof fresh
    TempColumn (intRange 0 (imgparams.Nx * imgparams.Ny)) (intRange_nodup _ _)
    (fun c hc => hok c ((mem_intRange _ _ _).1 hc).1 ((mem_intRange _ _ _).1 hc).2)
    { column := column, TempColumn := TempColumn }
  refine ⟨{ Ncolumns := imgparams.Nx * imgparams.Ny, column := st'.column }, ?_, rfl, ?_⟩
  · unfold ComputeSysMatrix3DParallel
    simp only []
    rw [forLoop_bind_eq_runSteps, hrun]
    rfl
  · intro c h0 h1 B
    have hne : ComputeSysMatrixColumn3DParallel cfg c sinoparams imgparams pix_prof B ≠ none :=
      fun h => hok c h0 h1
        ((column_exit_buffer_free cfg c sinoparams imgparams pix_prof _ _).1 h)
    obtain ⟨col, hcol⟩ := Option.ne_none_iff_exists'.1 hne
    exact ⟨col, hcol, hin c ((mem_intRange _ _ _).2 ⟨h0, h1⟩) B col hcol⟩

/-- Instance of C24 on the concrete geometry (one pixel, one view, three channels): the
assembly returns a matrix of one column, which stores two entries. -/
theorem ComputeSysMatrix3DParallel_copies_columns_witness :
    (∀ c : ℤ, 0 ≤ c → c < exImg.Nx * exImg.Ny →
      ComputeSysMatrixColumn3DParallel exCfg c exSino exImg exProf exBuffer ≠ none)
    ∧ ∃ A : SysMatrix2D ℝ,
      ComputeSysMatrix3DParallel exCfg exSino exImg exProf (fun _ => exBuffer) exBuffer
        (fun _ => exBuffer) = some A
      ∧ A.Ncolumns = 1 ∧ (A.column 0).Nnonzero = 2 := by
  have hok : ∀ c : ℤ, 0 ≤ c → c < exImg.Nx * exImg.Ny →
      ComputeSysMatrixColumn3DParallel exCfg c exSino exImg exProf exBuffer ≠ none := by
    intro c h0 h1
    have h1' : c < 1 * 1 := h1
    have hc : c = 0 := by omega
    rw [hc, ex_column_built]
    exact Option.some_ne_none _
  refine ⟨hok, ?_⟩
  obtain ⟨A, hA, hN, hcols⟩ := ComputeSysMatrix3DParallel_copies_columns exCfg exSino exImg
    exProf (fun _ => exBuffer) exBuffer (fun _ => exBuffer) hok
  obtain ⟨col, hcol, hnz, _⟩ := hcols 0 le_rfl (by decide) exBuffer
  rw [ex_column_built, Option.some.injEq] at hcol
  refine ⟨A, hA, hN, ?_⟩
  rw [hnz, ← hcol]
  rfl

/-! ### Point reflection of the pixel and half a turn of the views -/

end MBIR
